import Mathlib

/-! # ACPCServer/bm_server.c : the benchmark match server

A shallow embedding of the match queue, the scheduler (`startMatchJob`), the job
supervisor (`runMatchJob`, `finishedJob`) and the control protocol
(`handleConnection`, `parseMatchSpec`) of `bm_server.c`, followed by theorems about
them.

Conventions of the embedding.

* C pointers are handles. `GameConfig *`, `UserSpec *` and bot entries point into
  pools that are filled by `readConfig` and never change afterwards; a handle to one of
  them is the position of the object in the iteration order of its pool (the head of
  the pool is position 0). Entries of the three pools of `ServerState` come and go, so
  they carry an explicit address (`LLPoolEntry.addr`).
* A pool is the chain reached from `head` and the chain reached from `free`, each as
  the list of its entries in `next` order. An entry keeps its bytes when it is moved to
  the free list, exactly as in memory.
* Values of C type `int` are `Int`, unsigned values are `Nat`. The flags
  `isNetworkPlayer` and `isRunning` are only ever assigned 0 or 1 and only tested for
  truth, they are `Bool`; `useRngForSeed` can hold an indeterminate `int` and stays an
  `Int`.
* Everything the operating system decides (clock readings, `fork`, `write`, `waitpid`,
  what the dealer prints, the bytes of an uninitialised stack object, the address that
  `malloc` returns) is an argument of the function that consumes it. `exit` is the
  result `none`.
* Text is `List Char`, one `Char` per byte of the C string (without the final NUL).
  Diagnostics printed on `stderr` are not part of the model.
* `READBUF_LEN` is defined in `net.h`, outside this file: its value is a parameter of
  the model, carried by `JobEnv`. The job tag and the log name of the dealer are cut by
  `snprintf` to a buffer of `READBUF_LEN` bytes (`snprintfN`), the decimal numbers of
  `startDealer` and `startBot` to their buffers of 16 bytes (`snprintf16`). The lines
  of `sendStartMessage` have room in their buffer, whose size is `READBUF_LEN` plus the
  rest of the line; the reply lines of `writeGameList` and `writeQueueStatus` are taken
  to fit theirs.
-/

namespace BmServer

/-! ## Constants -/

def STATUS_CLOSED : Int := 0
def STATUS_UNVALIDATED : Int := 1
def STATUS_OKAY : Int := 2

def BM_DEALER : List Char := "dealer".toList
def BM_LOGDIR : List Char := "logs".toList

def SIGTERM : Nat := 15

/-! ## The object pool -/

/-- One node of a pool: its address and the `data` bytes that follow the two links. -/
structure LLPoolEntry (α : Type) where
  addr : Nat
  data : α
deriving DecidableEq, Repr

/-- The pool `LLPool`. `head` and `free` are the two chains in `next` order,
`numEntries` is the counter the code maintains, `brk` is the address the next `malloc`
of an entry returns (addresses below `brk` have been handed out). -/
structure LLPool (α : Type) where
  head : List (LLPoolEntry α)
  free : List (LLPoolEntry α)
  numEntries : Int
  brk : Nat
deriving DecidableEq, Repr

/-- `newLLPool`. -/
def newLLPool (α : Type) : LLPool α :=
  { head := [], free := [], numEntries := 0, brk := 0 }

/-- `LLPoolAddItem`: take the first free entry, or a new one from `malloc`, copy the
item into it and link it in front of `head`. Returns the entry and the pool. -/
def LLPoolAddItem {α : Type} (pool : LLPool α) (item : α) : Nat × LLPool α :=
  match pool.free with
  | e :: rest =>
      (e.addr, { pool with head := ⟨e.addr, item⟩ :: pool.head, free := rest,
                           numEntries := pool.numEntries + 1 })
  | [] =>
      (pool.brk, { pool with head := ⟨pool.brk, item⟩ :: pool.head,
                             numEntries := pool.numEntries + 1, brk := pool.brk + 1 })

/-- `LLPoolRemoveEntry`: unlink the entry from the `head` chain and push it on the free
list with its bytes. The source asserts that the entry is linked in `head`; for an
entry that is not, the pool is left alone. -/
def LLPoolRemoveEntry {α : Type} (pool : LLPool α) (entry : Nat) : LLPool α :=
  match pool.head.find? (fun e => e.addr == entry) with
  | some e =>
      { pool with head := pool.head.filter (fun x => x.addr != entry),
                  free := e :: pool.free,
                  numEntries := pool.numEntries - 1 }
  | none => pool

/-- `LLPoolFirstEntry`. -/
def LLPoolFirstEntry {α : Type} (pool : LLPool α) : Option Nat :=
  pool.head.head?.map (fun e => e.addr)

/-- `LLPoolGetItem`, read through the returned pointer: the bytes of the entry at that
address, whether it is linked in `head` or in `free`. An address the pool never handed
out has no contents; the model reads `default` there. -/
def LLPoolGetItem {α : Type} [Inhabited α] (pool : LLPool α) (entry : Nat) : α :=
  match (pool.head ++ pool.free).find? (fun e => e.addr == entry) with
  | some e => e.data
  | none => default

/-- A write through a pointer obtained from `LLPoolGetItem`: the entry at that address
gets `f` applied to its bytes. -/
def LLPoolSetItem {α : Type} (pool : LLPool α) (entry : Nat) (f : α → α) : LLPool α :=
  { pool with
    head := pool.head.map (fun e => if e.addr = entry then ⟨e.addr, f e.data⟩ else e),
    free := pool.free.map (fun e => if e.addr = entry then ⟨e.addr, f e.data⟩ else e) }

/-! ## Data model -/

/-- `struct timeval`. -/
structure timeval where
  tv_sec : Int
  tv_usec : Int
deriving DecidableEq, Repr, Inhabited

/-- `BotSpec`. -/
structure BotSpec where
  name : List Char
  command : List Char
deriving DecidableEq, Repr, Inhabited

/-- `UserSpec`. -/
structure UserSpec where
  name : List Char
  passwd : List Char
  waitStart : timeval
deriving DecidableEq, Repr, Inhabited

/-- `Game` of game.h; `numPlayers` is the one field the server reads. -/
structure Game where
  numPlayers : Nat
deriving DecidableEq, Repr, Inhabited

/-- `GameConfig`. `bots` is the pool of bots in iteration order. -/
structure GameConfig where
  maxMatchRuns : Nat
  maxRunningJobs : Nat
  matchHands : Nat
  game : Game
  gameFile : List Char
  bots : List BotSpec
  curRunningJobs : Int
deriving DecidableEq, Repr, Inhabited

/-- `Config`. `games` and `users` are the two pools in iteration order. -/
structure Config where
  port : Nat
  maxRunningBots : Nat
  startupTimeoutSecs : Nat
  responseTimeoutSecs : Nat
  handTimeoutSecs : Nat
  avgHandTimeSecs : Nat
  games : List GameConfig
  users : List UserSpec
deriving DecidableEq, Repr, Inhabited

/-- `Connection`. `user` is `none` for the NULL pointer; `connBuf` is the descriptor
of the read buffer. -/
structure Connection where
  status : Int
  user : Option Nat
  connBuf : Nat
deriving DecidableEq, Repr, Inhabited

/-- State of the generator of rng.h (the Mersenne Twister words and its index). -/
abbrev rng_state_t := List Nat

/-- One seat of a match. `entry` is a connection entry for a network player and a bot
handle otherwise; `none` is the NULL pointer. -/
structure Player where
  isNetworkPlayer : Bool
  entry : Option Nat
deriving DecidableEq, Repr, Inhabited

/-- `Match`. `players` holds the seats that have been written, seat 0 first. -/
structure Match where
  gameConf : Nat
  user : Option Nat
  numRuns : Int
  rng : rng_state_t
  rngSeed : Nat
  useRngForSeed : Int
  tag : List Char
  queueTime : timeval
  players : List Player
  isRunning : Bool
deriving DecidableEq, Repr, Inhabited

/-- `MatchJob`. -/
structure MatchJob where
  dealerPID : Int
  botPID : List Int
  matchEntry : Nat
  tag : List Char
  ports : List Nat
deriving DecidableEq, Repr, Inhabited

/-- `ServerState`. The field `matches` is spelled `matches_` (the plain word is
reserved in Lean). -/
structure ServerState where
  listenSocket : Int
  conns : LLPool Connection
  matches_ : LLPool Match
  jobs : LLPool MatchJob
  rng : rng_state_t
  hostname : List Char
  devnullfd : Int
deriving DecidableEq, Repr

/-- The generator of rng.h, which is not among the sources: the two functions the
server calls are parameters of the development. -/
structure Rng where
  init_genrand : Nat → rng_state_t
  genrand_int32 : rng_state_t → Nat × rng_state_t

/-- The configuration (whose counters and wait clocks the server mutates) together with
the server state: everything the main loop owns. -/
structure World where
  conf : Config
  serv : ServerState
deriving DecidableEq, Repr

/-- What the server does to the outside: a `write` on a descriptor, a child started
with `execv` or `execl` (its program, argument vector and the pid `fork` returned), a
signal sent with `kill`. -/
inductive Event where
  | write (fd : Nat) (data : List Char)
  | exec (path : List Char) (argv : List (List Char)) (pid : Int)
  | kill (pid : Int) (sig : Nat)
deriving DecidableEq, Repr

/-! ## Reading through the handles -/

/-- The game a `GameConfig *` points at. -/
def Config.gameAt (conf : Config) (g : Nat) : GameConfig :=
  conf.games.getD g default

/-- The user a `UserSpec *` points at. -/
def Config.userAt (conf : Config) (u : Option Nat) : UserSpec :=
  match u with
  | some i => conf.users.getD i default
  | none => default

/-- `match->gameConf->game->numPlayers`. -/
def Config.numPlayers (conf : Config) (m : Match) : Nat :=
  (conf.gameAt m.gameConf).game.numPlayers

/-- `match->players[ p ]`. -/
def Match.player (m : Match) (p : Nat) : Player :=
  m.players.getD p default

/-! ## Helpers of the scheduler -/

/-- `timeIsEarlier`. -/
def timeIsEarlier (a b : timeval) : Bool :=
  if a.tv_sec < b.tv_sec then true
  else if a.tv_sec = b.tv_sec ∧ a.tv_usec < b.tv_usec then true
  else false

/-- `botsInMatch`: how many bots will the match start. -/
def botsInMatch (conf : Config) (m : Match) : Int :=
  ((List.range (conf.numPlayers m)).filter
    (fun p => !(m.player p).isNetworkPlayer)).length

/-! ## Scanning text the way `sscanf` does

A call of `sscanf` is modelled by what it stores and by the text that follows the
characters it consumed (what `%n` reports, as the rest of the string). A conversion
that stores nothing makes the whole call fall short of the count the caller tests for;
that is the result `none`. -/

/-- `isspace` in the C locale: space, `\t`, `\n`, `\v`, `\f`, `\r`. -/
def isspace (c : Char) : Bool :=
  c = ' ' || (9 ≤ c.toNat && c.toNat ≤ 13)

/-- A white-space directive: skip any amount of white space. -/
def skipSpace (s : List Char) : List Char :=
  s.dropWhile isspace

/-- The directive ` %s`: skip white space, then store the longest run of characters
that are not white space; an input failure at the end of the string. -/
def scanStr (s : List Char) : Option (List Char × List Char) :=
  match skipSpace s with
  | [] => none
  | c :: cs => some ((c :: cs).takeWhile (fun x => !isspace x),
                     (c :: cs).dropWhile (fun x => !isspace x))

/-- Value of a run of decimal digits. -/
def digitsVal (ds : List Char) : Nat :=
  ds.foldl (fun acc c => 10 * acc + (c.toNat - 48)) 0

/-- The digits of an integer conversion: at least one decimal digit, read as far as
digits go. Gives the sign that was read before, the magnitude and the rest of the
text. -/
def scanDigits (neg : Bool) (t : List Char) : Option (Bool × Nat × List Char) :=
  match t.takeWhile Char.isDigit with
  | [] => none
  | d :: ds => some (neg, digitsVal (d :: ds), t.dropWhile Char.isDigit)

/-- The subject sequence of an integer conversion after white space: an optional sign
and at least one decimal digit. Gives the sign (true for `-`), the magnitude and the
rest of the text. -/
def scanNumber (s : List Char) : Option (Bool × Nat × List Char) :=
  match skipSpace s with
  | [] => none
  | c :: cs =>
      if c = '-' then scanDigits true cs
      else if c = '+' then scanDigits false cs
      else scanDigits false (c :: cs)

/-- What `strtol` returns on an LP64 platform: the value, clamped to `long`. -/
def strtol (neg : Bool) (n : Nat) : Int :=
  if neg then (if n > 2 ^ 63 then -(2 ^ 63) else -(n : Int))
  else (if n > 2 ^ 63 - 1 then 2 ^ 63 - 1 else (n : Int))

/-- What `strtoul` returns on an LP64 platform: `ULONG_MAX` on overflow, the value
negated modulo 2^64 after a minus sign. -/
def strtoul (neg : Bool) (n : Nat) : Nat :=
  if n > 2 ^ 64 - 1 then 2 ^ 64 - 1
  else if neg then (2 ^ 64 - n) % 2 ^ 64
  else n

/-- The directive ` %d` as the C library of the platform performs it: the result of
`strtol` converted to `int` (ISO C leaves a value outside `int` undefined). -/
def scanInt (s : List Char) : Option (Int × List Char) :=
  match scanNumber s with
  | none => none
  | some (neg, n, rest) => some ((strtol neg n + 2 ^ 31) % 2 ^ 32 - 2 ^ 31, rest)

/-- The directive ` %u` into a `uint32_t` (`SCNu32`): `strtoul` modulo 2^32. -/
def scanU32 (s : List Char) : Option (Nat × List Char) :=
  match scanNumber s with
  | none => none
  | some (neg, n, rest) => some (strtoul neg n % 2 ^ 32, rest)

/-- The directive ` %hu` into a `uint16_t` (`SCNu16`): `strtoul` modulo 2^16. -/
def scanU16 (s : List Char) : Option (Nat × List Char) :=
  match scanNumber s with
  | none => none
  | some (neg, n, rest) => some (strtoul neg n % 2 ^ 16, rest)

/-- Decimal digits of a natural number, least significant first; `fuel` bounds the
number of digits. -/
def digitsRev : Nat → Nat → List Char
  | 0, _ => []
  | fuel + 1, n =>
    if n < 10 then [Nat.digitChar n]
    else Nat.digitChar (n % 10) :: digitsRev fuel (n / 10)

/-- Decimal digits of a natural number, most significant first (`%u`, and `%d` of a
value that is not negative). -/
def decimal (n : Nat) : List Char :=
  (digitsRev (n + 1) n).reverse

/-- `strcmp( a, b ) == 0`. -/
def streq (a b : List Char) : Bool := a == b

/-- `strncasecmp( line, word, n ) == 0` for a word of `n` letters. -/
def strncaseeq (line word : List Char) : Bool :=
  (line.take word.length).map Char.toLower == word.map Char.toLower

/-! ## Looking things up in the configuration -/

/-- `findBot`: the first bot of the game with that name. -/
def findBot (game : GameConfig) (name : List Char) : Option Nat :=
  let i := game.bots.findIdx (fun b => streq b.name name)
  if i < game.bots.length then some i else none

/-- `findUser`. -/
def findUser (conf : Config) (name : List Char) : Option Nat :=
  let i := conf.users.findIdx (fun u => streq u.name name)
  if i < conf.users.length then some i else none

/-- `findGame`: the first game whose `gameFile` is that name. -/
def findGame (conf : Config) (name : List Char) : Option Nat :=
  let i := conf.games.findIdx (fun g => streq g.gameFile name)
  if i < conf.games.length then some i else none

/-- `validateLogon`: the user on success, NULL on failure. -/
def validateLogon (conf : Config) (line : List Char) : Option Nat :=
  match scanStr line with
  | none => none
  | some (name, rest) =>
    match scanStr rest with
    | none => none
    | some (passwd, _) =>
      match findUser conf name with
      | none => none
      | some u => if streq (conf.userAt (some u)).passwd passwd then some u else none

/-! ## The connection layer and the control protocol -/

/-- `match->players[ p ] = v`, an array write (a shorter list is extended first). -/
def Match.setPlayer (m : Match) (p : Nat) (v : Player) : Match :=
  { m with players :=
      (m.players ++ List.replicate (p + 1 - m.players.length) default).set p v }

/-- `addConnection`; `createReadBuf` is taken to succeed and the buffer is named by its
socket. -/
def addConnection (serv : ServerState) (sock : Nat) : ServerState :=
  { serv with conns :=
      (LLPoolAddItem serv.conns
        { status := STATUS_UNVALIDATED, user := none, connBuf := sock }).2 }

/-- `matchUsesConnection`. -/
def matchUsesConnection (conf : Config) (m : Match) (connEntry : Nat) : Bool :=
  (List.range (conf.numPlayers m)).any
    (fun p => (m.player p).isNetworkPlayer && (m.player p).entry == some connEntry)

/-- `closeConnection`: mark the connection closed and set `numRuns` to 0 in every
match of the match list that uses it. -/
def closeConnection (conf : Config) (serv : ServerState) (connEntry : Nat) :
    ServerState :=
  { serv with
    conns := LLPoolSetItem serv.conns connEntry
      (fun c => { c with status := STATUS_CLOSED }),
    matches_ := { serv.matches_ with
      head := serv.matches_.head.map (fun e =>
        if matchUsesConnection conf e.data connEntry
        then ⟨e.addr, { e.data with numRuns := 0 }⟩ else e) } }

/-- The seat loop of `parseMatchSpec`, `k` seats to go from seat `p`. The result is
false when the function returns -1 inside the loop. -/
def parseSeats (conf : Config) (connEntry : Nat) :
    Nat → Nat → List Char → Match → Bool × Match
  | 0, _, _, m => (true, m)
  | k + 1, p, spec, m =>
    match scanStr spec with
    | none => (false, m)
    | some (name, rest) =>
      if streq name "LOCAL".toList then
        parseSeats conf connEntry k (p + 1) rest
          (m.setPlayer p { isNetworkPlayer := true, entry := some connEntry })
      else
        match findBot (conf.gameAt m.gameConf) name with
        | none => (false, m.setPlayer p { isNetworkPlayer := false, entry := none })
        | some b =>
          parseSeats conf connEntry k (p + 1) rest
            (m.setPlayer p { isNetworkPlayer := false, entry := some b })

/-- `parseMatchSpec`: -1 on failure, 0 on success, with the server state (its generator
is advanced for a zero seed) and the match object as the function leaves it. -/
def parseMatchSpec (R : Rng) (conf : Config) (serv : ServerState) (spec : List Char)
    (connEntry : Nat) (m : Match) : Int × ServerState × Match :=
  match scanStr spec with
  | none => (-1, serv, m)
  | some (name, spec1) =>
  match findGame conf name with
  | none => (-1, serv, m)
  | some entry =>
  let m1 := { m with gameConf := entry }
  match scanInt spec1 with
  | none => (-1, serv, m1)
  | some (numRuns, spec2) =>
  let m2 := { m1 with numRuns := numRuns }
  match scanStr spec2 with
  | none => (-1, serv, m2)
  | some (tag, spec3) =>
  match scanU32 spec3 with
  | none => (-1, serv, m2)
  | some (rngSeed, spec4) =>
  if m2.numRuns < 0 ∨ m2.numRuns > (conf.gameAt m2.gameConf).maxMatchRuns then
    (-1, serv, m2)
  else if '/' ∈ tag then (-1, serv, m2)
  else
    match parseSeats conf connEntry (conf.numPlayers m2) 0 (skipSpace spec4) m2 with
    | (false, m3) => (-1, serv, m3)
    | (true, m3) =>
      let m4 := { m3 with tag := tag, rngSeed := rngSeed }
      if rngSeed ≠ 0 then
        let m5 : Match := { m4 with rng := R.init_genrand rngSeed }
        if m5.numRuns = (1 : Int) then (0, serv, { m5 with useRngForSeed := 0 })
        else (0, serv, { m5 with useRngForSeed := 1 })
      else
        (0, { serv with rng := (R.genrand_int32 serv.rng).2 },
            { m4 with rng := R.init_genrand (R.genrand_int32 serv.rng).1 })

/-- `%d` of an `int`. -/
def decimalInt (z : Int) : List Char :=
  if z < 0 then '-' :: decimal z.natAbs else decimal z.natAbs

/-- `writeHelpMessage`. The last `write` asks for 60 bytes of a literal of 58
characters: it also sends the NUL that ends the literal and the byte `beyond` that
follows it in memory. -/
def writeHelpMessage (fd : Nat) (beyond : Char) : List Event :=
  [ Event.write fd "HELP - this message\n".toList,
    Event.write fd "GAMES - list available games and players\n".toList,
    Event.write fd "QSTAT - show the current queue\n".toList,
    Event.write fd
      "RUNMATCHES game #runs tag rngSeed player ... - submit match request\n".toList,
    Event.write fd "  - Player order decides match seating\n".toList,
    Event.write fd
      ("  - \"LOCAL\" player runs the bm_widget agent (bot_command)\n".toList
        ++ [Char.ofNat 0, beyond]) ]

/-- `writeGameList` (lines are taken to fit the line buffer). -/
def writeGameList (conf : Config) (fd : Nat) : List Event :=
  conf.games.flatMap (fun game =>
    Event.write fd ("\n".toList ++ game.gameFile ++ "\n".toList) ::
      game.bots.map (fun bot => Event.write fd (" ".toList ++ bot.name ++ "\n".toList)))

/-- `writeQueueStatus` (lines are taken to fit the line buffer). -/
def writeQueueStatus (conf : Config) (serv : ServerState) (fd : Nat) : List Event :=
  (if serv.matches_.numEntries = 0 then [Event.write fd "Queue empty\n".toList] else [])
  ++ serv.matches_.head.map (fun e =>
      Event.write fd
        ((conf.userAt e.data.user).name ++ " ".toList ++ e.data.tag ++ " ".toList
          ++ (conf.gameAt e.data.gameConf).gameFile ++ " * ".toList
          ++ decimalInt e.data.numRuns ++ " ".toList
          ++ (if e.data.isRunning then "R".toList else "Q".toList) ++ "\n".toList))

/-- One call of `getLine`: its return value and the line buffer it leaves. -/
structure GetLine where
  r : Int
  line : List Char
deriving DecidableEq, Repr

/-- What the outside supplies to one call of `handleConnection`: the results of the
successive calls of `getLine` (none left means that `getLine` has nothing: a negative
return), the indeterminate bytes of the local object `match`, the clock reading of
`gettimeofday`, and the byte that follows the last help literal. -/
structure ConnEnv where
  reads : List GetLine
  stack : Match
  now : timeval
  beyond : Char

/-- The `while` loop of `handleConnection` over the reads still to come. The result is
the server state, the events in order, and the reads that were not asked for. -/
def handleLoop (R : Rng) (env : ConnEnv) (conf : Config) (connEntry : Nat) :
    List GetLine → ServerState → List Event → ServerState × List Event × List GetLine
  | [], serv, out => (serv, out, [])
  | g :: rest, serv, out =>
    let conn := LLPoolGetItem serv.conns connEntry
    let fd := conn.connBuf
    if g.r < 0 then (serv, out, rest)
    else if g.r = 0 then (closeConnection conf serv connEntry, out, rest)
    else if conn.status = STATUS_UNVALIDATED then
      match validateLogon conf g.line with
      | none =>
        (closeConnection conf serv connEntry,
          out ++ [Event.write fd "BAD LOGON\n".toList], rest)
      | some user =>
        let conns := LLPoolSetItem serv.conns connEntry
          (fun c => { c with user := some user, status := STATUS_OKAY })
        ({ serv with conns := conns },
          out ++ [Event.write fd "LOGON OKAY - type help for commands\n".toList], rest)
    else if strncaseeq g.line "HELP".toList then
      handleLoop R env conf connEntry rest serv (out ++ writeHelpMessage fd env.beyond)
    else if strncaseeq g.line "GAMES".toList then
      handleLoop R env conf connEntry rest serv (out ++ writeGameList conf fd)
    else if strncaseeq g.line "QSTAT".toList then
      handleLoop R env conf connEntry rest serv (out ++ writeQueueStatus conf serv fd)
    else if strncaseeq g.line "RUNMATCHES".toList then
      match parseMatchSpec R conf serv (g.line.drop 10) connEntry env.stack with
      | (ret, serv1, m) =>
        if ret < 0 then
          (serv1, out ++ [Event.write (LLPoolGetItem serv1.conns connEntry).connBuf
                            "BAD RUNMATCHES COMMAND\n".toList], rest)
        else
          let item : Match :=
            { m with user := (LLPoolGetItem serv1.conns connEntry).user,
                     isRunning := false, queueTime := env.now }
          ({ serv1 with matches_ := (LLPoolAddItem serv1.matches_ item).2 }, out, rest)
    else (serv, out ++ [Event.write fd "UNKNOWN\n".toList], rest)

/-- `handleConnection`. -/
def handleConnection (R : Rng) (env : ConnEnv) (conf : Config) (serv : ServerState)
    (connEntry : Nat) : ServerState × List Event × List GetLine :=
  handleLoop R env conf connEntry env.reads serv []

/-! ## The job supervisor -/

/-- What the operating system answers while one job is started: the return values of
`pipe`, of `fork` for the dealer, of `select` and `read` on the dealer's pipe, the bytes
read, the return value of `fork` for the bot of each seat, and the return values of the
two calls of `write` of `sendStartMessage` for each seat. With them comes the value of
the constant `READBUF_LEN`, which `net.h` defines outside this file. -/
structure JobEnv where
  pipeRet : Int
  dealerFork : Int
  selectRet : Int
  readRet : Int
  portString : List Char
  botFork : Nat → Int
  written : Nat → Nat → Int
  READBUF_LEN : Nat

/-- A pointer to a pool entry that may be NULL, read through. -/
def LLPoolGetItemAt {α : Type} [Inhabited α] (pool : LLPool α) (entry : Option Nat) : α :=
  match entry with
  | some a => LLPoolGetItem pool a
  | none => default

/-- The bot a bot seat points at. -/
def Config.botAt (conf : Config) (m : Match) (entry : Option Nat) : BotSpec :=
  match entry with
  | some b => (conf.gameAt m.gameConf).bots.getD b default
  | none => default

/-- A value of type `int` after a computation in `int`: reduced to 32 bits. -/
def toInt32 (z : Int) : Int := (z + 2 ^ 31) % 2 ^ 32 - 2 ^ 31

/-- `snprintf` into a buffer of 16 bytes: at most 15 characters are kept. -/
def snprintf16 (s : List Char) : List Char := s.take 15

/-- `snprintf` into a buffer of `n` bytes: at most `n - 1` characters are kept. -/
def snprintfN (n : Nat) (s : List Char) : List Char := s.take (n - 1)

/-- The argument vector the dealer child passes to `execv` in `startDealer`. The log
name is formatted into a buffer of `READBUF_LEN` bytes. -/
def dealerArgv (env : JobEnv) (conf : Config) (serv : ServerState) (m : Match)
    (job : MatchJob) (rngSeed : Nat) : List (List Char) :=
  [ BM_DEALER,
    snprintfN env.READBUF_LEN (BM_LOGDIR ++ "/".toList ++ job.tag),
    (conf.gameAt m.gameConf).gameFile,
    snprintf16 (decimal (conf.gameAt m.gameConf).matchHands),
    snprintf16 (decimal rngSeed) ]
  ++ (List.range (conf.numPlayers m)).map (fun p =>
        if (m.player p).isNetworkPlayer then
          (conf.userAt (LLPoolGetItemAt serv.conns (m.player p).entry).user).name
        else (conf.botAt m (m.player p).entry).name)
  ++ (if conf.startupTimeoutSecs ≠ 0 then
        [ "--start_timeout".toList,
          snprintf16 (decimalInt (toInt32 ((conf.startupTimeoutSecs : Int) * 1000))) ]
      else [])
  ++ [ "--t_response".toList,
       snprintf16 (decimalInt (toInt32 ((conf.responseTimeoutSecs : Int) * 1000))),
       "--t_hand".toList,
       snprintf16 (decimalInt (toInt32 ((conf.handTimeoutSecs : Int) * 1000))),
       "--t_per_hand".toList,
       snprintf16 (decimalInt (toInt32 ((conf.avgHandTimeSecs : Int) * 1000))),
       "-q".toList,
       "-a".toList ]

/-- The loop of `startDealer` that reads one port per seat from the dealer's line;
`none` when a port is missing (the server exits). -/
def parsePorts : Nat → List Char → List Nat → Option (List Nat)
  | 0, _, ports => some ports
  | k + 1, text, ports =>
    match scanU16 text with
    | none => none
    | some (port, rest) => parsePorts k rest (ports ++ [port])

/-- `startDealer`, as the server process lives it: the job with the dealer's pid and
the ports, and the event of the child that was started. `none` when the server exits
(or when `fork` returned 0: that process is the child, it never returns from here). -/
def startDealer (env : JobEnv) (conf : Config) (serv : ServerState) (m : Match)
    (job : MatchJob) (rngSeed : Nat) : Option (MatchJob × List Event) :=
  if env.pipeRet < 0 then none
  else if env.dealerFork < 0 then none
  else if env.dealerFork = 0 then none
  else if env.selectRet < 1 then none
  else if env.readRet ≤ 0 ∨
      env.portString.getD (env.readRet - 1).toNat (Char.ofNat 0) ≠ Char.ofNat 10 then none
  else
    match parsePorts (conf.numPlayers m) (env.portString.take env.readRet.toNat) [] with
    | none => none
    | some ports =>
      some ({ job with dealerPID := env.dealerFork, ports := ports },
            [Event.exec BM_DEALER (dealerArgv env conf serv m job rngSeed) env.dealerFork])

/-- `startBot` in the server process: the pid of the child and the event of the child
that was started; `none` when `fork` fails (or returned 0, in the child). -/
def startBot (forkRet : Int) (serv : ServerState) (bot : BotSpec) (port : Nat)
    (botPosition : Int) : Option (Int × Event) :=
  if forkRet < 0 then none
  else if forkRet = 0 then none
  else some (forkRet,
    Event.exec bot.command
      [bot.command, serv.hostname, decimal port, snprintf16 (decimalInt botPosition)]
      forkRet)

/-- `sendStartMessage`; `written k` is what the `k`-th `write` returns. The buffer `msg`
has `strlen( serv->hostname ) + 12 + READBUF_LEN` bytes; the tag of a job has fewer than
`READBUF_LEN` characters (`runMatchJob` cuts it), so both lines are formatted whole. -/
def sendStartMessage (written : Nat → Int) (serv : ServerState) (job : MatchJob)
    (conn : Connection) (port : Nat) : Int × List Event :=
  let msg1 := "# RUNNING ".toList ++ job.tag ++ "\n".toList
  let msg2 := "RUN ".toList ++ serv.hostname ++ " ".toList ++ decimal port ++ "\n".toList
  if written 0 < msg1.length then (-1, [Event.write conn.connBuf msg1])
  else if written 1 < msg2.length then
    (-1, [Event.write conn.connBuf msg1, Event.write conn.connBuf msg2])
  else (0, [Event.write conn.connBuf msg1, Event.write conn.connBuf msg2])

/-- The signals of the abort branch of `runMatchJob`: the bots of the seats below `p`,
from seat `p - 1` down to seat 0, that have a pid. -/
def killBots (job : MatchJob) : Nat → List Event
  | 0 => []
  | p + 1 =>
    (if job.botPID.getD p 0 ≠ 0 then [Event.kill (job.botPID.getD p 0) SIGTERM] else [])
      ++ killBots job p

/-- The loop over the seats in `runMatchJob`, `k` seats to go from seat `p`. -/
def runSeats (env : JobEnv) (conf : Config) (serv : ServerState) (m : Match) :
    Nat → Nat → Int → MatchJob → List Event → Option (MatchJob × List Event)
  | 0, _, _, job, out => some (job, out)
  | k + 1, p, botPosition, job, out =>
    if (m.player p).isNetworkPlayer then
      match sendStartMessage (env.written p) serv job
          (LLPoolGetItemAt serv.conns (m.player p).entry) (job.ports.getD p 0) with
      | (r, evs) =>
        if r < 0 then
          some (job, out ++ evs ++ Event.kill job.dealerPID SIGTERM :: killBots job p)
        else runSeats env conf serv m k (p + 1) botPosition job (out ++ evs)
    else
      match startBot (env.botFork p) serv (conf.botAt m (m.player p).entry)
          (job.ports.getD p 0) botPosition with
      | none => none
      | some (pid, ev) =>
        runSeats env conf serv m k (p + 1) (botPosition + 1)
          { job with botPID := job.botPID.set p pid } (out ++ [ev])

/-- `runMatchJob`. The tag of the job is formatted into a buffer of `READBUF_LEN`
bytes. -/
def runMatchJob (env : JobEnv) (conf : Config) (serv : ServerState) (matchEntry : Nat)
    (rngSeed : Nat) : Option (MatchJob × List Event) :=
  let m := LLPoolGetItem serv.matches_ matchEntry
  let job : MatchJob :=
    { dealerPID := 0,
      botPID := List.replicate (conf.numPlayers m) 0,
      matchEntry := matchEntry,
      tag := snprintfN env.READBUF_LEN ((conf.userAt m.user).name ++ ".".toList ++ m.tag),
      ports := [] }
  match startDealer env conf serv m job rngSeed with
  | none => none
  | some (job1, evs) => runSeats env conf serv m (conf.numPlayers m) 0 0 job1 evs

/-- One call of `waitpid( pid, &status, WNOHANG )` in `checkIfJobFinished`: the pid
after the call and whether the child is still there; `none` when `waitpid` fails. -/
def waitChild (waitpid : Int → Int) (pid : Int) : Option (Int × Bool) :=
  if pid = 0 then some (0, true)
  else if waitpid pid < 0 then none
  else if waitpid pid = pid then some (0, true)
  else some (pid, false)

/-- The loop over the seats in `checkIfJobFinished`, `k` seats to go from seat `p`. -/
def waitBots (waitpid : Int → Int) : Nat → Nat → List Int → Option (List Int × Bool)
  | 0, _, bots => some (bots, true)
  | k + 1, p, bots =>
    match waitChild waitpid (bots.getD p 0) with
    | none => none
    | some (pid1, done) =>
      match waitBots waitpid k (p + 1) (bots.set p pid1) with
      | none => none
      | some (bots1, allDone) => some (bots1, done && allDone)

/-- `checkIfJobFinished`: the job with the reaped pids set to 0 and the flag
`allDone`; `none` when the server exits. -/
def checkIfJobFinished (waitpid : Int → Int) (conf : Config) (serv : ServerState)
    (job : MatchJob) : Option (MatchJob × Bool) :=
  let m := LLPoolGetItem serv.matches_ job.matchEntry
  match waitChild waitpid job.dealerPID with
  | none => none
  | some (dealer, done) =>
    match waitBots waitpid (conf.numPlayers m) 0 job.botPID with
    | none => none
    | some (bots, allDone) =>
      some ({ job with dealerPID := dealer, botPID := bots }, done && allDone)

/-- `++( gameConf->curRunningJobs )` and `--( gameConf->curRunningJobs )`. -/
def Config.addRunningJobs (conf : Config) (g : Nat) (d : Int) : Config :=
  let game : GameConfig :=
    { conf.gameAt g with curRunningJobs := (conf.gameAt g).curRunningJobs + d }
  { conf with games := conf.games.set g game }

/-- `gettimeofday( &user->waitStart, NULL )`. -/
def Config.setWaitStart (conf : Config) (u : Option Nat) (now : timeval) : Config :=
  match u with
  | some i =>
    let user : UserSpec := { conf.userAt u with waitStart := now }
    { conf with users := conf.users.set i user }
  | none => conf

/-- `finishedJob`. -/
def finishedJob (w : World) (jobEntry : Nat) : World :=
  let job := LLPoolGetItem w.serv.jobs jobEntry
  let m := LLPoolGetItem w.serv.matches_ job.matchEntry
  let matches1 := LLPoolSetItem w.serv.matches_ job.matchEntry
    (fun x => { x with isRunning := false })
  let jobs1 := LLPoolRemoveEntry w.serv.jobs jobEntry
  { conf := w.conf.addRunningJobs m.gameConf (-1),
    serv := { w.serv with matches_ := matches1, jobs := jobs1 } }

/-! ## The scheduler -/

/-- What the outside supplies to one call of `startMatchJob`: the answers for
`runMatchJob` and the two clock readings of `gettimeofday`, the first for the user's
`waitStart`, the second for the match's `queueTime`. -/
structure SchedEnv where
  job : JobEnv
  nowWait : timeval
  nowQueue : timeval

/-- The first loop of `startMatchJob`: the bots of the matches of all jobs. -/
def runningBots (w : World) : Int :=
  (w.serv.jobs.head.map
    (fun j => botsInMatch w.conf (LLPoolGetItem w.serv.matches_ j.data.matchEntry))).sum

/-- The test `cur refers to a match in a game which is currently too busy`. -/
def gameBusy (conf : Config) (m : Match) : Bool :=
  (conf.gameAt m.gameConf).maxRunningJobs ≠ 0 &&
    decide ((conf.gameAt m.gameConf).curRunningJobs
              ≥ ((conf.gameAt m.gameConf).maxRunningJobs : Int))

/-- The test under which `cur` replaces `best` in `startMatchJob`. -/
def takesOver (conf : Config) (curMatch : Match) (best : Option (LLPoolEntry Match)) :
    Bool :=
  match best with
  | none => true
  | some b =>
    timeIsEarlier (conf.userAt curMatch.user).waitStart (conf.userAt b.data.user).waitStart
    || (!timeIsEarlier (conf.userAt b.data.user).waitStart
          (conf.userAt curMatch.user).waitStart
        && timeIsEarlier curMatch.queueTime b.data.queueTime)

/-- The second loop of `startMatchJob` over the entries of the match list still to
visit (`next` is read before the entry is visited, so the walk follows the list as it
was). `best` and `bestMatch` are carried as one entry: no match is written during the
walk, so the bytes `bestMatch` points at are those of the entry when it was chosen. -/
def selectLoop (conf : Config) :
    List (LLPoolEntry Match) → LLPool Match → Option (LLPoolEntry Match) →
    LLPool Match × Option (LLPoolEntry Match)
  | [], pool, best => (pool, best)
  | cur :: next, pool, best =>
    if cur.data.isRunning then selectLoop conf next pool best
    else if cur.data.numRuns ≤ 0 then
      selectLoop conf next (LLPoolRemoveEntry pool cur.addr) best
    else if gameBusy conf cur.data then selectLoop conf next pool best
    else if takesOver conf cur.data best then selectLoop conf next pool (some cur)
    else selectLoop conf next pool best

/-- `startMatchJob`: the return value, the world after the call and the events;
`none` when the server exits while the job is started. -/
def startMatchJob (R : Rng) (env : SchedEnv) (w : World) :
    Option (Int × World × List Event) :=
  if w.serv.matches_.numEntries = 0 then some (0, w, [])
  else
    let running := runningBots w
    match selectLoop w.conf w.serv.matches_.head w.serv.matches_ none with
    | (pool, none) => some (0, { w with serv := { w.serv with matches_ := pool } }, [])
    | (pool, some best) =>
      let w1 : World := { w with serv := { w.serv with matches_ := pool } }
      let bestMatch := best.data
      if w.conf.maxRunningBots ≠ 0 ∧
          botsInMatch w.conf bestMatch + running > (w.conf.maxRunningBots : Int) then
        some (0, w1, [])
      else
        let drawn := R.genrand_int32 bestMatch.rng
        let rngSeed := if bestMatch.useRngForSeed ≠ 0 then drawn.1 else bestMatch.rngSeed
        let pool1 :=
          if bestMatch.useRngForSeed ≠ 0 then
            LLPoolSetItem pool best.addr (fun x => { x with rng := drawn.2 })
          else pool
        let serv1 : ServerState := { w.serv with matches_ := pool1 }
        match runMatchJob env.job w.conf serv1 best.addr rngSeed with
        | none => none
        | some (job, evs) =>
          let jobs1 := (LLPoolAddItem serv1.jobs job).2
          let conf1 := w.conf.addRunningJobs bestMatch.gameConf 1
          let conf2 := conf1.setWaitStart bestMatch.user env.nowWait
          let pool2 := LLPoolSetItem pool1 best.addr
            (fun x => { x with isRunning := true, numRuns := x.numRuns - 1,
                               queueTime := env.nowQueue })
          some (1, { conf := conf2,
                     serv := { serv1 with matches_ := pool2, jobs := jobs1 } }, evs)

/-! ## The main loop -/

/-- A world as `main` has it before the first turn of its loop: the counters of all
games are 0 (`setGameDefaults`) and the three pools are new (`initServerState`). -/
def Initial (w : World) : Prop :=
  (∀ g ∈ w.conf.games, g.curRunningJobs = 0) ∧
  w.serv.conns = newLLPool Connection ∧
  w.serv.matches_ = newLLPool Match ∧
  w.serv.jobs = newLLPool MatchJob

/-- One thing the main loop does to the world:
* `reap`: for a job of the jobs list, `checkIfJobFinished` and, if it says so,
  `finishedJob`;
* `drop`: a connection whose status is `STATUS_CLOSED` is removed from the list;
* `start`: one call of `startMatchJob` that returns;
* `accept`: `handleListenSocket` adds a connection;
* `handle`: `handleConnection` on a connection of the list that is not closed (closed
  ones are dropped before `select` and are not visited again in the turn that closed
  them). -/
inductive Step (R : Rng) : World → World → Prop where
  | reap (w : World) (waitpid : Int → Int) (e : LLPoolEntry MatchJob)
      (job : MatchJob) (allDone : Bool) :
      e ∈ w.serv.jobs.head →
      checkIfJobFinished waitpid w.conf w.serv e.data = some (job, allDone) →
      Step R w
        (let w1 : World :=
          { w with serv := { w.serv with
              jobs := LLPoolSetItem w.serv.jobs e.addr (fun _ => job) } }
         if allDone then finishedJob w1 e.addr else w1)
  | drop (w : World) (e : LLPoolEntry Connection) :
      e ∈ w.serv.conns.head → e.data.status = STATUS_CLOSED →
      Step R w { w with serv := { w.serv with
        conns := LLPoolRemoveEntry w.serv.conns e.addr } }
  | start (w : World) (env : SchedEnv) (r : Int) (w1 : World) (evs : List Event) :
      startMatchJob R env w = some (r, w1, evs) → Step R w w1
  | accept (w : World) (sock : Nat) :
      Step R w { w with serv := addConnection w.serv sock }
  | handle (w : World) (env : ConnEnv) (e : LLPoolEntry Connection) :
      e ∈ w.serv.conns.head → e.data.status ≠ STATUS_CLOSED →
      Step R w { w with serv := (handleConnection R env w.conf w.serv e.addr).1 }

/-- The worlds the server can be in. -/
inductive Reachable (R : Rng) : World → Prop where
  | init (w : World) : Initial w → Reachable R w
  | step (w w1 : World) : Reachable R w → Step R w w1 → Reachable R w1

/-! ## Vocabulary of the specification -/

/-- A clock value is strictly earlier than another: seconds first, then
microseconds. -/
def timeval.lt (a b : timeval) : Prop :=
  a.tv_sec < b.tv_sec ∨ (a.tv_sec = b.tv_sec ∧ a.tv_usec < b.tv_usec)

instance (a b : timeval) : Decidable (a.lt b) := by
  unfold timeval.lt; infer_instance

/-- A match is eligible: it is not running, it has runs left, and its game has room
(no cap, or fewer running jobs than the cap). -/
def Eligible (conf : Config) (m : Match) : Prop :=
  m.isRunning = false ∧ 0 < m.numRuns ∧
  ((conf.gameAt m.gameConf).maxRunningJobs = 0 ∨
   (conf.gameAt m.gameConf).curRunningJobs < ((conf.gameAt m.gameConf).maxRunningJobs : Int))

instance (conf : Config) (m : Match) : Decidable (Eligible conf m) := by
  unfold Eligible; infer_instance

/-- The strict priority of the scheduler: `x` goes before `y` when the user of `x` has
waited since strictly earlier, or since the same instant and `x` was queued strictly
earlier. -/
def Before (conf : Config) (x y : Match) : Prop :=
  (conf.userAt x.user).waitStart.lt (conf.userAt y.user).waitStart ∨
  ((conf.userAt x.user).waitStart = (conf.userAt y.user).waitStart ∧
    x.queueTime.lt y.queueTime)

instance (conf : Config) (x y : Match) : Decidable (Before conf x y) := by
  unfold Before; infer_instance

/-- The choice made by the second loop of `startMatchJob`, without the pool: the value
of `best` after the walk over the entries, starting from `best`. -/
def pick (conf : Config) :
    List (LLPoolEntry Match) → Option (LLPoolEntry Match) → Option (LLPoolEntry Match)
  | [], best => best
  | cur :: next, best =>
    if cur.data.isRunning then pick conf next best
    else if cur.data.numRuns ≤ 0 then pick conf next best
    else if gameBusy conf cur.data then pick conf next best
    else if takesOver conf cur.data best then pick conf next (some cur)
    else pick conf next best

/-- The match list after the second loop of `startMatchJob`. -/
def gcPool (w : World) : LLPool Match :=
  (selectLoop w.conf w.serv.matches_.head w.serv.matches_ none).1

/-- The admission test of `startMatchJob` refuses the match. -/
def overBotCap (w : World) (bestMatch : Match) : Prop :=
  w.conf.maxRunningBots ≠ 0 ∧
    botsInMatch w.conf bestMatch + runningBots w > (w.conf.maxRunningBots : Int)

instance (w : World) (m : Match) : Decidable (overBotCap w m) := by
  unfold overBotCap; infer_instance

/-- The seed `startMatchJob` hands to `runMatchJob` for the chosen match. -/
def jobSeed (R : Rng) (bestMatch : Match) : Nat :=
  if bestMatch.useRngForSeed ≠ 0 then (R.genrand_int32 bestMatch.rng).1
  else bestMatch.rngSeed

/-- The match list after the seed has been taken for the chosen entry. -/
def seededPool (R : Rng) (w : World) (best : LLPoolEntry Match) : LLPool Match :=
  if best.data.useRngForSeed ≠ 0 then
    LLPoolSetItem (gcPool w) best.addr
      (fun x => { x with rng := (R.genrand_int32 best.data.rng).2 })
  else gcPool w

/-- The world `startMatchJob` leaves when it has started `job` for the entry `best`. -/
def dispatched (R : Rng) (env : SchedEnv) (w : World) (best : LLPoolEntry Match)
    (job : MatchJob) : World :=
  { conf := (w.conf.addRunningJobs best.data.gameConf 1).setWaitStart best.data.user
      env.nowWait,
    serv := { w.serv with
      matches_ := LLPoolSetItem (seededPool R w best) best.addr
        (fun x => { x with isRunning := true, numRuns := x.numRuns - 1,
                           queueTime := env.nowQueue }),
      jobs := (LLPoolAddItem w.serv.jobs job).2 } }

/-! ## Sample objects

A small configuration and a few worlds on which the theorems are instantiated. -/

/-- A stand-in generator: the state is a list of words, a draw returns their sum modulo
2^32 and appends a word. -/
def sampleRng : Rng :=
  { init_genrand := fun s => [s],
    genrand_int32 := fun st => (st.sum % 4294967296, st ++ [1]) }

/-- A two-player game with one bot and the default limits. -/
def sampleGame : GameConfig :=
  { maxMatchRuns := 10, maxRunningJobs := 1, matchHands := 5000, game := ⟨2⟩,
    gameFile := "holdem".toList,
    bots := [⟨"example".toList, "./example.sh".toList⟩],
    curRunningJobs := 0 }

/-- The default configuration with `sampleGame` and two users. -/
def sampleConf : Config :=
  { port := 54000, maxRunningBots := 0, startupTimeoutSecs := 600,
    responseTimeoutSecs := 6000, handTimeoutSecs := 21000, avgHandTimeSecs := 70,
    games := [sampleGame],
    users := [⟨"alice".toList, "secret".toList, ⟨1, 0⟩⟩,
              ⟨"bob".toList, "pw".toList, ⟨1, 0⟩⟩] }

/-- A queued match of `sampleGame`: user `u`, `numRuns` runs, queued at second `t`,
seat 0 on connection 0 and seat 1 for the bot. -/
def sampleMatch (u : Nat) (numRuns : Int) (t : Int) (tag : String) : Match :=
  { gameConf := 0, user := some u, numRuns := numRuns, rng := [42], rngSeed := 42,
    useRngForSeed := 0, tag := tag.toList, queueTime := ⟨t, 0⟩,
    players := [⟨true, some 0⟩, ⟨false, some 0⟩], isRunning := false }

/-- A server with one logged-on connection (alice) and the given match list. -/
def sampleServ (ms : List (LLPoolEntry Match)) : ServerState :=
  { listenSocket := 3,
    conns := { head := [⟨0, ⟨STATUS_OKAY, some 0, 5⟩⟩], free := [], numEntries := 1,
               brk := 1 },
    matches_ := { head := ms, free := [], numEntries := ms.length, brk := ms.length },
    jobs := newLLPool MatchJob,
    rng := [7], hostname := "10.0.0.1".toList, devnullfd := 4 }

/-- A world with two queued matches of alice; the list has the later addition first. -/
def sampleWorld : World :=
  { conf := sampleConf,
    serv := sampleServ [⟨1, sampleMatch 0 1 3 "t1"⟩, ⟨0, sampleMatch 0 1 2 "t0"⟩] }

/-- Answers of an operating system where everything works: the dealer is pid 100 and
prints two ports, the bot of seat `p` is pid `200 + p`, every `write` is complete;
`READBUF_LEN` is 4096. -/
def sampleJobEnv : JobEnv :=
  { pipeRet := 0, dealerFork := 100, selectRet := 1, readRet := 12,
    portString := "18001 18002\n".toList,
    botFork := fun p => 200 + p, written := fun _ _ => 1000, READBUF_LEN := 4096 }

/-- A call of `startMatchJob` at second `t`. -/
def sampleSchedEnv (t : Int) : SchedEnv :=
  { job := sampleJobEnv, nowWait := ⟨t, 0⟩, nowQueue := ⟨t, 1⟩ }

/-! ## Well-formed pools and the invariant of the main loop -/

/-- A pool is well formed: no address occurs twice in its two chains, every address
has been handed out, and `numEntries` counts the `head` chain. -/
def PoolWF {α : Type} (pool : LLPool α) : Prop :=
  ((pool.head ++ pool.free).map (fun e => e.addr)).Nodup ∧
  (∀ e ∈ pool.head ++ pool.free, e.addr < pool.brk) ∧
  pool.numEntries = pool.head.length

/-- The entries the second loop of `startMatchJob` leaves in the list: the running
ones and those with runs left. -/
def keptByGc (e : LLPoolEntry Match) : Bool :=
  e.data.isRunning || decide (0 < e.data.numRuns)

/-- The number of jobs of the jobs list whose match points at game `g`. -/
def jobsOfGame (w : World) (g : Nat) : Nat :=
  (w.serv.jobs.head.filter
    (fun j => (LLPoolGetItem w.serv.matches_ j.data.matchEntry).gameConf == g)).length

/-- The invariant of the main loop. -/
structure Inv (w : World) : Prop where
  matchesWF : PoolWF w.serv.matches_
  jobsWF : PoolWF w.serv.jobs
  jobMatch : ∀ j ∈ w.serv.jobs.head, ∃ e ∈ w.serv.matches_.head,
    e.addr = j.data.matchEntry ∧ e.data.isRunning = true
  jobsDistinct : (w.serv.jobs.head.map (fun j => j.data.matchEntry)).Nodup
  gameValid : ∀ e ∈ w.serv.matches_.head, e.data.gameConf < w.conf.games.length
  counters : ∀ g, g < w.conf.games.length →
    (w.conf.gameAt g).curRunningJobs = (jobsOfGame w g : Int)
  caps : ∀ g, g < w.conf.games.length → (w.conf.gameAt g).maxRunningJobs ≠ 0 →
    (w.conf.gameAt g).curRunningJobs ≤ ((w.conf.gameAt g).maxRunningJobs : Int)
  bots : w.conf.maxRunningBots ≠ 0 → runningBots w ≤ (w.conf.maxRunningBots : Int)

/-- The running matches of the list `P` are still in the list `Q`, at their address,
running, with the same game and the same seats. -/
def Keeps (P Q : LLPool Match) : Prop :=
  ∀ e ∈ P.head, e.data.isRunning = true →
    ∃ e1 ∈ Q.head, e1.addr = e.addr ∧ e1.data.isRunning = true ∧
      e1.data.gameConf = e.data.gameConf ∧ e1.data.players = e.data.players

/-- The sample configuration with a cap of two running bots. -/
def sampleConfCap : Config := { sampleConf with maxRunningBots := 2 }

/-- The world of `main` before its first turn, for `sampleConfCap`. -/
def sampleInit : World :=
  { conf := sampleConfCap,
    serv := { listenSocket := 3, conns := newLLPool Connection,
              matches_ := newLLPool Match, jobs := newLLPool MatchJob,
              rng := [7], hostname := "10.0.0.1".toList, devnullfd := 4 } }

/-- One line handed to `handleConnection` at second `t`. -/
def sampleConnEnv (line : String) (t : Int) : ConnEnv :=
  { reads := [⟨line.length, line.toList⟩], stack := default, now := ⟨t, 0⟩,
    beyond := 'x' }

/-- `sampleInit` after a connection on socket 5 has been accepted. -/
def sampleAccepted : World :=
  { sampleInit with serv := addConnection sampleInit.serv 5 }

/-- `sampleAccepted` after alice has logged on. -/
def sampleLoggedOn : World :=
  { sampleAccepted with serv :=
      (handleConnection sampleRng (sampleConnEnv "alice secret\n" 2) sampleAccepted.conf
        sampleAccepted.serv 0).1 }

/-- `sampleLoggedOn` after alice has queued a match of two runs. -/
def sampleQueued : World :=
  { sampleLoggedOn with serv :=
      (handleConnection sampleRng
        (sampleConnEnv "RUNMATCHES holdem 2 t0 42 LOCAL example\n" 3) sampleLoggedOn.conf
        sampleLoggedOn.serv 0).1 }

/-- `sampleQueued` after `startMatchJob` has started the match. -/
def sampleStarted : World :=
  ((startMatchJob sampleRng (sampleSchedEnv 10) sampleQueued).getD
    (0, sampleQueued, [])).2.1

/-- The number of network seats among the seats of a match. -/
def networkSeats (conf : Config) (m : Match) : Int :=
  ((List.range (conf.numPlayers m)).filter (fun p => (m.player p).isNetworkPlayer)).length

/-! ## Well-formed command lines -/

/-- A word: at least one character, none of them white space. -/
def IsWord (w : List Char) : Prop :=
  w ≠ [] ∧ ∀ c ∈ w, isspace c = false

instance (w : List Char) : Decidable (IsWord w) := by
  unfold IsWord; infer_instance

/-- The player names of a command, each after a single space, and the newline that
ends the line. -/
def namesText (names : List (List Char)) : List Char :=
  names.flatMap (fun n => ' ' :: n) ++ [Char.ofNat 10]

/-- The text of a `RUNMATCHES` command after the command word: the game, the number
of runs, the tag and the seed, then the player names, separated by single spaces and
ended by a newline. -/
def renderSpec (game : List Char) (numRuns : Int) (tag : List Char) (seed : Nat)
    (names : List (List Char)) : List Char :=
  ' ' :: (game ++ ' ' :: (decimalInt numRuns ++ ' ' :: (tag ++ ' ' :: (decimal seed
    ++ namesText names))))

/-- What ` %d` stores for the decimal text of `z`. -/
def scannedInt (z : Int) : Int :=
  (strtol (decide (z < 0)) z.natAbs + 2 ^ 31) % 2 ^ 32 - 2 ^ 31

/-- What ` %u` stores in a `uint32_t` for the decimal text of `n`. -/
def scannedU32 (n : Nat) : Nat :=
  strtoul false n % 2 ^ 32

/-- A text is empty or starts with white space. -/
def StartsWithSpace (r : List Char) : Prop :=
  r = [] ∨ ∃ c t, r = c :: t ∧ isspace c = true

/-- The part of `parseMatchSpec` that follows its two calls of `sscanf`, for the game
entry `g`, the number of runs `v`, the tag, the seed `s` and the text `r4` after the
seed. -/
def parseTail (R : Rng) (conf : Config) (serv : ServerState) (connEntry : Nat) (m : Match)
    (g : Nat) (v : Int) (tag : List Char) (s : Nat) (r4 : List Char) :
    Int × ServerState × Match :=
  let m2 : Match := { m with gameConf := g, numRuns := v }
  if v < 0 ∨ v > ((conf.gameAt g).maxMatchRuns : Int) then (-1, serv, m2)
  else if '/' ∈ tag then (-1, serv, m2)
  else
    match parseSeats conf connEntry (conf.gameAt g).game.numPlayers 0 (skipSpace r4) m2 with
    | (false, m3) => (-1, serv, m3)
    | (true, m3) =>
      let m4 : Match := { m3 with tag := tag, rngSeed := s }
      if s ≠ 0 then
        let m5 : Match := { m4 with rng := R.init_genrand s }
        if m5.numRuns = (1 : Int) then (0, serv, { m5 with useRngForSeed := 0 })
        else (0, serv, { m5 with useRngForSeed := 1 })
      else
        (0, { serv with rng := (R.genrand_int32 serv.rng).2 },
            { m4 with rng := R.init_genrand (R.genrand_int32 serv.rng).1 })

/-- Two states of one queued request: the fields that are written when the match is
parsed and never afterwards are the same. -/
def SameRequest (m m1 : Match) : Prop :=
  m1.gameConf = m.gameConf ∧ m1.user = m.user ∧ m1.tag = m.tag ∧
  m1.players = m.players ∧ m1.rngSeed = m.rngSeed ∧ m1.useRngForSeed = m.useRngForSeed

/-- The match is one that `handleConnection` queues: what an accepting call of
`parseMatchSpec` left, with the user, `isRunning` and `queueTime` filled in. -/
def FreshlyParsed (R : Rng) (conf : Config) (m1 : Match) : Prop :=
  ∃ (serv : ServerState) (spec : List Char) (ce : Nat) (stack : Match) (u : Option Nat)
    (now : timeval),
    ¬ (parseMatchSpec R conf serv spec ce stack).1 < 0 ∧
    m1 = { (parseMatchSpec R conf serv spec ce stack).2.2 with
            user := u, isRunning := false, queueTime := now }

/-- The match entry of the job added last to the jobs list (the list has the latest
addition first). -/
def lastDispatched (w : World) : Option Nat :=
  w.serv.jobs.head.head?.map (fun j => j.data.matchEntry)

/-- No budget is in force: the bot cap and the job cap of every game are 0. -/
def Unlimited (conf : Config) : Prop :=
  conf.maxRunningBots = 0 ∧ ∀ g, (conf.gameAt g).maxRunningJobs = 0

/-- The write that a dispatch makes to the chosen entry, as a function of the bytes of
the entry: the generator is advanced when the seed comes from it, then `isRunning`,
`numRuns` and `queueTime` are set. -/
def startedMatch (R : Rng) (env : SchedEnv) (m : Match) : Match :=
  { m with
    rng := if m.useRngForSeed ≠ 0 then (R.genrand_int32 m.rng).2 else m.rng,
    isRunning := true, numRuns := m.numRuns - 1, queueTime := env.nowQueue }

/-- The write of a dispatch as a function of the entries of the match list: the entry
at address `a` is started, the others are left alone. -/
def startEntry (R : Rng) (env : SchedEnv) (a : Nat) (e : LLPoolEntry Match) :
    LLPoolEntry Match :=
  if e.addr = a then ⟨e.addr, startedMatch R env e.data⟩ else e

/-- A world with two users holding two queued single-run matches each; the match list
has them in the order B2, A2, B1, A1 (latest addition first). -/
def sampleFair : World :=
  { conf := sampleConf,
    serv := sampleServ
      [⟨3, sampleMatch 1 1 5 "b2"⟩, ⟨2, sampleMatch 0 1 4 "a2"⟩,
       ⟨1, sampleMatch 1 1 3 "b1"⟩, ⟨0, sampleMatch 0 1 2 "a1"⟩] }

/-- The sample game without a cap on its running jobs. -/
def sampleGameFree : GameConfig := { sampleGame with maxRunningJobs := 0 }

/-- `sampleFair` without budgets. -/
def sampleFairFree : World :=
  { sampleFair with conf := { sampleConf with games := [sampleGameFree] } }

/-- The world after the call of `startMatchJob` at second `t`, the world itself when
the call does not return. -/
def sampleNext (t : Int) (w : World) : World :=
  ((startMatchJob sampleRng (sampleSchedEnv t) w).getD (0, w, [])).2.1

/-- A second game, with a bot that `sampleGame` does not have. -/
def sampleGameKuhn : GameConfig :=
  { sampleGame with gameFile := "kuhn".toList,
                    bots := [⟨"other".toList, "./other.sh".toList⟩] }

/-- The sample configuration with the two games. -/
def sampleConfTwo : Config := { sampleConf with games := [sampleGame, sampleGameKuhn] }

/-! ## Runs of the main loop -/

/-- One thing the main loop does, with what the outside supplies for it: the job entry
and the answers of `waitpid` for a reaped job, the entry of a closed connection that is
dropped, the answers for a call of `startMatchJob`, the socket of an accepted
connection, the reads and the entry of a connection that is handled. -/
inductive Action where
  | reap (waitpid : Int → Int) (jobEntry : Nat)
  | drop (connEntry : Nat)
  | start (env : SchedEnv)
  | accept (sock : Nat)
  | handle (env : ConnEnv) (connEntry : Nat)

/-- The world after an action and the events of the action. `none` when the main loop
does not do that in this world (no such job or connection in the list, a connection
that is not closed for `drop` or that is closed for `handle`) or when the server
exits. -/
def act (R : Rng) (w : World) : Action → Option (World × List Event)
  | Action.reap waitpid a =>
    match w.serv.jobs.head.find? (fun e => e.addr == a) with
    | none => none
    | some e =>
      match checkIfJobFinished waitpid w.conf w.serv e.data with
      | none => none
      | some (job, allDone) =>
        let w1 : World :=
          { w with serv := { w.serv with
              jobs := LLPoolSetItem w.serv.jobs e.addr (fun _ => job) } }
        some (if allDone then finishedJob w1 e.addr else w1, [])
  | Action.drop a =>
    match w.serv.conns.head.find? (fun e => e.addr == a) with
    | none => none
    | some e =>
      if e.data.status = STATUS_CLOSED then
        some ({ w with serv := { w.serv with
                  conns := LLPoolRemoveEntry w.serv.conns e.addr } }, [])
      else none
  | Action.start env =>
    match startMatchJob R env w with
    | none => none
    | some (_, w1, evs) => some (w1, evs)
  | Action.accept sock => some ({ w with serv := addConnection w.serv sock }, [])
  | Action.handle env a =>
    match w.serv.conns.head.find? (fun e => e.addr == a) with
    | none => none
    | some e =>
      if e.data.status = STATUS_CLOSED then none
      else
        some ({ w with serv := (handleConnection R env w.conf w.serv e.addr).1 },
              (handleConnection R env w.conf w.serv e.addr).2.1)

/-- The match entry that an action dispatches: the entry of the job that a call of
`startMatchJob` returning 1 has added. -/
def dispatchedBy (R : Rng) (w : World) : Action → Option Nat
  | Action.start env =>
    match startMatchJob R env w with
    | none => none
    | some (r, w1, _) => if r = 1 then lastDispatched w1 else none
  | _ => none

/-- The match list has an entry at address `a`. -/
def linked (a : Nat) (w : World) : Bool :=
  w.serv.matches_.head.any (fun e => e.addr == a)

/-- The life of the match entry at address `a` along a sequence of actions: the world
at the end and, in order, the events of the actions that dispatched the entry. `none`
when an action is not done, when the server exits, or when the entry has left the match
list before the end (what is at that address later is another match). -/
def follow (R : Rng) (a : Nat) : World → List Action → Option (World × List (List Event))
  | w, [] => some (w, [])
  | w, α :: rest =>
    match act R w α with
    | none => none
    | some (w1, evs) =>
      if linked a w1 then
        match follow R a w1 rest with
        | none => none
        | some (w2, ds) => some (w2, if dispatchedBy R w α = some a then evs :: ds else ds)
      else none

/-- The seed argument of the dealer started by a dispatch: the fifth word of the
argument vector of the first event. -/
def refereeSeed (evs : List Event) : List Char :=
  match evs with
  | Event.exec _ argv _ :: _ => argv.getD 4 []
  | _ => []

/-- The `k`-th output (counted from 0) of the generator from the state `st`. -/
def drawn (R : Rng) : rng_state_t → Nat → Nat
  | st, 0 => (R.genrand_int32 st).1
  | st, k + 1 => drawn R (R.genrand_int32 st).2 k

/-! ## Connections and the matches that use them -/

/-- Every network seat of the match is bound to a connection of the connection list
whose status is `STATUS_OKAY`. -/
def SeatsOkay (conf : Config) (conns : LLPool Connection) (m : Match) : Prop :=
  ∀ p, p < conf.numPlayers m → (m.player p).isNetworkPlayer = true →
    ∃ c ∈ conns.head, (m.player p).entry = some c.addr ∧ c.data.status = STATUS_OKAY

/-- The invariant of the main loop on connections: the connection list is well formed,
every status is one of the three constants, and a match with runs left has its
network seats on connections that are logged on. -/
structure ConnInv (w : World) : Prop where
  connsWF : PoolWF w.serv.conns
  status : ∀ c ∈ w.serv.conns.head, c.data.status = STATUS_CLOSED ∨
    c.data.status = STATUS_UNVALIDATED ∨ c.data.status = STATUS_OKAY
  seats : ∀ e ∈ w.serv.matches_.head, 0 < e.data.numRuns →
    SeatsOkay w.conf w.serv.conns e.data

/-- `sampleLoggedOn` after alice has queued a match of two runs whose two seats are
bots. -/
def sampleBotsQueued : World :=
  { sampleLoggedOn with serv :=
      (handleConnection sampleRng
        (sampleConnEnv "RUNMATCHES holdem 2 bb 42 example example\n" 3) sampleLoggedOn.conf
        sampleLoggedOn.serv 0).1 }

/-- A call of `handleConnection` in which `getLine` returns 0: the peer has closed the
connection. -/
def sampleHangUp : ConnEnv :=
  { reads := [⟨0, []⟩], stack := default, now := ⟨4, 0⟩, beyond := 'x' }

/-- `sampleBotsQueued` after alice's connection has been closed. -/
def sampleBotsClosed : World :=
  { sampleBotsQueued with serv :=
      (handleConnection sampleRng sampleHangUp sampleBotsQueued.conf
        sampleBotsQueued.serv 0).1 }

/-! ## Users and logon -/

/-- The white-space separated tokens of a text, in order. -/
def splitWords (s : List Char) : List (List Char) :=
  (s.splitOnP isspace).filter (fun t => !t.isEmpty)

/-- `addUser`: the configuration with the user of the line `spec` added in front of the
pool, `now` being the clock reading for `waitStart`; `none` when the server exits (no
name and password on the line, or a user of that name exists). -/
def addUser (conf : Config) (spec : List Char) (now : timeval) : Option Config :=
  match scanStr spec with
  | none => none
  | some (name, rest) =>
    match scanStr rest with
    | none => none
    | some (passwd, _) =>
      if (findUser conf name).isSome then none
      else some { conf with users := ⟨name, passwd, now⟩ :: conf.users }

/-- No two users of the configuration have the same name (what `addUser` keeps). -/
def UsersDistinct (conf : Config) : Prop :=
  (conf.users.map (fun u => u.name)).Nodup

instance (conf : Config) : Decidable (UsersDistinct conf) := by
  unfold UsersDistinct; infer_instance

/-- The line starts with one of the command words `HELP`, `GAMES`, `QSTAT`, in any
letter case. -/
def isQuery (line : List Char) : Bool :=
  strncaseeq line "HELP".toList || strncaseeq line "GAMES".toList
    || strncaseeq line "QSTAT".toList

/-- What `handleConnection` writes for a line that starts with `HELP`, `GAMES` or
`QSTAT`. -/
def queryReply (env : ConnEnv) (conf : Config) (serv : ServerState) (fd : Nat)
    (line : List Char) : List Event :=
  if strncaseeq line "HELP".toList then writeHelpMessage fd env.beyond
  else if strncaseeq line "GAMES".toList then writeGameList conf fd
  else writeQueueStatus conf serv fd

/-- Two lines handed to one call of `handleConnection`. -/
def sampleTwoLines (l1 l2 : String) : ConnEnv :=
  { reads := [⟨l1.length, l1.toList⟩, ⟨l2.length, l2.toList⟩], stack := default,
    now := ⟨3, 0⟩, beyond := 'x' }

/-- No network seat of the match is bound to a connection whose status is
`STATUS_CLOSED`. -/
def seatsOpen (w : World) (m : Match) : Bool :=
  (List.range (w.conf.numPlayers m)).all (fun p =>
    !(m.player p).isNetworkPlayer ||
      (LLPoolGetItemAt w.serv.conns (m.player p).entry).status != STATUS_CLOSED)

/-- The connections of the match entry at address `a` stay open along a sequence of
actions: after each action, no network seat of the entry is bound to a closed
connection. -/
def openAlong (R : Rng) (a : Nat) : World → List Action → Bool
  | _, [] => true
  | w, α :: rest =>
    match act R w α with
    | none => true
    | some (w1, _) =>
      w1.serv.matches_.head.all (fun e => e.addr != a || seatsOpen w1 e.data)
        && openAlong R a w1 rest

/-- A run of the main loop on `sampleQueued`: the match is started, its job is reaped,
it is started again and that job is reaped too. -/
def sampleTwoRuns : List Action :=
  [Action.start (sampleSchedEnv 10), Action.reap (fun pid => pid) 0,
   Action.start (sampleSchedEnv 11), Action.reap (fun pid => pid) 0]

/-- `sampleLoggedOn` after alice has queued a match of no runs. -/
def sampleZeroRuns : World :=
  { sampleLoggedOn with serv :=
      (handleConnection sampleRng
        (sampleConnEnv "RUNMATCHES holdem 0 z0 42 LOCAL example\n" 3) sampleLoggedOn.conf
        sampleLoggedOn.serv 0).1 }

/-! ## The queue status in the words of the protocol -/

/-- The line of the `QSTAT` reply for one match as the protocol describes it:
`<user name> <tag> <gameFile> * <numRuns> <R|Q>` and a newline, with `R` for a match
whose `isRunning` flag is set and `Q` otherwise. -/
def specQstatLine (conf : Config) (m : Match) : List Char :=
  (conf.userAt m.user).name ++ ' ' :: (m.tag ++ ' ' ::
    ((conf.gameAt m.gameConf).gameFile ++ ' ' :: '*' :: ' ' ::
      (decimalInt m.numRuns ++ [' ', if m.isRunning = true then 'R' else 'Q', '\n'])))

/-- The `QSTAT` reply as the protocol describes it, one text per `write`: the single
line `Queue empty` when the match list has no entries, otherwise one line per match in
iteration order. -/
def specQueueReply (conf : Config) (serv : ServerState) : List (List Char) :=
  if serv.matches_.head = [] then ["Queue empty\n".toList]
  else serv.matches_.head.map (fun e => specQstatLine conf e.data)

/-! ## The seats of a job in the words of the protocol -/

/-- The job as `runMatchJob` has it before it calls `startDealer`. -/
def newJob (env : JobEnv) (conf : Config) (serv : ServerState) (matchEntry : Nat) :
    MatchJob :=
  { dealerPID := 0,
    botPID := List.replicate (conf.numPlayers (LLPoolGetItem serv.matches_ matchEntry)) 0,
    matchEntry := matchEntry,
    tag := snprintfN env.READBUF_LEN
      ((conf.userAt (LLPoolGetItem serv.matches_ matchEntry).user).name ++ ".".toList
        ++ (LLPoolGetItem serv.matches_ matchEntry).tag),
    ports := [] }

/-- Seat `q` of the match is a bot seat. -/
def isBotSeat (m : Match) (q : Nat) : Bool := !(m.player q).isNetworkPlayer

/-- The number of bot seats among the seats `0 .. p-1`. -/
def botIndex (m : Match) (p : Nat) : Int :=
  ((List.range p).filter (isBotSeat m)).length

/-- The two lines of the start notification of a network seat, one per `write`:
`# RUNNING <tag of the job>` and `RUN <hostname> <port>`. -/
def specStartLines (serv : ServerState) (job : MatchJob) (fd : Nat) (port : Nat) :
    List Event :=
  [Event.write fd ("# RUNNING ".toList ++ job.tag ++ "\n".toList),
   Event.write fd ("RUN ".toList ++ serv.hostname ++ " ".toList ++ decimal port
     ++ "\n".toList)]

/-- What the protocol says happens for seat `q` of a job that is started without a
failure: the two lines on the connection of a network seat; for a bot seat the bot
command with the arguments hostname, port and the number of bot seats before `q`. -/
def specSeatEvents (env : JobEnv) (conf : Config) (serv : ServerState) (m : Match)
    (job : MatchJob) (q : Nat) : List Event :=
  if (m.player q).isNetworkPlayer then
    specStartLines serv job (LLPoolGetItemAt serv.conns (m.player q).entry).connBuf
      (job.ports.getD q 0)
  else
    [Event.exec (conf.botAt m (m.player q).entry).command
      [(conf.botAt m (m.player q).entry).command, serv.hostname,
        decimal (job.ports.getD q 0), decimalInt (botIndex m q)] (env.botFork q)]

/-- Seat `q` goes well: both writes of the notification of a network seat are complete,
`fork` returns the pid of a child for a bot seat. -/
def seatOk (env : JobEnv) (serv : ServerState) (m : Match) (job : MatchJob) (q : Nat) :
    Bool :=
  if (m.player q).isNetworkPlayer then
    decide (¬ (sendStartMessage (env.written q) serv job
      (LLPoolGetItemAt serv.conns (m.player q).entry) (job.ports.getD q 0)).1 < 0)
  else decide (0 < env.botFork q)

/-- The array `botPID` after the seats `p .. p+k-1` have gone well. -/
def setPids (env : JobEnv) (m : Match) : Nat → Nat → List Int → List Int
  | 0, _, pids => pids
  | k + 1, p, pids =>
    setPids env m k (p + 1) (if (m.player p).isNetworkPlayer then pids
      else pids.set p (env.botFork p))

/-- The server state `startMatchJob` hands to `runMatchJob` for the chosen entry. -/
def jobServ (R : Rng) (w : World) (best : LLPoolEntry Match) : ServerState :=
  { w.serv with matches_ := seededPool R w best }

/-- A world with one queued match of alice whose seat 0 is the bot and whose seat 1 is
her connection. -/
def sampleBotFirst : World :=
  { conf := sampleConf,
    serv := sampleServ
      [⟨0, { sampleMatch 0 1 2 "bf" with players := [⟨false, some 0⟩, ⟨true, some 0⟩] }⟩] }

/-- A call of `startMatchJob` at second `t` in which every `write` returns 0. -/
def sampleShortWrite (t : Int) : SchedEnv :=
  { job := { sampleJobEnv with written := fun _ _ => 0 }, nowWait := ⟨t, 0⟩,
    nowQueue := ⟨t, 1⟩ }

/-- The match `runMatchJob` reads for the chosen entry. -/
def chosenMatch (R : Rng) (w : World) (best : LLPoolEntry Match) : Match :=
  LLPoolGetItem (jobServ R w best).matches_ best.addr

/-! ## Users, connections and the matches they own -/

/-- The invariant of the main loop on users: a connection that is logged on points at a
user of the configuration, every match of the list points at a user of the
configuration, and every network seat of a match with runs left is bound to a logged-on
connection of the list whose user is the user of the match. -/
structure UserInv (w : World) : Prop where
  okay : ∀ c ∈ w.serv.conns.head, c.data.status = STATUS_OKAY →
    ∃ u, c.data.user = some u ∧ u < w.conf.users.length
  owner : ∀ e ∈ w.serv.matches_.head, ∃ u, e.data.user = some u ∧ u < w.conf.users.length
  seats : ∀ e ∈ w.serv.matches_.head, 0 < e.data.numRuns →
    ∀ p, p < w.conf.numPlayers e.data → (e.data.player p).isNetworkPlayer = true →
      ∃ c ∈ w.serv.conns.head, (e.data.player p).entry = some c.addr ∧
        c.data.status = STATUS_OKAY ∧ c.data.user = e.data.user

/-! ## The argument list of the dealer in the words of the protocol -/

/-- The number of jobs of the jobs list whose match entry is the entry at address `a`. -/
def jobsOf (w : World) (a : Nat) : Nat :=
  (w.serv.jobs.head.filter (fun j => j.data.matchEntry == a)).length

/-- Every running match of the match list is the match of a job of the jobs list. -/
def RunInv (w : World) : Prop :=
  ∀ e ∈ w.serv.matches_.head, e.data.isRunning = true →
    ∃ j ∈ w.serv.jobs.head, j.data.matchEntry = e.addr

/-- A world with a cap of one running bot and two queued matches of alice: the match
queued first has two bot seats, the one queued after it has one. -/
def sampleOverCap : World :=
  { conf := { sampleConf with maxRunningBots := 1 },
    serv := sampleServ
      [⟨1, sampleMatch 0 1 3 "one"⟩,
       ⟨0, { sampleMatch 0 1 2 "two" with players := [⟨false, some 0⟩, ⟨false, some 0⟩] }⟩] }

/-! ## The pool at the level of its links

The functions of the pool once more, this time on the memory itself: every entry has its
two links, and `LLPoolRemoveEntry` is the sequence of reads, assertions and writes of
the source. The data bytes of an entry are not touched by these functions and are left
out. -/

/-- The links `next` and `prev` of an `LLPoolEntry`; NULL is `none`. -/
structure Ptr.Entry where
  next : Option Nat
  prev : Option Nat
deriving DecidableEq, Repr

/-- An `LLPool` in memory: the links of the entry at each address and the fields `head`,
`free` and `numEntries`. -/
structure Ptr.LLPool where
  links : Nat → Ptr.Entry
  head : Option Nat
  free : Option Nat
  numEntries : Int

/-- The write `a->next = v`. -/
def Ptr.setNext (links : Nat → Ptr.Entry) (a : Nat) (v : Option Nat) : Nat → Ptr.Entry :=
  fun x => if x = a then { links a with next := v } else links x

/-- The write `a->prev = v`. -/
def Ptr.setPrev (links : Nat → Ptr.Entry) (a : Nat) (v : Option Nat) : Nat → Ptr.Entry :=
  fun x => if x = a then { links a with prev := v } else links x

/-- `entryInList`: `none` when its assertion fails, or when the fuel is used up before
the end of the list is reached. -/
def Ptr.entryInList (links : Nat → Ptr.Entry) : Nat → Option Nat → Nat → Option Bool
  | _, none, _ => some false
  | 0, some _, _ => none
  | fuel + 1, some list, entry =>
    if entry = list then some true
    else
      match (links list).next with
      | some n =>
        if (links n).prev = some list then Ptr.entryInList links fuel (some n) entry
        else none
      | none => some false

/-- `LLPoolRemoveEntry` with its assertions: `none` when one of them fails. `fuel` is
the fuel of the walk of `entryInList` over the free list. -/
def Ptr.LLPoolRemoveEntry (fuel : Nat) (pool : Ptr.LLPool) (entry : Nat) :
    Option Ptr.LLPool :=
  let ok1 : Bool :=
    match (pool.links entry).prev with
    | some p => decide ((pool.links p).next = some entry)
    | none => decide (pool.head = some entry)
  let links1 :=
    match (pool.links entry).prev with
    | some p => Ptr.setNext pool.links p (pool.links entry).next
    | none => pool.links
  let head1 :=
    match (pool.links entry).prev with
    | some _ => pool.head
    | none => (pool.links entry).next
  let ok2 : Bool :=
    match (links1 entry).next with
    | some n => decide ((links1 n).prev = some entry)
    | none => true
  let links2 :=
    match (links1 entry).next with
    | some n => Ptr.setPrev links1 n (links1 entry).prev
    | none => links1
  let ok3 : Bool := Ptr.entryInList links2 fuel pool.free entry == some false
  let links3 :=
    match pool.free with
    | some f => Ptr.setPrev links2 f (some entry)
    | none => links2
  if ok1 && ok2 && ok3 then
    some { links := Ptr.setNext links3 entry pool.free, head := head1, free := some entry,
           numEntries := pool.numEntries - 1 }
  else none

/-- `LLPoolFirstEntry`. -/
def Ptr.LLPoolFirstEntry (pool : Ptr.LLPool) : Option Nat := pool.head

/-- `LLPoolNextEntry`. -/
def Ptr.LLPoolNextEntry (pool : Ptr.LLPool) (cur : Option Nat) : Option Nat :=
  match cur with
  | some c => (pool.links c).next
  | none => none

/-- The loop `for( cur = LLPoolFirstEntry( pool ); cur != NULL; cur = next )` whose
body reads `next = LLPoolNextEntry( cur )` first and then, for the entries chosen by
`del`, calls `LLPoolRemoveEntry( pool, cur )`. The result is the pool after the loop and
the entries visited, in order; `none` when an assertion fails or the fuel is used up. -/
def Ptr.walk (del : Nat → Bool) (afuel : Nat) :
    Nat → Option Nat → Ptr.LLPool → List Nat → Option (Ptr.LLPool × List Nat)
  | _, none, pool, seen => some (pool, seen)
  | 0, some _, _, _ => none
  | fuel + 1, some cur, pool, seen =>
    if del cur then
      match Ptr.LLPoolRemoveEntry afuel pool cur with
      | none => none
      | some pool1 =>
        Ptr.walk del afuel fuel (Ptr.LLPoolNextEntry pool (some cur)) pool1 (seen ++ [cur])
    else Ptr.walk del afuel fuel (Ptr.LLPoolNextEntry pool (some cur)) pool (seen ++ [cur])

/-- The entries reached from `start` by following `next`, at most `fuel` of them. -/
def Ptr.chain (links : Nat → Ptr.Entry) : Nat → Option Nat → List Nat
  | 0, _ => []
  | _ + 1, none => []
  | fuel + 1, some a => a :: Ptr.chain links fuel (links a).next

/-- The entries of the list `l` are linked one to the next: `next` of an entry is the
entry after it (NULL for the last), and `prev` of every entry but the first is the
entry before it. -/
def Ptr.Linked (links : Nat → Ptr.Entry) (l : List Nat) : Prop :=
  ∀ i, i < l.length →
    (links (l.getD i 0)).next = l[i + 1]? ∧
    (0 < i → (links (l.getD i 0)).prev = l[i - 1]?)

instance (links : Nat → Ptr.Entry) (l : List Nat) : Decidable (Ptr.Linked links l) := by
  unfold Ptr.Linked; infer_instance

/-- The pool is well formed, its list is `hs` and its free list is `fs`: the two chains
start at `head` and `free`, both are linked, `prev` of the first entry of the list is
NULL, no entry occurs twice, and `numEntries` is the length of the list. -/
def Ptr.Rep (pool : Ptr.LLPool) (hs fs : List Nat) : Prop :=
  pool.head = hs[0]? ∧ pool.free = fs[0]? ∧
  Ptr.Linked pool.links hs ∧ Ptr.Linked pool.links fs ∧
  (0 < hs.length → (pool.links (hs.getD 0 0)).prev = none) ∧
  (hs ++ fs).Nodup ∧ pool.numEntries = hs.length

instance (pool : Ptr.LLPool) (hs fs : List Nat) : Decidable (Ptr.Rep pool hs fs) := by
  unfold Ptr.Rep; infer_instance

/-- A pool with the list 10, 20, 30 and the free list 40, 50. -/
def Ptr.samplePool : Ptr.LLPool :=
  { links := fun a =>
      if a = 10 then ⟨some 20, none⟩
      else if a = 20 then ⟨some 30, some 10⟩
      else if a = 30 then ⟨none, some 20⟩
      else if a = 40 then ⟨some 50, some 7⟩
      else if a = 50 then ⟨none, some 40⟩
      else ⟨none, none⟩,
    head := some 10, free := some 40, numEntries := 3 }

/-! ## The scheduling pass -/

/-- The loop `while( startMatchJob( &conf, &serv ) );` of `main`, with `n` calls that
returned non-zero so far; `envs k` is what the outside supplies to the call after `k`
such calls. The result is `none` when the fuel is used up, `some none` when the server
exits inside a call, and otherwise the world after the call that returned 0 with the
number of calls that returned non-zero. -/
def schedulingPass (R : Rng) (envs : Nat → SchedEnv) :
    Nat → Nat → World → Option (Option (World × Nat))
  | 0, _, _ => none
  | fuel + 1, n, w =>
    match startMatchJob R (envs n) w with
    | none => some none
    | some (r, w1, _) =>
      if r ≠ 0 then schedulingPass R envs fuel (n + 1) w1 else some (some (w1, n))

/-- The number of matches of the match list that are not running. -/
def idle (w : World) : Nat :=
  (w.serv.matches_.head.filter (fun e => !e.data.isRunning)).length

theorem timeIsEarlier_iff (a b : timeval) : timeIsEarlier a b = true ↔ a.lt b := by
  unfold timeIsEarlier timeval.lt
  by_cases h1 : a.tv_sec < b.tv_sec
  · simp [h1]
  · by_cases h2 : a.tv_sec = b.tv_sec ∧ a.tv_usec < b.tv_usec
    · simp [h1, h2]
    · simp only [h1, h2, if_false, false_or]
      simp

theorem timeval.lt_irrefl (a : timeval) : ¬ a.lt a := by
  unfold timeval.lt; omega

theorem timeval.lt_trans {a b c : timeval} (h1 : a.lt b) (h2 : b.lt c) : a.lt c := by
  unfold timeval.lt at *; omega

theorem timeval.lt_asymm {a b : timeval} (h1 : a.lt b) : ¬ b.lt a := by
  unfold timeval.lt at *; omega

theorem timeval.eq_of_not_lt {a b : timeval} (h1 : ¬ a.lt b) (h2 : ¬ b.lt a) : a = b := by
  cases a; cases b
  unfold timeval.lt at *
  simp only [timeval.mk.injEq] at *
  omega

theorem takesOver_some_iff (conf : Config) (c : Match) (b : LLPoolEntry Match) :
    takesOver conf c (some b) = true ↔ Before conf c b.data := by
  unfold takesOver Before
  simp only [Bool.or_eq_true, Bool.and_eq_true, Bool.not_eq_true', timeIsEarlier_iff]
  rw [← Bool.not_eq_true, timeIsEarlier_iff]
  constructor
  · rintro (h | ⟨h1, h2⟩)
    · exact Or.inl h
    · by_cases h3 : (conf.userAt c.user).waitStart.lt (conf.userAt b.data.user).waitStart
      · exact Or.inl h3
      · exact Or.inr ⟨timeval.eq_of_not_lt h3 h1, h2⟩
  · rintro (h | ⟨h1, h2⟩)
    · exact Or.inl h
    · right
      refine ⟨?_, h2⟩
      rw [h1]
      exact timeval.lt_irrefl _

theorem Before.trans {conf : Config} {x y z : Match}
    (h1 : Before conf x y) (h2 : Before conf y z) : Before conf x z := by
  unfold Before at *
  rcases h1 with h1 | ⟨e1, q1⟩ <;> rcases h2 with h2 | ⟨e2, q2⟩
  · exact Or.inl (timeval.lt_trans h1 h2)
  · exact Or.inl (e2 ▸ h1)
  · exact Or.inl (e1 ▸ h2)
  · exact Or.inr ⟨e1.trans e2, timeval.lt_trans q1 q2⟩

theorem Before.asymm {conf : Config} {x y : Match} (h1 : Before conf x y) :
    ¬ Before conf y x := by
  unfold Before at *
  rintro (h2 | ⟨e2, q2⟩) <;> rcases h1 with h1 | ⟨e1, q1⟩
  · exact timeval.lt_asymm h1 h2
  · rw [e1] at h2; exact timeval.lt_irrefl _ h2
  · rw [e2] at h1; exact timeval.lt_irrefl _ h1
  · exact timeval.lt_asymm q1 q2

/-- If `x` goes before `y` and `z` does not go before `y`, then `x` goes before `z`. -/
theorem Before.of_not {conf : Config} {x y z : Match}
    (h1 : Before conf x y) (h2 : ¬ Before conf z y) : Before conf x z := by
  unfold Before at *
  simp only [not_or, not_and] at h2
  obtain ⟨h2a, h2b⟩ := h2
  by_cases hzy : (conf.userAt y.user).waitStart.lt (conf.userAt z.user).waitStart
  · rcases h1 with h1 | ⟨e1, _⟩
    · exact Or.inl (timeval.lt_trans h1 hzy)
    · exact Or.inl (e1 ▸ hzy)
  · have e := timeval.eq_of_not_lt h2a hzy
    rcases h1 with h1 | ⟨e1, q1⟩
    · exact Or.inl (e ▸ h1)
    · right
      refine ⟨e1.trans e.symm, ?_⟩
      have h3 := h2b e
      unfold timeval.lt at *
      omega

theorem selectLoop_snd (conf : Config) (l : List (LLPoolEntry Match)) (pool : LLPool Match)
    (best : Option (LLPoolEntry Match)) :
    (selectLoop conf l pool best).2 = pick conf l best := by
  induction l generalizing pool best with
  | nil => rfl
  | cons cur next ih =>
    simp only [selectLoop, pick]
    split_ifs <;> exact ih _ _

theorem eligible_iff (conf : Config) (m : Match) :
    Eligible conf m ↔
      (m.isRunning = false ∧ ¬ m.numRuns ≤ 0 ∧ gameBusy conf m = false) := by
  unfold Eligible gameBusy
  by_cases h0 : (conf.gameAt m.gameConf).maxRunningJobs = 0
  · simp [h0]
  · simp only [h0, false_or, ne_eq, not_false_eq_true, decide_True, Bool.true_and,
      decide_eq_false_iff_not, not_le, ge_iff_le]

theorem pick_step_not_eligible (conf : Config) (cur : LLPoolEntry Match)
    (next : List (LLPoolEntry Match)) (best : Option (LLPoolEntry Match))
    (h : ¬ Eligible conf cur.data) :
    pick conf (cur :: next) best = pick conf next best := by
  rw [eligible_iff] at h
  simp only [pick]
  split_ifs with h1 h2 h3 h4 <;> first | rfl | (exfalso; apply h; simp_all)

theorem pick_step_eligible (conf : Config) (cur : LLPoolEntry Match)
    (next : List (LLPoolEntry Match)) (best : Option (LLPoolEntry Match))
    (h : Eligible conf cur.data) :
    pick conf (cur :: next) best =
      if takesOver conf cur.data best then pick conf next (some cur)
      else pick conf next best := by
  rw [eligible_iff] at h
  obtain ⟨h1, h2, h3⟩ := h
  simp only [pick, h1, h2, h3, if_false, Bool.false_eq_true]

/-- The walk started with a candidate `b`: either `b` survives and nothing eligible in
the list goes before it, or the result sits in the list, goes before `b`, goes before
every eligible entry visited earlier and has no eligible entry after it that goes
before it. -/
theorem pick_some_spec (conf : Config) (l : List (LLPoolEntry Match))
    (b best : LLPoolEntry Match) (h : pick conf l (some b) = some best) :
    (best = b ∧ ∀ e ∈ l, Eligible conf e.data → ¬ Before conf e.data b.data) ∨
    (∃ pre post, l = pre ++ best :: post ∧ Eligible conf best.data ∧
      Before conf best.data b.data ∧
      (∀ e ∈ pre, Eligible conf e.data → Before conf best.data e.data) ∧
      (∀ e ∈ post, Eligible conf e.data → ¬ Before conf e.data best.data)) := by
  induction l generalizing b with
  | nil =>
    left
    simp only [pick, Option.some.injEq] at h
    exact ⟨h.symm, by simp⟩
  | cons cur next ih =>
    by_cases he : Eligible conf cur.data
    · rw [pick_step_eligible conf cur next _ he] at h
      by_cases ht : takesOver conf cur.data (some b) = true
      · rw [if_pos ht] at h
        have hcb := (takesOver_some_iff conf cur.data b).1 ht
        right
        rcases ih cur h with ⟨rfl, hall⟩ | ⟨pre, post, hl, hE, hB, hpre, hpost⟩
        · exact ⟨[], next, rfl, he, hcb, by simp, hall⟩
        · refine ⟨cur :: pre, post, by rw [hl]; rfl, hE, hB.trans hcb, ?_, hpost⟩
          intro e hmem hel
          rcases List.mem_cons.1 hmem with rfl | hmem
          · exact hB
          · exact hpre e hmem hel
      · rw [if_neg ht] at h
        have hcb : ¬ Before conf cur.data b.data :=
          fun hc => ht ((takesOver_some_iff conf cur.data b).2 hc)
        rcases ih b h with ⟨rfl, hall⟩ | ⟨pre, post, hl, hE, hB, hpre, hpost⟩
        · left
          refine ⟨rfl, ?_⟩
          intro e hmem hel
          rcases List.mem_cons.1 hmem with rfl | hmem
          · exact hcb
          · exact hall e hmem hel
        · right
          refine ⟨cur :: pre, post, by rw [hl]; rfl, hE, hB, ?_, hpost⟩
          intro e hmem hel
          rcases List.mem_cons.1 hmem with rfl | hmem
          · exact hB.of_not hcb
          · exact hpre e hmem hel
    · rw [pick_step_not_eligible conf cur next _ he] at h
      rcases ih b h with ⟨rfl, hall⟩ | ⟨pre, post, hl, hE, hB, hpre, hpost⟩
      · left
        refine ⟨rfl, ?_⟩
        intro e hmem hel
        rcases List.mem_cons.1 hmem with rfl | hmem
        · exact absurd hel he
        · exact hall e hmem hel
      · right
        refine ⟨cur :: pre, post, by rw [hl]; rfl, hE, hB, ?_, hpost⟩
        intro e hmem hel
        rcases List.mem_cons.1 hmem with rfl | hmem
        · exact absurd hel he
        · exact hpre e hmem hel

/-- The walk started without a candidate. -/
theorem pick_none_spec (conf : Config) (l : List (LLPoolEntry Match))
    (best : LLPoolEntry Match) (h : pick conf l none = some best) :
    ∃ pre post, l = pre ++ best :: post ∧ Eligible conf best.data ∧
      (∀ e ∈ pre, Eligible conf e.data → Before conf best.data e.data) ∧
      (∀ e ∈ post, Eligible conf e.data → ¬ Before conf e.data best.data) := by
  induction l with
  | nil => simp [pick] at h
  | cons cur next ih =>
    by_cases he : Eligible conf cur.data
    · rw [pick_step_eligible conf cur next _ he] at h
      have ht : takesOver conf cur.data none = true := rfl
      rw [if_pos ht] at h
      rcases pick_some_spec conf next cur best h with
        ⟨rfl, hall⟩ | ⟨pre, post, hl, hE, hB, hpre, hpost⟩
      · exact ⟨[], next, rfl, he, by simp, hall⟩
      · refine ⟨cur :: pre, post, by rw [hl]; rfl, hE, ?_, hpost⟩
        intro e hmem hel
        rcases List.mem_cons.1 hmem with rfl | hmem
        · exact hB
        · exact hpre e hmem hel
    · rw [pick_step_not_eligible conf cur next _ he] at h
      obtain ⟨pre, post, hl, hE, hpre, hpost⟩ := ih h
      refine ⟨cur :: pre, post, by rw [hl]; rfl, hE, ?_, hpost⟩
      intro e hmem hel
      rcases List.mem_cons.1 hmem with rfl | hmem
      · exact absurd hel he
      · exact hpre e hmem hel

/-- The walk finds nothing exactly when no entry is eligible. -/
theorem pick_none_iff (conf : Config) (l : List (LLPoolEntry Match)) :
    pick conf l none = none ↔ ∀ e ∈ l, ¬ Eligible conf e.data := by
  have key : ∀ (l : List (LLPoolEntry Match)) (b : LLPoolEntry Match),
      pick conf l (some b) ≠ none := by
    intro l
    induction l with
    | nil => intro b; simp [pick]
    | cons cur next ih =>
      intro b
      simp only [pick]
      split_ifs <;> exact ih _
  induction l with
  | nil => simp [pick]
  | cons cur next ih =>
    by_cases he : Eligible conf cur.data
    · rw [pick_step_eligible conf cur next _ he]
      have ht : takesOver conf cur.data none = true := rfl
      rw [if_pos ht]
      constructor
      · intro h; exact absurd h (key next cur)
      · intro h; exact absurd he (h cur (List.mem_cons_self _ _))
    · rw [pick_step_not_eligible conf cur next _ he]
      constructor
      · intro h e hmem
        rcases List.mem_cons.1 hmem with rfl | hmem
        · exact he
        · exact ih.1 h e hmem
      · intro h
        exact ih.2 (fun e hmem => h e (List.mem_cons_of_mem _ hmem))

/-- What a call of `startMatchJob` that returns has done, case by case. -/
theorem startMatchJob_cases (R : Rng) (env : SchedEnv) (w w1 : World) (r : Int)
    (evs : List Event) (h : startMatchJob R env w = some (r, w1, evs)) :
    (r = 0 ∧ w.serv.matches_.numEntries = 0 ∧ w1 = w ∧ evs = []) ∨
    (r = 0 ∧ w.serv.matches_.numEntries ≠ 0 ∧
      pick w.conf w.serv.matches_.head none = none ∧
      w1 = { w with serv := { w.serv with matches_ := gcPool w } } ∧ evs = []) ∨
    (r = 0 ∧ w.serv.matches_.numEntries ≠ 0 ∧
      (∃ best, pick w.conf w.serv.matches_.head none = some best ∧
        overBotCap w best.data) ∧
      w1 = { w with serv := { w.serv with matches_ := gcPool w } } ∧ evs = []) ∨
    (r = 1 ∧ w.serv.matches_.numEntries ≠ 0 ∧
      ∃ best job, pick w.conf w.serv.matches_.head none = some best ∧
        ¬ overBotCap w best.data ∧
        runMatchJob env.job w.conf { w.serv with matches_ := seededPool R w best }
          best.addr (jobSeed R best.data) = some (job, evs) ∧
        w1 = dispatched R env w best job) := by
  unfold startMatchJob at h
  by_cases h0 : w.serv.matches_.numEntries = 0
  · rw [if_pos h0] at h
    simp only [Option.some.injEq, Prod.mk.injEq] at h
    obtain ⟨rfl, rfl, rfl⟩ := h
    exact Or.inl ⟨rfl, h0, rfl, rfl⟩
  · rw [if_neg h0] at h
    right
    have hsel : selectLoop w.conf w.serv.matches_.head w.serv.matches_ none =
        (gcPool w, pick w.conf w.serv.matches_.head none) := by
      rw [← selectLoop_snd]; rfl
    rw [hsel] at h
    cases hp : pick w.conf w.serv.matches_.head none with
    | none =>
      rw [hp] at h
      simp only [Option.some.injEq, Prod.mk.injEq] at h
      obtain ⟨rfl, rfl, rfl⟩ := h
      exact Or.inl ⟨rfl, h0, rfl, rfl, rfl⟩
    | some best =>
      rw [hp] at h
      right
      simp only at h
      by_cases hcap : overBotCap w best.data
      · have hcap2 := hcap
        unfold overBotCap at hcap2
        rw [if_pos hcap2] at h
        simp only [Option.some.injEq, Prod.mk.injEq] at h
        obtain ⟨rfl, rfl, rfl⟩ := h
        exact Or.inl ⟨rfl, h0, ⟨best, rfl, hcap⟩, rfl, rfl⟩
      · have hcap2 := hcap
        unfold overBotCap at hcap2
        rw [if_neg hcap2] at h
        right
        cases hrun : runMatchJob env.job w.conf
            { w.serv with matches_ := seededPool R w best } best.addr
            (jobSeed R best.data) with
        | none =>
          unfold seededPool jobSeed at hrun
          rw [hrun] at h
          exact absurd h (by simp)
        | some res =>
          obtain ⟨job, evs1⟩ := res
          have hrun0 := hrun
          unfold seededPool jobSeed at hrun
          rw [hrun] at h
          simp only [Option.some.injEq, Prod.mk.injEq] at h
          obtain ⟨rfl, rfl, rfl⟩ := h
          exact ⟨rfl, h0, best, job, rfl, hcap, hrun0, rfl⟩

theorem LLPoolAddItem_head {α : Type} (pool : LLPool α) (item : α) :
    (LLPoolAddItem pool item).2.head = ⟨(LLPoolAddItem pool item).1, item⟩ :: pool.head := by
  unfold LLPoolAddItem
  cases pool.free <;> rfl

theorem runSeats_matchEntry (env : JobEnv) (conf : Config) (serv : ServerState) (m : Match)
    (k p : Nat) (bp : Int) (job job1 : MatchJob) (out evs : List Event)
    (h : runSeats env conf serv m k p bp job out = some (job1, evs)) :
    job1.matchEntry = job.matchEntry := by
  induction k generalizing p bp job out with
  | zero =>
    simp only [runSeats, Option.some.injEq, Prod.mk.injEq] at h
    rw [← h.1]
  | succ k ih =>
    simp only [runSeats] at h
    split at h
    · split at h
      · simp only [Option.some.injEq, Prod.mk.injEq] at h
        rw [← h.1]
      · exact ih _ _ _ _ h
    · split at h
      · exact absurd h (by simp)
      · exact (ih _ _ _ _ h).trans rfl

theorem runMatchJob_matchEntry (env : JobEnv) (conf : Config) (serv : ServerState)
    (a seed : Nat) (job : MatchJob) (evs : List Event)
    (h : runMatchJob env conf serv a seed = some (job, evs)) : job.matchEntry = a := by
  unfold runMatchJob at h
  simp only at h
  split at h
  · exact absurd h (by simp)
  · rename_i job1 evs1 hd
    have h1 := runSeats_matchEntry _ _ _ _ _ _ _ _ _ _ _ h
    rw [h1]
    unfold startDealer at hd
    split_ifs at hd
    split at hd
    · exact absurd hd (by simp)
    · simp only [Option.some.injEq, Prod.mk.injEq] at hd
      rw [← hd.1]

/-- **C1**: when `startMatchJob` dispatches (returns 1), the job it adds to the jobs
list is for an entry `best` of the match list that is eligible, that no eligible entry
of the list goes before (no strictly earlier `user.waitStart`, nor an equal one with a
strictly earlier `queueTime`), and that goes before every eligible entry visited
earlier: among the eligible entries that nothing goes before, it is the first in
iteration order. -/
theorem startMatchJob_dispatches_first_minimal (R : Rng) (env : SchedEnv) (w w1 : World)
    (evs : List Event) (h : startMatchJob R env w = some (1, w1, evs)) :
    ∃ pre best post job,
      w.serv.matches_.head = pre ++ best :: post ∧
      w1.serv.jobs.head = ⟨(LLPoolAddItem w.serv.jobs job).1, job⟩ :: w.serv.jobs.head ∧
      job.matchEntry = best.addr ∧
      Eligible w.conf best.data ∧
      (∀ e ∈ w.serv.matches_.head, Eligible w.conf e.data →
        ¬ Before w.conf e.data best.data) ∧
      (∀ e ∈ pre, Eligible w.conf e.data → Before w.conf best.data e.data) := by
  rcases startMatchJob_cases R env w w1 1 evs h with
    ⟨h0, _⟩ | ⟨h0, _⟩ | ⟨h0, _⟩ | ⟨_, _, best, job, hp, _, hrun, hw⟩
  · exact absurd h0 (by decide)
  · exact absurd h0 (by decide)
  · exact absurd h0 (by decide)
  · obtain ⟨pre, post, hl, hE, hpre, hpost⟩ := pick_none_spec _ _ _ hp
    refine ⟨pre, best, post, job, hl, ?_, runMatchJob_matchEntry _ _ _ _ _ _ _ hrun, hE,
      ?_, hpre⟩
    · rw [hw]
      exact LLPoolAddItem_head _ _
    · intro e hmem hel
      rw [hl] at hmem
      rcases List.mem_append.1 hmem with hm | hm
      · exact (hpre e hm hel).asymm
      · rcases List.mem_cons.1 hm with rfl | hm
        · intro hb; exact hb.asymm hb
        · exact hpost e hm hel

theorem startMatchJob_dispatches_first_minimal_witness :
    startMatchJob sampleRng (sampleSchedEnv 10) sampleWorld =
      some (1, ((startMatchJob sampleRng (sampleSchedEnv 10) sampleWorld).getD
                  (0, sampleWorld, [])).2) ∧
    ∃ pre best post job,
      sampleWorld.serv.matches_.head = pre ++ best :: post ∧
      ((startMatchJob sampleRng (sampleSchedEnv 10) sampleWorld).getD
          (0, sampleWorld, [])).2.1.serv.jobs.head
        = ⟨(LLPoolAddItem sampleWorld.serv.jobs job).1, job⟩ :: sampleWorld.serv.jobs.head ∧
      job.matchEntry = best.addr ∧
      Eligible sampleWorld.conf best.data ∧
      (∀ e ∈ sampleWorld.serv.matches_.head, Eligible sampleWorld.conf e.data →
        ¬ Before sampleWorld.conf e.data best.data) ∧
      (∀ e ∈ pre, Eligible sampleWorld.conf e.data → Before sampleWorld.conf best.data e.data) :=
  ⟨by rfl, startMatchJob_dispatches_first_minimal sampleRng (sampleSchedEnv 10) sampleWorld
    _ _ (by rfl)⟩

/-! ## Pools -/

theorem find_addr_split {α : Type} (pre post : List (LLPoolEntry α)) (e : LLPoolEntry α)
    (hn : ((pre ++ e :: post).map (fun x => x.addr)).Nodup) :
    (pre ++ e :: post).find? (fun x => x.addr == e.addr) = some e ∧
    (pre ++ e :: post).filter (fun x => x.addr != e.addr) = pre ++ post := by
  have hpre : ∀ x ∈ pre, x.addr ≠ e.addr := by
    intro x hx heq
    rw [List.map_append, List.nodup_append] at hn
    exact hn.2.2 (List.mem_map_of_mem _ hx) (by simp [heq])
  have hpost : ∀ x ∈ post, x.addr ≠ e.addr := by
    intro x hx heq
    rw [List.map_append, List.nodup_append] at hn
    have h2 := hn.2.1
    simp only [List.map_cons, List.nodup_cons, List.mem_map, not_exists, not_and] at h2
    exact h2.1 x hx heq
  constructor
  · rw [List.find?_append]
    have h1 : pre.find? (fun x => x.addr == e.addr) = none := by
      rw [List.find?_eq_none]
      intro x hx
      simpa using hpre x hx
    rw [h1]
    simp
  · rw [List.filter_append, List.filter_cons]
    have h1 : pre.filter (fun x => x.addr != e.addr) = pre := by
      rw [List.filter_eq_self]
      intro x hx
      simpa using hpre x hx
    have h2 : post.filter (fun x => x.addr != e.addr) = post := by
      rw [List.filter_eq_self]
      intro x hx
      simpa using hpost x hx
    rw [h1, h2]
    simp

theorem find_addr_of_mem {α : Type} (l : List (LLPoolEntry α)) (e : LLPoolEntry α)
    (hn : (l.map (fun x => x.addr)).Nodup) (he : e ∈ l) :
    l.find? (fun x => x.addr == e.addr) = some e := by
  obtain ⟨pre, post, rfl⟩ := List.append_of_mem he
  exact (find_addr_split pre post e hn).1

theorem PoolWF.nodup_head {α : Type} {pool : LLPool α} (h : PoolWF pool) :
    (pool.head.map (fun e => e.addr)).Nodup := by
  have := h.1
  rw [List.map_append, List.nodup_append] at this
  exact this.1

theorem PoolWF.eq_of_addr {α : Type} {pool : LLPool α} (h : PoolWF pool)
    {e1 e2 : LLPoolEntry α} (h1 : e1 ∈ pool.head) (h2 : e2 ∈ pool.head)
    (ha : e1.addr = e2.addr) : e1 = e2 := by
  have f1 := find_addr_of_mem _ _ h.nodup_head h1
  have f2 := find_addr_of_mem _ _ h.nodup_head h2
  rw [ha, f2] at f1
  exact (Option.some.inj f1).symm

theorem LLPoolGetItem_of_mem {α : Type} [Inhabited α] {pool : LLPool α} (h : PoolWF pool)
    {e : LLPoolEntry α} (he : e ∈ pool.head) : LLPoolGetItem pool e.addr = e.data := by
  unfold LLPoolGetItem
  rw [List.find?_append, find_addr_of_mem _ _ h.nodup_head he]
  rfl

theorem PoolWF_new (α : Type) : PoolWF (newLLPool α) := by
  unfold PoolWF newLLPool
  simp

theorem LLPoolAddItem_fresh {α : Type} {pool : LLPool α} (h : PoolWF pool) (item : α) :
    ∀ e ∈ pool.head, e.addr ≠ (LLPoolAddItem pool item).1 := by
  intro e he
  unfold LLPoolAddItem
  cases hf : pool.free with
  | nil =>
    simp only
    have := h.2.1 e (List.mem_append_left _ he)
    omega
  | cons f rest =>
    simp only
    intro heq
    have hn := h.1
    rw [hf, List.map_append, List.nodup_append] at hn
    exact hn.2.2 (List.mem_map_of_mem _ he) (by simp [heq])

theorem PoolWF_AddItem {α : Type} {pool : LLPool α} (h : PoolWF pool) (item : α) :
    PoolWF (LLPoolAddItem pool item).2 := by
  obtain ⟨hn, hb, hc⟩ := h
  unfold LLPoolAddItem
  cases hf : pool.free with
  | nil =>
    rw [hf] at hn hb
    simp only [List.append_nil] at hn hb
    refine ⟨?_, ?_, ?_⟩
    · simp only [hf, List.append_nil, List.map_cons, List.nodup_cons, List.mem_map,
        not_exists, not_and]
      refine ⟨?_, hn⟩
      intro x hx heq
      have := hb x hx
      omega
    · intro e he
      simp only [hf, List.append_nil, List.mem_cons] at he
      rcases he with rfl | he
      · simp
      · have := hb e he
        simp only
        omega
    · simp only [List.length_cons, hc]
      push_cast
      ring
  | cons f rest =>
    rw [hf] at hn hb
    refine ⟨?_, ?_, ?_⟩
    · simp only [List.cons_append, List.map_cons, List.nodup_cons]
      rw [List.map_append, List.nodup_append] at hn
      obtain ⟨h1, h2, h3⟩ := hn
      simp only [List.map_cons, List.nodup_cons] at h2
      refine ⟨?_, ?_⟩
      · rw [List.map_append, List.mem_append]
        rintro (hx | hx)
        · exact h3 hx (by simp)
        · exact h2.1 hx
      · rw [List.map_append, List.nodup_append]
        refine ⟨h1, h2.2, ?_⟩
        intro a ha1 ha2
        exact h3 ha1 (List.mem_cons_of_mem _ ha2)
    · intro e he
      simp only [List.cons_append, List.mem_cons, List.mem_append] at he
      rcases he with rfl | he | he
      · exact hb f (by simp)
      · exact hb e (by simp [he])
      · exact hb e (by simp [he])
    · simp only [List.length_cons, hc]
      push_cast
      ring

theorem map_update_addr {α : Type} (l : List (LLPoolEntry α)) (a : Nat) (f : α → α) :
    (l.map (fun e => if e.addr = a then (⟨e.addr, f e.data⟩ : LLPoolEntry α) else e)).map
        (fun e => e.addr)
      = l.map (fun e => e.addr) := by
  rw [List.map_map]
  apply List.map_congr_left
  intro e _
  simp only [Function.comp]
  split_ifs <;> rfl

theorem PoolWF_SetItem {α : Type} {pool : LLPool α} (h : PoolWF pool) (a : Nat)
    (f : α → α) : PoolWF (LLPoolSetItem pool a f) := by
  obtain ⟨hn, hb, hc⟩ := h
  unfold LLPoolSetItem
  refine ⟨?_, ?_, ?_⟩
  · simp only
    rw [List.map_append, map_update_addr, map_update_addr, ← List.map_append]
    exact hn
  · intro e he
    simp only [List.mem_append, List.mem_map] at he
    rcases he with ⟨x, hx, rfl⟩ | ⟨x, hx, rfl⟩
    · have := hb x (by simp [hx])
      split_ifs <;> exact this
    · have := hb x (by simp [hx])
      split_ifs <;> exact this
  · simp only [List.length_map]
    exact hc

theorem LLPoolRemoveEntry_of_mem {α : Type} {pool : LLPool α} (h : PoolWF pool)
    {e : LLPoolEntry α} (he : e ∈ pool.head) :
    LLPoolRemoveEntry pool e.addr =
      { pool with head := pool.head.filter (fun x => x.addr != e.addr),
                  free := e :: pool.free, numEntries := pool.numEntries - 1 } := by
  unfold LLPoolRemoveEntry
  rw [find_addr_of_mem _ _ h.nodup_head he]

theorem PoolWF_RemoveEntry {α : Type} {pool : LLPool α} (h : PoolWF pool)
    {e : LLPoolEntry α} (he : e ∈ pool.head) : PoolWF (LLPoolRemoveEntry pool e.addr) := by
  rw [LLPoolRemoveEntry_of_mem h he]
  have hh := h.nodup_head
  obtain ⟨hn, hb, hc⟩ := h
  obtain ⟨pre, post, hsplit⟩ := List.append_of_mem he
  rw [hsplit] at hh
  have hfil := (find_addr_split pre post e hh).2
  rw [← hsplit] at hfil
  refine ⟨?_, ?_, ?_⟩
  · simp only
    rw [hfil]
    rw [hsplit] at hn
    simp only [List.map_append, List.map_cons, List.append_assoc, List.cons_append] at hn ⊢
    have hperm : (List.map (fun e => e.addr) pre ++
          (e.addr :: (List.map (fun e => e.addr) post ++ List.map (fun e => e.addr) pool.free))).Perm
        (List.map (fun e => e.addr) pre ++
          (List.map (fun e => e.addr) post ++ e.addr :: List.map (fun e => e.addr) pool.free)) := by
      apply List.Perm.append_left
      exact (List.perm_middle).symm
    exact hperm.nodup_iff.1 hn
  · intro x hx
    simp only [List.mem_append, List.mem_filter, List.mem_cons] at hx
    rcases hx with ⟨hx, _⟩ | rfl | hx
    · exact hb x (by simp [hx])
    · exact hb x (by simp [he])
    · exact hb x (by simp [hx])
  · simp only
    rw [hfil, hc, hsplit]
    simp only [List.length_append, List.length_cons]
    push_cast
    ring

/-! ## The garbage collection of the second loop -/

theorem selectLoop_fst (conf : Config) (l pre : List (LLPoolEntry Match))
    (pool : LLPool Match) (best : Option (LLPoolEntry Match))
    (hw : PoolWF pool) (hh : pool.head = pre ++ l) :
    PoolWF (selectLoop conf l pool best).1 ∧
    (selectLoop conf l pool best).1.head = pre ++ l.filter keptByGc := by
  induction l generalizing pre pool best with
  | nil =>
    simp only [selectLoop, List.filter_nil]
    exact ⟨hw, hh⟩
  | cons cur next ih =>
    have hh2 : pool.head = (pre ++ [cur]) ++ next := by
      rw [hh]; simp
    by_cases hr : cur.data.isRunning = true
    · have hk : keptByGc cur = true := by simp [keptByGc, hr]
      simp only [selectLoop, hr, if_true, List.filter_cons, hk]
      have := ih (pre ++ [cur]) pool best hw hh2
      simpa using this
    · by_cases hn : cur.data.numRuns ≤ 0
      · have hk : keptByGc cur = false := by
          simp only [keptByGc, Bool.or_eq_false_iff, decide_eq_false_iff_not, not_lt]
          exact ⟨by simpa using hr, hn⟩
        simp only [selectLoop, hr, hn, if_true, if_false, List.filter_cons, hk,
          Bool.false_eq_true]
        have hmem : cur ∈ pool.head := by rw [hh]; simp
        have hw2 := PoolWF_RemoveEntry hw hmem
        have hhead : (LLPoolRemoveEntry pool cur.addr).head = pre ++ next := by
          rw [LLPoolRemoveEntry_of_mem hw hmem]
          simp only
          have hnd := hw.nodup_head
          rw [hh] at hnd ⊢
          exact (find_addr_split pre next cur hnd).2
        exact ih pre _ best hw2 hhead
      · have hk : keptByGc cur = true := by
          simp only [keptByGc, Bool.or_eq_true, decide_eq_true_eq]
          right; omega
        simp only [selectLoop, hr, hn, if_false, List.filter_cons, hk, if_true,
          Bool.false_eq_true]
        split_ifs
        · have := ih (pre ++ [cur]) pool best hw hh2
          simpa using this
        · have := ih (pre ++ [cur]) pool (some cur) hw hh2
          simpa using this
        · have := ih (pre ++ [cur]) pool best hw hh2
          simpa using this

theorem gcPool_WF (w : World) (hw : PoolWF w.serv.matches_) : PoolWF (gcPool w) :=
  (selectLoop_fst w.conf w.serv.matches_.head [] w.serv.matches_ none hw rfl).1

theorem gcPool_head (w : World) (hw : PoolWF w.serv.matches_) :
    (gcPool w).head = w.serv.matches_.head.filter keptByGc :=
  (selectLoop_fst w.conf w.serv.matches_.head [] w.serv.matches_ none hw rfl).2

/-! ## Preservation of the invariant -/

theorem LLPoolGetItem_SetItem {α : Type} [Inhabited α] (pool : LLPool α) (a x : Nat)
    (f : α → α) :
    LLPoolGetItem (LLPoolSetItem pool a f) x =
      match (pool.head ++ pool.free).find? (fun e => e.addr == x) with
      | some e => if e.addr = a then f e.data else e.data
      | none => default := by
  unfold LLPoolGetItem LLPoolSetItem
  simp only [← List.map_append, List.find?_map]
  have hcomp : ((fun e : LLPoolEntry α => e.addr == x) ∘
      fun e => if e.addr = a then (⟨e.addr, f e.data⟩ : LLPoolEntry α) else e)
      = fun e => e.addr == x := by
    funext e
    simp only [Function.comp]
    split_ifs <;> rfl
  rw [hcomp]
  cases (pool.head ++ pool.free).find? (fun e => e.addr == x) with
  | none => rfl
  | some e =>
    simp only [Option.map_some']
    split_ifs <;> rfl

theorem LLPoolGetItem_SetItem_field {α β : Type} [Inhabited α] (pool : LLPool α)
    (a x : Nat) (f : α → α) (proj : α → β) (hf : ∀ d, proj (f d) = proj d) :
    proj (LLPoolGetItem (LLPoolSetItem pool a f) x) = proj (LLPoolGetItem pool x) := by
  rw [LLPoolGetItem_SetItem]
  unfold LLPoolGetItem
  cases (pool.head ++ pool.free).find? (fun e => e.addr == x) with
  | none => rfl
  | some e =>
    simp only
    split_ifs
    · exact hf _
    · rfl

theorem LLPoolGetItem_SetItem_self {α : Type} [Inhabited α] (pool : LLPool α) (a : Nat)
    (f : α → α) (h : (pool.head ++ pool.free).find? (fun e => e.addr == a) ≠ none) :
    LLPoolGetItem (LLPoolSetItem pool a f) a = f (LLPoolGetItem pool a) := by
  rw [LLPoolGetItem_SetItem]
  unfold LLPoolGetItem
  cases hf : (pool.head ++ pool.free).find? (fun e => e.addr == a) with
  | none => exact absurd hf h
  | some e =>
    have := List.find?_some hf
    simp only [beq_iff_eq] at this
    simp [this]

theorem botsInMatch_congr (conf conf1 : Config) (m m1 : Match)
    (hg : ∀ g, (conf1.gameAt g).game = (conf.gameAt g).game)
    (h1 : m1.gameConf = m.gameConf) (h2 : m1.players = m.players) :
    botsInMatch conf1 m1 = botsInMatch conf m := by
  unfold botsInMatch Config.numPlayers Match.player
  rw [h1, h2, hg]

theorem Keeps.keeps_refl (P : LLPool Match) : Keeps P P :=
  fun e he hr => ⟨e, he, rfl, hr, rfl, rfl⟩

theorem Keeps.keeps_trans {P Q S : LLPool Match} (h1 : Keeps P Q) (h2 : Keeps Q S) :
    Keeps P S := by
  intro e he hr
  obtain ⟨e1, he1, ha1, hr1, hg1, hp1⟩ := h1 e he hr
  obtain ⟨e2, he2, ha2, hr2, hg2, hp2⟩ := h2 e1 he1 hr1
  exact ⟨e2, he2, ha2.trans ha1, hr2, hg2.trans hg1, hp2.trans hp1⟩

theorem Keeps.of_map {P Q : LLPool Match} (g : LLPoolEntry Match → LLPoolEntry Match)
    (hq : Q.head = P.head.map g)
    (hg : ∀ e, (g e).addr = e.addr ∧ (g e).data.isRunning = e.data.isRunning ∧
      (g e).data.gameConf = e.data.gameConf ∧ (g e).data.players = e.data.players) :
    Keeps P Q := by
  intro e he hr
  refine ⟨g e, ?_, (hg e).1, ?_, (hg e).2.2.1, (hg e).2.2.2⟩
  · rw [hq]; exact List.mem_map_of_mem _ he
  · rw [(hg e).2.1]; exact hr

theorem Keeps.setItem (P : LLPool Match) (a : Nat) (f : Match → Match)
    (hf : ∀ m, (f m).isRunning = m.isRunning ∧ (f m).gameConf = m.gameConf ∧
      (f m).players = m.players) :
    Keeps P (LLPoolSetItem P a f) := by
  apply Keeps.of_map (fun e => if e.addr = a then ⟨e.addr, f e.data⟩ else e) rfl
  intro e
  split_ifs
  · exact ⟨rfl, (hf _).1, (hf _).2.1, (hf _).2.2⟩
  · exact ⟨rfl, rfl, rfl, rfl⟩

theorem Keeps.gc (w : World) (hw : PoolWF w.serv.matches_) :
    Keeps w.serv.matches_ (gcPool w) := by
  intro e he hr
  refine ⟨e, ?_, rfl, hr, rfl, rfl⟩
  rw [gcPool_head w hw, List.mem_filter]
  exact ⟨he, by simp [keptByGc, hr]⟩

theorem Keeps.addItem (P : LLPool Match) (item : Match) :
    Keeps P (LLPoolAddItem P item).2 := by
  intro e he hr
  refine ⟨e, ?_, rfl, hr, rfl, rfl⟩
  rw [LLPoolAddItem_head]
  exact List.mem_cons_of_mem _ he

/-- The match of a job, read through the pointer, is the same for the game and the
seats after a change of the match list that keeps the running matches. -/
theorem Inv.lookup_keeps {w : World} (hi : Inv w) {Q : LLPool Match} (hq : PoolWF Q)
    (hk : Keeps w.serv.matches_ Q) (j : LLPoolEntry MatchJob) (hj : j ∈ w.serv.jobs.head) :
    (LLPoolGetItem Q j.data.matchEntry).gameConf =
        (LLPoolGetItem w.serv.matches_ j.data.matchEntry).gameConf ∧
    (LLPoolGetItem Q j.data.matchEntry).players =
        (LLPoolGetItem w.serv.matches_ j.data.matchEntry).players := by
  obtain ⟨e, he, ha, hr⟩ := hi.jobMatch j hj
  obtain ⟨e1, he1, ha1, _, hg1, hp1⟩ := hk e he hr
  rw [← ha, LLPoolGetItem_of_mem hi.matchesWF he, ← ha1, LLPoolGetItem_of_mem hq he1]
  exact ⟨hg1, hp1⟩

/-- A step that leaves the jobs list, the games and the bot cap alone and keeps the
running matches preserves the invariant. -/
theorem Inv.of_keeps {w w1 : World} (hi : Inv w)
    (hjobs : w1.serv.jobs = w.serv.jobs)
    (hgames : w1.conf.games = w.conf.games)
    (hmax : w1.conf.maxRunningBots = w.conf.maxRunningBots)
    (hq : PoolWF w1.serv.matches_)
    (hk : Keeps w.serv.matches_ w1.serv.matches_)
    (hgv : ∀ e ∈ w1.serv.matches_.head, e.data.gameConf < w.conf.games.length) :
    Inv w1 := by
  have hgame : ∀ g, w1.conf.gameAt g = w.conf.gameAt g := by
    intro g; unfold Config.gameAt; rw [hgames]
  have hcount : ∀ g, jobsOfGame w1 g = jobsOfGame w g := by
    intro g
    unfold jobsOfGame
    rw [hjobs]
    congr 1
    apply List.filter_congr
    intro j hj
    rw [(hi.lookup_keeps hq hk j hj).1]
  have hbots : runningBots w1 = runningBots w := by
    unfold runningBots
    rw [hjobs]
    congr 1
    apply List.map_congr_left
    intro j hj
    exact botsInMatch_congr _ _ _ _ (fun g => by rw [hgame])
      (hi.lookup_keeps hq hk j hj).1 (hi.lookup_keeps hq hk j hj).2
  refine ⟨hq, hjobs ▸ hi.jobsWF, ?_, hjobs ▸ hi.jobsDistinct, ?_, ?_, ?_, ?_⟩
  · intro j hj
    rw [hjobs] at hj
    obtain ⟨e, he, ha, hr⟩ := hi.jobMatch j hj
    obtain ⟨e1, he1, ha1, hr1, _, _⟩ := hk e he hr
    exact ⟨e1, he1, ha1.trans ha, hr1⟩
  · intro e he
    rw [hgames]
    exact hgv e he
  · intro g hg
    rw [hgames] at hg
    rw [hgame, hcount]
    exact hi.counters g hg
  · intro g hg
    rw [hgames] at hg
    rw [hgame]
    exact hi.caps g hg
  · rw [hmax, hbots]
    exact hi.bots

theorem Config.addRunningJobs_length (conf : Config) (g : Nat) (d : Int) :
    (conf.addRunningJobs g d).games.length = conf.games.length := by
  unfold Config.addRunningJobs
  simp

theorem Config.addRunningJobs_gameAt (conf : Config) (g x : Nat) (d : Int) :
    (conf.addRunningJobs g d).gameAt x =
      if x = g ∧ g < conf.games.length then
        { conf.gameAt g with curRunningJobs := (conf.gameAt g).curRunningJobs + d }
      else conf.gameAt x := by
  unfold Config.addRunningJobs Config.gameAt
  simp only [List.getD_eq_getElem?_getD, List.getElem?_set]
  by_cases h1 : g = x
  · subst h1
    by_cases h2 : g < conf.games.length
    · simp [h2]
    · have h3 : conf.games[g]? = none := List.getElem?_eq_none (by omega)
      simp [h2, h3]
  · have h3 : ¬ (x = g ∧ g < conf.games.length) := fun h => h1 h.1.symm
    simp [h1, h3]

theorem Config.addRunningJobs_game (conf : Config) (g x : Nat) (d : Int) :
    ((conf.addRunningJobs g d).gameAt x).game = (conf.gameAt x).game := by
  rw [Config.addRunningJobs_gameAt]
  split_ifs with h
  · rw [h.1]
  · rfl

theorem Config.addRunningJobs_max (conf : Config) (g x : Nat) (d : Int) :
    ((conf.addRunningJobs g d).gameAt x).maxRunningJobs = (conf.gameAt x).maxRunningJobs := by
  rw [Config.addRunningJobs_gameAt]
  split_ifs with h
  · rw [h.1]
  · rfl

theorem Config.addRunningJobs_cur (conf : Config) (g x : Nat) (d : Int)
    (hg : g < conf.games.length) :
    ((conf.addRunningJobs g d).gameAt x).curRunningJobs =
      (conf.gameAt x).curRunningJobs + (if x = g then d else 0) := by
  rw [Config.addRunningJobs_gameAt]
  by_cases h : x = g
  · subst h
    simp [hg]
  · simp [h]

theorem Config.setWaitStart_games (conf : Config) (u : Option Nat) (now : timeval) :
    (conf.setWaitStart u now).games = conf.games := by
  unfold Config.setWaitStart
  cases u <;> rfl

theorem Config.setWaitStart_maxRunningBots (conf : Config) (u : Option Nat)
    (now : timeval) :
    (conf.setWaitStart u now).maxRunningBots = conf.maxRunningBots := by
  unfold Config.setWaitStart
  cases u <;> rfl

/-- A job of the jobs list never points at a match that is not running. -/
theorem Inv.job_ne {w : World} (hi : Inv w) {b : LLPoolEntry Match}
    (hb : b ∈ w.serv.matches_.head) (hnr : b.data.isRunning = false)
    (j : LLPoolEntry MatchJob) (hj : j ∈ w.serv.jobs.head) :
    j.data.matchEntry ≠ b.addr := by
  intro heq
  obtain ⟨e, he, ha, hr⟩ := hi.jobMatch j hj
  have := hi.matchesWF.eq_of_addr he hb (ha.trans heq)
  rw [this, hnr] at hr
  exact absurd hr (by decide)

/-- The heart of a dispatch: a match that is not running is marked running, a job for
it is added, and the counter of its game goes up by one. -/
theorem Inv.dispatch {w : World} (hi : Inv w) (b : LLPoolEntry Match)
    (hb : b ∈ w.serv.matches_.head) (hnr : b.data.isRunning = false)
    (job : MatchJob) (hjob : job.matchEntry = b.addr) (f : Match → Match)
    (hf : ∀ m, (f m).isRunning = true ∧ (f m).gameConf = m.gameConf ∧
      (f m).players = m.players)
    (hcap : (w.conf.gameAt b.data.gameConf).maxRunningJobs ≠ 0 →
      (w.conf.gameAt b.data.gameConf).curRunningJobs
        < ((w.conf.gameAt b.data.gameConf).maxRunningJobs : Int))
    (hbots : w.conf.maxRunningBots ≠ 0 →
      botsInMatch w.conf b.data + runningBots w ≤ (w.conf.maxRunningBots : Int)) :
    Inv { conf := w.conf.addRunningJobs b.data.gameConf 1,
          serv := { w.serv with
            matches_ := LLPoolSetItem w.serv.matches_ b.addr f,
            jobs := (LLPoolAddItem w.serv.jobs job).2 } } := by
  have hgb : b.data.gameConf < w.conf.games.length := hi.gameValid b hb
  have k1 := fun j hj => hi.job_ne hb hnr j hj
  have k2g : ∀ x, (LLPoolGetItem (LLPoolSetItem w.serv.matches_ b.addr f) x).gameConf
      = (LLPoolGetItem w.serv.matches_ x).gameConf :=
    fun x => LLPoolGetItem_SetItem_field _ _ _ _ (fun m => m.gameConf) (fun d => (hf d).2.1)
  have k2p : ∀ x, (LLPoolGetItem (LLPoolSetItem w.serv.matches_ b.addr f) x).players
      = (LLPoolGetItem w.serv.matches_ x).players :=
    fun x => LLPoolGetItem_SetItem_field _ _ _ _ (fun m => m.players) (fun d => (hf d).2.2)
  have k3 : LLPoolGetItem w.serv.matches_ b.addr = b.data :=
    LLPoolGetItem_of_mem hi.matchesWF hb
  refine ⟨PoolWF_SetItem hi.matchesWF _ _, PoolWF_AddItem hi.jobsWF _, ?_, ?_, ?_, ?_, ?_, ?_⟩
  · intro j hj
    simp only [LLPoolAddItem_head, List.mem_cons] at hj
    rcases hj with rfl | hj
    · refine ⟨⟨b.addr, f b.data⟩, ?_, hjob.symm, (hf _).1⟩
      simp only [LLPoolSetItem, List.mem_map]
      exact ⟨b, hb, by simp⟩
    · obtain ⟨e, he, ha, hr⟩ := hi.jobMatch j hj
      refine ⟨e, ?_, ha, hr⟩
      simp only [LLPoolSetItem, List.mem_map]
      refine ⟨e, he, ?_⟩
      rw [if_neg]
      rw [ha]
      exact k1 j hj
  · simp only [LLPoolAddItem_head, List.map_cons, List.nodup_cons, List.mem_map, not_exists,
      not_and]
    refine ⟨?_, hi.jobsDistinct⟩
    intro j hj heq
    exact k1 j hj (heq.trans hjob)
  · intro e he
    simp only [LLPoolSetItem, List.mem_map] at he
    obtain ⟨x, hx, rfl⟩ := he
    rw [Config.addRunningJobs_length]
    split_ifs
    · simp only [(hf _).2.1]; exact hi.gameValid x hx
    · exact hi.gameValid x hx
  · intro g hg
    rw [Config.addRunningJobs_length] at hg
    rw [Config.addRunningJobs_cur _ _ _ _ hgb, hi.counters g hg]
    unfold jobsOfGame
    simp only [LLPoolAddItem_head, List.filter_cons, k2g, hjob, k3]
    by_cases h : b.data.gameConf = g
    · subst h
      simp only [beq_self_eq_true, if_true, List.length_cons]
      push_cast
      ring
    · have h2 : ¬ g = b.data.gameConf := fun x => h x.symm
      have h3 : (b.data.gameConf == g) = false := by simpa using h
      simp only [h3, h2, if_false, Bool.false_eq_true, add_zero]
  · intro g hg hmax
    rw [Config.addRunningJobs_length] at hg
    rw [Config.addRunningJobs_max] at hmax ⊢
    rw [Config.addRunningJobs_cur _ _ _ _ hgb]
    by_cases h : g = b.data.gameConf
    · subst h
      have := hcap hmax
      simp only [if_true]
      omega
    · have := hi.caps g hg hmax
      simp only [h, if_false]
      omega
  · intro hmax
    have hmax1 : w.conf.maxRunningBots ≠ 0 := hmax
    have hB : ∀ x, botsInMatch (w.conf.addRunningJobs b.data.gameConf 1)
        (LLPoolGetItem (LLPoolSetItem w.serv.matches_ b.addr f) x)
        = botsInMatch w.conf (LLPoolGetItem w.serv.matches_ x) := by
      intro x
      apply botsInMatch_congr
      · intro g; exact Config.addRunningJobs_game _ _ _ _
      · rw [k2g]
      · rw [k2p]
    have := hbots hmax1
    unfold runningBots at this ⊢
    simp only [LLPoolAddItem_head, List.map_cons, List.sum_cons, hB, hjob, k3]
    exact this

theorem nodup_map_middle {α β : Type} (g : α → β) (pre post : List α) (e : α)
    (h : ((pre ++ e :: post).map g).Nodup) :
    (∀ x ∈ pre ++ post, g x ≠ g e) ∧ ((pre ++ post).map g).Nodup := by
  rw [List.map_append, List.map_cons, List.nodup_middle, List.nodup_cons,
    ← List.map_append] at h
  refine ⟨?_, h.2⟩
  intro x hx heq
  exact h.1 (heq ▸ List.mem_map_of_mem g hx)

theorem botsInMatch_nonneg (conf : Config) (m : Match) : 0 ≤ botsInMatch conf m := by
  unfold botsInMatch
  exact Int.natCast_nonneg _

/-- `checkIfJobFinished` only writes pids: a job of the list keeps its match. -/
theorem Inv.updateJob {w : World} (hi : Inv w) (e : LLPoolEntry MatchJob)
    (he : e ∈ w.serv.jobs.head) (job : MatchJob)
    (hjob : job.matchEntry = e.data.matchEntry) :
    Inv { w with serv := { w.serv with
      jobs := LLPoolSetItem w.serv.jobs e.addr (fun _ => job) } } := by
  have hupd : ∀ x ∈ w.serv.jobs.head,
      (if x.addr = e.addr then (⟨x.addr, job⟩ : LLPoolEntry MatchJob) else x).data.matchEntry
        = x.data.matchEntry := by
    intro x hx
    split_ifs with h
    · rw [hi.jobsWF.eq_of_addr hx he h]
      exact hjob
    · rfl
  have hmapE : (LLPoolSetItem w.serv.jobs e.addr (fun _ => job)).head.map
        (fun j => j.data.matchEntry) = w.serv.jobs.head.map (fun j => j.data.matchEntry) := by
    simp only [LLPoolSetItem, List.map_map]
    apply List.map_congr_left
    intro x hx
    exact hupd x hx
  refine ⟨hi.matchesWF, PoolWF_SetItem hi.jobsWF _ _, ?_, ?_, hi.gameValid, ?_, hi.caps, ?_⟩
  · intro j hj
    simp only [LLPoolSetItem, List.mem_map] at hj
    obtain ⟨x, hx, rfl⟩ := hj
    rw [hupd x hx]
    exact hi.jobMatch x hx
  · rw [hmapE]
    exact hi.jobsDistinct
  · intro g hg
    rw [hi.counters g hg]
    unfold jobsOfGame
    simp only [LLPoolSetItem, List.filter_map, List.length_map]
    congr 2
    apply List.filter_congr
    intro x hx
    simp only [Function.comp, hupd x hx]
  · intro hmax
    have := hi.bots hmax
    unfold runningBots at this ⊢
    simp only [LLPoolSetItem, List.map_map]
    have hc : List.map ((fun j : LLPoolEntry MatchJob =>
          botsInMatch w.conf (LLPoolGetItem w.serv.matches_ j.data.matchEntry)) ∘
          fun e1 => if e1.addr = e.addr then (⟨e1.addr, job⟩ : LLPoolEntry MatchJob) else e1)
          w.serv.jobs.head
        = List.map (fun j => botsInMatch w.conf
            (LLPoolGetItem w.serv.matches_ j.data.matchEntry)) w.serv.jobs.head := by
      apply List.map_congr_left
      intro x hx
      simp only [Function.comp, hupd x hx]
    rw [hc]
    exact this

/-- `finishedJob` on a job of the list preserves the invariant. -/
theorem Inv.finish {w : World} (hi : Inv w) (e : LLPoolEntry MatchJob)
    (he : e ∈ w.serv.jobs.head) : Inv (finishedJob w e.addr) := by
  obtain ⟨em, hem, hema, hemr⟩ := hi.jobMatch e he
  have hjob : LLPoolGetItem w.serv.jobs e.addr = e.data := LLPoolGetItem_of_mem hi.jobsWF he
  have hm : LLPoolGetItem w.serv.matches_ e.data.matchEntry = em.data := by
    rw [← hema]; exact LLPoolGetItem_of_mem hi.matchesWF hem
  have hgm : em.data.gameConf < w.conf.games.length := hi.gameValid em hem
  obtain ⟨pre, post, hsplit⟩ := List.append_of_mem he
  have hnd := hi.jobsWF.nodup_head
  rw [hsplit] at hnd
  have hrem : (LLPoolRemoveEntry w.serv.jobs e.addr).head = pre ++ post := by
    rw [LLPoolRemoveEntry_of_mem hi.jobsWF he]
    simp only
    rw [hsplit]
    exact (find_addr_split pre post e hnd).2
  have hdist := hi.jobsDistinct
  rw [hsplit] at hdist
  obtain ⟨hne, hnd2⟩ := nodup_map_middle (fun j : LLPoolEntry MatchJob => j.data.matchEntry)
    pre post e hdist
  have hsub : ∀ x ∈ pre ++ post, x ∈ w.serv.jobs.head := by
    intro x hx
    rw [hsplit]
    simp only [List.mem_append, List.mem_cons] at hx ⊢
    tauto
  have k2g : ∀ x, (LLPoolGetItem (LLPoolSetItem w.serv.matches_ e.data.matchEntry
        (fun x => { x with isRunning := false })) x).gameConf
      = (LLPoolGetItem w.serv.matches_ x).gameConf :=
    fun x => LLPoolGetItem_SetItem_field w.serv.matches_ _ x
      (fun m : Match => { m with isRunning := false }) (fun m : Match => m.gameConf)
      (fun _ => rfl)
  have k2p : ∀ x, (LLPoolGetItem (LLPoolSetItem w.serv.matches_ e.data.matchEntry
        (fun x => { x with isRunning := false })) x).players
      = (LLPoolGetItem w.serv.matches_ x).players :=
    fun x => LLPoolGetItem_SetItem_field w.serv.matches_ _ x
      (fun m : Match => { m with isRunning := false }) (fun m : Match => m.players)
      (fun _ => rfl)
  unfold finishedJob
  simp only [hjob, hm]
  refine ⟨PoolWF_SetItem hi.matchesWF _ _, PoolWF_RemoveEntry hi.jobsWF he, ?_, ?_, ?_, ?_,
    ?_, ?_⟩
  · intro j hj
    simp only [hrem] at hj
    obtain ⟨ej, hej, ha, hr⟩ := hi.jobMatch j (hsub j hj)
    refine ⟨ej, ?_, ha, hr⟩
    simp only [LLPoolSetItem, List.mem_map]
    refine ⟨ej, hej, ?_⟩
    rw [if_neg]
    rw [ha]
    exact hne j hj
  · simp only [hrem]
    exact hnd2
  · intro x hx
    simp only [LLPoolSetItem, List.mem_map] at hx
    obtain ⟨y, hy, rfl⟩ := hx
    rw [Config.addRunningJobs_length]
    split_ifs
    · exact hi.gameValid y hy
    · exact hi.gameValid y hy
  · intro g hg
    rw [Config.addRunningJobs_length] at hg
    rw [Config.addRunningJobs_cur _ _ _ _ hgm, hi.counters g hg]
    unfold jobsOfGame
    simp only [hrem, k2g]
    rw [hsplit]
    simp only [List.filter_append, List.filter_cons, hm, List.length_append]
    by_cases h : em.data.gameConf = g
    · subst h
      simp only [beq_self_eq_true, if_true, List.length_cons]
      push_cast
      ring
    · have h2 : ¬ g = em.data.gameConf := fun x => h x.symm
      have h3 : (em.data.gameConf == g) = false := by simpa using h
      simp only [h3, h2, if_false, Bool.false_eq_true, add_zero]
  · intro g hg hmax
    rw [Config.addRunningJobs_length] at hg
    rw [Config.addRunningJobs_max] at hmax ⊢
    rw [Config.addRunningJobs_cur _ _ _ _ hgm]
    have := hi.caps g hg hmax
    split_ifs <;> omega
  · intro hmax
    have hmax1 : w.conf.maxRunningBots ≠ 0 := hmax
    have hB : ∀ x, botsInMatch (w.conf.addRunningJobs em.data.gameConf (-1))
        (LLPoolGetItem (LLPoolSetItem w.serv.matches_ e.data.matchEntry
          (fun x => { x with isRunning := false })) x)
        = botsInMatch w.conf (LLPoolGetItem w.serv.matches_ x) := by
      intro x
      apply botsInMatch_congr
      · intro g; exact Config.addRunningJobs_game _ _ _ _
      · rw [k2g]
      · rw [k2p]
    have := hi.bots hmax1
    unfold runningBots at this ⊢
    simp only [hrem, hB]
    rw [hsplit] at this
    simp only [List.map_append, List.map_cons, List.sum_append, List.sum_cons] at this ⊢
    have hnn := botsInMatch_nonneg w.conf (LLPoolGetItem w.serv.matches_ e.data.matchEntry)
    have hmaxeq : (w.conf.addRunningJobs em.data.gameConf (-1)).maxRunningBots
        = w.conf.maxRunningBots := rfl
    rw [hmaxeq]
    omega

/-! ## What `parseMatchSpec` leaves behind -/

theorem findGame_lt (conf : Config) (name : List Char) (g : Nat)
    (h : findGame conf name = some g) : g < conf.games.length := by
  unfold findGame at h
  simp only at h
  split_ifs at h with h1
  simp only [Option.some.injEq] at h
  omega

theorem Match.setPlayer_gameConf (m : Match) (p : Nat) (v : Player) :
    (m.setPlayer p v).gameConf = m.gameConf := rfl

theorem parseSeats_gameConf (conf : Config) (connEntry k p : Nat) (spec : List Char)
    (m : Match) : (parseSeats conf connEntry k p spec m).2.gameConf = m.gameConf := by
  induction k generalizing p spec m with
  | zero => rfl
  | succ k ih =>
    simp only [parseSeats]
    split
    · rfl
    · split_ifs
      · rw [ih]; rfl
      · split
        · rfl
        · rw [ih]; rfl

/-- A successful `parseMatchSpec`, field by field: the tokens it scanned, the tests it
made, and the match it built. -/
theorem parseMatchSpec_ok (R : Rng) (conf : Config) (serv : ServerState)
    (spec : List Char) (connEntry : Nat) (m : Match)
    (h : ¬ (parseMatchSpec R conf serv spec connEntry m).1 < 0) :
    ∃ name spec1 entry numRuns spec2 tag spec3 rngSeed spec4 m3,
      scanStr spec = some (name, spec1) ∧
      findGame conf name = some entry ∧
      scanInt spec1 = some (numRuns, spec2) ∧
      scanStr spec2 = some (tag, spec3) ∧
      scanU32 spec3 = some (rngSeed, spec4) ∧
      0 ≤ numRuns ∧ numRuns ≤ ((conf.gameAt entry).maxMatchRuns : Int) ∧
      '/' ∉ tag ∧
      parseSeats conf connEntry (conf.gameAt entry).game.numPlayers 0 (skipSpace spec4)
        { m with gameConf := entry, numRuns := numRuns } = (true, m3) ∧
      parseMatchSpec R conf serv spec connEntry m =
        (if rngSeed ≠ 0 then
          (0, serv, { m3 with tag := tag, rngSeed := rngSeed,
                              rng := R.init_genrand rngSeed,
                              useRngForSeed := if m3.numRuns = 1 then 0 else 1 })
         else
          (0, { serv with rng := (R.genrand_int32 serv.rng).2 },
              { m3 with tag := tag, rngSeed := rngSeed,
                        rng := R.init_genrand (R.genrand_int32 serv.rng).1 })) := by
  unfold parseMatchSpec at h ⊢
  cases h1 : scanStr spec with
  | none => rw [h1] at h; simp at h
  | some r1 =>
    obtain ⟨name, spec1⟩ := r1
    rw [h1] at h
    simp only at h ⊢
    cases h2 : findGame conf name with
    | none => rw [h2] at h; simp at h
    | some entry =>
      rw [h2] at h
      simp only at h ⊢
      cases h3 : scanInt spec1 with
      | none => rw [h3] at h; simp at h
      | some r3 =>
        obtain ⟨numRuns, spec2⟩ := r3
        rw [h3] at h
        simp only at h ⊢
        cases h4 : scanStr spec2 with
        | none => rw [h4] at h; simp at h
        | some r4 =>
          obtain ⟨tag, spec3⟩ := r4
          rw [h4] at h
          simp only at h ⊢
          cases h5 : scanU32 spec3 with
          | none => rw [h5] at h; simp at h
          | some r5 =>
            obtain ⟨rngSeed, spec4⟩ := r5
            rw [h5] at h
            simp only at h ⊢
            by_cases h6 : numRuns < 0 ∨ numRuns > ((conf.gameAt entry).maxMatchRuns : Int)
            · rw [if_pos h6] at h; simp at h
            · rw [if_neg h6] at h ⊢
              by_cases h7 : '/' ∈ tag
              · rw [if_pos h7] at h; simp at h
              · rw [if_neg h7] at h ⊢
                cases h8 : parseSeats conf connEntry
                    (conf.numPlayers { m with gameConf := entry, numRuns := numRuns }) 0
                    (skipSpace spec4) { m with gameConf := entry, numRuns := numRuns } with
                | mk ok m3 =>
                  rw [h8] at h
                  cases ok with
                  | false => simp at h
                  | true =>
                    refine ⟨name, spec1, entry, numRuns, spec2, tag, spec3, rngSeed, spec4,
                      m3, rfl, h2, h3, h4, h5, by omega, by omega, h7, h8, ?_⟩
                    simp only
                    by_cases h9 : rngSeed = 0
                    · simp [h9]
                    · simp only [h9, ne_eq, not_false_eq_true, if_true]
                      split_ifs <;> rfl

theorem parseMatchSpec_ret (R : Rng) (conf : Config) (serv : ServerState)
    (spec : List Char) (connEntry : Nat) (m : Match) :
    (parseMatchSpec R conf serv spec connEntry m).1 = 0 ∨
    ((parseMatchSpec R conf serv spec connEntry m).1 = -1 ∧
     (parseMatchSpec R conf serv spec connEntry m).2.1 = serv) := by
  unfold parseMatchSpec
  cases scanStr spec with
  | none => exact Or.inr ⟨rfl, rfl⟩
  | some r1 =>
    obtain ⟨name, spec1⟩ := r1
    dsimp only
    cases findGame conf name with
    | none => exact Or.inr ⟨rfl, rfl⟩
    | some entry =>
      dsimp only
      cases scanInt spec1 with
      | none => exact Or.inr ⟨rfl, rfl⟩
      | some r3 =>
        obtain ⟨numRuns, spec2⟩ := r3
        dsimp only
        cases scanStr spec2 with
        | none => exact Or.inr ⟨rfl, rfl⟩
        | some r4 =>
          obtain ⟨tag, spec3⟩ := r4
          dsimp only
          cases scanU32 spec3 with
          | none => exact Or.inr ⟨rfl, rfl⟩
          | some r5 =>
            obtain ⟨rngSeed, spec4⟩ := r5
            dsimp only
            split_ifs <;> first
              | exact Or.inr ⟨rfl, rfl⟩
              | (split <;> first
                  | exact Or.inr ⟨rfl, rfl⟩
                  | exact Or.inl rfl
                  | (split_ifs <;> exact Or.inl rfl))

theorem parseMatchSpec_fail_serv (R : Rng) (conf : Config) (serv : ServerState)
    (spec : List Char) (connEntry : Nat) (m : Match)
    (h : (parseMatchSpec R conf serv spec connEntry m).1 < 0) :
    (parseMatchSpec R conf serv spec connEntry m).2.1 = serv := by
  rcases parseMatchSpec_ret R conf serv spec connEntry m with h0 | ⟨_, h1⟩
  · rw [h0] at h; exact absurd h (by decide)
  · exact h1

/-- `parseMatchSpec` writes to nothing of the server but its generator. -/
theorem parseMatchSpec_serv (R : Rng) (conf : Config) (serv : ServerState)
    (spec : List Char) (connEntry : Nat) (m : Match) :
    ∃ rng, (parseMatchSpec R conf serv spec connEntry m).2.1 = { serv with rng := rng } := by
  by_cases h : (parseMatchSpec R conf serv spec connEntry m).1 < 0
  · exact ⟨serv.rng, by rw [parseMatchSpec_fail_serv R conf serv spec connEntry m h]⟩
  · obtain ⟨name, spec1, entry, numRuns, spec2, tag, spec3, rngSeed, spec4, m3, _, _, _, _, _,
      _, _, _, _, heq⟩ := parseMatchSpec_ok R conf serv spec connEntry m h
    rw [heq]
    split_ifs <;> first | exact ⟨serv.rng, rfl⟩ | exact ⟨_, rfl⟩

theorem parseMatchSpec_ok_gameConf (R : Rng) (conf : Config) (serv : ServerState)
    (spec : List Char) (connEntry : Nat) (m : Match)
    (h : ¬ (parseMatchSpec R conf serv spec connEntry m).1 < 0) :
    (parseMatchSpec R conf serv spec connEntry m).2.2.gameConf < conf.games.length := by
  obtain ⟨name, spec1, entry, numRuns, spec2, tag, spec3, rngSeed, spec4, m3, _, hg, _, _, _,
    _, _, _, hseats, heq⟩ := parseMatchSpec_ok R conf serv spec connEntry m h
  have hm3 : m3.gameConf = entry := by
    have := parseSeats_gameConf conf connEntry (conf.gameAt entry).game.numPlayers 0
      (skipSpace spec4) { m with gameConf := entry, numRuns := numRuns }
    rw [hseats] at this
    exact this
  rw [heq]
  split_ifs <;> (simp only [hm3]; exact findGame_lt conf name entry hg)

/-! ## The steps of the main loop preserve the invariant -/

theorem PoolWF_map_head {α : Type} {pool : LLPool α} (h : PoolWF pool)
    (g : LLPoolEntry α → LLPoolEntry α) (hg : ∀ e, (g e).addr = e.addr) :
    PoolWF { pool with head := pool.head.map g } := by
  obtain ⟨hn, hb, hc⟩ := h
  have hmap : (pool.head.map g).map (fun e => e.addr) = pool.head.map (fun e => e.addr) := by
    rw [List.map_map]
    apply List.map_congr_left
    intro e _
    exact hg e
  refine ⟨?_, ?_, ?_⟩
  · simp only [List.map_append, hmap]
    rw [← List.map_append]
    exact hn
  · intro e he
    simp only [List.mem_append, List.mem_map] at he
    rcases he with ⟨x, hx, rfl⟩ | he
    · rw [hg]; exact hb x (by simp [hx])
    · exact hb e (by simp [he])
  · simp only [List.length_map]
    exact hc

theorem Inv.initial {w : World} (h : Initial w) : Inv w := by
  obtain ⟨hg, _, hm, hj⟩ := h
  have hjh : w.serv.jobs.head = [] := by rw [hj]; rfl
  have hmh : w.serv.matches_.head = [] := by rw [hm]; rfl
  refine ⟨hm ▸ PoolWF_new _, hj ▸ PoolWF_new _, ?_, ?_, ?_, ?_, ?_, ?_⟩
  · intro j hjm; rw [hjh] at hjm; exact absurd hjm (List.not_mem_nil _)
  · rw [hjh]; exact List.nodup_nil
  · intro e he; rw [hmh] at he; exact absurd he (List.not_mem_nil _)
  · intro g hlt
    have : w.conf.gameAt g ∈ w.conf.games := by
      unfold Config.gameAt
      rw [List.getD_eq_getElem _ _ hlt]
      exact List.getElem_mem _
    rw [hg _ this]
    unfold jobsOfGame
    rw [hjh]
    rfl
  · intro g hlt _
    have : w.conf.gameAt g ∈ w.conf.games := by
      unfold Config.gameAt
      rw [List.getD_eq_getElem _ _ hlt]
      exact List.getElem_mem _
    rw [hg _ this]
    exact Int.natCast_nonneg _
  · intro _
    unfold runningBots
    rw [hjh]
    exact Int.natCast_nonneg _

theorem Inv.closeConnection {conf : Config} {serv : ServerState}
    (hi : Inv ⟨conf, serv⟩) (a : Nat) : Inv ⟨conf, closeConnection conf serv a⟩ := by
  refine @Inv.of_keeps _ ⟨conf, BmServer.closeConnection conf serv a⟩ hi rfl rfl rfl
    ?_ ?_ ?_
  · exact PoolWF_map_head hi.matchesWF _ (fun e => by split_ifs <;> rfl)
  · apply Keeps.of_map _ rfl
    intro e
    split_ifs
    · exact ⟨rfl, rfl, rfl, rfl⟩
    · exact ⟨rfl, rfl, rfl, rfl⟩
  · intro e he
    simp only [BmServer.closeConnection, List.mem_map] at he
    obtain ⟨x, hx, rfl⟩ := he
    split_ifs
    · exact hi.gameValid x hx
    · exact hi.gameValid x hx

theorem Inv.setConns {conf : Config} {serv : ServerState}
    (hi : Inv ⟨conf, serv⟩) (c : LLPool Connection) :
    Inv ⟨conf, { serv with conns := c }⟩ :=
  @Inv.of_keeps _ ⟨conf, { serv with conns := c }⟩ hi rfl rfl rfl hi.matchesWF
    (Keeps.keeps_refl _) hi.gameValid

theorem Inv.addMatch {conf : Config} {serv : ServerState}
    (hi : Inv ⟨conf, serv⟩) (rng : rng_state_t) (item : Match)
    (hg : item.gameConf < conf.games.length) :
    Inv ⟨conf, { serv with rng := rng, matches_ := (LLPoolAddItem serv.matches_ item).2 }⟩ := by
  refine @Inv.of_keeps _
    ⟨conf, { serv with rng := rng, matches_ := (LLPoolAddItem serv.matches_ item).2 }⟩
    hi rfl rfl rfl ?_ ?_ ?_
  · exact PoolWF_AddItem hi.matchesWF item
  · exact Keeps.addItem _ _
  · intro e he
    simp only [LLPoolAddItem_head, List.mem_cons] at he
    rcases he with rfl | he
    · exact hg
    · exact hi.gameValid e he

theorem Inv.handleLoop (R : Rng) (env : ConnEnv) (conf : Config) (connEntry : Nat)
    (reads : List GetLine) (serv : ServerState) (out : List Event)
    (hi : Inv ⟨conf, serv⟩) :
    Inv ⟨conf, (handleLoop R env conf connEntry reads serv out).1⟩ := by
  induction reads generalizing out with
  | nil => exact hi
  | cons g rest ih =>
    simp only [BmServer.handleLoop]
    split_ifs
    all_goals first
      | exact hi
      | exact hi.closeConnection _
      | exact ih _
      | (split <;> first | exact hi.closeConnection _ | exact hi.setConns _)
      | (rw [parseMatchSpec_fail_serv R conf serv _ connEntry env.stack (by assumption)]
         exact hi)
      | (obtain ⟨rng, hs⟩ := parseMatchSpec_serv R conf serv (g.line.drop 10) connEntry
           env.stack
         rw [hs]
         exact hi.addMatch rng _
           (parseMatchSpec_ok_gameConf R conf serv _ connEntry env.stack (by assumption)))

theorem Inv.runningBots_of_keeps {w w1 : World} (hi : Inv w)
    (hjobs : w1.serv.jobs = w.serv.jobs)
    (hgames : w1.conf.games = w.conf.games)
    (hq : PoolWF w1.serv.matches_)
    (hk : Keeps w.serv.matches_ w1.serv.matches_) :
    runningBots w1 = runningBots w := by
  unfold runningBots
  rw [hjobs]
  congr 1
  apply List.map_congr_left
  intro j hj
  refine botsInMatch_congr _ _ _ _ (fun g => ?_)
    (hi.lookup_keeps hq hk j hj).1 (hi.lookup_keeps hq hk j hj).2
  unfold Config.gameAt
  rw [hgames]

/-- A dispatch seen from the world before the call: the match list has been changed in
a way that keeps the running matches, then an entry that is not running is started. -/
theorem Inv.dispatched_of {w : World} (hi : Inv w) (P : LLPool Match) (hP : PoolWF P)
    (hk : Keeps w.serv.matches_ P)
    (hgv : ∀ e ∈ P.head, e.data.gameConf < w.conf.games.length)
    (b : LLPoolEntry Match) (hb : b ∈ P.head) (hnr : b.data.isRunning = false)
    (job : MatchJob) (hjob : job.matchEntry = b.addr) (f : Match → Match)
    (hf : ∀ m, (f m).isRunning = true ∧ (f m).gameConf = m.gameConf ∧
      (f m).players = m.players)
    (hcap : (w.conf.gameAt b.data.gameConf).maxRunningJobs ≠ 0 →
      (w.conf.gameAt b.data.gameConf).curRunningJobs
        < ((w.conf.gameAt b.data.gameConf).maxRunningJobs : Int))
    (hbots : w.conf.maxRunningBots ≠ 0 →
      botsInMatch w.conf b.data + runningBots w ≤ (w.conf.maxRunningBots : Int))
    (u : Option Nat) (now : timeval) :
    Inv { conf := (w.conf.addRunningJobs b.data.gameConf 1).setWaitStart u now,
          serv := { w.serv with matches_ := LLPoolSetItem P b.addr f,
                                jobs := (LLPoolAddItem w.serv.jobs job).2 } } := by
  have hia : Inv ⟨w.conf, { w.serv with matches_ := P }⟩ :=
    @Inv.of_keeps _ ⟨w.conf, { w.serv with matches_ := P }⟩ hi rfl rfl rfl hP hk hgv
  have hrb : runningBots ⟨w.conf, { w.serv with matches_ := P }⟩ = runningBots w :=
    @Inv.runningBots_of_keeps _ ⟨w.conf, { w.serv with matches_ := P }⟩ hi rfl rfl hP hk
  have hic := Inv.dispatch hia b hb hnr job hjob f hf hcap
    (fun h => by rw [hrb]; exact hbots h)
  refine Inv.of_keeps hic rfl ?_ ?_ hic.matchesWF (Keeps.keeps_refl _) hic.gameValid
  · exact Config.setWaitStart_games _ _ _
  · exact Config.setWaitStart_maxRunningBots _ _ _

theorem Inv.start {R : Rng} {env : SchedEnv} {w w1 : World} {r : Int} {evs : List Event}
    (hi : Inv w) (h : startMatchJob R env w = some (r, w1, evs)) : Inv w1 := by
  have hgc : Inv { w with serv := { w.serv with matches_ := gcPool w } } := by
    refine @Inv.of_keeps _ { w with serv := { w.serv with matches_ := gcPool w } }
      hi rfl rfl rfl (gcPool_WF w hi.matchesWF) (Keeps.gc w hi.matchesWF) ?_
    intro e he
    rw [gcPool_head w hi.matchesWF] at he
    exact hi.gameValid e (List.mem_of_mem_filter he)
  rcases startMatchJob_cases R env w w1 r evs h with
    ⟨_, _, rfl, _⟩ | ⟨_, _, _, rfl, _⟩ | ⟨_, _, _, rfl, _⟩ |
    ⟨_, _, best, job, hp, hcapn, hrun, rfl⟩
  · exact hi
  · exact hgc
  · exact hgc
  · obtain ⟨pre, post, hl, hE, _, _⟩ := pick_none_spec _ _ _ hp
    have hbest : best ∈ w.serv.matches_.head := by rw [hl]; simp
    have hkept : best ∈ (gcPool w).head := by
      rw [gcPool_head w hi.matchesWF, List.mem_filter]
      refine ⟨hbest, ?_⟩
      simp only [keptByGc, Bool.or_eq_true, decide_eq_true_eq]
      exact Or.inr hE.2.1
    have hjob := runMatchJob_matchEntry _ _ _ _ _ _ _ hrun
    have hcap : (w.conf.gameAt best.data.gameConf).maxRunningJobs ≠ 0 →
        (w.conf.gameAt best.data.gameConf).curRunningJobs
          < ((w.conf.gameAt best.data.gameConf).maxRunningJobs : Int) := by
      intro hne
      rcases hE.2.2 with h0 | h1
      · exact absurd h0 hne
      · exact h1
    have hbots : w.conf.maxRunningBots ≠ 0 →
        botsInMatch w.conf best.data + runningBots w ≤ (w.conf.maxRunningBots : Int) := by
      intro hne
      unfold overBotCap at hcapn
      by_contra hcon
      exact hcapn ⟨hne, by omega⟩
    unfold dispatched seededPool
    by_cases hu : best.data.useRngForSeed ≠ 0
    · rw [if_pos hu]
      refine Inv.dispatched_of hi
        (LLPoolSetItem (gcPool w) best.addr
          (fun x => { x with rng := (R.genrand_int32 best.data.rng).2 }))
        (PoolWF_SetItem (gcPool_WF w hi.matchesWF) _ _)
        ((Keeps.gc w hi.matchesWF).keeps_trans
          (Keeps.setItem _ _ _ (fun m => ⟨rfl, rfl, rfl⟩)))
        ?_
        ⟨best.addr, { best.data with rng := (R.genrand_int32 best.data.rng).2 }⟩
        ?_ hE.1 job hjob
        (fun x => { x with isRunning := true, numRuns := x.numRuns - 1,
                           queueTime := env.nowQueue })
        (fun m => ⟨rfl, rfl, rfl⟩) hcap hbots _ _
      · intro e he
        simp only [LLPoolSetItem, List.mem_map] at he
        obtain ⟨x, hx, rfl⟩ := he
        rw [gcPool_head w hi.matchesWF] at hx
        split_ifs
        · exact hi.gameValid x (List.mem_of_mem_filter hx)
        · exact hi.gameValid x (List.mem_of_mem_filter hx)
      · simp only [LLPoolSetItem, List.mem_map]
        exact ⟨best, hkept, by simp⟩
    · rw [if_neg hu]
      refine Inv.dispatched_of hi (gcPool w) (gcPool_WF w hi.matchesWF)
        (Keeps.gc w hi.matchesWF) ?_ best hkept hE.1 job hjob
        (fun x => { x with isRunning := true, numRuns := x.numRuns - 1,
                           queueTime := env.nowQueue })
        (fun m => ⟨rfl, rfl, rfl⟩) hcap hbots _ _
      intro e he
      rw [gcPool_head w hi.matchesWF] at he
      exact hi.gameValid e (List.mem_of_mem_filter he)

theorem checkIfJobFinished_matchEntry (waitpid : Int → Int) (conf : Config)
    (serv : ServerState) (job job1 : MatchJob) (allDone : Bool)
    (h : checkIfJobFinished waitpid conf serv job = some (job1, allDone)) :
    job1.matchEntry = job.matchEntry := by
  unfold checkIfJobFinished at h
  simp only at h
  split at h
  · exact absurd h (by simp)
  · split at h
    · exact absurd h (by simp)
    · simp only [Option.some.injEq, Prod.mk.injEq] at h
      rw [← h.1]

theorem Inv.step {R : Rng} {w w1 : World} (hi : Inv w) (h : Step R w w1) : Inv w1 := by
  cases h with
  | reap waitpid e job allDone he hc =>
    have hjob := checkIfJobFinished_matchEntry _ _ _ _ _ _ hc
    have hi1 := hi.updateJob e he job hjob
    cases allDone with
    | false => exact hi1
    | true =>
      have hmem : (⟨e.addr, job⟩ : LLPoolEntry MatchJob) ∈
          (LLPoolSetItem w.serv.jobs e.addr (fun _ => job)).head := by
        simp only [LLPoolSetItem, List.mem_map]
        exact ⟨e, he, by simp⟩
      exact hi1.finish ⟨e.addr, job⟩ hmem
  | drop e _ _ => exact hi.setConns _
  | start env r evs hs => exact hi.start (by assumption)
  | accept sock => exact hi.setConns _
  | handle env e _ _ => exact Inv.handleLoop R env w.conf e.addr env.reads w.serv [] hi

/-- The invariant holds in every world the server can be in. -/
theorem Inv.reachable {R : Rng} {w : World} (h : Reachable R w) : Inv w := by
  induction h with
  | init w hw => exact Inv.initial hw
  | step w w1 _ hs ih => exact ih.step hs

/-! ## A run of the sample server -/

theorem sampleStarted_reachable : Reachable sampleRng sampleStarted := by
  have h0 : Reachable sampleRng sampleInit :=
    Reachable.init _ ⟨by decide, rfl, rfl, rfl⟩
  have h1 : Reachable sampleRng sampleAccepted :=
    Reachable.step _ _ h0 (Step.accept sampleInit 5)
  have h2 : Reachable sampleRng sampleLoggedOn :=
    Reachable.step _ _ h1
      (Step.handle sampleAccepted (sampleConnEnv "alice secret\n" 2)
        ⟨0, ⟨STATUS_UNVALIDATED, none, 5⟩⟩ (by decide) (by decide))
  have h3 : Reachable sampleRng sampleQueued :=
    Reachable.step _ _ h2
      (Step.handle sampleLoggedOn
        (sampleConnEnv "RUNMATCHES holdem 2 t0 42 LOCAL example\n" 3)
        ⟨0, ⟨STATUS_OKAY, some 0, 5⟩⟩ (by decide) (by decide))
  exact Reachable.step _ _ h3
    (Step.start sampleQueued (sampleSchedEnv 10) 1 sampleStarted
      ((startMatchJob sampleRng (sampleSchedEnv 10) sampleQueued).getD
        (0, sampleQueued, [])).2.2 (by rfl))

/-! ## The budgets -/

theorem Config.gameAt_of_mem (conf : Config) (game : GameConfig) (h : game ∈ conf.games) :
    ∃ g, g < conf.games.length ∧ conf.gameAt g = game := by
  obtain ⟨g, hg, rfl⟩ := List.mem_iff_getElem.1 h
  refine ⟨g, hg, ?_⟩
  unfold Config.gameAt
  exact List.getD_eq_getElem _ _ hg

/-- **C2**: in every world reachable from the initial one (all counters 0, no jobs) by
steps of the main loop (among them the dispatches of `startMatchJob` and the job
completions of `finishedJob`), every game with `maxRunningJobs > 0` has
`0 ≤ curRunningJobs ≤ maxRunningJobs`. -/
theorem curRunningJobs_within_cap (R : Rng) (w : World) (h : Reachable R w)
    (game : GameConfig) (hg : game ∈ w.conf.games) (hmax : 0 < game.maxRunningJobs) :
    0 ≤ game.curRunningJobs ∧ game.curRunningJobs ≤ (game.maxRunningJobs : Int) := by
  have hi := Inv.reachable h
  obtain ⟨g, hlt, rfl⟩ := w.conf.gameAt_of_mem game hg
  constructor
  · rw [hi.counters g hlt]
    exact Int.natCast_nonneg _
  · exact hi.caps g hlt (by omega)

theorem curRunningJobs_within_cap_witness :
    Reachable sampleRng sampleStarted ∧ sampleGame.maxRunningJobs = 1 ∧
    (sampleStarted.conf.gameAt 0).curRunningJobs = 1 ∧
    (0 ≤ (sampleStarted.conf.gameAt 0).curRunningJobs ∧
      (sampleStarted.conf.gameAt 0).curRunningJobs
        ≤ ((sampleStarted.conf.gameAt 0).maxRunningJobs : Int)) :=
  ⟨sampleStarted_reachable, rfl, by decide,
    curRunningJobs_within_cap sampleRng sampleStarted sampleStarted_reachable
      (sampleStarted.conf.gameAt 0) (by decide) (by decide)⟩

theorem botsInMatch_add_networkSeats (conf : Config) (m : Match) :
    botsInMatch conf m + networkSeats conf m = (conf.numPlayers m : Int) := by
  unfold botsInMatch networkSeats
  have key : ∀ l : List Nat,
      (l.filter (fun p => !(m.player p).isNetworkPlayer)).length
        + (l.filter (fun p => (m.player p).isNetworkPlayer)).length = l.length := by
    intro l
    induction l with
    | nil => rfl
    | cons a t ih =>
      simp only [List.filter_cons]
      cases (m.player a).isNetworkPlayer <;> simp <;> omega
  have := key (List.range (conf.numPlayers m))
  rw [List.length_range] at this
  exact_mod_cast this

/-- **C3**: in every reachable world with `maxRunningBots > 0`, the sum over the jobs
of the jobs list of `botsInMatch` of the job's match is at most `maxRunningBots`; and
`botsInMatch` leaves the network seats out: for every match it is the number of seats
minus the number of network seats. -/
theorem running_bots_within_cap (R : Rng) (w : World) (h : Reachable R w)
    (hmax : 0 < w.conf.maxRunningBots) :
    (w.serv.jobs.head.map (fun j =>
        botsInMatch w.conf (LLPoolGetItem w.serv.matches_ j.data.matchEntry))).sum
      ≤ (w.conf.maxRunningBots : Int) ∧
    ∀ m : Match, botsInMatch w.conf m = (w.conf.numPlayers m : Int) - networkSeats w.conf m := by
  refine ⟨(Inv.reachable h).bots (by omega), ?_⟩
  intro m
  have := botsInMatch_add_networkSeats w.conf m
  omega

theorem running_bots_within_cap_witness :
    sampleStarted.conf.maxRunningBots = 2 ∧
    (sampleStarted.serv.jobs.head.map (fun j =>
        botsInMatch sampleStarted.conf
          (LLPoolGetItem sampleStarted.serv.matches_ j.data.matchEntry))).sum = 1 ∧
    ((sampleStarted.serv.jobs.head.map (fun j =>
        botsInMatch sampleStarted.conf
          (LLPoolGetItem sampleStarted.serv.matches_ j.data.matchEntry))).sum
      ≤ (sampleStarted.conf.maxRunningBots : Int) ∧
    ∀ m : Match, botsInMatch sampleStarted.conf m
      = (sampleStarted.conf.numPlayers m : Int) - networkSeats sampleStarted.conf m) :=
  ⟨rfl, by decide,
    running_bots_within_cap sampleRng sampleStarted sampleStarted_reachable (by decide)⟩

theorem map_update_split {α : Type} (pre post : List (LLPoolEntry α)) (e : LLPoolEntry α)
    (f : α → α) (hn : ((pre ++ e :: post).map (fun x => x.addr)).Nodup) :
    (pre ++ e :: post).map
        (fun x => if x.addr = e.addr then (⟨x.addr, f x.data⟩ : LLPoolEntry α) else x)
      = pre ++ ⟨e.addr, f e.data⟩ :: post := by
  obtain ⟨hne, _⟩ := nodup_map_middle (fun x : LLPoolEntry α => x.addr) pre post e hn
  have hid : ∀ l : List (LLPoolEntry α), (∀ x ∈ l, x.addr ≠ e.addr) →
      l.map (fun x => if x.addr = e.addr then (⟨x.addr, f x.data⟩ : LLPoolEntry α) else x)
        = l := by
    intro l hl
    induction l with
    | nil => rfl
    | cons a t ih =>
      simp only [List.map_cons]
      rw [if_neg (hl a (List.mem_cons_self _ _)),
        ih (fun x hx => hl x (List.mem_cons_of_mem _ hx))]
  rw [List.map_append, List.map_cons, hid pre (fun x hx => hne x (by simp [hx])),
    hid post (fun x hx => hne x (by simp [hx]))]
  simp

/-- What `finishedJob` does to the counters and to the jobs list. -/
theorem finishedJob_effect {w : World} (hi : Inv w) (e : LLPoolEntry MatchJob)
    (he : e ∈ w.serv.jobs.head) :
    ∃ gm, gm < w.conf.games.length ∧
      (finishedJob w e.addr).conf = w.conf.addRunningJobs gm (-1) ∧
      ∀ pre post, w.serv.jobs.head = pre ++ e :: post →
        (finishedJob w e.addr).serv.jobs.head = pre ++ post := by
  obtain ⟨em, hem, hema, _⟩ := hi.jobMatch e he
  have hjob : LLPoolGetItem w.serv.jobs e.addr = e.data := LLPoolGetItem_of_mem hi.jobsWF he
  have hm : LLPoolGetItem w.serv.matches_ e.data.matchEntry = em.data := by
    rw [← hema]; exact LLPoolGetItem_of_mem hi.matchesWF hem
  refine ⟨em.data.gameConf, hi.gameValid em hem, ?_, ?_⟩
  · unfold finishedJob
    simp only [hjob, hm]
  · intro pre post hsplit
    unfold finishedJob
    simp only
    rw [LLPoolRemoveEntry_of_mem hi.jobsWF he]
    simp only
    have hnd := hi.jobsWF.nodup_head
    rw [hsplit] at hnd ⊢
    exact (find_addr_split pre post e hnd).2

theorem Config.setWaitStart_gameAt (conf : Config) (u : Option Nat) (now : timeval)
    (g : Nat) : (conf.setWaitStart u now).gameAt g = conf.gameAt g := by
  unfold Config.gameAt
  rw [Config.setWaitStart_games]

/-- **C4**: in every reachable world, for every game, `curRunningJobs` is the number of
jobs of the jobs list whose match points at that game. And a step of the main loop
changes the counter of a game only in two ways: by +1 in a call of `startMatchJob` that
returns 1 and puts one new job in front of the jobs list, or by -1 in `finishedJob`,
which takes one job out of the jobs list. -/
theorem curRunningJobs_counts_jobs (R : Rng) (w : World) (h : Reachable R w) :
    (∀ g, g < w.conf.games.length →
      (w.conf.gameAt g).curRunningJobs =
        ((w.serv.jobs.head.filter (fun j =>
            (LLPoolGetItem w.serv.matches_ j.data.matchEntry).gameConf == g)).length : Int)) ∧
    (∀ w1, Step R w w1 → ∀ g, g < w.conf.games.length →
      (w1.conf.gameAt g).curRunningJobs = (w.conf.gameAt g).curRunningJobs ∨
      ((w1.conf.gameAt g).curRunningJobs = (w.conf.gameAt g).curRunningJobs + 1 ∧
        (∃ env evs, startMatchJob R env w = some (1, w1, evs)) ∧
        ∃ job, w1.serv.jobs.head = job :: w.serv.jobs.head) ∨
      ((w1.conf.gameAt g).curRunningJobs = (w.conf.gameAt g).curRunningJobs - 1 ∧
        (∃ w2 a, w1 = finishedJob w2 a) ∧
        ∃ pre e post, w.serv.jobs.head = pre ++ e :: post ∧
          w1.serv.jobs.head = pre ++ post)) := by
  have hi := Inv.reachable h
  refine ⟨hi.counters, ?_⟩
  intro w1 hs g hg
  cases hs with
  | reap waitpid e job allDone he hc =>
    have hjob := checkIfJobFinished_matchEntry _ _ _ _ _ _ hc
    have hi1 := hi.updateJob e he job hjob
    cases allDone with
    | false => exact Or.inl rfl
    | true =>
      have hmem : (⟨e.addr, job⟩ : LLPoolEntry MatchJob) ∈
          (LLPoolSetItem w.serv.jobs e.addr (fun _ => job)).head := by
        simp only [LLPoolSetItem, List.mem_map]
        exact ⟨e, he, by simp⟩
      obtain ⟨gm, hgm, hconf, hjobs⟩ := finishedJob_effect hi1 ⟨e.addr, job⟩ hmem
      obtain ⟨pre, post, hsplit⟩ := List.append_of_mem he
      have hnd := hi.jobsWF.nodup_head
      rw [hsplit] at hnd
      have hsplit1 : (LLPoolSetItem w.serv.jobs e.addr (fun _ => job)).head
          = pre ++ ⟨e.addr, job⟩ :: post := by
        simp only [LLPoolSetItem]
        rw [hsplit]
        exact map_update_split pre post e (fun _ => job) hnd
      have hj := hjobs pre post hsplit1
      simp only [if_true]
      by_cases hgg : g = gm
      · right; right
        refine ⟨?_, ⟨_, _, rfl⟩, pre, e, post, hsplit, hj⟩
        rw [hconf, Config.addRunningJobs_cur _ _ _ _ hgm, if_pos hgg]
        rfl
      · left
        rw [hconf, Config.addRunningJobs_cur _ _ _ _ hgm, if_neg hgg]
        simp
  | drop e _ _ => exact Or.inl rfl
  | start env r evs hst =>
    rename_i hstart
    rcases startMatchJob_cases R _ w w1 _ _ hstart with
      ⟨_, _, rfl, _⟩ | ⟨_, _, _, rfl, _⟩ | ⟨_, _, _, rfl, _⟩ |
      ⟨rfl, _, best, job, hp, _, _, rfl⟩
    · exact Or.inl rfl
    · exact Or.inl rfl
    · exact Or.inl rfl
    · obtain ⟨pre, post, hl, _, _, _⟩ := pick_none_spec _ _ _ hp
      have hbest : best ∈ w.serv.matches_.head := by rw [hl]; simp
      have hgb := hi.gameValid best hbest
      have hcur : ((dispatched R env w best job).conf.gameAt g).curRunningJobs
          = (w.conf.gameAt g).curRunningJobs + (if g = best.data.gameConf then 1 else 0) := by
        unfold dispatched
        simp only
        rw [Config.setWaitStart_gameAt, Config.addRunningJobs_cur _ _ _ _ hgb]
      by_cases hgg : g = best.data.gameConf
      · right; left
        refine ⟨?_, ⟨_, _, hstart⟩, ⟨_, LLPoolAddItem_head _ _⟩⟩
        rw [hcur, if_pos hgg]
      · left
        rw [hcur, if_neg hgg]
        simp
  | accept sock => exact Or.inl rfl
  | handle env e _ _ => exact Or.inl rfl

theorem curRunningJobs_counts_jobs_witness :
    (sampleStarted.conf.gameAt 0).curRunningJobs = 1 ∧
    ((∀ g, g < sampleStarted.conf.games.length →
      (sampleStarted.conf.gameAt g).curRunningJobs =
        ((sampleStarted.serv.jobs.head.filter (fun j =>
            (LLPoolGetItem sampleStarted.serv.matches_ j.data.matchEntry).gameConf == g)).length
          : Int)) ∧
    (∀ w1, Step sampleRng sampleStarted w1 → ∀ g, g < sampleStarted.conf.games.length →
      (w1.conf.gameAt g).curRunningJobs = (sampleStarted.conf.gameAt g).curRunningJobs ∨
      ((w1.conf.gameAt g).curRunningJobs = (sampleStarted.conf.gameAt g).curRunningJobs + 1 ∧
        (∃ env evs, startMatchJob sampleRng env sampleStarted = some (1, w1, evs)) ∧
        ∃ job, w1.serv.jobs.head = job :: sampleStarted.serv.jobs.head) ∨
      ((w1.conf.gameAt g).curRunningJobs = (sampleStarted.conf.gameAt g).curRunningJobs - 1 ∧
        (∃ w2 a, w1 = finishedJob w2 a) ∧
        ∃ pre e post, sampleStarted.serv.jobs.head = pre ++ e :: post ∧
          w1.serv.jobs.head = pre ++ post))) :=
  ⟨by decide, curRunningJobs_counts_jobs sampleRng sampleStarted sampleStarted_reachable⟩

/-! ## The effects of a dispatch -/

theorem Config.setWaitStart_userAt (conf : Config) (u : Nat) (now : timeval)
    (hu : u < conf.users.length) :
    ((conf.setWaitStart (some u) now).userAt (some u)).waitStart = now := by
  unfold Config.setWaitStart Config.userAt
  simp only [List.getD_eq_getElem?_getD, List.getElem?_set, hu, if_true]
  rfl

theorem Config.addRunningJobs_users (conf : Config) (g : Nat) (d : Int) :
    (conf.addRunningJobs g d).users = conf.users := rfl

theorem mem_SetItem_of_mem {α : Type} (pool : LLPool α) (x : LLPoolEntry α)
    (hx : x ∈ pool.head) (f : α → α) :
    (⟨x.addr, f x.data⟩ : LLPoolEntry α) ∈ (LLPoolSetItem pool x.addr f).head := by
  simp only [LLPoolSetItem, List.mem_map]
  exact ⟨x, hx, by simp⟩

/-- **C6**: when `startMatchJob` returns 1 for the entry `best` (in a world whose match
list is well formed and whose matches point at a game and a user of the configuration):
one job is put in front of the jobs list and it points at `best`; the counter of the game
of `best` goes up by exactly 1; the entry at the address of `best` is in the list with
`isRunning` set, `numRuns` one less and `queueTime` the second clock reading;
`waitStart` of the user of `best` is the first clock reading; and every other entry of
the list after the call is an entry of the list before the call, unchanged. -/
theorem startMatchJob_dispatch_effects (R : Rng) (env : SchedEnv) (w w1 : World)
    (evs : List Event) (hwf : PoolWF w.serv.matches_)
    (hvalid : ∀ e ∈ w.serv.matches_.head, e.data.gameConf < w.conf.games.length ∧
      ∃ u, e.data.user = some u ∧ u < w.conf.users.length)
    (h : startMatchJob R env w = some (1, w1, evs)) :
    ∃ best job,
      best ∈ w.serv.matches_.head ∧ best.data.isRunning = false ∧
      w1.serv.jobs.head = ⟨(LLPoolAddItem w.serv.jobs job).1, job⟩ :: w.serv.jobs.head ∧
      job.matchEntry = best.addr ∧
      (w1.conf.gameAt best.data.gameConf).curRunningJobs
        = (w.conf.gameAt best.data.gameConf).curRunningJobs + 1 ∧
      (∃ b1 ∈ w1.serv.matches_.head, b1.addr = best.addr ∧ b1.data.isRunning = true ∧
        b1.data.numRuns = best.data.numRuns - 1 ∧ b1.data.queueTime = env.nowQueue) ∧
      (w1.conf.userAt best.data.user).waitStart = env.nowWait ∧
      (∀ e ∈ w1.serv.matches_.head, e.addr ≠ best.addr → e ∈ w.serv.matches_.head) := by
  rcases startMatchJob_cases R env w w1 1 evs h with
    ⟨h0, _⟩ | ⟨h0, _⟩ | ⟨h0, _⟩ | ⟨_, _, best, job, hp, _, hrun, rfl⟩
  · exact absurd h0 (by decide)
  · exact absurd h0 (by decide)
  · exact absurd h0 (by decide)
  obtain ⟨pre, post, hl, hE, _, _⟩ := pick_none_spec _ _ _ hp
  have hbest : best ∈ w.serv.matches_.head := by rw [hl]; simp
  have hkept : best ∈ (gcPool w).head := by
    rw [gcPool_head w hwf, List.mem_filter]
    refine ⟨hbest, ?_⟩
    simp only [keptByGc, Bool.or_eq_true, decide_eq_true_eq]
    exact Or.inr hE.2.1
  obtain ⟨hgb, u, hu, hult⟩ := hvalid best hbest
  refine ⟨best, job, hbest, hE.1, LLPoolAddItem_head _ _,
    runMatchJob_matchEntry _ _ _ _ _ _ _ hrun, ?_, ?_, ?_, ?_⟩
  · unfold dispatched
    simp only
    rw [Config.setWaitStart_gameAt, Config.addRunningJobs_cur _ _ _ _ hgb, if_pos rfl]
  · unfold dispatched seededPool
    by_cases hseed : best.data.useRngForSeed ≠ 0
    · rw [if_pos hseed]
      have h0 := mem_SetItem_of_mem (gcPool w) best hkept
        (fun x => { x with rng := (R.genrand_int32 best.data.rng).2 })
      exact ⟨_, mem_SetItem_of_mem _ _ h0 _, rfl, rfl, rfl, rfl⟩
    · rw [if_neg hseed]
      exact ⟨_, mem_SetItem_of_mem _ _ hkept _, rfl, rfl, rfl, rfl⟩
  · unfold dispatched
    simp only
    rw [hu]
    exact Config.setWaitStart_userAt _ u _ (by rw [Config.addRunningJobs_users]; exact hult)
  · intro e he hne
    have hsub : ∀ x ∈ (gcPool w).head, x ∈ w.serv.matches_.head := by
      intro x hx
      rw [gcPool_head w hwf] at hx
      exact List.mem_of_mem_filter hx
    unfold dispatched seededPool at he
    by_cases hseed : best.data.useRngForSeed ≠ 0
    · rw [if_pos hseed] at he
      simp only [LLPoolSetItem, List.mem_map] at he
      obtain ⟨x, ⟨y, hy, rfl⟩, rfl⟩ := he
      by_cases hya : y.addr = best.addr
      · exfalso
        apply hne
        simp [hya]
      · simp only [hya, if_false] at hne ⊢
        exact hsub y hy
    · rw [if_neg hseed] at he
      simp only [LLPoolSetItem, List.mem_map] at he
      obtain ⟨y, hy, rfl⟩ := he
      by_cases hya : y.addr = best.addr
      · exfalso
        apply hne
        simp [hya]
      · simp only [hya, if_false] at hne ⊢
        exact hsub y hy

theorem startMatchJob_dispatch_effects_witness :
    startMatchJob sampleRng (sampleSchedEnv 10) sampleWorld =
      some (1, ((startMatchJob sampleRng (sampleSchedEnv 10) sampleWorld).getD
                  (0, sampleWorld, [])).2) ∧
    ∃ best job,
      best ∈ sampleWorld.serv.matches_.head ∧ best.data.isRunning = false ∧
      ((startMatchJob sampleRng (sampleSchedEnv 10) sampleWorld).getD
          (0, sampleWorld, [])).2.1.serv.jobs.head
        = ⟨(LLPoolAddItem sampleWorld.serv.jobs job).1, job⟩ :: sampleWorld.serv.jobs.head ∧
      job.matchEntry = best.addr ∧
      (((startMatchJob sampleRng (sampleSchedEnv 10) sampleWorld).getD
          (0, sampleWorld, [])).2.1.conf.gameAt best.data.gameConf).curRunningJobs
        = (sampleWorld.conf.gameAt best.data.gameConf).curRunningJobs + 1 ∧
      (∃ b1 ∈ ((startMatchJob sampleRng (sampleSchedEnv 10) sampleWorld).getD
          (0, sampleWorld, [])).2.1.serv.matches_.head,
        b1.addr = best.addr ∧ b1.data.isRunning = true ∧
        b1.data.numRuns = best.data.numRuns - 1 ∧
        b1.data.queueTime = (sampleSchedEnv 10).nowQueue) ∧
      (((startMatchJob sampleRng (sampleSchedEnv 10) sampleWorld).getD
          (0, sampleWorld, [])).2.1.conf.userAt best.data.user).waitStart
        = (sampleSchedEnv 10).nowWait ∧
      (∀ e ∈ ((startMatchJob sampleRng (sampleSchedEnv 10) sampleWorld).getD
          (0, sampleWorld, [])).2.1.serv.matches_.head,
        e.addr ≠ best.addr → e ∈ sampleWorld.serv.matches_.head) :=
  ⟨by rfl, startMatchJob_dispatch_effects sampleRng (sampleSchedEnv 10) sampleWorld _ _
    (by unfold PoolWF; decide) (by decide) (by rfl)⟩

/-! ## Scanning well-formed text -/

theorem takeWhile_dropWhile_append (p : Char → Bool) (l r : List Char)
    (hl : ∀ x ∈ l, p x = true) (hr : r = [] ∨ ∃ c t, r = c :: t ∧ p c = false) :
    (l ++ r).takeWhile p = l ∧ (l ++ r).dropWhile p = r := by
  induction l with
  | nil =>
    rcases hr with rfl | ⟨c, t, rfl, hc⟩
    · exact ⟨rfl, rfl⟩
    · simp [List.takeWhile, List.dropWhile, hc]
  | cons a l ih =>
    have ha := hl a (List.mem_cons_self _ _)
    have := ih (fun x hx => hl x (List.mem_cons_of_mem _ hx))
    simp [List.takeWhile, List.dropWhile, ha, this.1, this.2]

theorem isspace_space : isspace ' ' = true := by decide

theorem isspace_newline : isspace (Char.ofNat 10) = true := by decide

theorem skipSpace_cons_word (w rest : List Char) (hw : IsWord w) :
    skipSpace (' ' :: (w ++ rest)) = w ++ rest := by
  obtain ⟨hne, hall⟩ := hw
  cases w with
  | nil => exact absurd rfl hne
  | cons c t =>
    have hc := hall c (List.mem_cons_self _ _)
    simp [skipSpace, List.dropWhile, isspace_space, hc]

/-- ` %s` on a space, a word, and a rest that is empty or starts with white space. -/
theorem scanStr_word (w rest : List Char) (hw : IsWord w)
    (hrest : rest = [] ∨ ∃ c t, rest = c :: t ∧ isspace c = true) :
    scanStr (' ' :: (w ++ rest)) = some (w, rest) := by
  unfold scanStr
  rw [skipSpace_cons_word w rest hw]
  obtain ⟨hne, hall⟩ := hw
  have hr2 : rest = [] ∨ ∃ c t, rest = c :: t ∧ (fun x => !isspace x) c = false := by
    rcases hrest with h | ⟨c, t, h, hc⟩
    · exact Or.inl h
    · exact Or.inr ⟨c, t, h, by simp [hc]⟩
  have key := takeWhile_dropWhile_append (fun x => !isspace x) w rest
    (fun x hx => by simp [hall x hx]) hr2
  cases hwr : w ++ rest with
  | nil =>
    cases w with
    | nil => exact absurd rfl hne
    | cons c t => simp at hwr
  | cons c t =>
    simp only
    rw [← hwr, key.1, key.2]

theorem digitChar_isDigit (d : Nat) (hd : d < 10) : (Nat.digitChar d).isDigit = true := by
  interval_cases d <;> decide

theorem digitChar_val (d : Nat) (hd : d < 10) : (Nat.digitChar d).toNat - 48 = d := by
  interval_cases d <;> decide

theorem isDigit_not_space (c : Char) (h : c.isDigit = true) : isspace c = false := by
  have h1 : 48 ≤ c.toNat ∧ c.toNat ≤ 57 := by
    simp only [Char.isDigit, Bool.and_eq_true, decide_eq_true_eq] at h
    have a := h.1
    have b := h.2
    simp only [UInt32.le_def, Fin.le_def] at a b
    exact ⟨a, b⟩
  unfold isspace
  simp only [Bool.or_eq_false_iff, decide_eq_false_iff_not, Bool.and_eq_false_imp,
    decide_eq_true_eq, not_le]
  constructor
  · intro hc
    rw [hc] at h1
    exact absurd h1.1 (by decide)
  · intro _
    omega

theorem digitsRev_spec (fuel n : Nat) (h : n < fuel) :
    digitsRev fuel n ≠ [] ∧ (∀ c ∈ digitsRev fuel n, c.isDigit = true) ∧
    digitsVal (digitsRev fuel n).reverse = n := by
  induction fuel generalizing n with
  | zero => omega
  | succ fuel ih =>
    unfold digitsRev
    by_cases h10 : n < 10
    · rw [if_pos h10]
      refine ⟨by simp, ?_, ?_⟩
      · intro c hc
        simp only [List.mem_singleton] at hc
        rw [hc]; exact digitChar_isDigit n h10
      · simp only [List.reverse_singleton, digitsVal, List.foldl_cons, List.foldl_nil]
        rw [digitChar_val n h10]
        omega
    · rw [if_neg h10]
      have hlt : n / 10 < fuel := by omega
      obtain ⟨_, h2, h3⟩ := ih (n / 10) hlt
      refine ⟨by simp, ?_, ?_⟩
      · intro c hc
        simp only [List.mem_cons] at hc
        rcases hc with rfl | hc
        · exact digitChar_isDigit _ (Nat.mod_lt _ (by decide))
        · exact h2 c hc
      · simp only [List.reverse_cons, digitsVal, List.foldl_append, List.foldl_cons,
          List.foldl_nil]
        unfold digitsVal at h3
        rw [h3, digitChar_val _ (Nat.mod_lt _ (by decide))]
        omega

theorem decimal_spec (n : Nat) :
    decimal n ≠ [] ∧ (∀ c ∈ decimal n, c.isDigit = true) ∧ digitsVal (decimal n) = n := by
  obtain ⟨h1, h2, h3⟩ := digitsRev_spec (n + 1) n (by omega)
  unfold decimal
  refine ⟨by simpa using h1, ?_, h3⟩
  intro c hc
  exact h2 c (List.mem_reverse.1 hc)

/-- The subject sequence of a number: digits followed by a rest that does not start
with a digit. -/
theorem takeWhile_digits (ds rest : List Char) (hds : ∀ c ∈ ds, c.isDigit = true)
    (hrest : rest = [] ∨ ∃ c t, rest = c :: t ∧ c.isDigit = false) :
    (ds ++ rest).takeWhile Char.isDigit = ds ∧ (ds ++ rest).dropWhile Char.isDigit = rest :=
  takeWhile_dropWhile_append Char.isDigit ds rest hds hrest

theorem scanDigits_spec (neg : Bool) (ds rest : List Char) (hne : ds ≠ [])
    (hds : ∀ c ∈ ds, c.isDigit = true)
    (hrest : rest = [] ∨ ∃ c t, rest = c :: t ∧ c.isDigit = false) :
    scanDigits neg (ds ++ rest) = some (neg, digitsVal ds, rest) := by
  obtain ⟨ht, hd⟩ := takeWhile_digits ds rest hds hrest
  unfold scanDigits
  rw [ht, hd]
  cases ds with
  | nil => exact absurd rfl hne
  | cons d t => rfl

theorem skipSpace_cons_cons (c : Char) (t : List Char) (hc : isspace c = false) :
    skipSpace (' ' :: c :: t) = c :: t := by
  simp [skipSpace, List.dropWhile, isspace_space, hc]

theorem scanNumber_decimal (n : Nat) (rest : List Char)
    (hrest : rest = [] ∨ ∃ c t, rest = c :: t ∧ c.isDigit = false) :
    scanNumber (' ' :: (decimal n ++ rest)) = some (false, n, rest) := by
  obtain ⟨hne, hdig, hval⟩ := decimal_spec n
  have key := scanDigits_spec false (decimal n) rest hne hdig hrest
  rw [hval] at key
  cases hdec : decimal n with
  | nil => exact absurd hdec hne
  | cons d ds =>
    rw [hdec] at key hdig
    have hd0 : d.isDigit = true := hdig d (List.mem_cons_self _ _)
    have hsp : isspace d = false := isDigit_not_space d hd0
    have hm : d ≠ '-' := by intro h; rw [h] at hd0; exact absurd hd0 (by decide)
    have hp : d ≠ '+' := by intro h; rw [h] at hd0; exact absurd hd0 (by decide)
    unfold scanNumber
    rw [List.cons_append, skipSpace_cons_cons d _ hsp]
    simp only [hm, hp, if_false]
    exact key

theorem scanNumber_minus_decimal (n : Nat) (rest : List Char)
    (hrest : rest = [] ∨ ∃ c t, rest = c :: t ∧ c.isDigit = false) :
    scanNumber (' ' :: '-' :: (decimal n ++ rest)) = some (true, n, rest) := by
  obtain ⟨hne, hdig, hval⟩ := decimal_spec n
  have key := scanDigits_spec true (decimal n) rest hne hdig hrest
  rw [hval] at key
  unfold scanNumber
  rw [skipSpace_cons_cons '-' _ (by decide)]
  simp only [if_true]
  exact key

theorem strtol_int (neg : Bool) (n : Nat) (hn : n ≤ 2147483648) :
    (strtol neg n + 2 ^ 31) % 2 ^ 32 - 2 ^ 31 = strtol neg n ∨ (neg = false ∧ n = 2147483648) := by
  unfold strtol
  cases neg
  · by_cases h : n = 2147483648
    · exact Or.inr ⟨rfl, h⟩
    · left
      have h1 : ¬ n > 2 ^ 63 - 1 := by norm_num; omega
      simp only [h1, if_false, Bool.false_eq_true]
      norm_num
      omega
  · left
    have h1 : ¬ n > 2 ^ 63 := by norm_num; omega
    simp only [h1, if_false, if_true]
    norm_num
    omega

/-- ` %d` reads back an `int` printed in decimal. -/
theorem scanInt_decimalInt (z : Int) (rest : List Char)
    (hz : -2147483648 ≤ z ∧ z < 2147483648)
    (hrest : rest = [] ∨ ∃ c t, rest = c :: t ∧ c.isDigit = false) :
    scanInt (' ' :: (decimalInt z ++ rest)) = some (z, rest) := by
  unfold scanInt decimalInt
  by_cases hneg : z < 0
  · rw [if_pos hneg, List.cons_append, scanNumber_minus_decimal _ _ hrest]
    simp only
    rcases strtol_int true z.natAbs (by omega) with h | ⟨h, _⟩
    · rw [h]
      unfold strtol
      have h1 : ¬ z.natAbs > 2 ^ 63 := by norm_num; omega
      simp only [h1, if_false, if_true]
      congr 2
      omega
    · exact absurd h (by decide)
  · rw [if_neg hneg, scanNumber_decimal _ _ hrest]
    simp only
    rcases strtol_int false z.natAbs (by omega) with h | ⟨_, h⟩
    · rw [h]
      unfold strtol
      have h1 : ¬ z.natAbs > 2 ^ 63 - 1 := by norm_num; omega
      simp only [h1, if_false, Bool.false_eq_true]
      congr 2
      omega
    · omega

/-- ` %u` reads back a `uint32_t` printed in decimal. -/
theorem scanU32_decimal (n : Nat) (rest : List Char) (hn : n < 4294967296)
    (hrest : rest = [] ∨ ∃ c t, rest = c :: t ∧ c.isDigit = false) :
    scanU32 (' ' :: (decimal n ++ rest)) = some (n, rest) := by
  unfold scanU32
  rw [scanNumber_decimal _ _ hrest]
  simp only [strtoul]
  have h1 : ¬ n > 2 ^ 64 - 1 := by norm_num; omega
  simp only [h1, if_false, Bool.false_eq_true]
  congr 2
  norm_num
  omega

/-! ## `parseMatchSpec` on a rendered command -/

theorem StartsWithSpace.cons_space (t : List Char) : StartsWithSpace (' ' :: t) :=
  Or.inr ⟨' ', t, rfl, isspace_space⟩

theorem StartsWithSpace.not_digit {r : List Char} (h : StartsWithSpace r) :
    r = [] ∨ ∃ c t, r = c :: t ∧ c.isDigit = false := by
  rcases h with h | ⟨c, t, h, hc⟩
  · exact Or.inl h
  · refine Or.inr ⟨c, t, h, ?_⟩
    cases hd : c.isDigit with
    | false => rfl
    | true => rw [isDigit_not_space c hd] at hc; exact absurd hc (by decide)

theorem namesText_nil : namesText [] = [Char.ofNat 10] := rfl

theorem namesText_cons (n : List Char) (t : List (List Char)) :
    namesText (n :: t) = ' ' :: (n ++ namesText t) := by
  simp [namesText, List.flatMap_cons]

theorem namesText_startsWithSpace (names : List (List Char)) :
    StartsWithSpace (namesText names) := by
  cases names with
  | nil => exact Or.inr ⟨Char.ofNat 10, [], rfl, isspace_newline⟩
  | cons n t => rw [namesText_cons]; exact StartsWithSpace.cons_space _

theorem scanStr_skipSpace (s : List Char) : scanStr (skipSpace s) = scanStr s := by
  have h : skipSpace (skipSpace s) = skipSpace s := by
    unfold skipSpace
    induction s with
    | nil => rfl
    | cons c t ih =>
      by_cases hc : isspace c = true
      · simp only [List.dropWhile, hc]
        exact ih
      · have hc2 : isspace c = false := by simpa using hc
        simp only [List.dropWhile, hc2]
  unfold scanStr
  rw [h]

theorem parseSeats_skipSpace (conf : Config) (ce k p : Nat) (s : List Char) (m : Match) :
    parseSeats conf ce k p (skipSpace s) m = parseSeats conf ce k p s m := by
  cases k with
  | zero => rfl
  | succ k => simp only [parseSeats, scanStr_skipSpace]

theorem scanStr_newline : scanStr [Char.ofNat 10] = none := by decide

/-- Fewer names than seats: the seat loop fails. -/
theorem parseSeats_short (conf : Config) (ce k p : Nat) (names : List (List Char))
    (m : Match) (hw : ∀ n ∈ names, IsWord n) (hlen : names.length < k) :
    (parseSeats conf ce k p (namesText names) m).1 = false := by
  induction k generalizing names p m with
  | zero => omega
  | succ k ih =>
    cases names with
    | nil =>
      simp only [parseSeats, namesText_nil, scanStr_newline]
    | cons n t =>
      have hn := hw n (List.mem_cons_self _ _)
      have ht : ∀ x ∈ t, IsWord x := fun x hx => hw x (List.mem_cons_of_mem _ hx)
      have hl : t.length < k := by simp only [List.length_cons] at hlen; omega
      simp only [parseSeats, namesText_cons,
        scanStr_word n _ hn (namesText_startsWithSpace t)]
      split_ifs
      · exact ih _ _ _ ht hl
      · split
        · rfl
        · exact ih _ _ _ ht hl

/-- As many names as seats, each `LOCAL` or a bot of the game: the seat loop
succeeds. -/
theorem parseSeats_exact (conf : Config) (ce k p : Nat) (names : List (List Char))
    (m : Match) (hlen : names.length = k)
    (hw : ∀ n ∈ names, IsWord n ∧
      (n = "LOCAL".toList ∨ findBot (conf.gameAt m.gameConf) n ≠ none)) :
    (parseSeats conf ce k p (namesText names) m).1 = true := by
  induction k generalizing names p m with
  | zero => rfl
  | succ k ih =>
    cases names with
    | nil => simp at hlen
    | cons n t =>
      obtain ⟨hn, hres⟩ := hw n (List.mem_cons_self _ _)
      have hl : t.length = k := by simp only [List.length_cons] at hlen; omega
      simp only [parseSeats, namesText_cons,
        scanStr_word n _ hn (namesText_startsWithSpace t)]
      split_ifs with hloc
      · exact ih _ _ _ hl (fun x hx => hw x (List.mem_cons_of_mem _ hx))
      · have hnl : n ≠ "LOCAL".toList := by
          intro h; apply hloc; rw [h]; decide
        rcases hres with h | h
        · exact absurd h hnl
        · split
          · rename_i hnone; exact absurd hnone h
          · exact ih _ _ _ hl (fun x hx => hw x (List.mem_cons_of_mem _ hx))

/-- The seat loop reads as many names as there are seats and nothing after them. -/
theorem parseSeats_extra (conf : Config) (ce k p : Nat) (names extra : List (List Char))
    (m : Match) (hlen : names.length = k) (hw : ∀ n ∈ names, IsWord n) :
    parseSeats conf ce k p (namesText (names ++ extra)) m
      = parseSeats conf ce k p (namesText names) m := by
  induction k generalizing names p m with
  | zero => rfl
  | succ k ih =>
    cases names with
    | nil => simp at hlen
    | cons n t =>
      have hn := hw n (List.mem_cons_self _ _)
      have ht : ∀ x ∈ t, IsWord x := fun x hx => hw x (List.mem_cons_of_mem _ hx)
      have hl : t.length = k := by simp only [List.length_cons] at hlen; omega
      simp only [parseSeats, List.cons_append, namesText_cons,
        scanStr_word n _ hn (namesText_startsWithSpace _)]
      split_ifs
      · exact ih _ _ _ hl ht
      · split
        · rfl
        · exact ih _ _ _ hl ht

/-- The four scans of `parseMatchSpec` on a rendered command. -/
theorem scans_renderSpec (game tag : List Char) (numRuns : Int) (seed : Nat)
    (names : List (List Char)) (hgame : IsWord game) (htag : IsWord tag) :
    ∃ r1 r2 r3,
      scanStr (renderSpec game numRuns tag seed names) = some (game, r1) ∧
      scanInt r1 = some (scannedInt numRuns, r2) ∧
      scanStr r2 = some (tag, r3) ∧
      scanU32 r3 = some (scannedU32 seed, namesText names) := by
  have hnt := namesText_startsWithSpace names
  have hsc : ∀ (z : Int) (rest : List Char),
      (rest = [] ∨ ∃ c t, rest = c :: t ∧ c.isDigit = false) →
      scanInt (' ' :: (decimalInt z ++ rest)) = some (scannedInt z, rest) := by
    intro z rest hrest
    unfold scanInt decimalInt scannedInt
    by_cases hneg : z < 0
    · rw [if_pos hneg, List.cons_append, scanNumber_minus_decimal _ _ hrest]
      simp [hneg]
    · rw [if_neg hneg, scanNumber_decimal _ _ hrest]
      simp [hneg]
  have hsu : ∀ (n : Nat) (rest : List Char),
      (rest = [] ∨ ∃ c t, rest = c :: t ∧ c.isDigit = false) →
      scanU32 (' ' :: (decimal n ++ rest)) = some (scannedU32 n, rest) := by
    intro n rest hrest
    unfold scanU32 scannedU32
    rw [scanNumber_decimal _ _ hrest]
  exact ⟨_, _, _, scanStr_word game _ hgame (StartsWithSpace.cons_space _),
    hsc numRuns _ (StartsWithSpace.cons_space _).not_digit,
    scanStr_word tag _ htag (StartsWithSpace.cons_space _),
    hsu seed (namesText names) hnt.not_digit⟩

theorem scannedInt_of_int (z : Int) (hz : -2147483648 ≤ z ∧ z < 2147483648) :
    scannedInt z = z := by
  have h := scanInt_decimalInt z [] hz (Or.inl rfl)
  have h2 : scanInt (' ' :: (decimalInt z ++ [])) = some (scannedInt z, []) := by
    unfold scanInt decimalInt scannedInt
    by_cases hneg : z < 0
    · rw [if_pos hneg, List.cons_append, scanNumber_minus_decimal _ _ (Or.inl rfl)]
      simp [hneg]
    · rw [if_neg hneg, scanNumber_decimal _ _ (Or.inl rfl)]
      simp [hneg]
  rw [h] at h2
  simp only [Option.some.injEq, Prod.mk.injEq, and_true] at h2
  exact h2.symm

theorem parseMatchSpec_of_scans (R : Rng) (conf : Config) (serv : ServerState)
    (spec : List Char) (ce : Nat) (m : Match) (name r1 r2 tag r3 r4 : List Char)
    (g : Nat) (v : Int) (s : Nat)
    (h1 : scanStr spec = some (name, r1)) (hg : findGame conf name = some g)
    (h3 : scanInt r1 = some (v, r2)) (h4 : scanStr r2 = some (tag, r3))
    (h5 : scanU32 r3 = some (s, r4)) :
    parseMatchSpec R conf serv spec ce m = parseTail R conf serv ce m g v tag s r4 := by
  unfold parseMatchSpec parseTail
  simp only [h1, hg, h3, h4, h5]
  rfl

theorem parseMatchSpec_no_game (R : Rng) (conf : Config) (serv : ServerState)
    (spec : List Char) (ce : Nat) (m : Match) (name r1 : List Char)
    (h1 : scanStr spec = some (name, r1)) (hg : findGame conf name = none) :
    parseMatchSpec R conf serv spec ce m = (-1, serv, m) := by
  unfold parseMatchSpec
  simp only [h1, hg]

theorem parseTail_ret (R : Rng) (conf : Config) (serv : ServerState) (ce : Nat) (m : Match)
    (g : Nat) (v : Int) (tag : List Char) (s : Nat) (r4 : List Char) :
    (parseTail R conf serv ce m g v tag s r4).1 =
      if v < 0 ∨ v > ((conf.gameAt g).maxMatchRuns : Int) then -1
      else if '/' ∈ tag then -1
      else if (parseSeats conf ce (conf.gameAt g).game.numPlayers 0 r4
                { m with gameConf := g, numRuns := v }).1 = true then 0
      else -1 := by
  unfold parseTail
  simp only [parseSeats_skipSpace]
  by_cases h1 : v < 0 ∨ v > ((conf.gameAt g).maxMatchRuns : Int)
  · simp only [h1, if_true]
  · by_cases h2 : '/' ∈ tag
    · simp only [h1, h2, if_true, if_false]
    · simp only [h1, h2, if_false]
      cases hps : parseSeats conf ce (conf.gameAt g).game.numPlayers 0 r4
          { m with gameConf := g, numRuns := v } with
      | mk ok m3 =>
        cases ok with
        | false => simp
        | true =>
          simp only [if_true]
          split_ifs <;> rfl

/-! ## Rejected commands -/

theorem strncaseeq_runmatches_not (line word : List Char)
    (h : strncaseeq line "RUNMATCHES".toList = true)
    (hw : word.length ≤ 10)
    (hne : ("RUNMATCHES".toList.take word.length).map Char.toLower ≠ word.map Char.toLower) :
    strncaseeq line word = false := by
  unfold strncaseeq at h ⊢
  have h10 : (line.take 10).map Char.toLower = "RUNMATCHES".toList.map Char.toLower := by
    simpa using h
  have hk : (line.take word.length).map Char.toLower
      = ("RUNMATCHES".toList.map Char.toLower).take word.length := by
    rw [← h10, ← List.map_take, List.take_take, Nat.min_eq_left hw]
  rw [hk, ← List.map_take]
  simpa using hne

/-- `handleConnection` on a `RUNMATCHES` line that `parseMatchSpec` rejects, received
as the first line on a connection that is logged on. -/
theorem handleConnection_rejected (R : Rng) (env : ConnEnv) (conf : Config)
    (serv : ServerState) (ce : Nat) (g : GetLine) (rest : List GetLine)
    (hreads : env.reads = g :: rest) (hr : 0 < g.r)
    (hst : (LLPoolGetItem serv.conns ce).status = STATUS_OKAY)
    (hcmd : strncaseeq g.line "RUNMATCHES".toList = true)
    (hrej : (parseMatchSpec R conf serv (g.line.drop 10) ce env.stack).1 < 0) :
    handleConnection R env conf serv ce =
      (serv, [Event.write (LLPoolGetItem serv.conns ce).connBuf
                "BAD RUNMATCHES COMMAND\n".toList], rest) := by
  have h1 : ¬ g.r < 0 := by omega
  have h2 : ¬ g.r = 0 := by omega
  have h3 : ¬ (LLPoolGetItem serv.conns ce).status = STATUS_UNVALIDATED := by
    rw [hst]; decide
  have h4 : strncaseeq g.line "HELP".toList = false :=
    strncaseeq_runmatches_not g.line _ hcmd (by decide) (by decide)
  have h5 : strncaseeq g.line "GAMES".toList = false :=
    strncaseeq_runmatches_not g.line _ hcmd (by decide) (by decide)
  have h6 : strncaseeq g.line "QSTAT".toList = false :=
    strncaseeq_runmatches_not g.line _ hcmd (by decide) (by decide)
  have hs := parseMatchSpec_fail_serv R conf serv (g.line.drop 10) ce env.stack hrej
  unfold handleConnection
  rw [hreads]
  simp only [handleLoop, h1, h2, h3, h4, h5, h6, hcmd, hrej, hs, if_true, if_false,
    Bool.false_eq_true, List.nil_append]

/-- **C7**: for a `RUNMATCHES` line that `parseMatchSpec` rejects (received as the
first line of a call on a connection whose status is `STATUS_OKAY`),
`handleConnection` makes exactly one `write`, of the line `BAD RUNMATCHES COMMAND`,
on the connection, and leaves the whole server state as it was: the match list, the
jobs list, the generator and the status of the connection among it. -/
theorem rejected_runmatches_changes_nothing (R : Rng) (env : ConnEnv) (conf : Config)
    (serv : ServerState) (ce : Nat) (g : GetLine) (rest : List GetLine)
    (hreads : env.reads = g :: rest) (hr : 0 < g.r)
    (hst : (LLPoolGetItem serv.conns ce).status = STATUS_OKAY)
    (hcmd : strncaseeq g.line "RUNMATCHES".toList = true)
    (hrej : (parseMatchSpec R conf serv (g.line.drop 10) ce env.stack).1 < 0) :
    (handleConnection R env conf serv ce).2.1 =
      [Event.write (LLPoolGetItem serv.conns ce).connBuf
        "BAD RUNMATCHES COMMAND\n".toList] ∧
    (handleConnection R env conf serv ce).1.matches_ = serv.matches_ ∧
    (handleConnection R env conf serv ce).1.jobs = serv.jobs ∧
    (handleConnection R env conf serv ce).1.rng = serv.rng ∧
    (LLPoolGetItem (handleConnection R env conf serv ce).1.conns ce).status = STATUS_OKAY ∧
    (handleConnection R env conf serv ce).1 = serv := by
  rw [handleConnection_rejected R env conf serv ce g rest hreads hr hst hcmd hrej]
  exact ⟨rfl, rfl, rfl, rfl, hst, rfl⟩

theorem rejected_runmatches_changes_nothing_witness :
    (parseMatchSpec sampleRng sampleLoggedOn.conf sampleLoggedOn.serv
      ("RUNMATCHES holdem 1 a/b 0 LOCAL example\n".toList.drop 10) 0 default).1 = -1 ∧
    ((handleConnection sampleRng
        (sampleConnEnv "RUNMATCHES holdem 1 a/b 0 LOCAL example\n" 3)
        sampleLoggedOn.conf sampleLoggedOn.serv 0).2.1 =
      [Event.write (LLPoolGetItem sampleLoggedOn.serv.conns 0).connBuf
        "BAD RUNMATCHES COMMAND\n".toList] ∧
    (handleConnection sampleRng
        (sampleConnEnv "RUNMATCHES holdem 1 a/b 0 LOCAL example\n" 3)
        sampleLoggedOn.conf sampleLoggedOn.serv 0).1.matches_ = sampleLoggedOn.serv.matches_ ∧
    (handleConnection sampleRng
        (sampleConnEnv "RUNMATCHES holdem 1 a/b 0 LOCAL example\n" 3)
        sampleLoggedOn.conf sampleLoggedOn.serv 0).1.jobs = sampleLoggedOn.serv.jobs ∧
    (handleConnection sampleRng
        (sampleConnEnv "RUNMATCHES holdem 1 a/b 0 LOCAL example\n" 3)
        sampleLoggedOn.conf sampleLoggedOn.serv 0).1.rng = sampleLoggedOn.serv.rng ∧
    (LLPoolGetItem (handleConnection sampleRng
        (sampleConnEnv "RUNMATCHES holdem 1 a/b 0 LOCAL example\n" 3)
        sampleLoggedOn.conf sampleLoggedOn.serv 0).1.conns 0).status = STATUS_OKAY ∧
    (handleConnection sampleRng
        (sampleConnEnv "RUNMATCHES holdem 1 a/b 0 LOCAL example\n" 3)
        sampleLoggedOn.conf sampleLoggedOn.serv 0).1 = sampleLoggedOn.serv) :=
  ⟨by decide,
    rejected_runmatches_changes_nothing sampleRng
      (sampleConnEnv "RUNMATCHES holdem 1 a/b 0 LOCAL example\n" 3)
      sampleLoggedOn.conf sampleLoggedOn.serv 0
      ⟨40, "RUNMATCHES holdem 1 a/b 0 LOCAL example\n".toList⟩ [] (by rfl) (by decide)
      (by decide) (by decide) (by decide)⟩

/-! ## The range of `numRuns` -/

/-- The return value of `parseMatchSpec` on a rendered command whose game is the
configured game `g`, whose tag has no `/` and whose names are the seats of the game, in
terms of the value that `%d` stores for the number of runs. -/
theorem parseMatchSpec_render_ret (R : Rng) (conf : Config) (serv : ServerState) (ce : Nat)
    (m : Match) (game tag : List Char) (numRuns : Int) (seed : Nat)
    (names : List (List Char)) (g : Nat)
    (hgame : IsWord game) (htag : IsWord tag) (hslash : '/' ∉ tag)
    (hg : findGame conf game = some g)
    (hlen : names.length = (conf.gameAt g).game.numPlayers)
    (hnames : ∀ n ∈ names, IsWord n ∧ (n = "LOCAL".toList ∨ findBot (conf.gameAt g) n ≠ none)) :
    (parseMatchSpec R conf serv (renderSpec game numRuns tag seed names) ce m).1 =
      if scannedInt numRuns < 0 ∨ scannedInt numRuns > ((conf.gameAt g).maxMatchRuns : Int)
      then -1 else 0 := by
  obtain ⟨r1, r2, r3, h1, h3, h4, h5⟩ :=
    scans_renderSpec game tag numRuns seed names hgame htag
  rw [parseMatchSpec_of_scans R conf serv _ ce m game r1 r2 tag r3 _ g _ _ h1 hg h3 h4 h5,
    parseTail_ret]
  have hseats := parseSeats_exact conf ce (conf.gameAt g).game.numPlayers 0 names
    { m with gameConf := g, numRuns := scannedInt numRuns } hlen hnames
  simp only [hslash, hseats, if_true, if_false]

/-- **C9** (as the code has it): for a `RUNMATCHES` command that is well formed otherwise
(words for the game and the tag, no `/` in the tag and, when the game is configured, as
many names as the game has players, each `LOCAL` or a bot of the game), whatever number
stands for `numRuns`: `parseMatchSpec` returns -1 if and only if the game is not
configured or the value that `%d` stores in the `int` is outside `[0, maxMatchRuns]` of
the game, and returns 0 otherwise. The stored value is the number itself when the number
is in the range of `int`. In particular, for a configured game, 0 and `maxMatchRuns` are
accepted and -1 and `maxMatchRuns + 1` are rejected. -/
theorem parseMatchSpec_rejects_iff (R : Rng) (conf : Config) (serv : ServerState)
    (ce : Nat) (m : Match) (game tag : List Char) (seed : Nat) (names : List (List Char))
    (hgame : IsWord game) (htag : IsWord tag) (hslash : '/' ∉ tag)
    (hnames : ∀ g, findGame conf game = some g →
      (conf.gameAt g).maxMatchRuns < 65536 ∧
      names.length = (conf.gameAt g).game.numPlayers ∧
      ∀ n ∈ names, IsWord n ∧ (n = "LOCAL".toList ∨ findBot (conf.gameAt g) n ≠ none)) :
    (∀ numRuns : Int,
      (((parseMatchSpec R conf serv (renderSpec game numRuns tag seed names) ce m).1 = -1 ↔
        (findGame conf game = none ∨
          ∃ g, findGame conf game = some g ∧
            (scannedInt numRuns < 0 ∨
              ((conf.gameAt g).maxMatchRuns : Int) < scannedInt numRuns))) ∧
       ((parseMatchSpec R conf serv (renderSpec game numRuns tag seed names) ce m).1 = 0 ↔
        ∃ g, findGame conf game = some g ∧
          0 ≤ scannedInt numRuns ∧
          scannedInt numRuns ≤ ((conf.gameAt g).maxMatchRuns : Int)))) ∧
    (∀ numRuns : Int, -2147483648 ≤ numRuns → numRuns < 2147483648 →
      scannedInt numRuns = numRuns) ∧
    (∀ g, findGame conf game = some g →
      (parseMatchSpec R conf serv (renderSpec game 0 tag seed names) ce m).1 = 0 ∧
      (parseMatchSpec R conf serv
        (renderSpec game (conf.gameAt g).maxMatchRuns tag seed names) ce m).1 = 0 ∧
      (parseMatchSpec R conf serv (renderSpec game (-1) tag seed names) ce m).1 = -1 ∧
      (parseMatchSpec R conf serv
        (renderSpec game ((conf.gameAt g).maxMatchRuns + 1) tag seed names) ce m).1 = -1) := by
  have key : ∀ numRuns : Int, ∀ g, findGame conf game = some g →
      (parseMatchSpec R conf serv (renderSpec game numRuns tag seed names) ce m).1 =
        if scannedInt numRuns < 0 ∨
            scannedInt numRuns > ((conf.gameAt g).maxMatchRuns : Int) then -1 else 0 := by
    intro numRuns g hg
    obtain ⟨_, hlen, hn⟩ := hnames g hg
    exact parseMatchSpec_render_ret R conf serv ce m game tag numRuns seed names g hgame htag
      hslash hg hlen hn
  refine ⟨?_, fun numRuns h1 h2 => scannedInt_of_int numRuns ⟨h1, h2⟩, ?_⟩
  · intro numRuns
    cases hg : findGame conf game with
    | none =>
      obtain ⟨r1, _, _, hs1, _⟩ := scans_renderSpec game tag numRuns seed names hgame htag
      rw [parseMatchSpec_no_game R conf serv _ ce m game r1 hs1 hg]
      simp
    | some g =>
      rw [key numRuns g hg]
      by_cases hr : scannedInt numRuns < 0 ∨
          scannedInt numRuns > ((conf.gameAt g).maxMatchRuns : Int)
      · simp only [hr, if_true, true_iff]
        constructor
        · exact Or.inr ⟨g, rfl, hr⟩
        · constructor
          · intro h; exact absurd h (by decide)
          · rintro ⟨g1, hg1, h0, hmax⟩
            simp only [Option.some.injEq] at hg1
            subst hg1
            omega
      · simp only [hr, if_false]
        constructor
        · constructor
          · intro h; exact absurd h (by decide)
          · rintro (h | ⟨g1, hg1, hh⟩)
            · exact absurd h (by simp)
            · simp only [Option.some.injEq] at hg1
              subst hg1
              exact absurd hh hr
        · simp only [true_iff]
          exact ⟨g, rfl, by omega, by omega⟩
  · intro g hg
    obtain ⟨hmax, _, _⟩ := hnames g hg
    refine ⟨?_, ?_, ?_, ?_⟩
    · rw [key 0 g hg, scannedInt_of_int 0 (by omega), if_neg (by omega)]
    · rw [key _ g hg, scannedInt_of_int _ (by omega), if_neg (by omega)]
    · rw [key (-1) g hg, scannedInt_of_int (-1) (by omega), if_pos (by omega)]
    · rw [key _ g hg, scannedInt_of_int _ (by omega), if_pos (by omega)]

theorem sample_names_ok : ∀ g, findGame sampleConf "holdem".toList = some g →
    (sampleConf.gameAt g).maxMatchRuns < 65536 ∧
    ["LOCAL".toList, "example".toList].length = (sampleConf.gameAt g).game.numPlayers ∧
    ∀ n ∈ ["LOCAL".toList, "example".toList],
      IsWord n ∧ (n = "LOCAL".toList ∨ findBot (sampleConf.gameAt g) n ≠ none) := by
  intro g hg
  have h0 : findGame sampleConf "holdem".toList = some 0 := by decide
  rw [h0] at hg
  simp only [Option.some.injEq] at hg
  subst hg
  decide

theorem parseMatchSpec_rejects_iff_witness :
    IsWord "holdem".toList ∧ IsWord "t0".toList ∧ '/' ∉ "t0".toList ∧
    (parseMatchSpec sampleRng sampleConf sampleLoggedOn.serv
      (renderSpec "holdem".toList 0 "t0".toList 42 ["LOCAL".toList, "example".toList])
      0 default).1 = 0 ∧
    (parseMatchSpec sampleRng sampleConf sampleLoggedOn.serv
      (renderSpec "holdem".toList ((sampleConf.gameAt 0).maxMatchRuns + 1) "t0".toList 42
        ["LOCAL".toList, "example".toList]) 0 default).1 = -1 :=
  ⟨by decide, by decide, by decide,
    ((parseMatchSpec_rejects_iff sampleRng sampleConf sampleLoggedOn.serv 0 default
      "holdem".toList "t0".toList 42 ["LOCAL".toList, "example".toList]
      (by decide) (by decide) (by decide) sample_names_ok).2.2 0 (by decide)).1,
    ((parseMatchSpec_rejects_iff sampleRng sampleConf sampleLoggedOn.serv 0 default
      "holdem".toList "t0".toList 42 ["LOCAL".toList, "example".toList]
      (by decide) (by decide) (by decide) sample_names_ok).2.2 0 (by decide)).2.2.2⟩

/-- The claim of C9 as stated fails: for the game `holdem` of the sample configuration,
whose `maxMatchRuns` is 10, the command with 4294967297 for `numRuns` is accepted
(`parseMatchSpec` returns 0) and the match it leaves has `numRuns` = 1. -/
theorem wide_numRuns_accepted :
    renderSpec "holdem".toList 4294967297 "tt".toList 42 ["LOCAL".toList, "example".toList]
      = " holdem 4294967297 tt 42 LOCAL example\n".toList ∧
    findGame sampleConf "holdem".toList = some 0 ∧
    (sampleConf.gameAt 0).maxMatchRuns = 10 ∧
    (parseMatchSpec sampleRng sampleConf sampleLoggedOn.serv
      " holdem 4294967297 tt 42 LOCAL example\n".toList 0 default).1 = 0 ∧
    (parseMatchSpec sampleRng sampleConf sampleLoggedOn.serv
      " holdem 4294967297 tt 42 LOCAL example\n".toList 0 default).2.2.numRuns = 1 := by
  decide

/-! ## The number of player names -/

/-- The claim of C10 as stated fails: for the two-player game `holdem` of the sample
configuration, the command with three names after the seed is accepted
(`parseMatchSpec` returns 0). -/
theorem extra_name_accepted :
    renderSpec "holdem".toList 1 "tt".toList 0
        ["LOCAL".toList, "example".toList, "example".toList]
      = " holdem 1 tt 0 LOCAL example example\n".toList ∧
    findGame sampleConf "holdem".toList = some 0 ∧
    (sampleConf.gameAt 0).game.numPlayers = 2 ∧
    (parseMatchSpec sampleRng sampleConf sampleLoggedOn.serv
      " holdem 1 tt 0 LOCAL example example\n".toList 0 default).1 = 0 := by
  decide

/-- **C10** (amended): a `RUNMATCHES` command for a configured game is accepted only
if at least `numPlayers` names follow the seed: with fewer names `parseMatchSpec`
returns -1. It reads exactly `numPlayers` names: whatever follows them is ignored, the
command with further names has the result of the command without them. -/
theorem parseMatchSpec_player_names (R : Rng) (conf : Config) (serv : ServerState)
    (ce : Nat) (m : Match) (game tag : List Char) (numRuns : Int) (seed : Nat)
    (names : List (List Char)) (g : Nat)
    (hgame : IsWord game) (htag : IsWord tag) (hg : findGame conf game = some g)
    (hw : ∀ n ∈ names, IsWord n) :
    (names.length < (conf.gameAt g).game.numPlayers →
      (parseMatchSpec R conf serv (renderSpec game numRuns tag seed names) ce m).1 = -1) ∧
    (names.length = (conf.gameAt g).game.numPlayers → ∀ extra : List (List Char),
      parseMatchSpec R conf serv (renderSpec game numRuns tag seed (names ++ extra)) ce m
        = parseMatchSpec R conf serv (renderSpec game numRuns tag seed names) ce m) := by
  obtain ⟨r1, r2, r3, h1, h3, h4, h5⟩ :=
    scans_renderSpec game tag numRuns seed names hgame htag
  constructor
  · intro hlen
    rw [parseMatchSpec_of_scans R conf serv _ ce m game r1 r2 tag r3 _ g _ _ h1 hg h3 h4 h5,
      parseTail_ret, parseSeats_short conf ce _ 0 names _ hw hlen]
    split_ifs <;> first | rfl | contradiction
  · intro hlen extra
    obtain ⟨q1, q2, q3, k1, k3, k4, k5⟩ :=
      scans_renderSpec game tag numRuns seed (names ++ extra) hgame htag
    rw [parseMatchSpec_of_scans R conf serv _ ce m game r1 r2 tag r3 _ g _ _ h1 hg h3 h4 h5,
      parseMatchSpec_of_scans R conf serv _ ce m game q1 q2 tag q3 _ g _ _ k1 hg k3 k4 k5]
    unfold parseTail
    simp only [parseSeats_skipSpace, parseSeats_extra conf ce _ 0 names extra _ hlen hw]

theorem parseMatchSpec_player_names_witness :
    (parseMatchSpec sampleRng sampleConf sampleLoggedOn.serv
      (renderSpec "holdem".toList 1 "tt".toList 0 ["LOCAL".toList]) 0 default).1 = -1 ∧
    parseMatchSpec sampleRng sampleConf sampleLoggedOn.serv
      (renderSpec "holdem".toList 1 "tt".toList 0
        (["LOCAL".toList, "example".toList] ++ ["example".toList])) 0 default
      = parseMatchSpec sampleRng sampleConf sampleLoggedOn.serv
      (renderSpec "holdem".toList 1 "tt".toList 0 ["LOCAL".toList, "example".toList])
        0 default :=
  ⟨(parseMatchSpec_player_names sampleRng sampleConf sampleLoggedOn.serv 0 default
      "holdem".toList "tt".toList 1 0 ["LOCAL".toList] 0 (by decide) (by decide)
      (by decide) (by decide)).1 (by decide),
   (parseMatchSpec_player_names sampleRng sampleConf sampleLoggedOn.serv 0 default
      "holdem".toList "tt".toList 1 0 ["LOCAL".toList, "example".toList] 0 (by decide)
      (by decide) (by decide) (by decide)).2 (by decide) ["example".toList]⟩

/-! ## Where the matches of the list come from -/

theorem SameRequest.same_refl (m : Match) : SameRequest m m := ⟨rfl, rfl, rfl, rfl, rfl, rfl⟩

theorem mem_SetItem_inv {P : LLPool Match} {a : Nat} {f : Match → Match}
    (hf : ∀ m, SameRequest m (f m)) {e1 : LLPoolEntry Match}
    (h : e1 ∈ (LLPoolSetItem P a f).head) :
    ∃ e ∈ P.head, e.addr = e1.addr ∧ SameRequest e.data e1.data := by
  simp only [LLPoolSetItem, List.mem_map] at h
  obtain ⟨x, hx, rfl⟩ := h
  refine ⟨x, hx, ?_, ?_⟩
  · split_ifs <;> rfl
  · split_ifs
    · exact hf _
    · exact SameRequest.same_refl _

theorem handleLoop_matches (R : Rng) (env : ConnEnv) (conf : Config) (ce : Nat)
    (reads : List GetLine) (serv : ServerState) (out : List Event) :
    ∀ e1 ∈ (handleLoop R env conf ce reads serv out).1.matches_.head,
      (∃ e ∈ serv.matches_.head, e.addr = e1.addr ∧ SameRequest e.data e1.data) ∨
      FreshlyParsed R conf e1.data := by
  have hsame : ∀ e1 ∈ serv.matches_.head,
      (∃ e ∈ serv.matches_.head, e.addr = e1.addr ∧ SameRequest e.data e1.data) ∨
      FreshlyParsed R conf e1.data :=
    fun e1 h1 => Or.inl ⟨e1, h1, rfl, SameRequest.same_refl _⟩
  have hclose : ∀ e1 ∈ (closeConnection conf serv ce).matches_.head,
      (∃ e ∈ serv.matches_.head, e.addr = e1.addr ∧ SameRequest e.data e1.data) ∨
      FreshlyParsed R conf e1.data := by
    intro e1 h1
    simp only [closeConnection, List.mem_map] at h1
    obtain ⟨x, hx, rfl⟩ := h1
    refine Or.inl ⟨x, hx, ?_, ?_⟩
    · split_ifs <;> rfl
    · split_ifs
      · exact ⟨rfl, rfl, rfl, rfl, rfl, rfl⟩
      · exact SameRequest.same_refl _
  induction reads generalizing out with
  | nil => exact hsame
  | cons g rest ih =>
    simp only [handleLoop]
    split_ifs
    all_goals first
      | exact hsame
      | exact hclose
      | exact ih _
      | (split <;> first | exact hclose | exact hsame)
      | (rw [parseMatchSpec_fail_serv R conf serv _ ce env.stack (by assumption)]
         exact hsame)
      | (obtain ⟨rng, hs⟩ := parseMatchSpec_serv R conf serv (g.line.drop 10) ce env.stack
         intro e1 h1
         simp only [LLPoolAddItem_head, List.mem_cons] at h1
         rcases h1 with rfl | h1
         · exact Or.inr ⟨serv, g.line.drop 10, ce, env.stack, _, _, by assumption, rfl⟩
         · rw [hs] at h1
           exact hsame e1 h1)

/-- Every match of the list after a step of the main loop is a match of the list
before the step with the same request, or one that `handleConnection` has just
queued. -/
theorem Step.matches_frame {R : Rng} {w w1 : World} (hi : Inv w) (hs : Step R w w1) :
    ∀ e1 ∈ w1.serv.matches_.head,
      (∃ e ∈ w.serv.matches_.head, e.addr = e1.addr ∧ SameRequest e.data e1.data) ∨
      FreshlyParsed R w.conf e1.data := by
  have hsame : ∀ e1 ∈ w.serv.matches_.head,
      (∃ e ∈ w.serv.matches_.head, e.addr = e1.addr ∧ SameRequest e.data e1.data) ∨
      FreshlyParsed R w.conf e1.data :=
    fun e1 h1 => Or.inl ⟨e1, h1, rfl, SameRequest.same_refl _⟩
  have hgc : ∀ e1 ∈ (gcPool w).head, e1 ∈ w.serv.matches_.head := by
    intro e1 h1
    rw [gcPool_head w hi.matchesWF] at h1
    exact List.mem_of_mem_filter h1
  cases hs with
  | reap waitpid e job allDone he hc =>
    cases allDone with
    | false => exact hsame
    | true =>
      intro e1 h1
      exact Or.inl (@mem_SetItem_inv w.serv.matches_ _
        (fun x => { x with isRunning := false })
        (fun m => ⟨rfl, rfl, rfl, rfl, rfl, rfl⟩) e1 h1)
  | drop e _ _ => exact hsame
  | start env r evs hst =>
    rename_i hstart
    rcases startMatchJob_cases R _ w w1 _ _ hstart with
      ⟨_, _, rfl, _⟩ | ⟨_, _, _, rfl, _⟩ | ⟨_, _, _, rfl, _⟩ |
      ⟨_, _, best, job, _, _, _, rfl⟩
    · exact hsame
    · intro e1 h1; exact hsame e1 (hgc e1 h1)
    · intro e1 h1; exact hsame e1 (hgc e1 h1)
    · intro e1 h1
      unfold dispatched seededPool at h1
      left
      obtain ⟨x, hx, hxa, hxs⟩ :=
        @mem_SetItem_inv _ best.addr
          (fun x => { x with isRunning := true, numRuns := x.numRuns - 1,
                             queueTime := env.nowQueue })
          (fun m => ⟨rfl, rfl, rfl, rfl, rfl, rfl⟩) e1 h1
      by_cases hseed : best.data.useRngForSeed ≠ 0
      · rw [if_pos hseed] at hx
        obtain ⟨y, hy, hya, hys⟩ :=
          @mem_SetItem_inv (gcPool w) best.addr
            (fun x => { x with rng := (R.genrand_int32 best.data.rng).2 })
            (fun m => ⟨rfl, rfl, rfl, rfl, rfl, rfl⟩) x hx
        refine ⟨y, hgc y hy, hya.trans hxa, ?_⟩
        obtain ⟨a1, a2, a3, a4, a5, a6⟩ := hys
        obtain ⟨b1, b2, b3, b4, b5, b6⟩ := hxs
        exact ⟨b1.trans a1, b2.trans a2, b3.trans a3, b4.trans a4, b5.trans a5, b6.trans a6⟩
      · rw [if_neg hseed] at hx
        exact ⟨x, hgc x hx, hxa, hxs⟩
  | accept sock => exact hsame
  | handle env e _ _ => exact handleLoop_matches R env w.conf e.addr env.reads w.serv []

theorem parseMatchSpec_ok_tag (R : Rng) (conf : Config) (serv : ServerState)
    (spec : List Char) (ce : Nat) (m : Match)
    (h : ¬ (parseMatchSpec R conf serv spec ce m).1 < 0) :
    '/' ∉ (parseMatchSpec R conf serv spec ce m).2.2.tag := by
  obtain ⟨name, spec1, entry, numRuns, spec2, tag, spec3, rngSeed, spec4, m3, _, _, _, _, _,
    _, _, hslash, _, heq⟩ := parseMatchSpec_ok R conf serv spec ce m h
  rw [heq]
  split_ifs <;> exact hslash

/-- No match of the list of a reachable world has a `/` in its tag. -/
theorem Reachable.no_slash {R : Rng} {w : World} (h : Reachable R w) :
    ∀ e ∈ w.serv.matches_.head, '/' ∉ e.data.tag := by
  induction h with
  | init w hw =>
    intro e he
    rw [hw.2.2.1] at he
    exact absurd he (List.not_mem_nil _)
  | step w w1 hr hs ih =>
    intro e1 h1
    rcases hs.matches_frame (Inv.reachable hr) e1 h1 with
      ⟨e, he, _, hsr⟩ | ⟨serv, spec, ce, stack, u, now, hok, heq⟩
    · rw [hsr.2.2.1]
      exact ih e he
    · rw [heq]
      exact parseMatchSpec_ok_tag R w.conf serv spec ce stack hok

/-! ## Tags -/

/-- **C8**: a `RUNMATCHES` command whose tag contains `/` makes `parseMatchSpec` fail
(it returns -1), so that `handleConnection` answers `BAD RUNMATCHES COMMAND` and
leaves the server state, the queue in it, as it was. For any text at all, when
`parseMatchSpec` accepts, the tag it stored has no `/`. Hence no match in the match
list of a reachable world has a `/` in its tag. -/
theorem slash_in_tag_rejected (R : Rng) (conf : Config) (serv : ServerState) (ce : Nat)
    (m : Match) (game tag : List Char) (numRuns : Int) (seed : Nat)
    (names : List (List Char)) (hgame : IsWord game) (htag : IsWord tag)
    (hslash : '/' ∈ tag) :
    (parseMatchSpec R conf serv (renderSpec game numRuns tag seed names) ce m).1 = -1 ∧
    (∀ (env : ConnEnv) (g : GetLine) (rest : List GetLine),
      env.reads = g :: rest → 0 < g.r →
      (LLPoolGetItem serv.conns ce).status = STATUS_OKAY →
      strncaseeq g.line "RUNMATCHES".toList = true →
      g.line.drop 10 = renderSpec game numRuns tag seed names →
      handleConnection R env conf serv ce =
        (serv, [Event.write (LLPoolGetItem serv.conns ce).connBuf
                  "BAD RUNMATCHES COMMAND\n".toList], rest)) ∧
    (∀ (spec : List Char) (stack : Match),
      (parseMatchSpec R conf serv spec ce stack).1 = 0 →
      '/' ∉ (parseMatchSpec R conf serv spec ce stack).2.2.tag) ∧
    (∀ w : World, Reachable R w → ∀ e ∈ w.serv.matches_.head, '/' ∉ e.data.tag) := by
  have hrej : ∀ stack : Match,
      (parseMatchSpec R conf serv (renderSpec game numRuns tag seed names) ce stack).1 = -1 := by
    intro stack
    obtain ⟨r1, r2, r3, h1, h3, h4, h5⟩ :=
      scans_renderSpec game tag numRuns seed names hgame htag
    cases hg : findGame conf game with
    | none => rw [parseMatchSpec_no_game R conf serv _ ce stack game r1 h1 hg]
    | some g =>
      rw [parseMatchSpec_of_scans R conf serv _ ce stack game r1 r2 tag r3 _ g _ _ h1 hg h3
        h4 h5, parseTail_ret]
      simp only [hslash, if_true]
      split_ifs <;> rfl
  refine ⟨hrej m, ?_, ?_, fun w hw => hw.no_slash⟩
  · intro env g rest hreads hr hst hcmd hline
    apply handleConnection_rejected R env conf serv ce g rest hreads hr hst hcmd
    rw [hline, hrej]
    decide
  · intro spec stack h0
    exact parseMatchSpec_ok_tag R conf serv spec ce stack (by rw [h0]; decide)

theorem slash_in_tag_rejected_witness :
    renderSpec "holdem".toList 1 "a/b".toList 0 ["LOCAL".toList, "example".toList]
      = " holdem 1 a/b 0 LOCAL example\n".toList ∧
    (parseMatchSpec sampleRng sampleConf sampleLoggedOn.serv
      (renderSpec "holdem".toList 1 "a/b".toList 0 ["LOCAL".toList, "example".toList])
      0 default).1 = -1 ∧
    (∀ e ∈ sampleStarted.serv.matches_.head, '/' ∉ e.data.tag) :=
  ⟨by decide,
   (slash_in_tag_rejected sampleRng sampleConf sampleLoggedOn.serv 0 default
      "holdem".toList "a/b".toList 1 0 ["LOCAL".toList, "example".toList]
      (by decide) (by decide) (by decide)).1,
   (slash_in_tag_rejected sampleRng sampleConf sampleLoggedOn.serv 0 default
      "holdem".toList "a/b".toList 1 0 ["LOCAL".toList, "example".toList]
      (by decide) (by decide) (by decide)).2.2.2 sampleStarted sampleStarted_reachable⟩

/-! ## Fairness -/

theorem Config.setWaitStart_userAt_ne (conf : Config) (u : Option Nat) (now : timeval)
    (v : Nat) (hv : u ≠ some v) :
    (conf.setWaitStart u now).userAt (some v) = conf.userAt (some v) := by
  unfold Config.setWaitStart Config.userAt
  cases u with
  | none => rfl
  | some i =>
    have hne : i ≠ v := fun h => hv (by rw [h])
    simp only [List.getD_eq_getElem?_getD, List.getElem?_set, hne, if_false]

theorem Unlimited.eligible_free {conf : Config} (h : Unlimited conf) (m : Match) :
    Eligible conf m ↔ m.isRunning = false ∧ 0 < m.numRuns := by
  unfold Eligible
  constructor
  · exact fun hE => ⟨hE.1, hE.2.1⟩
  · exact fun hE => ⟨hE.1, hE.2, Or.inl (h.2 _)⟩

theorem dispatched_unlimited (R : Rng) (env : SchedEnv) (w : World)
    (best : LLPoolEntry Match) (job : MatchJob) (h : Unlimited w.conf) :
    Unlimited (dispatched R env w best job).conf := by
  unfold dispatched
  refine ⟨?_, ?_⟩
  · simp only [Config.setWaitStart_maxRunningBots]
    exact h.1
  · intro g
    simp only [Config.setWaitStart_gameAt, Config.addRunningJobs_max]
    exact h.2 g

/-- A call of `startMatchJob` that returns, in a world without budgets where some
entry is eligible and nothing is to be collected: it returns 1 for an entry `best`
that no eligible entry goes before, and the world after the call is the world before
with `best` started. -/
theorem dispatch_any (R : Rng) (env : SchedEnv) (w w1 : World) (r : Int)
    (evs : List Event) (hwf : PoolWF w.serv.matches_) (hun : Unlimited w.conf)
    (hkept : ∀ e ∈ w.serv.matches_.head, keptByGc e = true)
    (hex : ∃ e ∈ w.serv.matches_.head, Eligible w.conf e.data)
    (h : startMatchJob R env w = some (r, w1, evs)) :
    ∃ best ∈ w.serv.matches_.head,
      Eligible w.conf best.data ∧
      (∀ e ∈ w.serv.matches_.head, Eligible w.conf e.data →
        ¬ Before w.conf e.data best.data) ∧
      r = 1 ∧ lastDispatched w1 = some best.addr ∧
      w1.conf = (w.conf.addRunningJobs best.data.gameConf 1).setWaitStart best.data.user
        env.nowWait ∧
      w1.serv.matches_.head = w.serv.matches_.head.map (startEntry R env best.addr) ∧
      PoolWF w1.serv.matches_ := by
  have hne : w.serv.matches_.numEntries ≠ 0 := by
    obtain ⟨e, he, _⟩ := hex
    rw [hwf.2.2]
    cases hh : w.serv.matches_.head with
    | nil => rw [hh] at he; exact absurd he (List.not_mem_nil _)
    | cons a t =>
      have : (0 : Int) ≤ (t.length : Int) := Int.natCast_nonneg _
      simp only [List.length_cons]
      push_cast
      omega
  have hpn : pick w.conf w.serv.matches_.head none ≠ none := by
    intro hp
    obtain ⟨e, he, hE⟩ := hex
    exact (pick_none_iff _ _).1 hp e he hE
  have hgch : (gcPool w).head = w.serv.matches_.head := by
    rw [gcPool_head w hwf, List.filter_eq_self]
    exact hkept
  rcases startMatchJob_cases R env w w1 r evs h with
    ⟨_, h0, _⟩ | ⟨_, _, hp, _⟩ | ⟨_, _, ⟨b, _, hcap⟩, _⟩ |
    ⟨hr, _, best, job, hp, _, hrun, rfl⟩
  · exact absurd h0 hne
  · exact absurd hp hpn
  · exact absurd hun.1 hcap.1
  · obtain ⟨pre, post, hl, hE, hpre, hpost⟩ := pick_none_spec _ _ _ hp
    have hbest : best ∈ w.serv.matches_.head := by rw [hl]; simp
    refine ⟨best, hbest, hE, ?_, hr, ?_, rfl, ?_, ?_⟩
    · intro e hmem hel
      rw [hl] at hmem
      rcases List.mem_append.1 hmem with hm | hm
      · exact (hpre e hm hel).asymm
      · rcases List.mem_cons.1 hm with rfl | hm
        · intro hb; exact hb.asymm hb
        · exact hpost e hm hel
    · unfold lastDispatched dispatched
      simp only [LLPoolAddItem_head, List.head?_cons, Option.map_some']
      rw [runMatchJob_matchEntry _ _ _ _ _ _ _ hrun]
    · have hbe : ∀ x ∈ w.serv.matches_.head, x.addr = best.addr → x = best :=
        fun x hx ha => hwf.eq_of_addr hx hbest ha
      unfold dispatched seededPool startEntry
      by_cases hseed : best.data.useRngForSeed ≠ 0
      · rw [if_pos hseed]
        simp only [LLPoolSetItem, hgch]
        rw [List.map_map]
        apply List.map_congr_left
        intro x hx
        simp only [Function.comp]
        by_cases hxa : x.addr = best.addr
        · have := hbe x hx hxa
          subst this
          simp [startedMatch, hseed]
        · simp [hxa]
      · rw [if_neg hseed]
        simp only [LLPoolSetItem, hgch]
        apply List.map_congr_left
        intro x hx
        by_cases hxa : x.addr = best.addr
        · have := hbe x hx hxa
          subst this
          simp [startedMatch, hseed]
        · simp [hxa]
    · unfold dispatched seededPool
      split_ifs
      · exact PoolWF_SetItem (PoolWF_SetItem (gcPool_WF w hwf) _ _) _ _
      · exact PoolWF_SetItem (gcPool_WF w hwf) _ _

theorem startEntry_ne (R : Rng) (env : SchedEnv) (a : Nat) (e : LLPoolEntry Match)
    (h : e.addr ≠ a) : startEntry R env a e = e := by
  unfold startEntry; rw [if_neg h]

theorem startEntry_self (R : Rng) (env : SchedEnv) (e : LLPoolEntry Match) :
    startEntry R env e.addr e = ⟨e.addr, startedMatch R env e.data⟩ := by
  unfold startEntry; rw [if_pos rfl]

/-- The same in a world where one eligible entry goes before every other eligible
entry: that entry is the one started. -/
theorem dispatch_strict (R : Rng) (env : SchedEnv) (w w1 : World) (r : Int)
    (evs : List Event) (hwf : PoolWF w.serv.matches_) (hun : Unlimited w.conf)
    (hkept : ∀ e ∈ w.serv.matches_.head, keptByGc e = true)
    (X : LLPoolEntry Match) (hX : X ∈ w.serv.matches_.head) (hE : Eligible w.conf X.data)
    (hmin : ∀ e ∈ w.serv.matches_.head, Eligible w.conf e.data → e.addr ≠ X.addr →
      Before w.conf X.data e.data)
    (h : startMatchJob R env w = some (r, w1, evs)) :
    r = 1 ∧ lastDispatched w1 = some X.addr ∧
      w1.conf = (w.conf.addRunningJobs X.data.gameConf 1).setWaitStart X.data.user
        env.nowWait ∧
      w1.serv.matches_.head = w.serv.matches_.head.map (startEntry R env X.addr) ∧
      PoolWF w1.serv.matches_ := by
  obtain ⟨best, hbest, hbE, hbmin, hr, hlast, hconf, hhead, hwf1⟩ :=
    dispatch_any R env w w1 r evs hwf hun hkept ⟨X, hX, hE⟩ h
  have hba : best.addr = X.addr := by
    by_contra hne
    exact hbmin X hX hE (hmin best hbest hbE hne)
  have hbx : best = X := hwf.eq_of_addr hbest hX hba
  subst hbx
  exact ⟨hr, hlast, hconf, hhead, hwf1⟩

theorem unlimited_after (conf : Config) (g : Nat) (u : Option Nat) (now : timeval)
    (h : Unlimited conf) : Unlimited ((conf.addRunningJobs g 1).setWaitStart u now) := by
  refine ⟨?_, ?_⟩
  · simp only [Config.setWaitStart_maxRunningBots]
    exact h.1
  · intro g1
    simp only [Config.setWaitStart_gameAt, Config.addRunningJobs_max]
    exact h.2 g1

theorem users_length_after (conf : Config) (g : Nat) (u : Option Nat) (now : timeval) :
    ((conf.addRunningJobs g 1).setWaitStart u now).users.length = conf.users.length := by
  unfold Config.setWaitStart
  cases u with
  | none => rfl
  | some i => simp [Config.addRunningJobs_users]

theorem waitStart_after_self (conf : Config) (g u : Nat) (now : timeval)
    (hu : u < conf.users.length) :
    (((conf.addRunningJobs g 1).setWaitStart (some u) now).userAt (some u)).waitStart = now :=
  Config.setWaitStart_userAt _ u now (by rw [Config.addRunningJobs_users]; exact hu)

theorem waitStart_after_other (conf : Config) (g : Nat) (u : Option Nat) (v : Nat)
    (now : timeval) (hv : u ≠ some v) :
    ((conf.addRunningJobs g 1).setWaitStart u now).userAt (some v) = conf.userAt (some v) := by
  rw [Config.setWaitStart_userAt_ne _ u now v hv]
  rfl

theorem startedMatch_running (R : Rng) (env : SchedEnv) (m : Match) :
    (startedMatch R env m).isRunning = true := rfl

theorem keptByGc_of_running (e : LLPoolEntry Match) (h : e.data.isRunning = true) :
    keptByGc e = true := by
  simp [keptByGc, h]

theorem keptByGc_of_runs (e : LLPoolEntry Match) (h : e.data.numRuns = 1) :
    keptByGc e = true := by
  simp [keptByGc, h]

theorem not_eligible_of_running (conf : Config) (m : Match) (h : m.isRunning = true) :
    ¬ Eligible conf m := by
  intro hE
  rw [hE.1] at h
  exact absurd h (by decide)

theorem four_entries {P : LLPool Match} (hwf : PoolWF P) {E1 E2 E3 E4 : LLPoolEntry Match}
    (hperm : P.head.Perm [E1, E2, E3, E4]) :
    (∀ e, e ∈ P.head ↔ (e = E1 ∨ e = E2 ∨ e = E3 ∨ e = E4)) ∧
    E1.addr ≠ E2.addr ∧ E1.addr ≠ E3.addr ∧ E1.addr ≠ E4.addr ∧
    E2.addr ≠ E3.addr ∧ E2.addr ≠ E4.addr ∧ E3.addr ≠ E4.addr := by
  constructor
  · intro e
    rw [hperm.mem_iff]
    simp
  · have hnd := (hperm.map (fun e => e.addr)).nodup_iff.1 hwf.nodup_head
    simp only [List.map_cons, List.map_nil, List.nodup_cons, List.mem_cons,
      List.mem_singleton, List.not_mem_nil, not_or, List.nodup_nil, and_true,
      not_false_eq_true] at hnd
    obtain ⟨⟨h12, h13, h14⟩, ⟨h23, h24⟩, h34⟩ := hnd
    exact ⟨h12, h13, h14, h23, h24, h34⟩

/-- After a match of user `x` has been started: the next three calls of
`startMatchJob` start the first match of the other user `y`, the second match of `x`
and the second match of `y`. -/
theorem rotation_tail (R : Rng) (w1 w2 w3 w4 : World) (e2 e3 e4 : SchedEnv)
    (r2 r3 r4 : Int) (evs2 evs3 evs4 : List Event) (x y : Nat)
    (X1 X2 Y1 Y2 : LLPoolEntry Match)
    (hwf : PoolWF w1.serv.matches_) (hperm : w1.serv.matches_.head.Perm [X1, X2, Y1, Y2])
    (hun : Unlimited w1.conf)
    (hxy : x ≠ y) (hy : y < w1.conf.users.length)
    (hX1 : X1.data.isRunning = true)
    (hX2 : X2.data.isRunning = false ∧ X2.data.numRuns = 1 ∧ X2.data.user = some x)
    (hY1 : Y1.data.isRunning = false ∧ Y1.data.numRuns = 1 ∧ Y1.data.user = some y)
    (hY2 : Y2.data.isRunning = false ∧ Y2.data.numRuns = 1 ∧ Y2.data.user = some y)
    (hq : Y1.data.queueTime.lt Y2.data.queueTime)
    (hwait : (w1.conf.userAt (some y)).waitStart.lt (w1.conf.userAt (some x)).waitStart)
    (ht2 : (w1.conf.userAt (some x)).waitStart.lt e2.nowWait)
    (h2 : startMatchJob R e2 w1 = some (r2, w2, evs2))
    (h3 : startMatchJob R e3 w2 = some (r3, w3, evs3))
    (h4 : startMatchJob R e4 w3 = some (r4, w4, evs4)) :
    r2 = 1 ∧ r3 = 1 ∧ r4 = 1 ∧ lastDispatched w2 = some Y1.addr ∧
    lastDispatched w3 = some X2.addr ∧ lastDispatched w4 = some Y2.addr := by
  obtain ⟨hmem1, n12, n13, n14, n23, n24, n34⟩ := four_entries hwf hperm
  -- the second call starts `Y1`
  have hk1 : ∀ e ∈ w1.serv.matches_.head, keptByGc e = true := by
    intro e he
    rcases (hmem1 e).1 he with rfl | rfl | rfl | rfl
    · exact keptByGc_of_running _ hX1
    · exact keptByGc_of_runs _ hX2.2.1
    · exact keptByGc_of_runs _ hY1.2.1
    · exact keptByGc_of_runs _ hY2.2.1
  have hE1 : Eligible w1.conf Y1.data :=
    (hun.eligible_free _).2 ⟨hY1.1, by rw [hY1.2.1]; decide⟩
  have hmin1 : ∀ e ∈ w1.serv.matches_.head, Eligible w1.conf e.data → e.addr ≠ Y1.addr →
      Before w1.conf Y1.data e.data := by
    intro e he hE hne
    rcases (hmem1 e).1 he with rfl | rfl | rfl | rfl
    · exact absurd hE (not_eligible_of_running _ _ hX1)
    · left; rw [hY1.2.2, hX2.2.2]; exact hwait
    · exact absurd rfl hne
    · right; rw [hY1.2.2, hY2.2.2]; exact ⟨rfl, hq⟩
  obtain ⟨hr2, hl2, hc2, hh2, hwf2⟩ := dispatch_strict R e2 w1 w2 r2 evs2 hwf hun hk1 Y1
    ((hmem1 Y1).2 (by simp)) hE1 hmin1 h2
  have hperm2 : w2.serv.matches_.head.Perm
      [X1, X2, ⟨Y1.addr, startedMatch R e2 Y1.data⟩, Y2] := by
    rw [hh2]
    have := hperm.map (startEntry R e2 Y1.addr)
    simpa [startEntry_ne R e2 Y1.addr X1 n13, startEntry_ne R e2 Y1.addr X2 n23,
      startEntry_self, startEntry_ne R e2 Y1.addr Y2 (Ne.symm n34)] using this
  have hun2 : Unlimited w2.conf := by rw [hc2]; exact unlimited_after _ _ _ _ hun
  have hwx2 : w2.conf.userAt (some x) = w1.conf.userAt (some x) := by
    rw [hc2, hY1.2.2]
    exact waitStart_after_other _ _ _ _ _ (by simp; exact fun h => hxy h.symm)
  have hwy2 : (w2.conf.userAt (some y)).waitStart = e2.nowWait := by
    rw [hc2, hY1.2.2]
    exact waitStart_after_self _ _ _ _ hy
  -- the third call starts `X2`
  obtain ⟨hmem2, m12, m13, m14, m23, m24, m34⟩ := four_entries hwf2 hperm2
  have hk2 : ∀ e ∈ w2.serv.matches_.head, keptByGc e = true := by
    intro e he
    rcases (hmem2 e).1 he with rfl | rfl | rfl | rfl
    · exact keptByGc_of_running _ hX1
    · exact keptByGc_of_runs _ hX2.2.1
    · exact keptByGc_of_running _ rfl
    · exact keptByGc_of_runs _ hY2.2.1
  have hE2 : Eligible w2.conf X2.data :=
    (hun2.eligible_free _).2 ⟨hX2.1, by rw [hX2.2.1]; decide⟩
  have hmin2 : ∀ e ∈ w2.serv.matches_.head, Eligible w2.conf e.data → e.addr ≠ X2.addr →
      Before w2.conf X2.data e.data := by
    intro e he hE hne
    rcases (hmem2 e).1 he with rfl | rfl | rfl | rfl
    · exact absurd hE (not_eligible_of_running _ _ hX1)
    · exact absurd rfl hne
    · exact absurd hE (not_eligible_of_running _ _ rfl)
    · left; rw [hX2.2.2, hY2.2.2, hwx2, hwy2]; exact ht2
  obtain ⟨hr3, hl3, hc3, hh3, hwf3⟩ := dispatch_strict R e3 w2 w3 r3 evs3 hwf2 hun2 hk2 X2
    ((hmem2 X2).2 (by simp)) hE2 hmin2 h3
  have hperm3 : w3.serv.matches_.head.Perm
      [X1, ⟨X2.addr, startedMatch R e3 X2.data⟩,
        ⟨Y1.addr, startedMatch R e2 Y1.data⟩, Y2] := by
    rw [hh3]
    have := hperm2.map (startEntry R e3 X2.addr)
    simpa [startEntry_ne R e3 X2.addr X1 m12, startEntry_self,
      startEntry_ne R e3 X2.addr ⟨Y1.addr, startedMatch R e2 Y1.data⟩ (Ne.symm m23),
      startEntry_ne R e3 X2.addr Y2 (Ne.symm m24)] using this
  have hun3 : Unlimited w3.conf := by rw [hc3]; exact unlimited_after _ _ _ _ hun2
  -- the fourth call starts `Y2`
  obtain ⟨hmem3, _, _, _, _, _, _⟩ := four_entries hwf3 hperm3
  have hk3 : ∀ e ∈ w3.serv.matches_.head, keptByGc e = true := by
    intro e he
    rcases (hmem3 e).1 he with rfl | rfl | rfl | rfl
    · exact keptByGc_of_running _ hX1
    · exact keptByGc_of_running _ rfl
    · exact keptByGc_of_running _ rfl
    · exact keptByGc_of_runs _ hY2.2.1
  have hE3 : Eligible w3.conf Y2.data :=
    (hun3.eligible_free _).2 ⟨hY2.1, by rw [hY2.2.1]; decide⟩
  have hmin3 : ∀ e ∈ w3.serv.matches_.head, Eligible w3.conf e.data → e.addr ≠ Y2.addr →
      Before w3.conf Y2.data e.data := by
    intro e he hE hne
    rcases (hmem3 e).1 he with rfl | rfl | rfl | rfl
    · exact absurd hE (not_eligible_of_running _ _ hX1)
    · exact absurd hE (not_eligible_of_running _ _ rfl)
    · exact absurd hE (not_eligible_of_running _ _ rfl)
    · exact absurd rfl hne
  obtain ⟨hr4, hl4, _, _, _⟩ := dispatch_strict R e4 w3 w4 r4 evs4 hwf3 hun3 hk3 Y2
    ((hmem3 Y2).2 (by simp)) hE3 hmin3 h4
  exact ⟨hr2, hr3, hr4, hl2, hl3, hl4⟩

/-- Right after a match of user `u` has been started, at a clock reading later than
the `waitStart` of every user: the entry the next selection loop chooses is not a
match of `u` if another user has an eligible match. -/
theorem next_pick_other_user (R : Rng) (env1 : SchedEnv) (w w1 : World)
    (evs1 : List Event) (U : LLPoolEntry Match) (u : Nat)
    (hwf : PoolWF w.serv.matches_)
    (h1 : startMatchJob R env1 w = some (1, w1, evs1))
    (hU : U ∈ w.serv.matches_.head) (hUd : lastDispatched w1 = some U.addr)
    (hu : U.data.user = some u) (hult : u < w.conf.users.length)
    (hclock : ∀ v, v < w.conf.users.length →
      (w.conf.userAt (some v)).waitStart.lt env1.nowWait)
    (b2 : LLPoolEntry Match)
    (hsel : (selectLoop w1.conf w1.serv.matches_.head w1.serv.matches_ none).2 = some b2)
    (hother : ∃ e ∈ w1.serv.matches_.head, Eligible w1.conf e.data ∧
      ∃ v, e.data.user = some v ∧ v ≠ u ∧ v < w.conf.users.length) :
    b2.data.user ≠ some u := by
  rcases startMatchJob_cases R env1 w w1 1 evs1 h1 with
    ⟨h0, _⟩ | ⟨h0, _⟩ | ⟨h0, _⟩ | ⟨_, _, best, job, hp, _, hrun, rfl⟩
  · exact absurd h0 (by decide)
  · exact absurd h0 (by decide)
  · exact absurd h0 (by decide)
  obtain ⟨pre, post, hl, _, _, _⟩ := pick_none_spec _ _ _ hp
  have hbest : best ∈ w.serv.matches_.head := by rw [hl]; simp
  have hbU : best = U := by
    apply hwf.eq_of_addr hbest hU
    have : lastDispatched (dispatched R env1 w best job) = some best.addr := by
      unfold lastDispatched dispatched
      simp only [LLPoolAddItem_head, List.head?_cons, Option.map_some']
      rw [runMatchJob_matchEntry _ _ _ _ _ _ _ hrun]
    rw [this] at hUd
    exact Option.some.inj hUd
  subst hbU
  rw [selectLoop_snd] at hsel
  obtain ⟨pre2, post2, hl2, _, hpre2, hpost2⟩ := pick_none_spec _ _ _ hsel
  obtain ⟨e, he, hE, v, hv, hvu, hvlt⟩ := hother
  intro hb2
  have hwu : ((dispatched R env1 w best job).conf.userAt (some u)).waitStart = env1.nowWait := by
    unfold dispatched
    simp only [hu]
    exact waitStart_after_self _ _ _ _ hult
  have hwv : (dispatched R env1 w best job).conf.userAt (some v) = w.conf.userAt (some v) := by
    unfold dispatched
    simp only [hu]
    exact waitStart_after_other _ _ _ _ _ (by simp; exact fun h => hvu h.symm)
  have hbefore : Before (dispatched R env1 w best job).conf e.data b2.data := by
    left
    rw [hv, hb2, hwv, hwu]
    exact hclock v hvlt
  rw [hl2] at he
  rcases List.mem_append.1 he with hm | hm
  · exact (hpre2 e hm hE).asymm hbefore
  · rcases List.mem_cons.1 hm with rfl | hm
    · exact hbefore.asymm hbefore
    · exact hpost2 e hm hE hbefore

/-- Two users `a` and `b` with two queued single-run matches each and no budget in
force: four calls of `startMatchJob` in a row start the matches in the order A1, B1,
A2, B2 or B1, A1, B2, A2. -/
theorem two_users_alternate (R : Rng) (w0 w1 w2 w3 w4 : World) (e1 e2 e3 e4 : SchedEnv)
    (r1 r2 r3 r4 : Int) (evs1 evs2 evs3 evs4 : List Event) (a b : Nat)
    (A1 A2 B1 B2 : LLPoolEntry Match)
    (hwf : PoolWF w0.serv.matches_) (hperm : w0.serv.matches_.head.Perm [A1, A2, B1, B2])
    (hun : Unlimited w0.conf)
    (hab : a ≠ b) (ha : a < w0.conf.users.length) (hb : b < w0.conf.users.length)
    (hA1 : A1.data.isRunning = false ∧ A1.data.numRuns = 1 ∧ A1.data.user = some a)
    (hA2 : A2.data.isRunning = false ∧ A2.data.numRuns = 1 ∧ A2.data.user = some a)
    (hB1 : B1.data.isRunning = false ∧ B1.data.numRuns = 1 ∧ B1.data.user = some b)
    (hB2 : B2.data.isRunning = false ∧ B2.data.numRuns = 1 ∧ B2.data.user = some b)
    (hqA : A1.data.queueTime.lt A2.data.queueTime)
    (hqB : B1.data.queueTime.lt B2.data.queueTime)
    (hta : (w0.conf.userAt (some a)).waitStart.lt e1.nowWait)
    (htb : (w0.conf.userAt (some b)).waitStart.lt e1.nowWait)
    (ht12 : e1.nowWait.lt e2.nowWait)
    (h1 : startMatchJob R e1 w0 = some (r1, w1, evs1))
    (h2 : startMatchJob R e2 w1 = some (r2, w2, evs2))
    (h3 : startMatchJob R e3 w2 = some (r3, w3, evs3))
    (h4 : startMatchJob R e4 w3 = some (r4, w4, evs4)) :
    r1 = 1 ∧ r2 = 1 ∧ r3 = 1 ∧ r4 = 1 ∧
    ((lastDispatched w1 = some A1.addr ∧ lastDispatched w2 = some B1.addr ∧
      lastDispatched w3 = some A2.addr ∧ lastDispatched w4 = some B2.addr) ∨
     (lastDispatched w1 = some B1.addr ∧ lastDispatched w2 = some A1.addr ∧
      lastDispatched w3 = some B2.addr ∧ lastDispatched w4 = some A2.addr)) := by
  obtain ⟨hmem, n12, n13, n14, n23, n24, n34⟩ := four_entries hwf hperm
  have hk : ∀ e ∈ w0.serv.matches_.head, keptByGc e = true := by
    intro e he
    rcases (hmem e).1 he with rfl | rfl | rfl | rfl
    · exact keptByGc_of_runs _ hA1.2.1
    · exact keptByGc_of_runs _ hA2.2.1
    · exact keptByGc_of_runs _ hB1.2.1
    · exact keptByGc_of_runs _ hB2.2.1
  have hEA1 : Eligible w0.conf A1.data :=
    (hun.eligible_free _).2 ⟨hA1.1, by rw [hA1.2.1]; decide⟩
  have hEB1 : Eligible w0.conf B1.data :=
    (hun.eligible_free _).2 ⟨hB1.1, by rw [hB1.2.1]; decide⟩
  obtain ⟨best, hbest, _, hbmin, hr1, hl1, hc1, hh1, hwf1⟩ :=
    dispatch_any R e1 w0 w1 r1 evs1 hwf hun hk ⟨A1, (hmem A1).2 (by simp), hEA1⟩ h1
  have hun1 : Unlimited w1.conf := by rw [hc1]; exact unlimited_after _ _ _ _ hun
  have hlen1 : w1.conf.users.length = w0.conf.users.length := by
    rw [hc1]; exact users_length_after _ _ _ _
  rcases (hmem best).1 hbest with rfl | rfl | rfl | rfl
  · -- the first call starts `A1`
    have hperm1 : w1.serv.matches_.head.Perm
        [⟨best.addr, startedMatch R e1 best.data⟩, A2, B1, B2] := by
      rw [hh1]
      have := hperm.map (startEntry R e1 best.addr)
      simpa [startEntry_self, startEntry_ne R e1 best.addr A2 (Ne.symm n12),
        startEntry_ne R e1 best.addr B1 (Ne.symm n13),
        startEntry_ne R e1 best.addr B2 (Ne.symm n14)] using this
    have hwa : (w1.conf.userAt (some a)).waitStart = e1.nowWait := by
      rw [hc1, hA1.2.2]; exact waitStart_after_self _ _ _ _ ha
    have hwb : w1.conf.userAt (some b) = w0.conf.userAt (some b) := by
      rw [hc1, hA1.2.2]
      exact waitStart_after_other _ _ _ _ _ (by simp; exact hab)
    obtain ⟨q2, q3, q4, l2, l3, l4⟩ := rotation_tail R w1 w2 w3 w4 e2 e3 e4 r2 r3 r4
      evs2 evs3 evs4 a b ⟨best.addr, startedMatch R e1 best.data⟩ A2 B1 B2 hwf1 hperm1 hun1
      hab (by rw [hlen1]; exact hb) rfl hA2 hB1 hB2 hqB
      (by rw [hwa, hwb]; exact htb) (by rw [hwa]; exact ht12) h2 h3 h4
    exact ⟨hr1, q2, q3, q4, Or.inl ⟨hl1, l2, l3, l4⟩⟩
  · -- `A2` is not started first: `A1` goes before it
    exfalso
    apply hbmin A1 ((hmem A1).2 (by simp)) hEA1
    right
    rw [hA1.2.2, hA2.2.2]
    exact ⟨rfl, hqA⟩
  · -- the first call starts `B1`
    have hperm1 : w1.serv.matches_.head.Perm
        [⟨best.addr, startedMatch R e1 best.data⟩, B2, A1, A2] := by
      rw [hh1]
      have := hperm.map (startEntry R e1 best.addr)
      have h5 : (List.map (startEntry R e1 best.addr) [A1, A2, best, B2]).Perm
          [⟨best.addr, startedMatch R e1 best.data⟩, B2, A1, A2] := by
        simp only [List.map_cons, List.map_nil, startEntry_self,
          startEntry_ne R e1 best.addr A1 n13, startEntry_ne R e1 best.addr A2 n23,
          startEntry_ne R e1 best.addr B2 (Ne.symm n34)]
        exact @List.perm_append_comm _ [A1, A2]
          [⟨best.addr, startedMatch R e1 best.data⟩, B2]
      exact this.trans h5
    have hwb : (w1.conf.userAt (some b)).waitStart = e1.nowWait := by
      rw [hc1, hB1.2.2]; exact waitStart_after_self _ _ _ _ hb
    have hwa : w1.conf.userAt (some a) = w0.conf.userAt (some a) := by
      rw [hc1, hB1.2.2]
      exact waitStart_after_other _ _ _ _ _ (by simp; exact fun h => hab h.symm)
    obtain ⟨q2, q3, q4, l2, l3, l4⟩ := rotation_tail R w1 w2 w3 w4 e2 e3 e4 r2 r3 r4
      evs2 evs3 evs4 b a ⟨best.addr, startedMatch R e1 best.data⟩ B2 A1 A2 hwf1 hperm1 hun1
      (fun h => hab h.symm) (by rw [hlen1]; exact ha) rfl hB2 hA1 hA2 hqA
      (by rw [hwb, hwa]; exact hta) (by rw [hwb]; exact ht12) h2 h3 h4
    exact ⟨hr1, q2, q3, q4, Or.inr ⟨hl1, l2, l3, l4⟩⟩
  · -- `B2` is not started first: `B1` goes before it
    exfalso
    apply hbmin B1 ((hmem B1).2 (by simp)) hEB1
    right
    rw [hB1.2.2, hB2.2.2]
    exact ⟨rfl, hqB⟩

/-- **C5**: with clock readings that are strictly later than all earlier ones (here:
the reading of a dispatch is later than the `waitStart` of every user, and the
readings of successive dispatches increase). First, right after a match of user `u`
has been dispatched, the entry chosen by the selection loop of the next call of
`startMatchJob` is not a match of `u` whenever another user has an eligible match.
Second, without budgets and with two users `a` and `b` holding two queued single-run
matches each (A1 queued before A2, B1 before B2), four calls of `startMatchJob` in a
row all return 1 and start the matches in the order A1, B1, A2, B2 or B1, A1, B2,
A2. -/
theorem fair_rotation (R : Rng) :
    (∀ (env1 : SchedEnv) (w w1 : World) (evs1 : List Event) (U : LLPoolEntry Match)
      (u : Nat),
      PoolWF w.serv.matches_ →
      startMatchJob R env1 w = some (1, w1, evs1) →
      U ∈ w.serv.matches_.head → lastDispatched w1 = some U.addr →
      U.data.user = some u → u < w.conf.users.length →
      (∀ v, v < w.conf.users.length →
        (w.conf.userAt (some v)).waitStart.lt env1.nowWait) →
      ∀ b2 : LLPoolEntry Match,
        (selectLoop w1.conf w1.serv.matches_.head w1.serv.matches_ none).2 = some b2 →
        (∃ e ∈ w1.serv.matches_.head, Eligible w1.conf e.data ∧
          ∃ v, e.data.user = some v ∧ v ≠ u ∧ v < w.conf.users.length) →
        b2.data.user ≠ some u) ∧
    (∀ (w0 w1 w2 w3 w4 : World) (e1 e2 e3 e4 : SchedEnv) (r1 r2 r3 r4 : Int)
      (evs1 evs2 evs3 evs4 : List Event) (a b : Nat) (A1 A2 B1 B2 : LLPoolEntry Match),
      PoolWF w0.serv.matches_ → w0.serv.matches_.head.Perm [A1, A2, B1, B2] →
      Unlimited w0.conf →
      a ≠ b → a < w0.conf.users.length → b < w0.conf.users.length →
      (A1.data.isRunning = false ∧ A1.data.numRuns = 1 ∧ A1.data.user = some a) →
      (A2.data.isRunning = false ∧ A2.data.numRuns = 1 ∧ A2.data.user = some a) →
      (B1.data.isRunning = false ∧ B1.data.numRuns = 1 ∧ B1.data.user = some b) →
      (B2.data.isRunning = false ∧ B2.data.numRuns = 1 ∧ B2.data.user = some b) →
      A1.data.queueTime.lt A2.data.queueTime →
      B1.data.queueTime.lt B2.data.queueTime →
      (w0.conf.userAt (some a)).waitStart.lt e1.nowWait →
      (w0.conf.userAt (some b)).waitStart.lt e1.nowWait →
      e1.nowWait.lt e2.nowWait →
      startMatchJob R e1 w0 = some (r1, w1, evs1) →
      startMatchJob R e2 w1 = some (r2, w2, evs2) →
      startMatchJob R e3 w2 = some (r3, w3, evs3) →
      startMatchJob R e4 w3 = some (r4, w4, evs4) →
      r1 = 1 ∧ r2 = 1 ∧ r3 = 1 ∧ r4 = 1 ∧
      ((lastDispatched w1 = some A1.addr ∧ lastDispatched w2 = some B1.addr ∧
        lastDispatched w3 = some A2.addr ∧ lastDispatched w4 = some B2.addr) ∨
       (lastDispatched w1 = some B1.addr ∧ lastDispatched w2 = some A1.addr ∧
        lastDispatched w3 = some B2.addr ∧ lastDispatched w4 = some A2.addr))) := by
  constructor
  · intro env1 w w1 evs1 U u hwf h1 hU hUd hu hult hclock b2 hsel hother
    exact next_pick_other_user R env1 w w1 evs1 U u hwf h1 hU hUd hu hult hclock b2 hsel
      hother
  · intro w0 w1 w2 w3 w4 e1 e2 e3 e4 r1 r2 r3 r4 evs1 evs2 evs3 evs4 a b A1 A2 B1 B2
      hwf hperm hun hab ha hb hA1 hA2 hB1 hB2 hqA hqB hta htb ht12 h1 h2 h3 h4
    exact two_users_alternate R w0 w1 w2 w3 w4 e1 e2 e3 e4 r1 r2 r3 r4 evs1 evs2 evs3 evs4
      a b A1 A2 B1 B2 hwf hperm hun hab ha hb hA1 hA2 hB1 hB2 hqA hqB hta htb ht12
      h1 h2 h3 h4

theorem sampleFairFree_unlimited : Unlimited sampleFairFree.conf := by
  refine ⟨rfl, ?_⟩
  intro g
  cases g with
  | zero => rfl
  | succ n => rfl

theorem sampleFairFree_clock : ∀ v, v < sampleFairFree.conf.users.length →
    (sampleFairFree.conf.userAt (some v)).waitStart.lt (sampleSchedEnv 11).nowWait := by
  intro v hv
  have : v = 0 ∨ v = 1 := by
    have h2 : sampleFairFree.conf.users.length = 2 := rfl
    omega
  rcases this with rfl | rfl <;> decide

theorem fair_rotation_witness :
    lastDispatched (sampleNext 11 sampleFairFree) = some 0 ∧
    lastDispatched (sampleNext 12 (sampleNext 11 sampleFairFree)) = some 1 ∧
    lastDispatched (sampleNext 13 (sampleNext 12 (sampleNext 11 sampleFairFree))) = some 2 ∧
    lastDispatched
      (sampleNext 14 (sampleNext 13 (sampleNext 12 (sampleNext 11 sampleFairFree))))
      = some 3 ∧
    (⟨1, sampleMatch 1 1 3 "b1"⟩ : LLPoolEntry Match).data.user ≠ some 0 ∧
    ((1 : Int) = 1 ∧ (1 : Int) = 1 ∧ (1 : Int) = 1 ∧ (1 : Int) = 1 ∧
      ((lastDispatched (sampleNext 11 sampleFairFree) = some 0 ∧
        lastDispatched (sampleNext 12 (sampleNext 11 sampleFairFree)) = some 1 ∧
        lastDispatched (sampleNext 13 (sampleNext 12 (sampleNext 11 sampleFairFree)))
          = some 2 ∧
        lastDispatched
          (sampleNext 14 (sampleNext 13 (sampleNext 12 (sampleNext 11 sampleFairFree))))
          = some 3) ∨
       (lastDispatched (sampleNext 11 sampleFairFree) = some 1 ∧
        lastDispatched (sampleNext 12 (sampleNext 11 sampleFairFree)) = some 0 ∧
        lastDispatched (sampleNext 13 (sampleNext 12 (sampleNext 11 sampleFairFree)))
          = some 3 ∧
        lastDispatched
          (sampleNext 14 (sampleNext 13 (sampleNext 12 (sampleNext 11 sampleFairFree))))
          = some 2))) :=
  ⟨by decide, by decide, by decide, by decide,
    (fair_rotation sampleRng).1 (sampleSchedEnv 11) sampleFairFree
      (sampleNext 11 sampleFairFree)
      ((startMatchJob sampleRng (sampleSchedEnv 11) sampleFairFree).getD
        (0, sampleFairFree, [])).2.2
      ⟨0, sampleMatch 0 1 2 "a1"⟩ 0
      (by unfold PoolWF; decide) (by rfl) (by decide) (by decide) rfl (by decide)
      sampleFairFree_clock ⟨1, sampleMatch 1 1 3 "b1"⟩ (by decide)
      ⟨⟨1, sampleMatch 1 1 3 "b1"⟩, by decide, by decide, 1, rfl, by decide, by decide⟩,
    (fair_rotation sampleRng).2 sampleFairFree
      (sampleNext 11 sampleFairFree)
      (sampleNext 12 (sampleNext 11 sampleFairFree))
      (sampleNext 13 (sampleNext 12 (sampleNext 11 sampleFairFree)))
      (sampleNext 14 (sampleNext 13 (sampleNext 12 (sampleNext 11 sampleFairFree))))
      (sampleSchedEnv 11) (sampleSchedEnv 12) (sampleSchedEnv 13) (sampleSchedEnv 14)
      1 1 1 1
      ((startMatchJob sampleRng (sampleSchedEnv 11) sampleFairFree).getD
        (0, sampleFairFree, [])).2.2
      ((startMatchJob sampleRng (sampleSchedEnv 12) (sampleNext 11 sampleFairFree)).getD
        (0, sampleFairFree, [])).2.2
      ((startMatchJob sampleRng (sampleSchedEnv 13)
        (sampleNext 12 (sampleNext 11 sampleFairFree))).getD (0, sampleFairFree, [])).2.2
      ((startMatchJob sampleRng (sampleSchedEnv 14)
        (sampleNext 13 (sampleNext 12 (sampleNext 11 sampleFairFree)))).getD
        (0, sampleFairFree, [])).2.2
      0 1
      ⟨0, sampleMatch 0 1 2 "a1"⟩ ⟨2, sampleMatch 0 1 4 "a2"⟩
      ⟨1, sampleMatch 1 1 3 "b1"⟩ ⟨3, sampleMatch 1 1 5 "b2"⟩
      (by unfold PoolWF; decide) (by decide) sampleFairFree_unlimited
      (by decide) (by decide) (by decide)
      (by decide) (by decide) (by decide) (by decide)
      (by decide) (by decide) (by decide) (by decide) (by decide)
      (by rfl) (by rfl) (by rfl) (by rfl)⟩

/-! ## The seats of an accepted command -/

theorem getD_append_replicate {α : Type} (l : List α) (n q : Nat) (d : α) :
    (l ++ List.replicate n d).getD q d = l.getD q d := by
  simp only [List.getD_eq_getElem?_getD]
  by_cases h : q < l.length
  · rw [List.getElem?_append_left h]
  · have h2 : l.length ≤ q := by omega
    rw [List.getElem?_append_right h2, List.getElem?_eq_none h2]
    by_cases h3 : q - l.length < n
    · rw [List.getElem?_replicate_of_lt h3]; rfl
    · rw [List.getElem?_eq_none (by simp; omega)]

theorem Match.setPlayer_player_self (m : Match) (p : Nat) (v : Player) :
    (m.setPlayer p v).player p = v := by
  unfold Match.setPlayer Match.player
  simp only [List.getD_eq_getElem?_getD]
  rw [List.getElem?_set_self]
  · rfl
  · simp only [List.length_append, List.length_replicate]; omega

theorem Match.setPlayer_player_ne (m : Match) (p q : Nat) (v : Player) (h : q ≠ p) :
    (m.setPlayer p v).player q = m.player q := by
  unfold Match.setPlayer Match.player
  simp only [List.getD_eq_getElem?_getD]
  rw [List.getElem?_set_ne (Ne.symm h)]
  have := getD_append_replicate m.players (p + 1 - m.players.length) q default
  simpa only [List.getD_eq_getElem?_getD] using this



theorem findBot_none_iff (game : GameConfig) (name : List Char) :
    findBot game name = none ↔ ∀ b ∈ game.bots, b.name ≠ name := by
  unfold findBot
  simp only
  constructor
  · intro h b hb hn
    split_ifs at h with h1
    have hlt : List.findIdx (fun b => streq b.name name) game.bots < game.bots.length :=
      List.findIdx_lt_length_of_exists ⟨b, hb, by simp [streq, hn]⟩
    exact h1 hlt
  · intro h
    rw [if_neg]
    intro hlt
    have := @List.findIdx_getElem _ _ _ hlt
    simp only [streq, beq_iff_eq] at this
    exact h _ (List.getElem_mem _) this

theorem findBot_some (game : GameConfig) (name : List Char) (b : Nat)
    (h : findBot game name = some b) :
    b < game.bots.length ∧ (game.bots.getD b default).name = name := by
  unfold findBot at h
  simp only at h
  split_ifs at h with h1
  simp only [Option.some.injEq] at h
  subst h
  refine ⟨h1, ?_⟩
  have := @List.findIdx_getElem _ _ _ h1
  simp only [streq, beq_iff_eq] at this
  rw [List.getD_eq_getElem _ _ h1]
  exact this

/-- The seat loop on the names of a rendered command: when it succeeds there were
enough names, the seats below `p` are those of before, and seat `p + i` is what the
`i`-th name says. -/
theorem parseSeats_seats (conf : Config) (ce k p : Nat) (names : List (List Char))
    (m m3 : Match) (hw : ∀ n ∈ names, IsWord n)
    (h : parseSeats conf ce k p (namesText names) m = (true, m3)) :
    k ≤ names.length ∧ (∀ q, q < p → m3.player q = m.player q) ∧
    ∀ i, i < k →
      (names.getD i [] = "LOCAL".toList → m3.player (p + i) = ⟨true, some ce⟩) ∧
      (names.getD i [] ≠ "LOCAL".toList →
        ∃ b, findBot (conf.gameAt m.gameConf) (names.getD i []) = some b ∧
          m3.player (p + i) = ⟨false, some b⟩) := by
  induction k generalizing names p m with
  | zero =>
    simp only [parseSeats, Prod.mk.injEq, true_and] at h
    subst h
    exact ⟨Nat.zero_le _, fun _ _ => rfl, fun i hi => absurd hi (Nat.not_lt_zero _)⟩
  | succ k ih =>
    cases names with
    | nil =>
      simp only [parseSeats, namesText_nil, scanStr_newline] at h
      simp at h
    | cons n t =>
      have hn := hw n (List.mem_cons_self _ _)
      have ht : ∀ x ∈ t, IsWord x := fun x hx => hw x (List.mem_cons_of_mem _ hx)
      simp only [parseSeats, namesText_cons,
        scanStr_word n _ hn (namesText_startsWithSpace t)] at h
      by_cases hloc : streq n "LOCAL".toList = true
      · rw [if_pos hloc] at h
        have hnl : n = "LOCAL".toList := by simpa [streq] using hloc
        obtain ⟨hlen, hlow, hseat⟩ := ih (p + 1) t _ ht h
        refine ⟨by simp only [List.length_cons]; omega, ?_, ?_⟩
        · intro q hq
          rw [hlow q (by omega), Match.setPlayer_player_ne _ _ _ _ (by omega)]
        · intro i hi
          cases i with
          | zero =>
            simp only [List.getD_cons_zero, Nat.add_zero]
            refine ⟨fun _ => ?_, fun hne => absurd hnl hne⟩
            rw [hlow p (by omega), Match.setPlayer_player_self]
          | succ i =>
            have := hseat i (by omega)
            simp only [List.getD_cons_succ]
            rw [show p + (i + 1) = p + 1 + i by omega]
            exact this
      · rw [if_neg hloc] at h
        have hnl : n ≠ "LOCAL".toList := by
          intro hh; apply hloc; rw [hh]; decide
        cases hfb : findBot (conf.gameAt m.gameConf) n with
        | none =>
          rw [hfb] at h
          simp at h
        | some b =>
          rw [hfb] at h
          obtain ⟨hlen, hlow, hseat⟩ := ih (p + 1) t _ ht h
          refine ⟨by simp only [List.length_cons]; omega, ?_, ?_⟩
          · intro q hq
            rw [hlow q (by omega), Match.setPlayer_player_ne _ _ _ _ (by omega)]
          · intro i hi
            cases i with
            | zero =>
              simp only [List.getD_cons_zero, Nat.add_zero]
              refine ⟨fun he => absurd he hnl, fun _ => ⟨b, hfb, ?_⟩⟩
              rw [hlow p (by omega), Match.setPlayer_player_self]
            | succ i =>
              have := hseat i (by omega)
              simp only [List.getD_cons_succ]
              rw [show p + (i + 1) = p + 1 + i by omega]
              exact this

/-- A name that is neither `LOCAL` nor a bot of the game, among the names of the
seats: the seat loop fails. -/
theorem parseSeats_unknown (conf : Config) (ce k p : Nat) (names : List (List Char))
    (m : Match) (hw : ∀ n ∈ names, IsWord n) (i : Nat) (hi : i < k)
    (hne : names.getD i [] ≠ "LOCAL".toList)
    (hnone : findBot (conf.gameAt m.gameConf) (names.getD i []) = none) :
    (parseSeats conf ce k p (namesText names) m).1 = false := by
  cases hps : parseSeats conf ce k p (namesText names) m with
  | mk ok m3 =>
    cases ok with
    | false => rfl
    | true =>
      obtain ⟨_, _, hseat⟩ := parseSeats_seats conf ce k p names m m3 hw hps
      obtain ⟨b, hb, _⟩ := (hseat i hi).2 hne
      rw [hnone] at hb
      exact absurd hb (by simp)



theorem parseTail_ok (R : Rng) (conf : Config) (serv : ServerState) (ce : Nat) (m : Match)
    (g : Nat) (v : Int) (tag : List Char) (s : Nat) (r4 : List Char)
    (h : (parseTail R conf serv ce m g v tag s r4).1 = 0) :
    ∃ m3, parseSeats conf ce (conf.gameAt g).game.numPlayers 0 r4
        { m with gameConf := g, numRuns := v } = (true, m3) ∧
      (parseTail R conf serv ce m g v tag s r4).2.2.players = m3.players ∧
      (parseTail R conf serv ce m g v tag s r4).2.2.gameConf = g := by
  unfold parseTail at h ⊢
  simp only [parseSeats_skipSpace] at h ⊢
  by_cases h1 : v < 0 ∨ v > ((conf.gameAt g).maxMatchRuns : Int)
  · simp [h1] at h
  · by_cases h2 : '/' ∈ tag
    · simp [h1, h2] at h
    · simp only [h1, h2, if_false] at h ⊢
      have hg := parseSeats_gameConf conf ce (conf.gameAt g).game.numPlayers 0 r4
        { m with gameConf := g, numRuns := v }
      cases hps : parseSeats conf ce (conf.gameAt g).game.numPlayers 0 r4
          { m with gameConf := g, numRuns := v } with
      | mk ok m3 =>
        rw [hps] at h hg
        cases ok with
        | false => simp at h
        | true =>
          refine ⟨m3, rfl, ?_, ?_⟩
          · simp only
            split_ifs <;> rfl
          · simp only
            split_ifs <;> exact hg

/-- **C11**: on a `RUNMATCHES` command for the configured game `g`. When
`parseMatchSpec` accepts it, the match is a match of `g` and for every seat
`p < numPlayers` there is a `p`-th name; if that name is `LOCAL` the seat is a network
seat bound to the submitting connection, otherwise it is a bot seat bound to a bot of
`g` that has that name. When the name of some seat is not `LOCAL` and no bot of `g` has
it (whatever the bots of the other games are), `parseMatchSpec` returns -1. -/
theorem parseMatchSpec_binds_seats (R : Rng) (conf : Config) (serv : ServerState)
    (ce : Nat) (m : Match) (game tag : List Char) (numRuns : Int) (seed : Nat)
    (names : List (List Char)) (g : Nat)
    (hgame : IsWord game) (htag : IsWord tag) (hg : findGame conf game = some g)
    (hw : ∀ n ∈ names, IsWord n) :
    ((parseMatchSpec R conf serv (renderSpec game numRuns tag seed names) ce m).1 = 0 →
      (parseMatchSpec R conf serv (renderSpec game numRuns tag seed names) ce m).2.2.gameConf
        = g ∧
      ∀ p, p < (conf.gameAt g).game.numPlayers →
        p < names.length ∧
        (names.getD p [] = "LOCAL".toList →
          (parseMatchSpec R conf serv (renderSpec game numRuns tag seed names) ce m).2.2.player p
            = ⟨true, some ce⟩) ∧
        (names.getD p [] ≠ "LOCAL".toList →
          ∃ b, b < (conf.gameAt g).bots.length ∧
            ((conf.gameAt g).bots.getD b default).name = names.getD p [] ∧
            (parseMatchSpec R conf serv (renderSpec game numRuns tag seed names) ce
              m).2.2.player p = ⟨false, some b⟩)) ∧
    (∀ p, p < (conf.gameAt g).game.numPlayers → names.getD p [] ≠ "LOCAL".toList →
      (∀ b ∈ (conf.gameAt g).bots, b.name ≠ names.getD p []) →
      (parseMatchSpec R conf serv (renderSpec game numRuns tag seed names) ce m).1 = -1) := by
  obtain ⟨r1, r2, r3, h1, h3, h4, h5⟩ :=
    scans_renderSpec game tag numRuns seed names hgame htag
  rw [parseMatchSpec_of_scans R conf serv _ ce m game r1 r2 tag r3 _ g _ _ h1 hg h3 h4 h5]
  constructor
  · intro hok
    obtain ⟨m3, hps, hpl, hgc⟩ := parseTail_ok R conf serv ce m g _ tag _ _ hok
    obtain ⟨hlen, _, hseat⟩ := parseSeats_seats conf ce _ 0 names _ m3 hw hps
    refine ⟨hgc, fun p hp => ⟨by omega, ?_, ?_⟩⟩
    · intro hl
      have := (hseat p hp).1 hl
      rw [Nat.zero_add] at this
      unfold Match.player at this ⊢
      rw [hpl]; exact this
    · intro hl
      obtain ⟨b, hb, hpb⟩ := (hseat p hp).2 hl
      obtain ⟨hblt, hbn⟩ := findBot_some _ _ _ hb
      refine ⟨b, hblt, hbn, ?_⟩
      rw [Nat.zero_add] at hpb
      unfold Match.player at hpb ⊢
      rw [hpl]; exact hpb
  · intro p hp hne hnone
    have hfb : findBot (conf.gameAt g) (names.getD p []) = none :=
      (findBot_none_iff _ _).2 hnone
    rw [parseTail_ret, parseSeats_unknown conf ce _ 0 names _ hw p hp hne hfb]
    split_ifs <;> first | rfl | contradiction

theorem parseMatchSpec_binds_seats_witness :
    (1 < ["LOCAL".toList, "example".toList].length ∧
      (["LOCAL".toList, "example".toList].getD 1 [] = "LOCAL".toList →
        (parseMatchSpec sampleRng sampleConfTwo sampleLoggedOn.serv
          (renderSpec "holdem".toList 1 "tt".toList 7 ["LOCAL".toList, "example".toList])
          0 default).2.2.player 1 = ⟨true, some 0⟩) ∧
      (["LOCAL".toList, "example".toList].getD 1 [] ≠ "LOCAL".toList →
        ∃ b, b < (sampleConfTwo.gameAt 0).bots.length ∧
          ((sampleConfTwo.gameAt 0).bots.getD b default).name
            = ["LOCAL".toList, "example".toList].getD 1 [] ∧
          (parseMatchSpec sampleRng sampleConfTwo sampleLoggedOn.serv
            (renderSpec "holdem".toList 1 "tt".toList 7 ["LOCAL".toList, "example".toList])
            0 default).2.2.player 1 = ⟨false, some b⟩)) ∧
    (parseMatchSpec sampleRng sampleConfTwo sampleLoggedOn.serv
      (renderSpec "holdem".toList 1 "tt".toList 7 ["LOCAL".toList, "other".toList])
      0 default).1 = -1 :=
  ⟨((parseMatchSpec_binds_seats sampleRng sampleConfTwo sampleLoggedOn.serv 0 default
      "holdem".toList "tt".toList 1 7 ["LOCAL".toList, "example".toList] 0
      (by decide) (by decide) (by decide) (by decide)).1 (by decide)).2 1 (by decide),
   (parseMatchSpec_binds_seats sampleRng sampleConfTwo sampleLoggedOn.serv 0 default
      "holdem".toList "tt".toList 1 7 ["LOCAL".toList, "other".toList] 0
      (by decide) (by decide) (by decide) (by decide)).2 1 (by decide) (by decide)
      (by decide)⟩

/-! ## Runs of the main loop -/

theorem act_step (R : Rng) (w w1 : World) (α : Action) (evs : List Event)
    (h : act R w α = some (w1, evs)) : Step R w w1 := by
  cases α with
  | reap waitpid a =>
    simp only [act] at h
    cases hf : w.serv.jobs.head.find? (fun e => e.addr == a) with
    | none => rw [hf] at h; simp at h
    | some e =>
      rw [hf] at h
      simp only at h
      cases hc : checkIfJobFinished waitpid w.conf w.serv e.data with
      | none => rw [hc] at h; simp at h
      | some p =>
        obtain ⟨job, allDone⟩ := p
        rw [hc] at h
        simp only [Option.some.injEq, Prod.mk.injEq] at h
        rw [← h.1]
        exact Step.reap w waitpid e job allDone (List.mem_of_find?_eq_some hf) hc
  | drop a =>
    simp only [act] at h
    cases hf : w.serv.conns.head.find? (fun e => e.addr == a) with
    | none => rw [hf] at h; simp at h
    | some e =>
      rw [hf] at h
      simp only at h
      split_ifs at h with hst
      simp only [Option.some.injEq, Prod.mk.injEq] at h
      rw [← h.1]
      exact Step.drop w e (List.mem_of_find?_eq_some hf) hst
  | start env =>
    simp only [act] at h
    cases hs : startMatchJob R env w with
    | none => rw [hs] at h; simp at h
    | some p =>
      obtain ⟨r, w2, evs2⟩ := p
      rw [hs] at h
      simp only [Option.some.injEq, Prod.mk.injEq] at h
      rw [← h.1]
      exact Step.start w env r w2 evs2 hs
  | accept sock =>
    simp only [act, Option.some.injEq, Prod.mk.injEq] at h
    rw [← h.1]
    exact Step.accept w sock
  | handle env a =>
    simp only [act] at h
    cases hf : w.serv.conns.head.find? (fun e => e.addr == a) with
    | none => rw [hf] at h; simp at h
    | some e =>
      rw [hf] at h
      simp only at h
      split_ifs at h with hst
      simp only [Option.some.injEq, Prod.mk.injEq] at h
      rw [← h.1]
      exact Step.handle w env e (List.mem_of_find?_eq_some hf) hst

theorem Inv.act {R : Rng} {w w1 : World} {α : Action} {evs : List Event} (hi : Inv w)
    (h : act R w α = some (w1, evs)) : Inv w1 :=
  hi.step (act_step R w w1 α evs h)

/-! ## What an action does to an entry of the match list -/

theorem runSeats_events (env : JobEnv) (conf : Config) (serv : ServerState) (m : Match)
    (k p : Nat) (bp : Int) (job job1 : MatchJob) (out evs : List Event)
    (h : runSeats env conf serv m k p bp job out = some (job1, evs)) :
    ∃ t, evs = out ++ t := by
  induction k generalizing p bp job out with
  | zero =>
    simp only [runSeats, Option.some.injEq, Prod.mk.injEq] at h
    exact ⟨[], by rw [← h.2, List.append_nil]⟩
  | succ k ih =>
    simp only [runSeats] at h
    split at h
    · split at h
      · simp only [Option.some.injEq, Prod.mk.injEq] at h
        exact ⟨_, by rw [← h.2, List.append_assoc]⟩
      · obtain ⟨t, ht⟩ := ih _ _ _ _ h
        exact ⟨_, by rw [ht, List.append_assoc]⟩
    · split at h
      · exact absurd h (by simp)
      · obtain ⟨t, ht⟩ := ih _ _ _ _ h
        exact ⟨_, by rw [ht, List.append_assoc]⟩

/-- The first event of a job that was started is the dealer, and the fifth word of its
argument vector is the seed in decimal. -/
theorem runMatchJob_seed (env : JobEnv) (conf : Config) (serv : ServerState)
    (a seed : Nat) (job : MatchJob) (evs : List Event)
    (h : runMatchJob env conf serv a seed = some (job, evs)) :
    refereeSeed evs = snprintf16 (decimal seed) := by
  unfold runMatchJob at h
  simp only at h
  split at h
  · exact absurd h (by simp)
  · rename_i job1 evs1 hd
    obtain ⟨t, ht⟩ := runSeats_events _ _ _ _ _ _ _ _ _ _ _ h
    unfold startDealer at hd
    split_ifs at hd
    split at hd
    · exact absurd hd (by simp)
    · simp only [Option.some.injEq, Prod.mk.injEq] at hd
      rw [ht, ← hd.2]
      rfl

/-- The match list after a dispatch: the entries the walk kept, with the chosen entry
started. -/
theorem dispatched_head (R : Rng) (env : SchedEnv) (w : World) (best : LLPoolEntry Match)
    (job : MatchJob) (hwf : PoolWF w.serv.matches_) (hbest : best ∈ w.serv.matches_.head) :
    (dispatched R env w best job).serv.matches_.head =
      (w.serv.matches_.head.filter keptByGc).map (startEntry R env best.addr) := by
  have hbe : ∀ x ∈ w.serv.matches_.head.filter keptByGc, x.addr = best.addr → x = best :=
    fun x hx ha => hwf.eq_of_addr (List.mem_of_mem_filter hx) hbest ha
  unfold dispatched seededPool startEntry
  by_cases hseed : best.data.useRngForSeed ≠ 0
  · rw [if_pos hseed]
    simp only [LLPoolSetItem, gcPool_head w hwf]
    rw [List.map_map]
    apply List.map_congr_left
    intro x hx
    simp only [Function.comp]
    by_cases hxa : x.addr = best.addr
    · have := hbe x hx hxa
      subst this
      simp [startedMatch, hseed]
    · simp [hxa]
  · rw [if_neg hseed]
    simp only [LLPoolSetItem, gcPool_head w hwf]
    apply List.map_congr_left
    intro x hx
    by_cases hxa : x.addr = best.addr
    · have := hbe x hx hxa
      subst this
      simp [startedMatch, hseed]
    · simp [hxa]

/-- What a call of `startMatchJob` that returns does to the match list, with the seed
it hands to the dealer. -/
theorem startMatchJob_effect (R : Rng) (env : SchedEnv) (w w1 : World) (r : Int)
    (evs : List Event) (hwf : PoolWF w.serv.matches_)
    (h : startMatchJob R env w = some (r, w1, evs)) :
    (r = 0 ∧ evs = [] ∧ w1.conf = w.conf ∧ w1.serv.jobs = w.serv.jobs ∧
      w1.serv.conns = w.serv.conns ∧
      w1.serv.matches_.head = w.serv.matches_.head.filter keptByGc) ∨
    (r = 1 ∧ ∃ best ∈ w.serv.matches_.head, Eligible w.conf best.data ∧
      lastDispatched w1 = some best.addr ∧
      w1.serv.matches_.head =
        (w.serv.matches_.head.filter keptByGc).map (startEntry R env best.addr) ∧
      refereeSeed evs = snprintf16 (decimal (jobSeed R best.data)) ∧
      w1.serv.conns = w.serv.conns) := by
  rcases startMatchJob_cases R env w w1 r evs h with
    ⟨hr, h0, rfl, hev⟩ | ⟨hr, _, _, rfl, hev⟩ | ⟨hr, _, _, rfl, hev⟩ |
    ⟨hr, _, best, job, hp, _, hrun, rfl⟩
  · refine Or.inl ⟨hr, hev, rfl, rfl, rfl, ?_⟩
    have hlen : w1.serv.matches_.head.length = 0 := by
      have := hwf.2.2
      rw [h0] at this
      exact_mod_cast this.symm
    rw [List.length_eq_zero.1 hlen]
    rfl
  · exact Or.inl ⟨hr, hev, rfl, rfl, rfl, gcPool_head w hwf⟩
  · exact Or.inl ⟨hr, hev, rfl, rfl, rfl, gcPool_head w hwf⟩
  · obtain ⟨pre, post, hl, hE, _, _⟩ := pick_none_spec _ _ _ hp
    have hbest : best ∈ w.serv.matches_.head := by rw [hl]; simp
    refine Or.inr ⟨hr, best, hbest, hE, ?_, dispatched_head R env w best job hwf hbest,
      runMatchJob_seed _ _ _ _ _ _ _ hrun, rfl⟩
    unfold lastDispatched dispatched
    simp only [LLPoolAddItem_head, List.head?_cons, Option.map_some']
    rw [runMatchJob_matchEntry _ _ _ _ _ _ _ hrun]



theorem closeConnection_entry (conf : Config) (serv : ServerState) (ce : Nat)
    (e : LLPoolEntry Match) (he : e ∈ serv.matches_.head) :
    (matchUsesConnection conf e.data ce = false ∧
      e ∈ (closeConnection conf serv ce).matches_.head) ∨
    (matchUsesConnection conf e.data ce = true ∧
      (⟨e.addr, { e.data with numRuns := 0 }⟩ : LLPoolEntry Match)
        ∈ (closeConnection conf serv ce).matches_.head) := by
  simp only [closeConnection, List.mem_map]
  cases hu : matchUsesConnection conf e.data ce with
  | false => exact Or.inl ⟨rfl, e, he, by simp [hu]⟩
  | true => exact Or.inr ⟨rfl, e, he, by simp [hu]⟩

/-- What `handleConnection` does to an entry of the match list: nothing, or it sets
`numRuns` to 0 in a match that uses the connection. -/
theorem handleLoop_entry (R : Rng) (env : ConnEnv) (conf : Config) (ce : Nat)
    (reads : List GetLine) (serv : ServerState) (out : List Event)
    (e : LLPoolEntry Match) (he : e ∈ serv.matches_.head) :
    e ∈ (handleLoop R env conf ce reads serv out).1.matches_.head ∨
    (matchUsesConnection conf e.data ce = true ∧
      (⟨e.addr, { e.data with numRuns := 0 }⟩ : LLPoolEntry Match)
        ∈ (handleLoop R env conf ce reads serv out).1.matches_.head ∧
      (handleLoop R env conf ce reads serv out).1 = closeConnection conf serv ce) := by
  have hclose : e ∈ (closeConnection conf serv ce).matches_.head ∨
      (matchUsesConnection conf e.data ce = true ∧
        (⟨e.addr, { e.data with numRuns := 0 }⟩ : LLPoolEntry Match)
          ∈ (closeConnection conf serv ce).matches_.head ∧
        closeConnection conf serv ce = closeConnection conf serv ce) := by
    rcases closeConnection_entry conf serv ce e he with h | h
    · exact Or.inl h.2
    · exact Or.inr ⟨h.1, h.2, rfl⟩
  induction reads generalizing out with
  | nil => exact Or.inl he
  | cons g rest ih =>
    simp only [handleLoop]
    split_ifs
    all_goals first
      | exact Or.inl he
      | exact hclose
      | exact ih _
      | (split <;> first | exact hclose | exact Or.inl he)
      | (rw [parseMatchSpec_fail_serv R conf serv _ ce env.stack (by assumption)]
         exact Or.inl he)
      | (obtain ⟨rng, hs⟩ := parseMatchSpec_serv R conf serv (g.line.drop 10) ce env.stack
         rw [hs]
         refine Or.inl ?_
         simp only [LLPoolAddItem_head]
         exact List.mem_cons_of_mem _ he)

theorem finishedJob_entry (w : World) (jobEntry : Nat) (e : LLPoolEntry Match)
    (he : e ∈ w.serv.matches_.head) :
    e ∈ (finishedJob w jobEntry).serv.matches_.head ∨
    (⟨e.addr, { e.data with isRunning := false }⟩ : LLPoolEntry Match)
      ∈ (finishedJob w jobEntry).serv.matches_.head := by
  simp only [finishedJob, LLPoolSetItem, List.mem_map]
  by_cases ha : e.addr = (LLPoolGetItem w.serv.jobs jobEntry).matchEntry
  · exact Or.inr ⟨e, he, by simp [ha]⟩
  · exact Or.inl ⟨e, he, by simp [ha]⟩

theorem linked_iff (a : Nat) (w : World) :
    linked a w = true ↔ ∃ e ∈ w.serv.matches_.head, e.addr = a := by
  simp [linked]

theorem linked_of_mem {w : World} {e : LLPoolEntry Match} (he : e ∈ w.serv.matches_.head) :
    linked e.addr w = true := (linked_iff _ _).2 ⟨e, he, rfl⟩

/-- What one action does to an entry of the match list. -/
theorem act_entry {R : Rng} {w w1 : World} {α : Action} {evs : List Event} (hi : Inv w)
    (h : act R w α = some (w1, evs)) (e : LLPoolEntry Match)
    (he : e ∈ w.serv.matches_.head) :
    (∃ env, α = Action.start env ∧ dispatchedBy R w α = some e.addr ∧
      Eligible w.conf e.data ∧
      (⟨e.addr, startedMatch R env e.data⟩ : LLPoolEntry Match) ∈ w1.serv.matches_.head ∧
      refereeSeed evs = snprintf16 (decimal (jobSeed R e.data))) ∨
    (dispatchedBy R w α ≠ some e.addr ∧
      ((e ∈ w1.serv.matches_.head ∧ ((∃ env, α = Action.start env) → keptByGc e = true)) ∨
       ((∃ wp a, α = Action.reap wp a) ∧
         (⟨e.addr, { e.data with isRunning := false }⟩ : LLPoolEntry Match)
           ∈ w1.serv.matches_.head) ∨
       ((∃ env ce, α = Action.handle env ce ∧
           matchUsesConnection w.conf e.data ce = true ∧ w1.conf = w.conf ∧
           (LLPoolGetItem w1.serv.conns ce).status = STATUS_CLOSED) ∧
         (⟨e.addr, { e.data with numRuns := 0 }⟩ : LLPoolEntry Match)
           ∈ w1.serv.matches_.head) ∨
       ((∃ env, α = Action.start env) ∧ keptByGc e = false ∧
         linked e.addr w1 = false))) := by
  cases α with
  | reap waitpid a =>
    refine Or.inr ⟨by simp [dispatchedBy], ?_⟩
    simp only [act] at h
    cases hf : w.serv.jobs.head.find? (fun e => e.addr == a) with
    | none => rw [hf] at h; simp at h
    | some j =>
      rw [hf] at h
      simp only at h
      cases hc : checkIfJobFinished waitpid w.conf w.serv j.data with
      | none => rw [hc] at h; simp at h
      | some p =>
        obtain ⟨job, allDone⟩ := p
        rw [hc] at h
        simp only [Option.some.injEq, Prod.mk.injEq] at h
        rw [← h.1]
        cases allDone with
        | false => exact Or.inl ⟨he, fun ⟨_, hc⟩ => by simp at hc⟩
        | true =>
          simp only [if_true]
          rcases finishedJob_entry
            { w with serv := { w.serv with
                jobs := LLPoolSetItem w.serv.jobs j.addr (fun _ => job) } } j.addr e he
            with h1 | h1
          · exact Or.inl ⟨h1, fun ⟨_, hc⟩ => by simp at hc⟩
          · exact Or.inr (Or.inl ⟨⟨_, _, rfl⟩, h1⟩)
  | drop a =>
    refine Or.inr ⟨by simp [dispatchedBy], Or.inl ?_⟩
    simp only [act] at h
    cases hf : w.serv.conns.head.find? (fun e => e.addr == a) with
    | none => rw [hf] at h; simp at h
    | some c =>
      rw [hf] at h
      simp only at h
      split_ifs at h with hst
      simp only [Option.some.injEq, Prod.mk.injEq] at h
      rw [← h.1]
      exact ⟨he, fun ⟨_, hc⟩ => by simp at hc⟩
  | accept sock =>
    refine Or.inr ⟨by simp [dispatchedBy], Or.inl ?_⟩
    simp only [act, Option.some.injEq, Prod.mk.injEq] at h
    rw [← h.1]
    exact ⟨he, fun ⟨_, hc⟩ => by simp at hc⟩
  | handle env a =>
    refine Or.inr ⟨by simp [dispatchedBy], ?_⟩
    simp only [act] at h
    cases hf : w.serv.conns.head.find? (fun e => e.addr == a) with
    | none => rw [hf] at h; simp at h
    | some c =>
      rw [hf] at h
      simp only at h
      split_ifs at h with hst
      simp only [Option.some.injEq, Prod.mk.injEq] at h
      rw [← h.1]
      have hca : c.addr = a := by
        have := List.find?_some hf
        simpa using this
      rcases handleLoop_entry R env w.conf c.addr env.reads w.serv [] e he with h1 | h1
      · exact Or.inl ⟨h1, fun ⟨_, hc⟩ => by simp at hc⟩
      · refine Or.inr (Or.inr (Or.inl ⟨⟨env, a, rfl, by rw [← hca]; exact h1.1, rfl, ?_⟩,
          h1.2.1⟩))
        have hfound : (w.serv.conns.head ++ w.serv.conns.free).find?
            (fun e => e.addr == a) ≠ none := by
          rw [List.find?_append, hf]
          simp
        show (LLPoolGetItem (handleConnection R env w.conf w.serv c.addr).1.conns a).status
          = STATUS_CLOSED
        unfold handleConnection
        rw [h1.2.2, hca]
        show (LLPoolGetItem (LLPoolSetItem w.serv.conns a _) a).status = STATUS_CLOSED
        rw [LLPoolGetItem_SetItem_self _ _ _ hfound]
  | start env =>
    simp only [act] at h
    cases hs : startMatchJob R env w with
    | none => rw [hs] at h; simp at h
    | some p =>
      obtain ⟨r, w2, evs2⟩ := p
      rw [hs] at h
      simp only [Option.some.injEq, Prod.mk.injEq] at h
      obtain ⟨rfl, rfl⟩ := h
      have hd : dispatchedBy R w (Action.start env)
          = if r = 1 then lastDispatched w2 else none := by
        simp only [dispatchedBy, hs]
      have hgone : keptByGc e = false →
          ∀ (f : LLPoolEntry Match → LLPoolEntry Match), (∀ x, (f x).addr = x.addr) →
          w2.serv.matches_.head = (w.serv.matches_.head.filter keptByGc).map f →
          linked e.addr w2 = false := by
        intro hk f hf hh
        cases hl : linked e.addr w2 with
        | false => rfl
        | true =>
          obtain ⟨x, hx, hxa⟩ := (linked_iff _ _).1 hl
          rw [hh, List.mem_map] at hx
          obtain ⟨y, hy, rfl⟩ := hx
          rw [hf] at hxa
          have hye := hi.matchesWF.eq_of_addr (List.mem_of_mem_filter hy) he hxa
          rw [hye] at hy
          rw [(List.mem_filter.1 hy).2] at hk
          exact absurd hk (by decide)
      rcases startMatchJob_effect R env w w2 r evs2 hi.matchesWF hs with
        ⟨hr, _, _, _, _, hh⟩ | ⟨hr, best, hbest, hE, hld, hh, hseed, _⟩
      · refine Or.inr ⟨by rw [hd, hr]; simp, ?_⟩
        cases hk : keptByGc e with
        | true =>
          refine Or.inl ⟨?_, fun _ => rfl⟩
          rw [hh, List.mem_filter]
          exact ⟨he, hk⟩
        | false =>
          refine Or.inr (Or.inr (Or.inr ⟨⟨env, rfl⟩, rfl, ?_⟩))
          exact hgone hk id (fun _ => rfl) (by rw [hh, List.map_id])
      · by_cases hab : e.addr = best.addr
        · have heb : e = best := hi.matchesWF.eq_of_addr he hbest hab
          subst heb
          refine Or.inl ⟨env, rfl, by rw [hd, hr, if_pos rfl, hld], hE, ?_, hseed⟩
          rw [hh, List.mem_map]
          refine ⟨e, List.mem_filter.2 ⟨he, ?_⟩, startEntry_self R env e⟩
          simp only [keptByGc, Bool.or_eq_true, decide_eq_true_eq]
          exact Or.inr hE.2.1
        · refine Or.inr ⟨?_, ?_⟩
          · rw [hd, hr, if_pos rfl, hld]
            intro hc
            exact hab (Option.some.inj hc).symm
          · cases hk : keptByGc e with
            | true =>
              refine Or.inl ⟨?_, fun _ => rfl⟩
              rw [hh, List.mem_map]
              exact ⟨e, List.mem_filter.2 ⟨he, hk⟩, startEntry_ne R env _ e hab⟩
            | false =>
              refine Or.inr (Or.inr (Or.inr ⟨⟨env, rfl⟩, rfl, ?_⟩))
              refine hgone hk (startEntry R env best.addr) (fun x => ?_) hh
              unfold startEntry
              split_ifs <;> rfl

/-! ## The seeds handed to the dealer -/

theorem parseSeats_fields (conf : Config) (connEntry k p : Nat) (spec : List Char)
    (m : Match) :
    (parseSeats conf connEntry k p spec m).2.numRuns = m.numRuns ∧
    (parseSeats conf connEntry k p spec m).2.useRngForSeed = m.useRngForSeed := by
  induction k generalizing p spec m with
  | zero => exact ⟨rfl, rfl⟩
  | succ k ih =>
    simp only [parseSeats]
    split
    · exact ⟨rfl, rfl⟩
    · split_ifs
      · exact ih _ _ _
      · split
        · exact ⟨rfl, rfl⟩
        · exact ih _ _ _

/-- The seed fields of the match that an accepting `parseMatchSpec` leaves, after its
two calls of `sscanf`. -/
theorem parseTail_seed (R : Rng) (conf : Config) (serv : ServerState) (ce : Nat) (m : Match)
    (g : Nat) (v : Int) (tag : List Char) (s : Nat) (r4 : List Char)
    (h : (parseTail R conf serv ce m g v tag s r4).1 = 0) :
    (parseTail R conf serv ce m g v tag s r4).2.2.numRuns = v ∧
    (parseTail R conf serv ce m g v tag s r4).2.2.rngSeed = s ∧
    (s ≠ 0 →
      (parseTail R conf serv ce m g v tag s r4).2.2.rng = R.init_genrand s ∧
      (parseTail R conf serv ce m g v tag s r4).2.2.useRngForSeed = (if v = 1 then 0 else 1) ∧
      (parseTail R conf serv ce m g v tag s r4).2.1 = serv) ∧
    (s = 0 →
      (parseTail R conf serv ce m g v tag s r4).2.2.rng
        = R.init_genrand (R.genrand_int32 serv.rng).1 ∧
      (parseTail R conf serv ce m g v tag s r4).2.2.useRngForSeed = m.useRngForSeed ∧
      (parseTail R conf serv ce m g v tag s r4).2.1
        = { serv with rng := (R.genrand_int32 serv.rng).2 }) := by
  unfold parseTail at h ⊢
  by_cases h1 : v < 0 ∨ v > ((conf.gameAt g).maxMatchRuns : Int)
  · simp [h1] at h
  · by_cases h2 : '/' ∈ tag
    · simp [h1, h2] at h
    · simp only [h1, h2, if_false] at h ⊢
      have hf := parseSeats_fields conf ce (conf.gameAt g).game.numPlayers 0 (skipSpace r4)
        { m with gameConf := g, numRuns := v }
      cases hps : parseSeats conf ce (conf.gameAt g).game.numPlayers 0 (skipSpace r4)
          { m with gameConf := g, numRuns := v } with
      | mk ok m3 =>
        rw [hps] at h hf
        simp only at hf
        cases ok with
        | false => simp at h
        | true =>
          simp only
          refine ⟨?_, ?_, fun hs => ?_, fun hs => ?_⟩
          · split_ifs <;> exact hf.1
          · split_ifs <;> rfl
          · rw [if_pos hs]
            simp only [hf.1]
            refine ⟨?_, ?_, ?_⟩ <;> split_ifs <;> rfl
          · rw [if_neg (not_not.mpr hs)]
            exact ⟨rfl, hf.2, rfl⟩

/-- `handleConnection` on a `RUNMATCHES` line that `parseMatchSpec` accepts, received
as the first line on a connection that is logged on: the match is added to the match
list and nothing is written. -/
theorem handleConnection_queued (R : Rng) (env : ConnEnv) (conf : Config)
    (serv : ServerState) (ce : Nat) (g : GetLine) (rest : List GetLine)
    (hreads : env.reads = g :: rest) (hr : 0 < g.r)
    (hst : (LLPoolGetItem serv.conns ce).status = STATUS_OKAY)
    (hcmd : strncaseeq g.line "RUNMATCHES".toList = true)
    (hacc : ¬ (parseMatchSpec R conf serv (g.line.drop 10) ce env.stack).1 < 0) :
    handleConnection R env conf serv ce =
      ({ (parseMatchSpec R conf serv (g.line.drop 10) ce env.stack).2.1 with
          matches_ := (LLPoolAddItem serv.matches_
            { (parseMatchSpec R conf serv (g.line.drop 10) ce env.stack).2.2 with
              user := (LLPoolGetItem serv.conns ce).user, isRunning := false,
              queueTime := env.now }).2 }, [], rest) := by
  have h1 : ¬ g.r < 0 := by omega
  have h2 : ¬ g.r = 0 := by omega
  have h3 : ¬ (LLPoolGetItem serv.conns ce).status = STATUS_UNVALIDATED := by
    rw [hst]; decide
  have h4 : strncaseeq g.line "HELP".toList = false :=
    strncaseeq_runmatches_not g.line _ hcmd (by decide) (by decide)
  have h5 : strncaseeq g.line "GAMES".toList = false :=
    strncaseeq_runmatches_not g.line _ hcmd (by decide) (by decide)
  have h6 : strncaseeq g.line "QSTAT".toList = false :=
    strncaseeq_runmatches_not g.line _ hcmd (by decide) (by decide)
  obtain ⟨rng, hs⟩ := parseMatchSpec_serv R conf serv (g.line.drop 10) ce env.stack
  unfold handleConnection
  rw [hreads]
  simp only [handleLoop, h1, h2, h3, h4, h5, h6, hcmd, hacc, hs, if_true, if_false,
    Bool.false_eq_true, List.nil_append]



theorem digitsRev_length (k fuel n : Nat) (hk : 0 < k) (h : n < 10 ^ k) :
    (digitsRev fuel n).length ≤ k := by
  induction k generalizing fuel n with
  | zero => omega
  | succ k ih =>
    cases fuel with
    | zero => simp [digitsRev]
    | succ fuel =>
      unfold digitsRev
      by_cases h10 : n < 10
      · rw [if_pos h10]; simp
      · rw [if_neg h10]
        simp only [List.length_cons]
        have hk0 : 0 < k := by
          rcases Nat.eq_zero_or_pos k with h0 | h0
          · subst h0; simp at h; omega
          · exact h0
        have : n / 10 < 10 ^ k := by
          rw [Nat.div_lt_iff_lt_mul (by decide)]
          rw [pow_succ] at h
          exact h
        have := ih fuel (n / 10) hk0 this
        omega

/-- A 32-bit value in decimal fits the buffer of 16 bytes. -/
theorem snprintf16_decimal (n : Nat) (h : n < 2 ^ 32) : snprintf16 (decimal n) = decimal n := by
  unfold snprintf16 decimal
  apply List.take_of_length_le
  rw [List.length_reverse]
  have := digitsRev_length 10 (n + 1) n (by decide) (by omega)
  omega

theorem scannedU32_of_u32 (n : Nat) (h : n < 2 ^ 32) : scannedU32 n = n := by
  unfold scannedU32 strtoul
  rw [if_neg (by omega)]
  simp only [Bool.false_eq_true, if_false]
  exact Nat.mod_eq_of_lt h

theorem drawn_succ (R : Rng) (st : rng_state_t) (k : Nat) :
    drawn R st (k + 1) = drawn R (R.genrand_int32 st).2 k := rfl

/-- The seeds handed to the dealer along the life of an entry: the stored seed every
time when `useRngForSeed` is 0, the successive outputs of the generator of the match
otherwise. -/
theorem follow_seeds (R : Rng) (a : Nat) (αs : List Action) :
    ∀ (w w1 : World) (ds : List (List Event)) (e : LLPoolEntry Match),
      Inv w → e ∈ w.serv.matches_.head → e.addr = a →
      follow R a w αs = some (w1, ds) →
      (e.data.useRngForSeed = 0 →
        ∀ d ∈ ds, refereeSeed d = snprintf16 (decimal e.data.rngSeed)) ∧
      (e.data.useRngForSeed ≠ 0 →
        ∀ k, k < ds.length →
          refereeSeed (ds.getD k []) = snprintf16 (decimal (drawn R e.data.rng k))) := by
  induction αs with
  | nil =>
    intro w w1 ds e _ _ _ h
    simp only [follow, Option.some.injEq, Prod.mk.injEq] at h
    rw [← h.2]
    exact ⟨fun _ d hd => absurd hd (List.not_mem_nil _),
      fun _ k hk => absurd hk (Nat.not_lt_zero _)⟩
  | cons α rest ih =>
    intro w w1 ds e hi he hea h
    simp only [follow] at h
    cases hact : act R w α with
    | none => rw [hact] at h; simp at h
    | some p =>
      obtain ⟨w2, evs⟩ := p
      rw [hact] at h
      simp only at h
      cases hl : linked a w2 with
      | false => rw [hl] at h; simp at h
      | true =>
        rw [hl] at h
        simp only [if_true] at h
        cases hf : follow R a w2 rest with
        | none => rw [hf] at h; simp at h
        | some q =>
          obtain ⟨w3, ds2⟩ := q
          rw [hf] at h
          simp only [Option.some.injEq, Prod.mk.injEq] at h
          obtain ⟨_, hds⟩ := h
          have hi2 : Inv w2 := hi.act hact
          rcases act_entry hi hact e he with
            ⟨env, _, hd, _, hmem, hseed⟩ | ⟨hd, hcases⟩
          · rw [hea] at hd
            rw [if_pos hd] at hds
            obtain ⟨ih0, ih1⟩ := ih w2 w3 ds2 _ hi2 hmem hea hf
            rw [← hds]
            constructor
            · intro h0 d hdm
              rcases List.mem_cons.1 hdm with rfl | hdm
              · rw [hseed]
                unfold jobSeed
                rw [if_neg (not_not.mpr h0)]
              · exact ih0 h0 d hdm
            · intro h1 k hk
              cases k with
              | zero =>
                simp only [List.getD_cons_zero]
                rw [hseed]
                unfold jobSeed
                rw [if_pos h1]
                rfl
              | succ k =>
                simp only [List.getD_cons_succ]
                have := ih1 h1 k (by simp only [List.length_cons] at hk; omega)
                rw [this, drawn_succ]
                simp only [startedMatch, if_pos h1]
          · rw [hea] at hd
            rw [if_neg hd] at hds
            rw [← hds]
            rcases hcases with ⟨hmem, _⟩ | ⟨_, hmem⟩ | ⟨_, hmem⟩ | ⟨_, _, hnl⟩
            · exact ih w2 w3 ds2 e hi2 hmem hea hf
            · exact ih w2 w3 ds2 ⟨e.addr, { e.data with isRunning := false }⟩ hi2 hmem hea hf
            · exact ih w2 w3 ds2 ⟨e.addr, { e.data with numRuns := 0 }⟩ hi2 hmem hea hf
            · rw [hea, hl] at hnl
              exact absurd hnl (by decide)

/-! ## Connections and the matches that use them -/

/-- The seats written by the seat loop: a network seat is bound to the submitting
connection. -/
theorem parseSeats_network (conf : Config) (ce k p : Nat) (spec : List Char) (m m3 : Match)
    (h : parseSeats conf ce k p spec m = (true, m3)) :
    (∀ q, q < p → m3.player q = m.player q) ∧
    ∀ i, i < k → (m3.player (p + i)).isNetworkPlayer = true →
      (m3.player (p + i)).entry = some ce := by
  induction k generalizing p spec m with
  | zero =>
    simp only [parseSeats, Prod.mk.injEq, true_and] at h
    subst h
    exact ⟨fun _ _ => rfl, fun i hi => absurd hi (Nat.not_lt_zero _)⟩
  | succ k ih =>
    simp only [parseSeats] at h
    cases hs : scanStr spec with
    | none => rw [hs] at h; simp at h
    | some nr =>
      obtain ⟨n, r⟩ := nr
      rw [hs] at h
      simp only at h
      by_cases hloc : streq n "LOCAL".toList = true
      · rw [if_pos hloc] at h
        obtain ⟨hlow, hseat⟩ := ih (p + 1) r _ h
        refine ⟨fun q hq => ?_, fun i hi hn => ?_⟩
        · rw [hlow q (by omega), Match.setPlayer_player_ne _ _ _ _ (by omega)]
        · cases i with
          | zero =>
            rw [Nat.add_zero, hlow p (by omega), Match.setPlayer_player_self]
          | succ i =>
            rw [show p + (i + 1) = p + 1 + i by omega] at hn ⊢
            exact hseat i (by omega) hn
      · rw [if_neg hloc] at h
        cases hfb : findBot (conf.gameAt m.gameConf) n with
        | none => rw [hfb] at h; simp at h
        | some b =>
          rw [hfb] at h
          simp only at h
          obtain ⟨hlow, hseat⟩ := ih (p + 1) r _ h
          refine ⟨fun q hq => ?_, fun i hi hn => ?_⟩
          · rw [hlow q (by omega), Match.setPlayer_player_ne _ _ _ _ (by omega)]
          · cases i with
            | zero =>
              rw [Nat.add_zero, hlow p (by omega), Match.setPlayer_player_self] at hn
              simp at hn
            | succ i =>
              rw [show p + (i + 1) = p + 1 + i by omega] at hn ⊢
              exact hseat i (by omega) hn

/-- In a match that `parseMatchSpec` accepts, every network seat is bound to the
submitting connection. -/
theorem parseMatchSpec_ok_seats (R : Rng) (conf : Config) (serv : ServerState)
    (spec : List Char) (ce : Nat) (m : Match)
    (h : ¬ (parseMatchSpec R conf serv spec ce m).1 < 0) :
    ∀ p, p < conf.numPlayers (parseMatchSpec R conf serv spec ce m).2.2 →
      ((parseMatchSpec R conf serv spec ce m).2.2.player p).isNetworkPlayer = true →
      ((parseMatchSpec R conf serv spec ce m).2.2.player p).entry = some ce := by
  obtain ⟨name, spec1, entry, numRuns, spec2, tag, spec3, rngSeed, spec4, m3, _, _, _, _, _,
    _, _, _, hps, heq⟩ := parseMatchSpec_ok R conf serv spec ce m h
  have hg := parseSeats_gameConf conf ce (conf.gameAt entry).game.numPlayers 0
    (skipSpace spec4) { m with gameConf := entry, numRuns := numRuns }
  rw [hps] at hg
  simp only at hg
  obtain ⟨_, hseat⟩ := parseSeats_network conf ce _ 0 _ _ m3 hps
  intro p hp hn
  rw [heq] at hp hn ⊢
  have hp3 : p < (conf.gameAt entry).game.numPlayers := by
    unfold Config.numPlayers at hp
    split_ifs at hp <;> simpa only [hg] using hp
  have hn3 : (m3.player p).isNetworkPlayer = true := by
    unfold Match.player at hn ⊢
    split_ifs at hn <;> exact hn
  have := hseat p hp3 (by rw [Nat.zero_add]; exact hn3)
  rw [Nat.zero_add] at this
  unfold Match.player at this ⊢
  split_ifs <;> exact this

theorem SeatsOkay.mono {conf conf1 : Config} {conns conns1 : LLPool Connection}
    {m m1 : Match} (h : SeatsOkay conf conns m)
    (hg : ∀ g, (conf1.gameAt g).game = (conf.gameAt g).game)
    (h1 : m1.gameConf = m.gameConf) (h2 : m1.players = m.players)
    (hc : ∀ c ∈ conns.head, c.data.status = STATUS_OKAY →
      ∃ c1 ∈ conns1.head, c1.addr = c.addr ∧ c1.data.status = STATUS_OKAY) :
    SeatsOkay conf1 conns1 m1 := by
  intro p hp hn
  have hp1 : p < conf.numPlayers m := by
    unfold Config.numPlayers at hp ⊢
    rw [h1, hg] at hp
    exact hp
  have hpl : m1.player p = m.player p := by
    unfold Match.player; rw [h2]
  rw [hpl] at hn ⊢
  obtain ⟨c, hcm, hce, hcs⟩ := h p hp1 hn
  obtain ⟨c1, hc1, hca, hcs1⟩ := hc c hcm hcs
  exact ⟨c1, hc1, by rw [hce, hca], hcs1⟩

theorem ConnInv.transfer {w w1 : World} (hc : ConnInv w)
    (hwf : PoolWF w1.serv.conns)
    (hst : ∀ c ∈ w1.serv.conns.head, c.data.status = STATUS_CLOSED ∨
      c.data.status = STATUS_UNVALIDATED ∨ c.data.status = STATUS_OKAY)
    (hg : ∀ g, (w1.conf.gameAt g).game = (w.conf.gameAt g).game)
    (hconn : ∀ c ∈ w.serv.conns.head, c.data.status = STATUS_OKAY →
      ∃ c1 ∈ w1.serv.conns.head, c1.addr = c.addr ∧ c1.data.status = STATUS_OKAY)
    (hmatch : ∀ e1 ∈ w1.serv.matches_.head, 0 < e1.data.numRuns →
      ∃ e ∈ w.serv.matches_.head, 0 < e.data.numRuns ∧
        e1.data.gameConf = e.data.gameConf ∧ e1.data.players = e.data.players) :
    ConnInv w1 := by
  refine ⟨hwf, hst, ?_⟩
  intro e1 he1 hn1
  obtain ⟨e, he, hn, h1, h2⟩ := hmatch e1 he1 hn1
  exact (hc.seats e he hn).mono hg h1 h2 hconn

theorem ConnInv.of_initial {w : World} (h : Initial w) : ConnInv w := by
  obtain ⟨_, hcn, hm, _⟩ := h
  have hch : w.serv.conns.head = [] := by rw [hcn]; rfl
  have hmh : w.serv.matches_.head = [] := by rw [hm]; rfl
  refine ⟨hcn ▸ PoolWF_new _, ?_, ?_⟩
  · intro c hc; rw [hch] at hc; exact absurd hc (List.not_mem_nil _)
  · intro e he; rw [hmh] at he; exact absurd he (List.not_mem_nil _)

theorem mem_SetItem_cases {α : Type} {P : LLPool α} {a : Nat} {f : α → α}
    {e1 : LLPoolEntry α} (h : e1 ∈ (LLPoolSetItem P a f).head) :
    ∃ e ∈ P.head, e1 = e ∨ (e.addr = a ∧ e1 = ⟨e.addr, f e.data⟩) := by
  simp only [LLPoolSetItem, List.mem_map] at h
  obtain ⟨e, he, rfl⟩ := h
  refine ⟨e, he, ?_⟩
  split_ifs with ha
  · exact Or.inr ⟨ha, rfl⟩
  · exact Or.inl rfl

theorem startMatchJob_game (R : Rng) (env : SchedEnv) (w w1 : World) (r : Int)
    (evs : List Event) (h : startMatchJob R env w = some (r, w1, evs)) :
    ∀ g, (w1.conf.gameAt g).game = (w.conf.gameAt g).game := by
  intro g
  rcases startMatchJob_cases R env w w1 r evs h with
    ⟨_, _, rfl, _⟩ | ⟨_, _, _, rfl, _⟩ | ⟨_, _, _, rfl, _⟩ | ⟨_, _, best, job, _, _, _, rfl⟩
  · rfl
  · rfl
  · rfl
  · simp only [dispatched, Config.setWaitStart_gameAt, Config.addRunningJobs_game]

theorem ConnInv.close_conn {conf : Config} {serv : ServerState}
    (hc : ConnInv ⟨conf, serv⟩) (ce : Nat) : ConnInv ⟨conf, closeConnection conf serv ce⟩ := by
  refine ⟨PoolWF_SetItem hc.connsWF _ _, ?_, ?_⟩
  · intro c hcm
    obtain ⟨c0, hc0, h | ⟨_, h⟩⟩ := mem_SetItem_cases hcm
    · rw [h]; exact hc.status c0 hc0
    · rw [h]; exact Or.inl rfl
  · intro e1 he1 hn1
    simp only [BmServer.closeConnection, List.mem_map] at he1
    obtain ⟨e, he, rfl⟩ := he1
    cases hu : matchUsesConnection conf e.data ce with
    | true =>
      rw [if_pos hu] at hn1
      simp at hn1
    | false =>
      simp only [hu, Bool.false_eq_true, if_false] at hn1 ⊢
      intro p hp hnp
      obtain ⟨c, hcm, hce, hcs⟩ := hc.seats e he hn1 p hp hnp
      have hne : c.addr ≠ ce := by
        intro hca
        have : matchUsesConnection conf e.data ce = true := by
          unfold matchUsesConnection
          rw [List.any_eq_true]
          refine ⟨p, List.mem_range.2 hp, ?_⟩
          rw [hnp, hce, hca]
          simp
        rw [hu] at this
        exact absurd this (by decide)
      refine ⟨c, ?_, hce, hcs⟩
      simp only [BmServer.closeConnection, LLPoolSetItem, List.mem_map]
      exact ⟨c, hcm, by rw [if_neg hne]⟩

theorem ConnInv.logon {conf : Config} {serv : ServerState}
    (hc : ConnInv ⟨conf, serv⟩) (ce : Nat) (u : Nat) :
    ConnInv ⟨conf,
      { serv with conns := LLPoolSetItem serv.conns ce
                    (fun c => { c with user := some u, status := STATUS_OKAY }) }⟩ := by
  refine @ConnInv.transfer ⟨conf, serv⟩ _ hc (PoolWF_SetItem hc.connsWF _ _) ?_
    (fun _ => rfl) ?_ ?_
  · intro c hcm
    obtain ⟨c0, hc0, h | ⟨_, h⟩⟩ := mem_SetItem_cases hcm
    · rw [h]; exact hc.status c0 hc0
    · rw [h]; exact Or.inr (Or.inr rfl)
  · intro c hcm hcs
    by_cases ha : c.addr = ce
    · refine ⟨⟨c.addr, { c.data with user := some u, status := STATUS_OKAY }⟩, ?_, rfl, rfl⟩
      simp only [LLPoolSetItem, List.mem_map]
      exact ⟨c, hcm, by rw [if_pos ha]⟩
    · refine ⟨c, ?_, rfl, hcs⟩
      simp only [LLPoolSetItem, List.mem_map]
      exact ⟨c, hcm, by rw [if_neg ha]⟩
  · intro e1 he1 hn1
    exact ⟨e1, he1, hn1, rfl, rfl⟩

theorem ConnInv.add_match {conf : Config} {serv : ServerState}
    (hc : ConnInv ⟨conf, serv⟩) (rng : rng_state_t) (item : Match)
    (hs : SeatsOkay conf serv.conns item) :
    ConnInv ⟨conf,
      { serv with rng := rng, matches_ := (LLPoolAddItem serv.matches_ item).2 }⟩ := by
  refine ⟨hc.connsWF, hc.status, ?_⟩
  intro e1 he1 hn1
  simp only [LLPoolAddItem_head, List.mem_cons] at he1
  rcases he1 with rfl | he1
  · exact hs
  · exact hc.seats e1 he1 hn1



theorem seatsOkay_parsed (R : Rng) {conf : Config} {serv : ServerState}
    (hc : ConnInv ⟨conf, serv⟩) (c : LLPoolEntry Connection) (hcm : c ∈ serv.conns.head)
    (hst : c.data.status ≠ STATUS_CLOSED)
    (hnu : ¬ (LLPoolGetItem serv.conns c.addr).status = STATUS_UNVALIDATED)
    (spec : List Char) (stack : Match)
    (hacc : ¬ (parseMatchSpec R conf serv spec c.addr stack).1 < 0)
    (u : Option Nat) (now : timeval) :
    SeatsOkay conf serv.conns
      { (parseMatchSpec R conf serv spec c.addr stack).2.2 with
        user := u, isRunning := false, queueTime := now } := by
  intro p hp hn
  have hseat := parseMatchSpec_ok_seats R conf serv spec c.addr stack hacc p hp hn
  refine ⟨c, hcm, hseat, ?_⟩
  rw [LLPoolGetItem_of_mem hc.connsWF hcm] at hnu
  rcases hc.status c hcm with h | h | h
  · exact absurd h hst
  · exact absurd h hnu
  · exact h

theorem ConnInv.handle_loop (R : Rng) (env : ConnEnv) (conf : Config)
    (reads : List GetLine) (serv : ServerState) (out : List Event)
    (hc : ConnInv ⟨conf, serv⟩) (c : LLPoolEntry Connection) (hcm : c ∈ serv.conns.head)
    (hst : c.data.status ≠ STATUS_CLOSED) :
    ConnInv ⟨conf, (handleLoop R env conf c.addr reads serv out).1⟩ := by
  induction reads generalizing out with
  | nil => exact hc
  | cons g rest ih =>
    simp only [BmServer.handleLoop]
    split_ifs
    all_goals first
      | exact hc
      | exact hc.close_conn _
      | exact ih _
      | (split <;> first | exact hc.close_conn _ | exact hc.logon _ _)
      | (rw [parseMatchSpec_fail_serv R conf serv _ c.addr env.stack (by assumption)]
         exact hc)
      | (obtain ⟨rng, hs⟩ := parseMatchSpec_serv R conf serv (g.line.drop 10) c.addr
           env.stack
         rw [hs]
         exact hc.add_match rng _
           (seatsOkay_parsed R hc c hcm hst (by assumption) _ _ (by assumption) _ _))

theorem ConnInv.conn_step {R : Rng} {w w1 : World} (hi : Inv w) (hc : ConnInv w)
    (h : Step R w w1) : ConnInv w1 := by
  cases h with
  | reap waitpid e job allDone he hcf =>
    cases allDone with
    | false =>
      exact ⟨hc.connsWF, hc.status, hc.seats⟩
    | true =>
      simp only [if_true]
      refine @ConnInv.transfer w _ hc hc.connsWF hc.status ?_
        (fun c hcm hcs => ⟨c, hcm, rfl, hcs⟩) ?_
      · intro g
        simp only [finishedJob, Config.addRunningJobs_game]
      · intro e1 he1 hn1
        simp only [finishedJob] at he1
        obtain ⟨e0, he0, h | ⟨_, h⟩⟩ := mem_SetItem_cases he1
        · rw [h]; exact ⟨e0, he0, by rw [← h]; exact hn1, rfl, rfl⟩
        · rw [h] at hn1 ⊢
          exact ⟨e0, he0, hn1, rfl, rfl⟩
  | drop e he hst =>
    refine @ConnInv.transfer w _ hc (PoolWF_RemoveEntry hc.connsWF he) ?_ (fun _ => rfl) ?_
      (fun e1 he1 hn1 => ⟨e1, he1, hn1, rfl, rfl⟩)
    · intro c hcm
      simp only [LLPoolRemoveEntry_of_mem hc.connsWF he] at hcm
      exact hc.status c (List.mem_of_mem_filter hcm)
    · intro c hcm hcs
      refine ⟨c, ?_, rfl, hcs⟩
      simp only [LLPoolRemoveEntry_of_mem hc.connsWF he, List.mem_filter]
      refine ⟨hcm, ?_⟩
      simp only [bne_iff_ne, ne_eq]
      intro ha
      have := hc.connsWF.eq_of_addr hcm he ha
      rw [this, hst] at hcs
      exact absurd hcs (by decide)
  | start env r evs hs =>
    have hgame := startMatchJob_game R _ w w1 _ _ (by assumption)
    rcases startMatchJob_effect R _ w w1 _ _ hi.matchesWF (by assumption) with
      ⟨_, _, _, _, hcn, hh⟩ | ⟨_, best, _, _, _, hh, _, hcn⟩
    · refine @ConnInv.transfer w _ hc (hcn ▸ hc.connsWF) (hcn ▸ hc.status) hgame
        (fun c hcm hcs => ⟨c, hcn ▸ hcm, rfl, hcs⟩) ?_
      intro e1 he1 hn1
      rw [hh] at he1
      exact ⟨e1, List.mem_of_mem_filter he1, hn1, rfl, rfl⟩
    · refine @ConnInv.transfer w _ hc (hcn ▸ hc.connsWF) (hcn ▸ hc.status) hgame
        (fun c hcm hcs => ⟨c, hcn ▸ hcm, rfl, hcs⟩) ?_
      intro e1 he1 hn1
      rw [hh, List.mem_map] at he1
      obtain ⟨e0, he0, rfl⟩ := he1
      refine ⟨e0, List.mem_of_mem_filter he0, ?_, ?_, ?_⟩
      · unfold startEntry at hn1
        split_ifs at hn1
        · simp only [startedMatch] at hn1; omega
        · exact hn1
      · unfold startEntry; split_ifs <;> rfl
      · unfold startEntry; split_ifs <;> rfl
  | accept sock =>
    refine @ConnInv.transfer w _ hc (PoolWF_AddItem hc.connsWF _) ?_ (fun _ => rfl) ?_
      (fun e1 he1 hn1 => ⟨e1, he1, hn1, rfl, rfl⟩)
    · intro c hcm
      simp only [addConnection, LLPoolAddItem_head, List.mem_cons] at hcm
      rcases hcm with rfl | hcm
      · exact Or.inr (Or.inl rfl)
      · exact hc.status c hcm
    · intro c hcm hcs
      refine ⟨c, ?_, rfl, hcs⟩
      simp only [addConnection, LLPoolAddItem_head, List.mem_cons]
      exact Or.inr hcm
  | handle env e he hst =>
    exact ConnInv.handle_loop R env w.conf env.reads w.serv [] hc e he hst

theorem ConnInv.of_reachable {R : Rng} {w : World} (h : Reachable R w) : ConnInv w := by
  induction h with
  | init w hw => exact ConnInv.of_initial hw
  | step w w1 hr hs ih => exact ih.conn_step (Inv.reachable hr) hs

theorem sampleLoggedOn_reachable : Reachable sampleRng sampleLoggedOn := by
  have h0 : Reachable sampleRng sampleInit :=
    Reachable.init _ ⟨by decide, rfl, rfl, rfl⟩
  have h1 : Reachable sampleRng sampleAccepted :=
    Reachable.step _ _ h0 (Step.accept sampleInit 5)
  exact Reachable.step _ _ h1
    (Step.handle sampleAccepted (sampleConnEnv "alice secret\n" 2)
      ⟨0, ⟨STATUS_UNVALIDATED, none, 5⟩⟩ (by decide) (by decide))

theorem sampleRng_u32 : ∀ st, (sampleRng.genrand_int32 st).1 < 2 ^ 32 :=
  fun _ => Nat.mod_lt _ (by decide)

/-- The action `handle` on a connection of the list that is not closed. -/
theorem act_handle (R : Rng) (w : World) (env : ConnEnv) (hc : ConnInv w)
    (c : LLPoolEntry Connection) (hcm : c ∈ w.serv.conns.head)
    (hst : c.data.status ≠ STATUS_CLOSED) :
    act R w (Action.handle env c.addr) =
      some ({ w with serv := (handleConnection R env w.conf w.serv c.addr).1 },
            (handleConnection R env w.conf w.serv c.addr).2.1) := by
  simp only [act, find_addr_of_mem _ c hc.connsWF.nodup_head hcm, if_neg hst]

theorem strncaseeq_runmatches (t : List Char) :
    strncaseeq ("RUNMATCHES".toList ++ t) "RUNMATCHES".toList = true := by
  unfold strncaseeq
  have : ("RUNMATCHES".toList ++ t).take "RUNMATCHES".toList.length = "RUNMATCHES".toList :=
    List.take_left' rfl
  rw [this]
  simp

theorem drop_runmatches (t : List Char) : ("RUNMATCHES".toList ++ t).drop 10 = t :=
  List.drop_left' rfl

/-- A `RUNMATCHES` command that is accepted, received as the first line on a logged-on
connection of a reachable world: the action, the world after it, and the entry it
adds in front of the match list. -/
theorem act_runmatches (R : Rng) (w : World) (env : ConnEnv) (c : LLPoolEntry Connection)
    (r : Int) (rest : List GetLine) (spec : List Char)
    (hc : ConnInv w) (hcm : c ∈ w.serv.conns.head)
    (hst : c.data.status = STATUS_OKAY)
    (hreads : env.reads = ⟨r, "RUNMATCHES".toList ++ spec⟩ :: rest) (hr : 0 < r)
    (hacc : (parseMatchSpec R w.conf w.serv spec c.addr env.stack).1 = 0) :
    ∃ w0, act R w (Action.handle env c.addr) = some (w0, []) ∧
      w0.conf = w.conf ∧ w0.serv.conns = w.serv.conns ∧ w0.serv.jobs = w.serv.jobs ∧
      w0.serv.matches_.head =
        ⟨(LLPoolAddItem w.serv.matches_ (default : Match)).1,
          { (parseMatchSpec R w.conf w.serv spec c.addr env.stack).2.2 with
            user := c.data.user, isRunning := false, queueTime := env.now }⟩
          :: w.serv.matches_.head := by
  have hne : c.data.status ≠ STATUS_CLOSED := by rw [hst]; decide
  have hget : LLPoolGetItem w.serv.conns c.addr = c.data := LLPoolGetItem_of_mem hc.connsWF hcm
  have hacc2 : ¬ (parseMatchSpec R w.conf w.serv
      ((⟨r, "RUNMATCHES".toList ++ spec⟩ : GetLine).line.drop 10) c.addr env.stack).1 < 0 := by
    show ¬ (parseMatchSpec R w.conf w.serv (("RUNMATCHES".toList ++ spec).drop 10) c.addr
      env.stack).1 < 0
    rw [drop_runmatches, hacc]; decide
  have hq := handleConnection_queued R env w.conf w.serv c.addr
    ⟨r, "RUNMATCHES".toList ++ spec⟩ rest hreads hr (by rw [hget]; exact hst)
    (strncaseeq_runmatches spec) hacc2
  obtain ⟨rng, hs⟩ := parseMatchSpec_serv R w.conf w.serv spec c.addr env.stack
  rw [act_handle R w env hc c hcm hne, hq]
  refine ⟨_, rfl, rfl, ?_, ?_, ?_⟩
  · show (parseMatchSpec R w.conf w.serv (("RUNMATCHES".toList ++ spec).drop 10) c.addr
      env.stack).2.1.conns = w.serv.conns
    rw [drop_runmatches, hs]
  · show (parseMatchSpec R w.conf w.serv (("RUNMATCHES".toList ++ spec).drop 10) c.addr
      env.stack).2.1.jobs = w.serv.jobs
    rw [drop_runmatches, hs]
  · show (LLPoolAddItem w.serv.matches_ _).2.head = _
    rw [LLPoolAddItem_head, hget]
    show _ :: _ = _ :: _
    rw [drop_runmatches]
    congr 1
    unfold LLPoolAddItem
    cases w.serv.matches_.free <;> rfl



theorem drawn_lt (R : Rng) (h32 : ∀ st, (R.genrand_int32 st).1 < 2 ^ 32)
    (st : rng_state_t) (k : Nat) : drawn R st k < 2 ^ 32 := by
  induction k generalizing st with
  | zero => exact h32 st
  | succ k ih => exact ih _

/-- What `%u` stores fits 32 bits. -/
theorem scannedU32_lt (n : Nat) : scannedU32 n < 2 ^ 32 := by
  unfold scannedU32
  exact Nat.mod_lt _ (by decide)

/-- **C12** (as the code has it): a `RUNMATCHES` command whose seed text `s` is stored by
`%u` as a nonzero 32-bit value `s'` and whose number of runs `N` is stored by `%d` as
`N'`, accepted as the first line read on a logged-on connection in a reachable world,
puts an entry in front of the match list, and along the whole life of that entry,
whatever the main loop does: if `N' = 1` every dispatch of the entry hands the dealer
the seed `s'`; otherwise the `k`-th dispatch (counted from 0) hands the dealer the
`k`-th output of the generator initialised with `s'`. The stored seed `s'` is `s` itself
when `s < 2^32`, and `N'` is `N` itself when `N` is in the range of `int`. -/
theorem referee_seeds_from_submitted_seed (R : Rng)
    (h32 : ∀ st, (R.genrand_int32 st).1 < 2 ^ 32) (w : World) (env : ConnEnv)
    (c : LLPoolEntry Connection) (r : Int) (rest : List GetLine) (game tag : List Char)
    (N : Int) (s : Nat) (names : List (List Char))
    (hw : Reachable R w) (hcm : c ∈ w.serv.conns.head) (hst : c.data.status = STATUS_OKAY)
    (hreads : env.reads
      = ⟨r, "RUNMATCHES".toList ++ renderSpec game N tag s names⟩ :: rest)
    (hr : 0 < r) (hgame : IsWord game) (htag : IsWord tag)
    (hs0 : scannedU32 s ≠ 0)
    (hacc : (parseMatchSpec R w.conf w.serv (renderSpec game N tag s names) c.addr
      env.stack).1 = 0) :
    (∃ w0 a m, act R w (Action.handle env c.addr) = some (w0, []) ∧
      w0.serv.matches_.head = ⟨a, m⟩ :: w.serv.matches_.head ∧
      m.numRuns = scannedInt N ∧ m.rngSeed = scannedU32 s ∧
      ∀ αs w1 ds, follow R a w0 αs = some (w1, ds) →
        (scannedInt N = 1 → ∀ d ∈ ds, refereeSeed d = decimal (scannedU32 s)) ∧
        (scannedInt N ≠ 1 → ∀ k, k < ds.length →
          refereeSeed (ds.getD k [])
            = decimal (drawn R (R.init_genrand (scannedU32 s)) k))) ∧
    (s < 2 ^ 32 → scannedU32 s = s) ∧
    (-2147483648 ≤ N → N < 2147483648 → scannedInt N = N) := by
  refine ⟨?_, scannedU32_of_u32 s, fun hN1 hN2 => scannedInt_of_int N ⟨hN1, hN2⟩⟩
  have hi := Inv.reachable hw
  have hc := ConnInv.of_reachable hw
  obtain ⟨w0, hact, _, _, _, hhead⟩ :=
    act_runmatches R w env c r rest _ hc hcm hst hreads hr hacc
  obtain ⟨r1, r2, r3, h1, h3, h4, h5⟩ :=
    scans_renderSpec game tag N s names hgame htag
  have hg : ∃ g, findGame w.conf game = some g := by
    cases hfg : findGame w.conf game with
    | some g => exact ⟨g, rfl⟩
    | none =>
      rw [parseMatchSpec_no_game R w.conf w.serv _ c.addr env.stack game r1 h1 hfg] at hacc
      simp at hacc
  obtain ⟨g, hg⟩ := hg
  have hpt := parseMatchSpec_of_scans R w.conf w.serv _ c.addr env.stack game r1 r2 tag r3 _
    g _ _ h1 hg h3 h4 h5
  rw [hpt] at hacc hhead
  obtain ⟨hnr, hseed, hnz, _⟩ := parseTail_seed R w.conf w.serv c.addr env.stack g _ tag _ _
    hacc
  obtain ⟨hrng, hflag, _⟩ := hnz hs0
  refine ⟨w0, _, _, hact, hhead, hnr, hseed, ?_⟩
  intro αs w1 ds hf
  have hi0 : Inv w0 := hi.act hact
  obtain ⟨hz, hnzs⟩ := follow_seeds R _ αs w0 w1 ds _ hi0
    (by rw [hhead]; exact List.mem_cons_self _ _) rfl hf
  simp only [hseed, hrng, hflag] at hz hnzs
  constructor
  · intro hN1 d hd
    rw [← snprintf16_decimal _ (scannedU32_lt s)]
    exact hz (by rw [if_pos hN1]) d hd
  · intro hN1 k hk
    rw [← snprintf16_decimal _ (drawn_lt R h32 _ k)]
    exact hnzs (by rw [if_neg hN1]; decide) k hk

theorem referee_seeds_from_submitted_seed_witness :
    (follow sampleRng 0 sampleQueued
      [Action.start (sampleSchedEnv 10), Action.reap (fun pid => pid) 0,
        Action.start (sampleSchedEnv 11)]).map (fun r => r.2.map refereeSeed)
      = some ["42".toList, "43".toList] ∧
    ∃ w0 a m,
      act sampleRng sampleLoggedOn
        (Action.handle (sampleConnEnv "RUNMATCHES holdem 2 t0 42 LOCAL example\n" 3)
          (⟨0, ⟨STATUS_OKAY, some 0, 5⟩⟩ : LLPoolEntry Connection).addr) = some (w0, []) ∧
      w0.serv.matches_.head = ⟨a, m⟩ :: sampleLoggedOn.serv.matches_.head ∧
      m.numRuns = 2 ∧ m.rngSeed = 42 ∧
      ∀ αs w1 ds, follow sampleRng a w0 αs = some (w1, ds) →
        ((2 : Int) = 1 → ∀ d ∈ ds, refereeSeed d = decimal 42) ∧
        ((2 : Int) ≠ 1 → ∀ k, k < ds.length →
          refereeSeed (ds.getD k [])
            = decimal (drawn sampleRng (sampleRng.init_genrand 42) k)) :=
  ⟨by decide,
    (referee_seeds_from_submitted_seed sampleRng sampleRng_u32 sampleLoggedOn
      (sampleConnEnv "RUNMATCHES holdem 2 t0 42 LOCAL example\n" 3)
      ⟨0, ⟨STATUS_OKAY, some 0, 5⟩⟩ 40 [] "holdem".toList "t0".toList 2 42
      ["LOCAL".toList, "example".toList] sampleLoggedOn_reachable (by decide) (by decide)
      (by decide) (by decide) (by decide) (by decide) (by decide)
      (by decide)).1⟩

/-- The claim of C12 as stated fails: the command with the seed text 4294967338 and one
run is accepted on the logged-on connection of the sample world, the seed of the queued
match is 42, and the dispatch of the match hands the dealer the seed `42`, not
4294967338. -/
theorem wide_seed_is_reduced :
    "RUNMATCHES".toList ++ renderSpec "holdem".toList 1 "tb".toList 4294967338
        ["LOCAL".toList, "example".toList]
      = "RUNMATCHES holdem 1 tb 4294967338 LOCAL example\n".toList ∧
    (parseMatchSpec sampleRng sampleLoggedOn.conf sampleLoggedOn.serv
      " holdem 1 tb 4294967338 LOCAL example\n".toList 0 default).1 = 0 ∧
    (parseMatchSpec sampleRng sampleLoggedOn.conf sampleLoggedOn.serv
      " holdem 1 tb 4294967338 LOCAL example\n".toList 0 default).2.2.rngSeed = 42 ∧
    (act sampleRng sampleLoggedOn
        (Action.handle
          (sampleConnEnv "RUNMATCHES holdem 1 tb 4294967338 LOCAL example\n" 3) 0)).bind
      (fun p => (follow sampleRng 0 p.1 [Action.start (sampleSchedEnv 10)]).map
        (fun r => r.2.map refereeSeed))
      = some ["42".toList] := by
  decide

/-! ## The zero seed -/

/-- **C13**: what the code does for a zero seed. A `RUNMATCHES` command with seed 0,
accepted as the first line read on a logged-on connection in a reachable world, draws a
value from the generator of the server and initialises the generator of the match with
it, but it does not write `useRngForSeed`: the queued match has the value that the
local object `match` of `handleConnection` held before. When that value is 0, every
dispatch of the entry hands the dealer the stored seed, the literal 0; when it is not
0, the `k`-th dispatch hands the dealer the `k`-th output of the generator of the
match. -/
theorem zero_seed_leaves_flag_unset (R : Rng)
    (h32 : ∀ st, (R.genrand_int32 st).1 < 2 ^ 32) (w : World) (env : ConnEnv)
    (c : LLPoolEntry Connection) (r : Int) (rest : List GetLine) (game tag : List Char)
    (N : Int) (names : List (List Char))
    (hw : Reachable R w) (hcm : c ∈ w.serv.conns.head) (hst : c.data.status = STATUS_OKAY)
    (hreads : env.reads
      = ⟨r, "RUNMATCHES".toList ++ renderSpec game N tag 0 names⟩ :: rest)
    (hr : 0 < r) (hgame : IsWord game) (htag : IsWord tag)
    (hacc : (parseMatchSpec R w.conf w.serv (renderSpec game N tag 0 names) c.addr
      env.stack).1 = 0) :
    ∃ w0 a m, act R w (Action.handle env c.addr) = some (w0, []) ∧
      w0.serv.matches_.head = ⟨a, m⟩ :: w.serv.matches_.head ∧
      w0.serv.rng = (R.genrand_int32 w.serv.rng).2 ∧
      m.rng = R.init_genrand (R.genrand_int32 w.serv.rng).1 ∧
      m.rngSeed = 0 ∧ m.useRngForSeed = env.stack.useRngForSeed ∧
      ∀ αs w1 ds, follow R a w0 αs = some (w1, ds) →
        (env.stack.useRngForSeed = 0 → ∀ d ∈ ds, refereeSeed d = "0".toList) ∧
        (env.stack.useRngForSeed ≠ 0 → ∀ k, k < ds.length →
          refereeSeed (ds.getD k [])
            = decimal (drawn R (R.init_genrand (R.genrand_int32 w.serv.rng).1) k)) := by
  have hi := Inv.reachable hw
  have hc := ConnInv.of_reachable hw
  have hne : c.data.status ≠ STATUS_CLOSED := by rw [hst]; decide
  obtain ⟨w0, hact, _, _, _, hhead⟩ :=
    act_runmatches R w env c r rest _ hc hcm hst hreads hr hacc
  have hrng0 : w0.serv.rng = (parseMatchSpec R w.conf w.serv (renderSpec game N tag 0 names)
      c.addr env.stack).2.1.rng := by
    have hacc2 : ¬ (parseMatchSpec R w.conf w.serv
        ((⟨r, "RUNMATCHES".toList ++ renderSpec game N tag 0 names⟩ : GetLine).line.drop 10)
        c.addr env.stack).1 < 0 := by
      show ¬ (parseMatchSpec R w.conf w.serv
        (("RUNMATCHES".toList ++ renderSpec game N tag 0 names).drop 10) c.addr
        env.stack).1 < 0
      rw [drop_runmatches, hacc]; decide
    have hq := handleConnection_queued R env w.conf w.serv c.addr
      ⟨r, "RUNMATCHES".toList ++ renderSpec game N tag 0 names⟩ rest hreads hr
      (by rw [LLPoolGetItem_of_mem hc.connsWF hcm]; exact hst)
      (strncaseeq_runmatches _) hacc2
    rw [act_handle R w env hc c hcm hne, hq] at hact
    simp only [Option.some.injEq, Prod.mk.injEq, and_true] at hact
    rw [← hact]
    show (parseMatchSpec R w.conf w.serv
      (("RUNMATCHES".toList ++ renderSpec game N tag 0 names).drop 10) c.addr
      env.stack).2.1.rng = _
    rw [drop_runmatches]
  obtain ⟨r1, r2, r3, h1, h3, h4, h5⟩ :=
    scans_renderSpec game tag N 0 names hgame htag
  rw [scannedU32_of_u32 0 (by decide)] at h5
  have hg : ∃ g, findGame w.conf game = some g := by
    cases hfg : findGame w.conf game with
    | some g => exact ⟨g, rfl⟩
    | none =>
      rw [parseMatchSpec_no_game R w.conf w.serv _ c.addr env.stack game r1 h1 hfg] at hacc
      simp at hacc
  obtain ⟨g, hg⟩ := hg
  have hpt := parseMatchSpec_of_scans R w.conf w.serv _ c.addr env.stack game r1 r2 tag r3 _
    g _ _ h1 hg h3 h4 h5
  rw [hpt] at hacc hhead hrng0
  obtain ⟨_, hseed, _, hz⟩ := parseTail_seed R w.conf w.serv c.addr env.stack g _ tag _ _ hacc
  obtain ⟨hrng, hflag, hserv⟩ := hz rfl
  rw [hserv] at hrng0
  refine ⟨w0, _, _, hact, hhead, hrng0, hrng, hseed, hflag, ?_⟩
  intro αs w1 ds hf
  have hi0 : Inv w0 := hi.act hact
  obtain ⟨hz0, hnzs⟩ := follow_seeds R _ αs w0 w1 ds _ hi0
    (by rw [hhead]; exact List.mem_cons_self _ _) rfl hf
  simp only [hseed, hrng, hflag] at hz0 hnzs
  constructor
  · intro h0 d hd
    exact hz0 h0 d hd
  · intro h1 k hk
    rw [← snprintf16_decimal _ (drawn_lt R h32 _ k)]
    exact hnzs h1 k hk

theorem zero_seed_leaves_flag_unset_witness :
    ((sampleConnEnv "RUNMATCHES holdem 2 t0 0 LOCAL example\n" 3).stack.useRngForSeed = 0 ∧
      (follow sampleRng 0
        { sampleLoggedOn with serv :=
            (handleConnection sampleRng
              (sampleConnEnv "RUNMATCHES holdem 2 t0 0 LOCAL example\n" 3)
              sampleLoggedOn.conf sampleLoggedOn.serv 0).1 }
        [Action.start (sampleSchedEnv 10), Action.reap (fun pid => pid) 0,
          Action.start (sampleSchedEnv 11)]).map (fun r => r.2.map refereeSeed)
        = some ["0".toList, "0".toList]) ∧
    ∃ w0 a m,
      act sampleRng sampleLoggedOn
        (Action.handle (sampleConnEnv "RUNMATCHES holdem 2 t0 0 LOCAL example\n" 3)
          (⟨0, ⟨STATUS_OKAY, some 0, 5⟩⟩ : LLPoolEntry Connection).addr) = some (w0, []) ∧
      w0.serv.matches_.head = ⟨a, m⟩ :: sampleLoggedOn.serv.matches_.head ∧
      w0.serv.rng = (sampleRng.genrand_int32 sampleLoggedOn.serv.rng).2 ∧
      m.rng = sampleRng.init_genrand (sampleRng.genrand_int32 sampleLoggedOn.serv.rng).1 ∧
      m.rngSeed = 0 ∧
      m.useRngForSeed
        = (sampleConnEnv "RUNMATCHES holdem 2 t0 0 LOCAL example\n" 3).stack.useRngForSeed ∧
      ∀ αs w1 ds, follow sampleRng a w0 αs = some (w1, ds) →
        ((sampleConnEnv "RUNMATCHES holdem 2 t0 0 LOCAL example\n" 3).stack.useRngForSeed = 0 →
          ∀ d ∈ ds, refereeSeed d = "0".toList) ∧
        ((sampleConnEnv "RUNMATCHES holdem 2 t0 0 LOCAL example\n" 3).stack.useRngForSeed ≠ 0 →
          ∀ k, k < ds.length →
            refereeSeed (ds.getD k [])
              = decimal (drawn sampleRng
                  (sampleRng.init_genrand
                    (sampleRng.genrand_int32 sampleLoggedOn.serv.rng).1) k)) :=
  ⟨⟨by decide, by decide⟩,
    zero_seed_leaves_flag_unset sampleRng sampleRng_u32 sampleLoggedOn
      (sampleConnEnv "RUNMATCHES holdem 2 t0 0 LOCAL example\n" 3)
      ⟨0, ⟨STATUS_OKAY, some 0, 5⟩⟩ 39 [] "holdem".toList "t0".toList 2
      ["LOCAL".toList, "example".toList] sampleLoggedOn_reachable (by decide) (by decide)
      (by decide) (by decide) (by decide) (by decide) (by decide)⟩

/-! ## Closing a connection -/

theorem sampleQueued_reachable : Reachable sampleRng sampleQueued :=
  Reachable.step _ _ sampleLoggedOn_reachable
    (Step.handle sampleLoggedOn
      (sampleConnEnv "RUNMATCHES holdem 2 t0 42 LOCAL example\n" 3)
      ⟨0, ⟨STATUS_OKAY, some 0, 5⟩⟩ (by decide) (by decide))

/-- A match that is not running and has no runs left is removed by a call of
`startMatchJob` that returns, and that call does not dispatch it. -/
theorem dead_start {R : Rng} {w w1 : World} {env : SchedEnv} {evs : List Event}
    (hi : Inv w) (e : LLPoolEntry Match) (he : e ∈ w.serv.matches_.head)
    (hnr : e.data.isRunning = false) (hz : e.data.numRuns ≤ 0)
    (h : act R w (Action.start env) = some (w1, evs)) :
    linked e.addr w1 = false ∧ dispatchedBy R w (Action.start env) ≠ some e.addr := by
  have hk : keptByGc e = false := by
    simp only [keptByGc, hnr, Bool.false_or, decide_eq_false_iff_not]
    omega
  rcases act_entry hi h e he with ⟨_, _, _, hE, _⟩ | ⟨hd, hcases⟩
  · exact absurd hE.2.1 (by omega)
  · refine ⟨?_, hd⟩
    rcases hcases with ⟨_, hkept⟩ | ⟨⟨_, _, hc⟩, _⟩ | ⟨⟨_, _, hc, _⟩, _⟩ | ⟨_, _, hnl⟩
    · rw [hkept ⟨env, rfl⟩] at hk
      exact absurd hk (by decide)
    · simp at hc
    · simp at hc
    · exact hnl

/-- A match that is not running and has no runs left stays so as long as it is in the
match list, it is not dispatched, and no call of `startMatchJob` returns meanwhile. -/
theorem dead_follow (R : Rng) (a : Nat) (αs : List Action) :
    ∀ (w w1 : World) (ds : List (List Event)) (e : LLPoolEntry Match),
      Inv w → e ∈ w.serv.matches_.head → e.addr = a →
      e.data.isRunning = false → e.data.numRuns ≤ 0 →
      follow R a w αs = some (w1, ds) →
      ds = [] ∧ (∀ α ∈ αs, ∀ env, α ≠ Action.start env) ∧ Inv w1 ∧
      ∃ e1 ∈ w1.serv.matches_.head, e1.addr = a ∧ e1.data.isRunning = false ∧
        e1.data.numRuns ≤ 0 := by
  induction αs with
  | nil =>
    intro w w1 ds e hi he hea hnr hz h
    simp only [follow, Option.some.injEq, Prod.mk.injEq] at h
    rw [← h.1, ← h.2]
    exact ⟨rfl, fun α hα => absurd hα (List.not_mem_nil _), hi, e, he, hea, hnr, hz⟩
  | cons α rest ih =>
    intro w w1 ds e hi he hea hnr hz h
    simp only [follow] at h
    cases hact : act R w α with
    | none => rw [hact] at h; simp at h
    | some p =>
      obtain ⟨w2, evs⟩ := p
      rw [hact] at h
      simp only at h
      cases hl : linked a w2 with
      | false => rw [hl] at h; simp at h
      | true =>
        rw [hl] at h
        simp only [if_true] at h
        cases hf : follow R a w2 rest with
        | none => rw [hf] at h; simp at h
        | some q =>
          obtain ⟨w3, ds2⟩ := q
          rw [hf] at h
          simp only [Option.some.injEq, Prod.mk.injEq] at h
          obtain ⟨hw3, hds⟩ := h
          have hi2 : Inv w2 := hi.act hact
          have hns : ∀ env, α ≠ Action.start env := by
            intro env hα
            subst hα
            have := (dead_start hi e he hnr hz hact).1
            rw [hea, hl] at this
            exact absurd this (by decide)
          rcases act_entry hi hact e he with ⟨env, hα, _⟩ | ⟨hd, hcases⟩
          · exact absurd hα (hns env)
          · rw [hea] at hd
            rw [if_neg hd] at hds
            have key : ∀ e2 : LLPoolEntry Match, e2 ∈ w2.serv.matches_.head → e2.addr = a →
                e2.data.isRunning = false → e2.data.numRuns ≤ 0 →
                ds = [] ∧ (∀ β ∈ α :: rest, ∀ env, β ≠ Action.start env) ∧ Inv w1 ∧
                ∃ e1 ∈ w1.serv.matches_.head, e1.addr = a ∧ e1.data.isRunning = false ∧
                  e1.data.numRuns ≤ 0 := by
              intro e2 he2 hea2 hnr2 hz2
              obtain ⟨h1, h2, h3, h4⟩ := ih w2 w3 ds2 e2 hi2 he2 hea2 hnr2 hz2 hf
              rw [← hds, ← hw3]
              refine ⟨h1, ?_, h3, h4⟩
              intro β hβ
              rcases List.mem_cons.1 hβ with rfl | hβ
              · exact hns
              · exact h2 β hβ
            rcases hcases with ⟨hmem, _⟩ | ⟨_, hmem⟩ | ⟨_, hmem⟩ | ⟨_, _, hnl⟩
            · exact key e hmem hea hnr hz
            · exact key _ hmem hea rfl hz
            · exact key _ hmem hea hnr (le_refl _)
            · rw [hea, hl] at hnl
              exact absurd hnl (by decide)



/-- A match submitted over a connection with bots on all its seats keeps its runs when
that connection is closed, and the next call of `startMatchJob` dispatches it. -/
theorem bot_match_survives_close :
    sampleBotsQueued.serv.matches_.head.map
        (fun e => (e.addr, e.data.numRuns, e.data.isRunning, e.data.players))
      = [(0, 2, false, [⟨false, some 0⟩, ⟨false, some 0⟩])] ∧
    sampleBotsClosed.serv = closeConnection sampleBotsQueued.conf sampleBotsQueued.serv 0 ∧
    (LLPoolGetItem sampleBotsClosed.serv.conns 0).status = STATUS_CLOSED ∧
    sampleBotsClosed.serv.matches_.head.map
        (fun e => (e.addr, e.data.numRuns, e.data.isRunning))
      = [(0, 2, false)] ∧
    dispatchedBy sampleRng sampleBotsClosed (Action.start (sampleSchedEnv 10)) = some 0 := by
  decide

/-- **C14** (amended): when a connection is closed in a reachable world, a match of the
match list that has no network seat bound to that connection is left as it is, and a
match that has one gets `numRuns = 0`. If such a match is not running, then whatever
the main loop does afterwards, as long as the match is in the list it is not
dispatched, it stays without runs and no call of `startMatchJob` has returned; and
the next call of `startMatchJob` that returns removes it from the list without
dispatching it. -/
theorem closed_connection_cancels_its_seats (R : Rng) (w : World) (ce : Nat)
    (e : LLPoolEntry Match) (hw : Reachable R w) (he : e ∈ w.serv.matches_.head) :
    (matchUsesConnection w.conf e.data ce = false →
      e ∈ (closeConnection w.conf w.serv ce).matches_.head) ∧
    (matchUsesConnection w.conf e.data ce = true →
      (⟨e.addr, { e.data with numRuns := 0 }⟩ : LLPoolEntry Match)
        ∈ (closeConnection w.conf w.serv ce).matches_.head ∧
      (e.data.isRunning = false →
        ∀ αs w1 ds,
          follow R e.addr ⟨w.conf, closeConnection w.conf w.serv ce⟩ αs = some (w1, ds) →
          ds = [] ∧ (∀ α ∈ αs, ∀ env, α ≠ Action.start env) ∧
          (∃ e1 ∈ w1.serv.matches_.head, e1.addr = e.addr ∧ e1.data.isRunning = false ∧
            e1.data.numRuns ≤ 0) ∧
          ∀ env w2 evs, act R w1 (Action.start env) = some (w2, evs) →
            linked e.addr w2 = false ∧
            dispatchedBy R w1 (Action.start env) ≠ some e.addr)) := by
  have hi : Inv ⟨w.conf, w.serv⟩ := Inv.reachable hw
  have hic : Inv ⟨w.conf, closeConnection w.conf w.serv ce⟩ := hi.closeConnection ce
  constructor
  · intro hu
    rcases closeConnection_entry w.conf w.serv ce e he with h | h
    · exact h.2
    · rw [hu] at h; exact absurd h.1 (by decide)
  · intro hu
    have hmem : (⟨e.addr, { e.data with numRuns := 0 }⟩ : LLPoolEntry Match)
        ∈ (closeConnection w.conf w.serv ce).matches_.head := by
      rcases closeConnection_entry w.conf w.serv ce e he with h | h
      · rw [hu] at h; exact absurd h.1 (by decide)
      · exact h.2
    refine ⟨hmem, ?_⟩
    intro hnr αs w1 ds hf
    obtain ⟨h1, h2, hi1, e1, he1, hea1, hnr1, hz1⟩ :=
      dead_follow R e.addr αs _ w1 ds _ hic hmem rfl hnr (le_refl _) hf
    refine ⟨h1, h2, ⟨e1, he1, hea1, hnr1, hz1⟩, ?_⟩
    intro env w2 evs hact
    have := dead_start hi1 e1 he1 hnr1 hz1 hact
    rw [hea1] at this
    exact this

theorem closed_connection_cancels_its_seats_witness :
    (act sampleRng ⟨sampleQueued.conf, closeConnection sampleQueued.conf sampleQueued.serv 0⟩
      (Action.start (sampleSchedEnv 10))).map (fun r => r.1.serv.matches_.head) = some [] ∧
    ((⟨(⟨0, LLPoolGetItem sampleQueued.serv.matches_ 0⟩ : LLPoolEntry Match).addr,
        { (⟨0, LLPoolGetItem sampleQueued.serv.matches_ 0⟩ : LLPoolEntry Match).data with
          numRuns := 0 }⟩ : LLPoolEntry Match)
        ∈ (closeConnection sampleQueued.conf sampleQueued.serv 0).matches_.head ∧
      ((⟨0, LLPoolGetItem sampleQueued.serv.matches_ 0⟩ : LLPoolEntry Match).data.isRunning
          = false →
        ∀ αs w1 ds,
          follow sampleRng (⟨0, LLPoolGetItem sampleQueued.serv.matches_ 0⟩ :
              LLPoolEntry Match).addr
            ⟨sampleQueued.conf, closeConnection sampleQueued.conf sampleQueued.serv 0⟩ αs
              = some (w1, ds) →
          ds = [] ∧ (∀ α ∈ αs, ∀ env, α ≠ Action.start env) ∧
          (∃ e1 ∈ w1.serv.matches_.head,
            e1.addr = (⟨0, LLPoolGetItem sampleQueued.serv.matches_ 0⟩ :
              LLPoolEntry Match).addr ∧
            e1.data.isRunning = false ∧ e1.data.numRuns ≤ 0) ∧
          ∀ env w2 evs, act sampleRng w1 (Action.start env) = some (w2, evs) →
            linked (⟨0, LLPoolGetItem sampleQueued.serv.matches_ 0⟩ :
              LLPoolEntry Match).addr w2 = false ∧
            dispatchedBy sampleRng w1 (Action.start env)
              ≠ some (⟨0, LLPoolGetItem sampleQueued.serv.matches_ 0⟩ :
                  LLPoolEntry Match).addr)) :=
  ⟨by decide,
    (closed_connection_cancels_its_seats sampleRng sampleQueued 0
      ⟨0, LLPoolGetItem sampleQueued.serv.matches_ 0⟩ sampleQueued_reachable
      (by decide)).2 (by decide)⟩

/-- **C15**: in every reachable world, a match of the match list with `numRuns > 0` has
each of its network seats bound to a connection that is in the connection list with
status `STATUS_OKAY` (so it is neither closed nor removed). Hence when `startMatchJob`
dispatches a match, all network seats of that match are bound to connections of the
list with status `STATUS_OKAY`, before and after the call. -/
theorem live_matches_use_open_connections (R : Rng) (w : World) (hw : Reachable R w) :
    (∀ e ∈ w.serv.matches_.head, 0 < e.data.numRuns →
      SeatsOkay w.conf w.serv.conns e.data ∧
      ∀ p, p < w.conf.numPlayers e.data → (e.data.player p).isNetworkPlayer = true →
        (LLPoolGetItemAt w.serv.conns (e.data.player p).entry).status = STATUS_OKAY ∧
        (LLPoolGetItemAt w.serv.conns (e.data.player p).entry).status ≠ STATUS_CLOSED) ∧
    (∀ env w1 evs, startMatchJob R env w = some (1, w1, evs) →
      ∃ best ∈ w.serv.matches_.head, lastDispatched w1 = some best.addr ∧
        SeatsOkay w.conf w.serv.conns best.data ∧ w1.serv.conns = w.serv.conns) := by
  have hi := Inv.reachable hw
  have hc := ConnInv.of_reachable hw
  constructor
  · intro e he hn
    refine ⟨hc.seats e he hn, ?_⟩
    intro p hp hnp
    obtain ⟨c, hcm, hce, hcs⟩ := hc.seats e he hn p hp hnp
    have hget : LLPoolGetItemAt w.serv.conns (e.data.player p).entry = c.data := by
      rw [hce]
      exact LLPoolGetItem_of_mem hc.connsWF hcm
    rw [hget, hcs]
    exact ⟨rfl, by decide⟩
  · intro env w1 evs hs
    rcases startMatchJob_effect R env w w1 1 evs hi.matchesWF hs with
      ⟨h0, _⟩ | ⟨_, best, hbest, hE, hld, _, _, hcn⟩
    · exact absurd h0 (by decide)
    · exact ⟨best, hbest, hld, hc.seats best hbest hE.2.1, hcn⟩

theorem live_matches_use_open_connections_witness :
    (SeatsOkay sampleQueued.conf sampleQueued.serv.conns
        (⟨0, LLPoolGetItem sampleQueued.serv.matches_ 0⟩ : LLPoolEntry Match).data ∧
      ∀ p, p < sampleQueued.conf.numPlayers
          (⟨0, LLPoolGetItem sampleQueued.serv.matches_ 0⟩ : LLPoolEntry Match).data →
        ((⟨0, LLPoolGetItem sampleQueued.serv.matches_ 0⟩ :
            LLPoolEntry Match).data.player p).isNetworkPlayer = true →
        (LLPoolGetItemAt sampleQueued.serv.conns
          ((⟨0, LLPoolGetItem sampleQueued.serv.matches_ 0⟩ :
            LLPoolEntry Match).data.player p).entry).status = STATUS_OKAY ∧
        (LLPoolGetItemAt sampleQueued.serv.conns
          ((⟨0, LLPoolGetItem sampleQueued.serv.matches_ 0⟩ :
            LLPoolEntry Match).data.player p).entry).status ≠ STATUS_CLOSED) ∧
    (∃ best ∈ sampleQueued.serv.matches_.head, lastDispatched sampleStarted = some best.addr ∧
      SeatsOkay sampleQueued.conf sampleQueued.serv.conns best.data ∧
      sampleStarted.serv.conns = sampleQueued.serv.conns) :=
  ⟨(live_matches_use_open_connections sampleRng sampleQueued sampleQueued_reachable).1
      ⟨0, LLPoolGetItem sampleQueued.serv.matches_ 0⟩ (by decide) (by decide),
    (live_matches_use_open_connections sampleRng sampleQueued sampleQueued_reachable).2
      (sampleSchedEnv 10) sampleStarted
      ((startMatchJob sampleRng (sampleSchedEnv 10) sampleQueued).getD
        (0, sampleQueued, [])).2.2 (by rfl)⟩

/-! ## Logging on -/

theorem splitOnP_takeWhile (cs : List Char) :
    ∃ tl, cs.splitOnP isspace = cs.takeWhile (fun x => !isspace x) :: tl ∧
      tl.filter (fun t => !t.isEmpty)
        = splitWords (cs.dropWhile (fun x => !isspace x)) := by
  induction cs with
  | nil => exact ⟨[], by simp [List.splitOnP_nil], by simp [splitWords, List.splitOnP_nil]⟩
  | cons d ds ih =>
    obtain ⟨tl, h1, h2⟩ := ih
    rw [List.splitOnP_cons]
    cases hd : isspace d with
    | true =>
      refine ⟨ds.splitOnP isspace, by simp [hd], ?_⟩
      simp [splitWords, List.splitOnP_cons, hd]
    | false =>
      refine ⟨tl, by simp [hd, h1], ?_⟩
      simp only [List.dropWhile, hd, Bool.not_false]
      exact h2

theorem splitWords_skipSpace (s : List Char) : splitWords (skipSpace s) = splitWords s := by
  unfold skipSpace
  induction s with
  | nil => rfl
  | cons c t ih =>
    cases hc : isspace c with
    | true =>
      simp only [List.dropWhile, hc]
      rw [ih]
      simp [splitWords, List.splitOnP_cons, hc]
    | false => simp only [List.dropWhile, hc]

/-- The directive ` %s` reads the first token. -/
theorem scanStr_splitWords (s : List Char) :
    (scanStr s = none → splitWords s = []) ∧
    (∀ w rest, scanStr s = some (w, rest) → splitWords s = w :: splitWords rest) := by
  unfold scanStr
  rw [← splitWords_skipSpace s]
  cases hs : skipSpace s with
  | nil => exact ⟨fun _ => by simp [splitWords, List.splitOnP_nil], fun w rest h => by simp at h⟩
  | cons c cs =>
    refine ⟨fun h => by simp at h, ?_⟩
    intro w rest h
    simp only [Option.some.injEq, Prod.mk.injEq] at h
    obtain ⟨tl, h1, h2⟩ := splitOnP_takeWhile (c :: cs)
    have hc : isspace c = false := by
      have := List.head_dropWhile_not isspace s (by unfold skipSpace at hs; rw [hs]; simp)
      unfold skipSpace at hs
      simp only [hs, List.head_cons] at this
      simpa using this
    rw [← h.1, ← h.2, ← h2]
    unfold splitWords
    rw [h1]
    simp [List.takeWhile, hc]

theorem Config.userAt_lt (conf : Config) (u : Nat) (hu : u < conf.users.length) :
    conf.userAt (some u) = conf.users[u] := by
  show conf.users.getD u default = _
  exact List.getD_eq_getElem _ _ hu

theorem findUser_some (conf : Config) (name : List Char) (u : Nat)
    (h : findUser conf name = some u) :
    u < conf.users.length ∧ (conf.userAt (some u)).name = name := by
  unfold findUser at h
  simp only at h
  split_ifs at h with h1
  simp only [Option.some.injEq] at h
  subst h
  refine ⟨h1, ?_⟩
  have := @List.findIdx_getElem _ _ _ h1
  simp only [streq, beq_iff_eq] at this
  rw [Config.userAt_lt _ _ h1]
  exact this

theorem findUser_of_name (conf : Config) (hnd : UsersDistinct conf) (u : Nat)
    (hu : u < conf.users.length) (name : List Char) (hn : conf.users[u].name = name) :
    findUser conf name = some u := by
  have hex : ∃ x ∈ conf.users, streq x.name name = true :=
    ⟨conf.users[u], List.getElem_mem _, by simp [streq, hn]⟩
  have hlt := List.findIdx_lt_length_of_exists hex
  have hname : streq (conf.users[List.findIdx (fun x => streq x.name name) conf.users]).name
      name = true :=
    @List.findIdx_getElem UserSpec (fun x => streq x.name name) _ hlt
  have hname2 : (conf.users[List.findIdx (fun x => streq x.name name) conf.users]).name
      = name := by
    unfold streq at hname
    exact beq_iff_eq.1 hname
  unfold findUser
  simp only [if_pos hlt, Option.some.injEq]
  unfold UsersDistinct at hnd
  have hl1 : List.findIdx (fun x => streq x.name name) conf.users
      < (conf.users.map (fun u => u.name)).length := by rw [List.length_map]; exact hlt
  have hl2 : u < (conf.users.map (fun u => u.name)).length := by
    rw [List.length_map]; exact hu
  have heq : (conf.users.map (fun u => u.name))[List.findIdx (fun x => streq x.name name)
      conf.users] = (conf.users.map (fun u => u.name))[u] := by
    rw [List.getElem_map, List.getElem_map, hname2, hn]
  exact (hnd.getElem_inj_iff).1 heq

theorem findUser_of_distinct (conf : Config) (hnd : UsersDistinct conf) (u : Nat)
    (hu : u < conf.users.length) :
    findUser conf (conf.userAt (some u)).name = some u :=
  findUser_of_name conf hnd u hu _ (by rw [Config.userAt_lt _ _ hu])

theorem addUser_distinct (conf conf1 : Config) (spec : List Char) (now : timeval)
    (hnd : UsersDistinct conf) (h : addUser conf spec now = some conf1) :
    UsersDistinct conf1 := by
  unfold addUser at h
  split at h
  · simp at h
  · split at h
    · simp at h
    · rename_i name rest _ passwd _ _
      split_ifs at h with hf
      simp only [Option.some.injEq] at h
      rw [← h]
      unfold UsersDistinct at hnd ⊢
      simp only [List.map_cons, List.nodup_cons]
      refine ⟨?_, hnd⟩
      intro hmem
      obtain ⟨x, hx, hxn⟩ := List.mem_map.1 hmem
      apply hf
      unfold findUser
      simp only
      rw [if_pos (List.findIdx_lt_length_of_exists ⟨x, hx, by simp [streq, hxn]⟩)]
      rfl



/-- `validateLogon` in the words of the protocol, for a configuration whose user names
are distinct: it returns the user `u` exactly when the first two tokens of the line are
the name of `u` and the password of `u`. -/
theorem validateLogon_iff (conf : Config) (hnd : UsersDistinct conf) (line : List Char)
    (u : Nat) :
    validateLogon conf line = some u ↔
      ∃ t1 t2 more, splitWords line = t1 :: t2 :: more ∧ u < conf.users.length ∧
        (conf.userAt (some u)).name = t1 ∧ (conf.userAt (some u)).passwd = t2 := by
  unfold validateLogon
  cases h1 : scanStr line with
  | none =>
    have := (scanStr_splitWords line).1 h1
    simp [this]
  | some p1 =>
    obtain ⟨name, rest⟩ := p1
    have hw1 := (scanStr_splitWords line).2 name rest h1
    cases h2 : scanStr rest with
    | none =>
      have := (scanStr_splitWords rest).1 h2
      simp [h2, hw1, this]
    | some p2 =>
      obtain ⟨passwd, r2⟩ := p2
      have hw2 := (scanStr_splitWords rest).2 passwd r2 h2
      simp only [h2]
      constructor
      · intro h
        cases hf : findUser conf name with
        | none => rw [hf] at h; simp at h
        | some u1 =>
          rw [hf] at h
          simp only at h
          split_ifs at h with hp
          simp only [Option.some.injEq] at h
          subst h
          obtain ⟨hlt, hn⟩ := findUser_some conf name u1 hf
          exact ⟨name, passwd, splitWords r2, by rw [hw1, hw2], hlt, hn,
            by simpa [streq] using hp⟩
      · rintro ⟨t1, t2, more, hsw, hlt, hn, hp⟩
        rw [hw1, hw2] at hsw
        simp only [List.cons.injEq] at hsw
        obtain ⟨rfl, rfl, _⟩ := hsw
        have hf := findUser_of_distinct conf hnd u hlt
        rw [hn] at hf
        rw [hf]
        simp [streq, hp]

theorem found_of_status (pool : LLPool Connection) (a : Nat)
    (h : (LLPoolGetItem pool a).status ≠ 0) :
    (pool.head ++ pool.free).find? (fun e => e.addr == a) ≠ none := by
  intro hn
  unfold LLPoolGetItem at h
  rw [hn] at h
  exact h rfl

/-- **C16**: for a configuration whose user names are distinct (what `addUser`
guarantees), a connection whose status is `STATUS_UNVALIDATED` and a line that
`getLine` delivers. If the first two white-space separated tokens of the line are the
name of a user `u` and the password of `u`, `handleConnection` writes
`LOGON OKAY - type help for commands`, the status of the connection becomes
`STATUS_OKAY` and its user becomes `u`. In every other case it writes `BAD LOGON` and
the connection is closed: its status becomes `STATUS_CLOSED`. In both cases it returns
without reading a further line. -/
theorem logon_reply (R : Rng) (env : ConnEnv) (conf : Config) (serv : ServerState)
    (ce : Nat) (g : GetLine) (rest : List GetLine) (hnd : UsersDistinct conf)
    (hreads : env.reads = g :: rest) (hr : 0 < g.r)
    (hst : (LLPoolGetItem serv.conns ce).status = STATUS_UNVALIDATED) :
    (∀ u t1 t2 more, splitWords g.line = t1 :: t2 :: more → u < conf.users.length →
      (conf.userAt (some u)).name = t1 → (conf.userAt (some u)).passwd = t2 →
      (handleConnection R env conf serv ce).2.1 =
        [Event.write (LLPoolGetItem serv.conns ce).connBuf
          "LOGON OKAY - type help for commands\n".toList] ∧
      (LLPoolGetItem (handleConnection R env conf serv ce).1.conns ce).status = STATUS_OKAY ∧
      (LLPoolGetItem (handleConnection R env conf serv ce).1.conns ce).user = some u ∧
      (handleConnection R env conf serv ce).1.matches_ = serv.matches_ ∧
      (handleConnection R env conf serv ce).2.2 = rest) ∧
    ((¬ ∃ u t1 t2 more, splitWords g.line = t1 :: t2 :: more ∧ u < conf.users.length ∧
        (conf.userAt (some u)).name = t1 ∧ (conf.userAt (some u)).passwd = t2) →
      (handleConnection R env conf serv ce).2.1 =
        [Event.write (LLPoolGetItem serv.conns ce).connBuf "BAD LOGON\n".toList] ∧
      (LLPoolGetItem (handleConnection R env conf serv ce).1.conns ce).status
        = STATUS_CLOSED ∧
      (handleConnection R env conf serv ce).1 = closeConnection conf serv ce ∧
      (handleConnection R env conf serv ce).2.2 = rest) := by
  have h1 : ¬ g.r < 0 := by omega
  have h2 : ¬ g.r = 0 := by omega
  have hfound := found_of_status serv.conns ce (by rw [hst]; decide)
  constructor
  · intro u t1 t2 more hsw hlt hn hp
    have hv : validateLogon conf g.line = some u :=
      (validateLogon_iff conf hnd g.line u).2 ⟨t1, t2, more, hsw, hlt, hn, hp⟩
    have heq : handleConnection R env conf serv ce =
        ({ serv with conns := LLPoolSetItem serv.conns ce
                      (fun c => { c with user := some u, status := STATUS_OKAY }) },
          [Event.write (LLPoolGetItem serv.conns ce).connBuf
            "LOGON OKAY - type help for commands\n".toList], rest) := by
      unfold handleConnection
      rw [hreads]
      simp only [handleLoop, h1, h2, hst, hv, if_true, if_false, List.nil_append]
    rw [heq]
    refine ⟨rfl, ?_, ?_, rfl, rfl⟩
    · show (LLPoolGetItem (LLPoolSetItem serv.conns ce _) ce).status = STATUS_OKAY
      rw [LLPoolGetItem_SetItem_self _ _ _ hfound]
    · show (LLPoolGetItem (LLPoolSetItem serv.conns ce _) ce).user = some u
      rw [LLPoolGetItem_SetItem_self _ _ _ hfound]
  · intro hno
    have hv : validateLogon conf g.line = none := by
      cases hvl : validateLogon conf g.line with
      | none => rfl
      | some u => exact absurd ⟨u, (validateLogon_iff conf hnd g.line u).1 hvl⟩ hno
    have heq : handleConnection R env conf serv ce =
        (closeConnection conf serv ce,
          [Event.write (LLPoolGetItem serv.conns ce).connBuf "BAD LOGON\n".toList],
          rest) := by
      unfold handleConnection
      rw [hreads]
      simp only [handleLoop, h1, h2, hst, hv, if_true, if_false, List.nil_append]
    rw [heq]
    refine ⟨rfl, ?_, rfl, rfl⟩
    show (LLPoolGetItem (LLPoolSetItem serv.conns ce _) ce).status = STATUS_CLOSED
    rw [LLPoolGetItem_SetItem_self _ _ _ hfound]

theorem logon_reply_witness :
    ((handleConnection sampleRng (sampleConnEnv "  alice\tsecret extra\n" 2) sampleConf
        sampleAccepted.serv 0).2.1 =
        [Event.write (LLPoolGetItem sampleAccepted.serv.conns 0).connBuf
          "LOGON OKAY - type help for commands\n".toList] ∧
      (LLPoolGetItem (handleConnection sampleRng (sampleConnEnv "  alice\tsecret extra\n" 2)
        sampleConf sampleAccepted.serv 0).1.conns 0).status = STATUS_OKAY ∧
      (LLPoolGetItem (handleConnection sampleRng (sampleConnEnv "  alice\tsecret extra\n" 2)
        sampleConf sampleAccepted.serv 0).1.conns 0).user = some 0 ∧
      (handleConnection sampleRng (sampleConnEnv "  alice\tsecret extra\n" 2) sampleConf
        sampleAccepted.serv 0).1.matches_ = sampleAccepted.serv.matches_ ∧
      (handleConnection sampleRng (sampleConnEnv "  alice\tsecret extra\n" 2) sampleConf
        sampleAccepted.serv 0).2.2 = []) ∧
    ((handleConnection sampleRng (sampleConnEnv "alice Secret\n" 2) sampleConf
        sampleAccepted.serv 0).2.1 =
        [Event.write (LLPoolGetItem sampleAccepted.serv.conns 0).connBuf
          "BAD LOGON\n".toList] ∧
      (LLPoolGetItem (handleConnection sampleRng (sampleConnEnv "alice Secret\n" 2)
        sampleConf sampleAccepted.serv 0).1.conns 0).status = STATUS_CLOSED ∧
      (handleConnection sampleRng (sampleConnEnv "alice Secret\n" 2) sampleConf
        sampleAccepted.serv 0).1 = closeConnection sampleConf sampleAccepted.serv 0 ∧
      (handleConnection sampleRng (sampleConnEnv "alice Secret\n" 2) sampleConf
        sampleAccepted.serv 0).2.2 = []) :=
  ⟨(logon_reply sampleRng (sampleConnEnv "  alice\tsecret extra\n" 2) sampleConf
      sampleAccepted.serv 0 ⟨21, "  alice\tsecret extra\n".toList⟩ [] (by decide) (by decide)
      (by decide) (by decide)).1 0 "alice".toList "secret".toList ["extra".toList]
      (by decide) (by decide) (by decide) (by decide),
   (logon_reply sampleRng (sampleConnEnv "alice Secret\n" 2) sampleConf
      sampleAccepted.serv 0 ⟨13, "alice Secret\n".toList⟩ [] (by decide) (by decide)
      (by decide) (by decide)).2 (by
        rintro ⟨u, t1, t2, more, hsw, hlt, hn, hp⟩
        have h : splitWords "alice Secret\n".toList
            = ["alice".toList, "Secret".toList] := by decide
        rw [h] at hsw
        simp only [List.cons.injEq] at hsw
        obtain ⟨rfl, rfl, _⟩ := hsw
        have hu : u = 0 ∨ u = 1 := by
          have : sampleConf.users.length = 2 := rfl
          omega
        rcases hu with rfl | rfl
        · exact absurd hp (by decide)
        · exact absurd hn (by decide))⟩

/-! ## Lines handled by one call of `handleConnection` -/

/-- One call of `handleConnection` with the lines `HELP` and `QSTAT` in the buffer of a
logged-on connection handles both: no read is left and the reply to `QSTAT` follows the
six writes of the help text. -/
theorem help_then_qstat_in_one_call :
    (handleConnection sampleRng (sampleTwoLines "HELP\n" "QSTAT\n") sampleLoggedOn.conf
      sampleLoggedOn.serv 0).2.2 = [] ∧
    (handleConnection sampleRng (sampleTwoLines "HELP\n" "QSTAT\n") sampleLoggedOn.conf
      sampleLoggedOn.serv 0).2.1
      = writeHelpMessage 5 'x' ++ [Event.write 5 "Queue empty\n".toList] ∧
    (handleConnection sampleRng (sampleTwoLines "HELP\n" "QSTAT\n") sampleLoggedOn.conf
      sampleLoggedOn.serv 0).2.2 ≠ [⟨6, "QSTAT\n".toList⟩] := by
  decide

theorem handleLoop_query (R : Rng) (env : ConnEnv) (conf : Config) (ce : Nat)
    (g : GetLine) (rest : List GetLine) (serv : ServerState) (out : List Event)
    (hr : 0 < g.r) (hst : (LLPoolGetItem serv.conns ce).status ≠ STATUS_UNVALIDATED)
    (hq : isQuery g.line = true) :
    handleLoop R env conf ce (g :: rest) serv out =
      handleLoop R env conf ce rest serv
        (out ++ queryReply env conf serv (LLPoolGetItem serv.conns ce).connBuf g.line) := by
  have h1 : ¬ g.r < 0 := by omega
  have h2 : ¬ g.r = 0 := by omega
  unfold isQuery at hq
  unfold queryReply
  simp only [handleLoop, h1, h2, hst, if_false]
  by_cases h4 : strncaseeq g.line "HELP".toList = true
  · simp only [h4, if_true]
  · by_cases h5 : strncaseeq g.line "GAMES".toList = true
    · simp only [h4, h5, if_true, if_false, Bool.false_eq_true]
    · have h6 : strncaseeq g.line "QSTAT".toList = true := by
        simp only [Bool.or_eq_true] at hq
        rcases hq with (hq | hq) | hq
        · exact absurd hq h4
        · exact absurd hq h5
        · exact hq
      simp only [h4, h5, h6, if_true, if_false, Bool.false_eq_true]

theorem handleLoop_other (R : Rng) (env : ConnEnv) (conf : Config) (ce : Nat)
    (g : GetLine) (rest : List GetLine) (serv : ServerState) (out : List Event)
    (hq : (LLPoolGetItem serv.conns ce).status = STATUS_UNVALIDATED ∨
      isQuery g.line = false ∨ g.r ≤ 0) :
    (handleLoop R env conf ce (g :: rest) serv out).2.2 = rest := by
  simp only [handleLoop]
  by_cases h1 : g.r < 0
  · simp only [h1, if_true]
  · by_cases h2 : g.r = 0
    · simp [h2]
    · by_cases h3 : (LLPoolGetItem serv.conns ce).status = STATUS_UNVALIDATED
      · simp only [h1, h2, h3, if_true, if_false]
        split <;> rfl
      · have hnq : isQuery g.line = false := by
          rcases hq with hq | hq | hq
          · exact absurd hq h3
          · exact hq
          · omega
        unfold isQuery at hnq
        simp only [Bool.or_eq_false_iff] at hnq
        obtain ⟨⟨h4, h5⟩, h6⟩ := hnq
        simp only [h1, h2, h3, h4, h5, h6, if_false, Bool.false_eq_true]
        split_ifs
        · rfl
        · rfl
        · rfl

/-- A call that finds only `HELP`, `GAMES` and `QSTAT` lines handles them all. -/
theorem handleLoop_queries (R : Rng) (env : ConnEnv) (conf : Config) (ce : Nat)
    (reads : List GetLine) (serv : ServerState) (out : List Event)
    (hst : (LLPoolGetItem serv.conns ce).status ≠ STATUS_UNVALIDATED)
    (hall : ∀ g ∈ reads, 0 < g.r ∧ isQuery g.line = true) :
    (handleLoop R env conf ce reads serv out).2.2 = [] ∧
    (handleLoop R env conf ce reads serv out).1 = serv := by
  induction reads generalizing out with
  | nil => exact ⟨rfl, rfl⟩
  | cons g rest ih =>
    obtain ⟨hr, hq⟩ := hall g (List.mem_cons_self _ _)
    rw [handleLoop_query R env conf ce g rest serv out hr hst hq]
    exact ih _ (fun x hx => hall x (List.mem_cons_of_mem _ hx))



/-- **C17** (amended): a call of `handleConnection` whose first read is `g`. It
returns after that one read, leaving the further lines unread, when the connection is
not yet validated (the line is a logon), when the line does not start with `HELP`,
`GAMES` or `QSTAT` (a `RUNMATCHES` line or an unknown command), or when `getLine`
returned 0 or less. After a line that starts with `HELP`, `GAMES` or `QSTAT` on a
validated connection it writes the reply and goes on with the next read in the same
call; a call that finds only such lines handles all of them and leaves the server
state as it was. -/
theorem handleConnection_returns_unless_query (R : Rng) (env : ConnEnv) (conf : Config)
    (serv : ServerState) (ce : Nat) (g : GetLine) (rest : List GetLine)
    (hreads : env.reads = g :: rest) :
    ((LLPoolGetItem serv.conns ce).status = STATUS_UNVALIDATED ∨
        isQuery g.line = false ∨ g.r ≤ 0 →
      (handleConnection R env conf serv ce).2.2 = rest) ∧
    (0 < g.r → (LLPoolGetItem serv.conns ce).status ≠ STATUS_UNVALIDATED →
      isQuery g.line = true →
      handleConnection R env conf serv ce =
        handleLoop R env conf ce rest serv
          (queryReply env conf serv (LLPoolGetItem serv.conns ce).connBuf g.line)) ∧
    ((LLPoolGetItem serv.conns ce).status ≠ STATUS_UNVALIDATED →
      (∀ x ∈ env.reads, 0 < x.r ∧ isQuery x.line = true) →
      (handleConnection R env conf serv ce).2.2 = [] ∧
      (handleConnection R env conf serv ce).1 = serv) := by
  unfold handleConnection
  refine ⟨?_, ?_, ?_⟩
  · intro h
    rw [hreads]
    exact handleLoop_other R env conf ce g rest serv [] h
  · intro hr hst hq
    rw [hreads, handleLoop_query R env conf ce g rest serv [] hr hst hq, List.nil_append]
  · intro hst hall
    exact handleLoop_queries R env conf ce env.reads serv [] hst hall

theorem handleConnection_returns_unless_query_witness :
    (handleConnection sampleRng
      (sampleTwoLines "RUNMATCHES holdem 1 t0 42 LOCAL example\n" "QSTAT\n")
      sampleLoggedOn.conf sampleLoggedOn.serv 0).2.2 = [⟨6, "QSTAT\n".toList⟩] ∧
    handleConnection sampleRng (sampleTwoLines "games\n" "QSTAT\n") sampleLoggedOn.conf
        sampleLoggedOn.serv 0 =
      handleLoop sampleRng (sampleTwoLines "games\n" "QSTAT\n") sampleLoggedOn.conf 0
        [⟨6, "QSTAT\n".toList⟩] sampleLoggedOn.serv
        (queryReply (sampleTwoLines "games\n" "QSTAT\n") sampleLoggedOn.conf
          sampleLoggedOn.serv (LLPoolGetItem sampleLoggedOn.serv.conns 0).connBuf
          (⟨6, "games\n".toList⟩ : GetLine).line) ∧
    ((handleConnection sampleRng (sampleTwoLines "HELP\n" "QSTAT\n") sampleLoggedOn.conf
        sampleLoggedOn.serv 0).2.2 = [] ∧
      (handleConnection sampleRng (sampleTwoLines "HELP\n" "QSTAT\n") sampleLoggedOn.conf
        sampleLoggedOn.serv 0).1 = sampleLoggedOn.serv) :=
  ⟨(handleConnection_returns_unless_query sampleRng
      (sampleTwoLines "RUNMATCHES holdem 1 t0 42 LOCAL example\n" "QSTAT\n")
      sampleLoggedOn.conf sampleLoggedOn.serv 0
      ⟨40, "RUNMATCHES holdem 1 t0 42 LOCAL example\n".toList⟩ [⟨6, "QSTAT\n".toList⟩]
      (by decide)).1 (Or.inr (Or.inl (by decide))),
   (handleConnection_returns_unless_query sampleRng (sampleTwoLines "games\n" "QSTAT\n")
      sampleLoggedOn.conf sampleLoggedOn.serv 0 ⟨6, "games\n".toList⟩
      [⟨6, "QSTAT\n".toList⟩] (by decide)).2.1 (by decide) (by decide) (by decide),
   (handleConnection_returns_unless_query sampleRng (sampleTwoLines "HELP\n" "QSTAT\n")
      sampleLoggedOn.conf sampleLoggedOn.serv 0 ⟨5, "HELP\n".toList⟩
      [⟨6, "QSTAT\n".toList⟩] (by decide)).2.2 (by decide) (by decide)⟩

/-! ## The runs of a match -/

theorem seatsOpen_closed (w : World) (m : Match) (ce : Nat)
    (hu : matchUsesConnection w.conf m ce = true)
    (hc : (LLPoolGetItem w.serv.conns ce).status = STATUS_CLOSED) :
    seatsOpen w m = false := by
  unfold matchUsesConnection at hu
  rw [List.any_eq_true] at hu
  obtain ⟨p, hp, hpp⟩ := hu
  simp only [Bool.and_eq_true, beq_iff_eq] at hpp
  cases hs : seatsOpen w m with
  | false => rfl
  | true =>
    unfold seatsOpen at hs
    rw [List.all_eq_true] at hs
    have := hs p hp
    rw [hpp.1, hpp.2] at this
    simp only [Bool.not_true, Bool.false_or, bne_iff_ne, ne_eq, LLPoolGetItemAt] at this
    exact absurd hc this

/-- The runs of an entry along its life: `numRuns` never goes below 0, each dispatch
takes one run away, nothing adds one, and only the closing of a connection of the
match takes runs away otherwise. -/
theorem follow_runs (R : Rng) (a : Nat) (αs : List Action) :
    ∀ (w w1 : World) (ds : List (List Event)) (e : LLPoolEntry Match),
      Inv w → e ∈ w.serv.matches_.head → e.addr = a → 0 ≤ e.data.numRuns →
      follow R a w αs = some (w1, ds) →
      Inv w1 ∧ ∃ e1 ∈ w1.serv.matches_.head, e1.addr = a ∧ 0 ≤ e1.data.numRuns ∧
        e1.data.numRuns + ds.length ≤ e.data.numRuns ∧
        (openAlong R a w αs = true → e1.data.numRuns + ds.length = e.data.numRuns) := by
  induction αs with
  | nil =>
    intro w w1 ds e hi he hea h0 h
    simp only [follow, Option.some.injEq, Prod.mk.injEq] at h
    rw [← h.1, ← h.2]
    exact ⟨hi, e, he, hea, h0, by simp, fun _ => by simp⟩
  | cons α rest ih =>
    intro w w1 ds e hi he hea h0 h
    simp only [follow] at h
    cases hact : act R w α with
    | none => rw [hact] at h; simp at h
    | some p =>
      obtain ⟨w2, evs⟩ := p
      rw [hact] at h
      simp only at h
      cases hl : linked a w2 with
      | false => rw [hl] at h; simp at h
      | true =>
        rw [hl] at h
        simp only [if_true] at h
        cases hf : follow R a w2 rest with
        | none => rw [hf] at h; simp at h
        | some q =>
          obtain ⟨w3, ds2⟩ := q
          rw [hf] at h
          simp only [Option.some.injEq, Prod.mk.injEq] at h
          obtain ⟨hw3, hds⟩ := h
          have hi2 : Inv w2 := hi.act hact
          have hopen : openAlong R a w (α :: rest) = true →
              (∀ x ∈ w2.serv.matches_.head, x.addr = a → seatsOpen w2 x.data = true) ∧
              openAlong R a w2 rest = true := by
            intro ho
            simp only [openAlong, hact, Bool.and_eq_true, List.all_eq_true,
              Bool.or_eq_true, bne_iff_ne, ne_eq] at ho
            refine ⟨fun x hx hxa => ?_, ho.2⟩
            rcases ho.1 x hx with hne | hso
            · exact absurd hxa hne
            · exact hso
          rw [← hw3]
          rcases act_entry hi hact e he with ⟨env, _, hd, hE, hmem, _⟩ | ⟨hd, hcases⟩
          · rw [hea] at hd
            rw [if_pos hd] at hds
            obtain ⟨hi3, e1, he1, hea1, h01, hle, heq⟩ :=
              ih w2 w3 ds2 ⟨e.addr, startedMatch R env e.data⟩ hi2 hmem hea
                (by simp only [startedMatch]; have := hE.2.1; omega) hf
            refine ⟨hi3, e1, he1, hea1, h01, ?_, ?_⟩
            · rw [← hds]
              simp only [startedMatch, List.length_cons] at hle ⊢
              push_cast
              omega
            · intro ho
              have := heq (hopen ho).2
              rw [← hds]
              simp only [startedMatch, List.length_cons] at this ⊢
              push_cast
              omega
          · rw [hea] at hd
            rw [if_neg hd] at hds
            rw [← hds]
            rcases hcases with ⟨hmem, _⟩ | ⟨_, hmem⟩ | ⟨⟨_, ce, _, hu, hconf, hcl⟩, hmem⟩ |
              ⟨_, _, hnl⟩
            · obtain ⟨hi3, e1, he1, hea1, h01, hle, heq⟩ := ih w2 w3 ds2 e hi2 hmem hea h0 hf
              exact ⟨hi3, e1, he1, hea1, h01, hle, fun ho => heq (hopen ho).2⟩
            · obtain ⟨hi3, e1, he1, hea1, h01, hle, heq⟩ :=
                ih w2 w3 ds2 ⟨e.addr, { e.data with isRunning := false }⟩ hi2 hmem hea h0 hf
              exact ⟨hi3, e1, he1, hea1, h01, hle, fun ho => heq (hopen ho).2⟩
            · obtain ⟨hi3, e1, he1, hea1, h01, hle, _⟩ :=
                ih w2 w3 ds2 ⟨e.addr, { e.data with numRuns := 0 }⟩ hi2 hmem hea
                  (le_refl _) hf
              refine ⟨hi3, e1, he1, hea1, h01, ?_, ?_⟩
              · simp only at hle
                omega
              · intro ho
                have hso := (hopen ho).1 _ hmem hea
                have hu2 : matchUsesConnection w2.conf
                    ({ e.data with numRuns := 0 } : Match) ce = true := by
                  rw [hconf]; exact hu
                rw [seatsOpen_closed w2 _ ce hu2 hcl] at hso
                exact absurd hso (by decide)
            · rw [hea, hl] at hnl
              exact absurd hnl (by decide)



/-- **C18**: a match of a reachable world with `numRuns = N ≥ 0` (as a match is when it
has been accepted with `N` runs), followed along any sequence of actions of the main
loop during which it stays in the match list, `k` of which dispatched it. Then
`k ≤ N`; if the connections of its network seats stay open, its `numRuns` is `N - k`
at the end; and if `k = N` and the match is not running at the end (its last job has
finished), the next call of `startMatchJob` that returns removes it from the match
list without dispatching it, and no job of the jobs list refers to it then. -/
theorem match_runs_countdown (R : Rng) (w : World) (e : LLPoolEntry Match) (N : Int)
    (αs : List Action) (w1 : World) (ds : List (List Event))
    (hw : Reachable R w) (he : e ∈ w.serv.matches_.head)
    (hN : e.data.numRuns = N) (hN0 : 0 ≤ N)
    (hf : follow R e.addr w αs = some (w1, ds)) :
    (ds.length : Int) ≤ N ∧
    ∃ e1 ∈ w1.serv.matches_.head, e1.addr = e.addr ∧
      (openAlong R e.addr w αs = true → e1.data.numRuns = N - ds.length) ∧
      ((ds.length : Int) = N → e1.data.isRunning = false →
        ∀ env w2 evs, act R w1 (Action.start env) = some (w2, evs) →
          linked e.addr w2 = false ∧
          (∀ j ∈ w2.serv.jobs.head, j.data.matchEntry ≠ e.addr) ∧
          dispatchedBy R w1 (Action.start env) ≠ some e.addr) := by
  have hi := Inv.reachable hw
  obtain ⟨hi1, e1, he1, hea1, h01, hle, heq⟩ :=
    follow_runs R e.addr αs w w1 ds e hi he rfl (by rw [hN]; exact hN0) hf
  rw [hN] at hle heq
  refine ⟨by omega, e1, he1, hea1, fun ho => by have := heq ho; omega, ?_⟩
  intro hk hnr env w2 evs hact
  have hdead := dead_start hi1 e1 he1 hnr (by omega) hact
  rw [hea1] at hdead
  refine ⟨hdead.1, ?_, hdead.2⟩
  intro j hj hje
  obtain ⟨x, hx, hxa, _⟩ := (hi1.act hact).jobMatch j hj
  have : linked e.addr w2 = true := (linked_iff _ _).2 ⟨x, hx, by rw [hxa, hje]⟩
  rw [hdead.1] at this
  exact absurd this (by decide)

theorem match_runs_countdown_witness :
    (sampleQueued.serv.matches_.head.map (fun x => (x.addr, x.data.numRuns)) = [(0, 2)] ∧
      openAlong sampleRng 0 sampleQueued sampleTwoRuns = true ∧
      ((follow sampleRng 0 sampleQueued sampleTwoRuns).getD (sampleQueued, [])).2.length = 2) ∧
    (((follow sampleRng 0 sampleQueued sampleTwoRuns).getD (sampleQueued, [])).2.length : Int)
      ≤ 2 ∧
    ∃ e1 ∈ ((follow sampleRng 0 sampleQueued sampleTwoRuns).getD
        (sampleQueued, [])).1.serv.matches_.head,
      e1.addr = (⟨0, LLPoolGetItem sampleQueued.serv.matches_ 0⟩ : LLPoolEntry Match).addr ∧
      (openAlong sampleRng
          (⟨0, LLPoolGetItem sampleQueued.serv.matches_ 0⟩ : LLPoolEntry Match).addr
          sampleQueued sampleTwoRuns = true →
        e1.data.numRuns = 2 - ((follow sampleRng 0 sampleQueued sampleTwoRuns).getD
          (sampleQueued, [])).2.length) ∧
      ((((follow sampleRng 0 sampleQueued sampleTwoRuns).getD
          (sampleQueued, [])).2.length : Int) = 2 →
        e1.data.isRunning = false →
        ∀ env w2 evs,
          act sampleRng ((follow sampleRng 0 sampleQueued sampleTwoRuns).getD
            (sampleQueued, [])).1 (Action.start env) = some (w2, evs) →
          linked (⟨0, LLPoolGetItem sampleQueued.serv.matches_ 0⟩ :
            LLPoolEntry Match).addr w2 = false ∧
          (∀ j ∈ w2.serv.jobs.head, j.data.matchEntry
            ≠ (⟨0, LLPoolGetItem sampleQueued.serv.matches_ 0⟩ : LLPoolEntry Match).addr) ∧
          dispatchedBy sampleRng ((follow sampleRng 0 sampleQueued sampleTwoRuns).getD
            (sampleQueued, [])).1 (Action.start env)
            ≠ some (⟨0, LLPoolGetItem sampleQueued.serv.matches_ 0⟩ :
                LLPoolEntry Match).addr) :=
  ⟨⟨by decide, by decide, by decide⟩,
    match_runs_countdown sampleRng sampleQueued
      ⟨0, LLPoolGetItem sampleQueued.serv.matches_ 0⟩ 2 sampleTwoRuns
      ((follow sampleRng 0 sampleQueued sampleTwoRuns).getD (sampleQueued, [])).1
      ((follow sampleRng 0 sampleQueued sampleTwoRuns).getD (sampleQueued, [])).2
      sampleQueued_reachable (by decide) (by decide) (by decide) (by rfl)⟩

/-! ## The garbage-collecting walk -/

/-- **C19**: a call of `startMatchJob` that returns, on a well-formed match list (empty
or not). After the call every entry of the list that is not running has
`numRuns > 0`; every entry that was not running and had `numRuns ≤ 0` has left the
list; every entry that was running is in the list as it was; and the call has not
dispatched an entry that had `numRuns ≤ 0`. -/
theorem startMatchJob_collects_finished (R : Rng) (env : SchedEnv) (w w1 : World) (r : Int)
    (evs : List Event) (hwf : PoolWF w.serv.matches_)
    (h : startMatchJob R env w = some (r, w1, evs)) :
    (∀ e1 ∈ w1.serv.matches_.head, e1.data.isRunning = false → 0 < e1.data.numRuns) ∧
    (∀ e ∈ w.serv.matches_.head, e.data.isRunning = false → e.data.numRuns ≤ 0 →
      linked e.addr w1 = false) ∧
    (∀ e ∈ w.serv.matches_.head, e.data.isRunning = true → e ∈ w1.serv.matches_.head) ∧
    (∀ e ∈ w.serv.matches_.head, e.data.numRuns ≤ 0 → r = 1 →
      lastDispatched w1 ≠ some e.addr) := by
  have hkept : ∀ e : LLPoolEntry Match, keptByGc e = true →
      e.data.isRunning = false → 0 < e.data.numRuns := by
    intro e hk hnr
    simpa [keptByGc, hnr] using hk
  have hgone : ∀ (f : LLPoolEntry Match → LLPoolEntry Match), (∀ x, (f x).addr = x.addr) →
      w1.serv.matches_.head = (w.serv.matches_.head.filter keptByGc).map f →
      ∀ e ∈ w.serv.matches_.head, e.data.isRunning = false → e.data.numRuns ≤ 0 →
      linked e.addr w1 = false := by
    intro f hf hh e he hnr hz
    cases hl : linked e.addr w1 with
    | false => rfl
    | true =>
      obtain ⟨x, hx, hxa⟩ := (linked_iff _ _).1 hl
      rw [hh, List.mem_map] at hx
      obtain ⟨y, hy, rfl⟩ := hx
      rw [hf] at hxa
      have hye := hwf.eq_of_addr (List.mem_of_mem_filter hy) he hxa
      rw [hye] at hy
      have := hkept e (List.mem_filter.1 hy).2 hnr
      omega
  rcases startMatchJob_effect R env w w1 r evs hwf h with
    ⟨hr, _, _, _, _, hh⟩ | ⟨hr, best, hbest, hE, hld, hh, _, _⟩
  · refine ⟨?_, ?_, ?_, fun _ _ _ h1 => by rw [hr] at h1; exact absurd h1 (by decide)⟩
    · intro e1 he1 hnr
      rw [hh] at he1
      exact hkept e1 (List.mem_filter.1 he1).2 hnr
    · exact hgone id (fun _ => rfl) (by rw [hh, List.map_id])
    · intro e he hrun
      rw [hh, List.mem_filter]
      exact ⟨he, by simp [keptByGc, hrun]⟩
  · have hsa : ∀ x, (startEntry R env best.addr x).addr = x.addr := by
      intro x; unfold startEntry; split_ifs <;> rfl
    refine ⟨?_, hgone _ hsa hh, ?_, ?_⟩
    · intro e1 he1 hnr
      rw [hh, List.mem_map] at he1
      obtain ⟨y, hy, rfl⟩ := he1
      unfold startEntry at hnr ⊢
      split_ifs at hnr ⊢ with hya
      · simp [startedMatch] at hnr
      · exact hkept y (List.mem_filter.1 hy).2 hnr
    · intro e he hrun
      rw [hh, List.mem_map]
      refine ⟨e, List.mem_filter.2 ⟨he, by simp [keptByGc, hrun]⟩, ?_⟩
      apply startEntry_ne
      intro hea
      have := hwf.eq_of_addr he hbest hea
      rw [this, hE.1] at hrun
      exact absurd hrun (by decide)
    · intro e he hz _
      rw [hld]
      intro hc
      have := hwf.eq_of_addr hbest he (Option.some.inj hc)
      rw [this] at hE
      have := hE.2.1
      omega

theorem startMatchJob_collects_finished_witness :
    (sampleZeroRuns.serv.matches_.head.map
        (fun e => (e.addr, e.data.numRuns, e.data.isRunning)) = [(0, 0, false)] ∧
      sampleNext 10 sampleZeroRuns
        = { sampleZeroRuns with serv := { sampleZeroRuns.serv with
              matches_ := { head := [], free := sampleZeroRuns.serv.matches_.head,
                            numEntries := 0, brk := 1 } } }) ∧
    (∀ e1 ∈ (sampleNext 10 sampleZeroRuns).serv.matches_.head,
      e1.data.isRunning = false → 0 < e1.data.numRuns) ∧
    (∀ e ∈ sampleZeroRuns.serv.matches_.head, e.data.isRunning = false →
      e.data.numRuns ≤ 0 → linked e.addr (sampleNext 10 sampleZeroRuns) = false) ∧
    (∀ e ∈ sampleZeroRuns.serv.matches_.head, e.data.isRunning = true →
      e ∈ (sampleNext 10 sampleZeroRuns).serv.matches_.head) ∧
    (∀ e ∈ sampleZeroRuns.serv.matches_.head, e.data.numRuns ≤ 0 → (0 : Int) = 1 →
      lastDispatched (sampleNext 10 sampleZeroRuns) ≠ some e.addr) :=
  ⟨⟨by decide, by decide⟩,
    startMatchJob_collects_finished sampleRng (sampleSchedEnv 10) sampleZeroRuns
      (sampleNext 10 sampleZeroRuns) 0 [] (by unfold PoolWF; decide) (by rfl)⟩

/-! ## The reply to `QSTAT` -/

theorem strncaseeq_excl (line w1 w2 : List Char) (h : strncaseeq line w1 = true)
    (hw : w2.length ≤ w1.length)
    (hne : (w1.take w2.length).map Char.toLower ≠ w2.map Char.toLower) :
    strncaseeq line w2 = false := by
  unfold strncaseeq at h ⊢
  have h10 : (line.take w1.length).map Char.toLower = w1.map Char.toLower := by
    simpa using h
  have hk : (line.take w2.length).map Char.toLower
      = (w1.map Char.toLower).take w2.length := by
    rw [← h10, ← List.map_take, List.take_take, Nat.min_eq_left hw]
  rw [hk, ← List.map_take]
  simpa using hne

theorem writeQueueStatus_line (conf : Config) (m : Match) :
    (conf.userAt m.user).name ++ " ".toList ++ m.tag ++ " ".toList
      ++ (conf.gameAt m.gameConf).gameFile ++ " * ".toList
      ++ decimalInt m.numRuns ++ " ".toList
      ++ (if m.isRunning then "R".toList else "Q".toList) ++ "\n".toList
    = specQstatLine conf m := by
  unfold specQstatLine
  cases m.isRunning <;> simp

/-- `writeQueueStatus` on a well-formed match list writes the reply of the protocol. -/
theorem writeQueueStatus_spec (conf : Config) (serv : ServerState) (fd : Nat)
    (hwf : PoolWF serv.matches_) :
    writeQueueStatus conf serv fd = (specQueueReply conf serv).map (Event.write fd) := by
  unfold writeQueueStatus specQueueReply
  have hmap : serv.matches_.head.map (fun e =>
      Event.write fd
        ((conf.userAt e.data.user).name ++ " ".toList ++ e.data.tag ++ " ".toList
          ++ (conf.gameAt e.data.gameConf).gameFile ++ " * ".toList
          ++ decimalInt e.data.numRuns ++ " ".toList
          ++ (if e.data.isRunning then "R".toList else "Q".toList) ++ "\n".toList))
      = serv.matches_.head.map (fun e => Event.write fd (specQstatLine conf e.data)) := by
    apply List.map_congr_left
    intro e _
    rw [writeQueueStatus_line]
  rw [hmap, hwf.2.2]
  cases hh : serv.matches_.head with
  | nil => simp
  | cons a t =>
    have : ¬ ((t.length : Int) + 1 = 0) := by
      have := Int.natCast_nonneg t.length
      omega
    simp [this, Function.comp_def]



/-- **C20**: in a reachable world, what `writeQueueStatus` writes is the reply of the
protocol, one `write` per line: the single line `Queue empty` when the match list has
no entries, otherwise, for each match of the list in iteration order, the line
`<user name> <tag> <gameFile> * <numRuns> <R|Q>` with `R` exactly when `isRunning` is
set, and nothing else. It is what a call of `handleConnection` writes when its only
line starts with `QSTAT` (in any letter case) on a logged-on connection, and that call
leaves the server state as it was. -/
theorem qstat_reply (R : Rng) (w : World) (env : ConnEnv) (c : LLPoolEntry Connection)
    (g : GetLine) (hw : Reachable R w) (hcm : c ∈ w.serv.conns.head)
    (hst : c.data.status = STATUS_OKAY) (hreads : env.reads = [g]) (hr : 0 < g.r)
    (hq : strncaseeq g.line "QSTAT".toList = true) :
    writeQueueStatus w.conf w.serv c.data.connBuf
      = (specQueueReply w.conf w.serv).map (Event.write c.data.connBuf) ∧
    (handleConnection R env w.conf w.serv c.addr).2.1
      = (specQueueReply w.conf w.serv).map (Event.write c.data.connBuf) ∧
    (handleConnection R env w.conf w.serv c.addr).1 = w.serv := by
  have hi := Inv.reachable hw
  have hc := ConnInv.of_reachable hw
  have hspec := writeQueueStatus_spec w.conf w.serv c.data.connBuf hi.matchesWF
  have hget : LLPoolGetItem w.serv.conns c.addr = c.data := LLPoolGetItem_of_mem hc.connsWF hcm
  have hnu : (LLPoolGetItem w.serv.conns c.addr).status ≠ STATUS_UNVALIDATED := by
    rw [hget, hst]; decide
  have h4 : strncaseeq g.line "HELP".toList = false :=
    strncaseeq_excl g.line _ _ hq (by decide) (by decide)
  have h5 : strncaseeq g.line "GAMES".toList = false :=
    strncaseeq_excl g.line _ _ hq (by decide) (by decide)
  have hisq : isQuery g.line = true := by
    unfold isQuery; rw [hq]; simp
  have heq : handleConnection R env w.conf w.serv c.addr
      = (w.serv, writeQueueStatus w.conf w.serv c.data.connBuf, []) := by
    unfold handleConnection
    rw [hreads, handleLoop_query R env w.conf c.addr g [] w.serv [] hr hnu hisq]
    unfold queryReply
    simp only [h4, h5, hget, handleLoop, List.nil_append, Bool.false_eq_true, if_false]
  rw [heq]
  exact ⟨hspec, hspec, rfl⟩

theorem qstat_reply_witness :
    (specQueueReply sampleStarted.conf sampleStarted.serv = ["alice t0 holdem * 1 R\n".toList] ∧
      specQueueReply sampleQueued.conf sampleQueued.serv = ["alice t0 holdem * 2 Q\n".toList] ∧
      specQueueReply sampleLoggedOn.conf sampleLoggedOn.serv = ["Queue empty\n".toList]) ∧
    writeQueueStatus sampleStarted.conf sampleStarted.serv
        (⟨0, ⟨STATUS_OKAY, some 0, 5⟩⟩ : LLPoolEntry Connection).data.connBuf
      = (specQueueReply sampleStarted.conf sampleStarted.serv).map
          (Event.write (⟨0, ⟨STATUS_OKAY, some 0, 5⟩⟩ : LLPoolEntry Connection).data.connBuf) ∧
    (handleConnection sampleRng (sampleConnEnv "qstat\n" 12) sampleStarted.conf
        sampleStarted.serv (⟨0, ⟨STATUS_OKAY, some 0, 5⟩⟩ : LLPoolEntry Connection).addr).2.1
      = (specQueueReply sampleStarted.conf sampleStarted.serv).map
          (Event.write (⟨0, ⟨STATUS_OKAY, some 0, 5⟩⟩ : LLPoolEntry Connection).data.connBuf) ∧
    (handleConnection sampleRng (sampleConnEnv "qstat\n" 12) sampleStarted.conf
        sampleStarted.serv (⟨0, ⟨STATUS_OKAY, some 0, 5⟩⟩ : LLPoolEntry Connection).addr).1
      = sampleStarted.serv :=
  ⟨⟨by decide, by decide, by decide⟩,
    qstat_reply sampleRng sampleStarted (sampleConnEnv "qstat\n" 12)
      ⟨0, ⟨STATUS_OKAY, some 0, 5⟩⟩ ⟨6, "qstat\n".toList⟩ sampleStarted_reachable
      (by decide) (by decide) (by decide) (by decide) (by decide)⟩

theorem runMatchJob_eq (env : JobEnv) (conf : Config) (serv : ServerState) (a seed : Nat) :
    runMatchJob env conf serv a seed =
      match startDealer env conf serv (LLPoolGetItem serv.matches_ a) (newJob env conf serv a)
          seed with
      | none => none
      | some (job1, evs) =>
        runSeats env conf serv (LLPoolGetItem serv.matches_ a)
          (conf.numPlayers (LLPoolGetItem serv.matches_ a)) 0 0 job1 evs := rfl

theorem botIndex_succ (m : Match) (p : Nat) :
    botIndex m (p + 1) = botIndex m p + (if (m.player p).isNetworkPlayer then 0 else 1) := by
  unfold botIndex isBotSeat
  rw [List.range_succ, List.filter_append]
  cases hn : (m.player p).isNetworkPlayer <;> simp [hn]

theorem setPids_length (env : JobEnv) (m : Match) (k p : Nat) (pids : List Int) :
    (setPids env m k p pids).length = pids.length := by
  induction k generalizing p pids with
  | zero => rfl
  | succ k ih =>
    simp only [setPids]
    rw [ih]
    split_ifs
    · rfl
    · exact List.length_set _ _ _

theorem setPids_getD (env : JobEnv) (m : Match) (k p : Nat) (pids : List Int) (q : Nat) :
    (setPids env m k p pids).getD q 0 =
      if p ≤ q ∧ q < p + k ∧ isBotSeat m q = true ∧ q < pids.length then env.botFork q
      else pids.getD q 0 := by
  induction k generalizing p pids with
  | zero =>
    simp only [setPids]
    rw [if_neg (fun h => absurd h.2.1 (by omega))]
  | succ k ih =>
    simp only [setPids]
    rw [ih]
    have h1 : q ≠ p → ((p + 1 ≤ q ∧ q < p + 1 + k ∧ isBotSeat m q = true ∧ q < pids.length) ↔
        (p ≤ q ∧ q < p + (k + 1) ∧ isBotSeat m q = true ∧ q < pids.length)) := by
      intro hq
      constructor <;> rintro ⟨a, b, c, d⟩ <;> exact ⟨by omega, by omega, c, d⟩
    cases hn : (m.player p).isNetworkPlayer with
    | true =>
      simp only [if_true]
      by_cases hq : q = p
      · subst hq
        have hb : isBotSeat m q = false := by simp [isBotSeat, hn]
        rw [if_neg (fun h => absurd h.1 (by omega)),
          if_neg (fun h => by rw [hb] at h; exact absurd h.2.2.1 (by decide))]
      · simp only [h1 hq]
    | false =>
      simp only [Bool.false_eq_true, if_false, List.length_set]
      by_cases hq : q = p
      · subst hq
        have hb : isBotSeat m q = true := by simp [isBotSeat, hn]
        rw [if_neg (fun h => absurd h.1 (by omega))]
        by_cases hl : q < pids.length
        · rw [if_pos ⟨le_refl _, by omega, hb, hl⟩]
          simp [List.getD_eq_getElem?_getD, List.getElem?_set_self hl]
        · rw [if_neg (fun h => hl h.2.2.2)]
          simp only [List.getD_eq_getElem?_getD]
          rw [List.getElem?_eq_none (by rw [List.length_set]; omega),
            List.getElem?_eq_none (by omega)]
      · simp only [h1 hq]
        congr 1
        simp only [List.getD_eq_getElem?_getD]
        rw [List.getElem?_set_ne (Ne.symm hq)]



theorem decimal_length (k n : Nat) (hk : 0 < k) (h : n < 10 ^ k) :
    (decimal n).length ≤ k := by
  unfold decimal
  rw [List.length_reverse]
  exact digitsRev_length k (n + 1) n hk h

theorem botIndex_bounds (m : Match) (p : Nat) : 0 ≤ botIndex m p ∧ botIndex m p ≤ p := by
  unfold botIndex
  constructor
  · exact Int.natCast_nonneg _
  · have := List.length_filter_le (isBotSeat m) (List.range p)
    rw [List.length_range] at this
    exact_mod_cast this

theorem snprintf16_botIndex (m : Match) (p : Nat) (hp : p < 10 ^ 15) :
    snprintf16 (decimalInt (botIndex m p)) = decimalInt (botIndex m p) := by
  obtain ⟨h0, h1⟩ := botIndex_bounds m p
  unfold snprintf16 decimalInt
  rw [if_neg (by omega)]
  apply List.take_of_length_le
  apply decimal_length 15 _ (by decide)
  omega

theorem sendStartMessage_ok (written : Nat → Int) (serv : ServerState) (job : MatchJob)
    (conn : Connection) (port : Nat)
    (h : ¬ (sendStartMessage written serv job conn port).1 < 0) :
    sendStartMessage written serv job conn port
      = (0, specStartLines serv job conn.connBuf port) := by
  unfold sendStartMessage at h ⊢
  simp only at h ⊢
  split_ifs at h ⊢ with h1 h2
  · simp at h
  · simp at h
  · rfl

theorem specSeatEvents_congr (env : JobEnv) (conf : Config) (serv : ServerState) (m : Match)
    (job job1 : MatchJob) (q : Nat) (ht : job1.tag = job.tag) (hp : job1.ports = job.ports) :
    specSeatEvents env conf serv m job1 q = specSeatEvents env conf serv m job q := by
  unfold specSeatEvents specStartLines
  rw [hp, ht]

/-- The loop over the seats when seat `p + j`, a network seat, is the first to fail. -/
theorem runSeats_fail (env : JobEnv) (conf : Config) (serv : ServerState) (m : Match)
    (j : Nat) :
    ∀ (k p : Nat) (job : MatchJob) (out : List Event), j < k → p + k < 10 ^ 15 →
      (∀ q, p ≤ q → q < p + j → seatOk env serv m job q = true) →
      (m.player (p + j)).isNetworkPlayer = true →
      seatOk env serv m job (p + j) = false →
      runSeats env conf serv m k p (botIndex m p) job out =
        some ({ job with botPID := setPids env m j p job.botPID },
          out ++ (List.range' p j).flatMap (specSeatEvents env conf serv m job)
            ++ (sendStartMessage (env.written (p + j)) serv job
                (LLPoolGetItemAt serv.conns (m.player (p + j)).entry)
                (job.ports.getD (p + j) 0)).2
            ++ Event.kill job.dealerPID SIGTERM
              :: killBots { job with botPID := setPids env m j p job.botPID } (p + j)) := by
  induction j with
  | zero =>
    intro k p job out hk hb _ hnet hbad
    obtain ⟨k, rfl⟩ : ∃ k1, k = k1 + 1 := ⟨k - 1, by omega⟩
    simp only [Nat.add_zero] at hnet hbad ⊢
    unfold seatOk at hbad
    rw [hnet] at hbad
    simp only [if_true, decide_eq_false_iff_not, not_not] at hbad
    simp only [runSeats, hnet, if_true, if_pos hbad, setPids, List.range'_zero,
      List.flatMap_nil, List.append_nil, List.append_assoc]
  | succ j ih =>
    intro k p job out hk hb hok hnet hbad
    obtain ⟨k, rfl⟩ : ∃ k1, k = k1 + 1 := ⟨k - 1, by omega⟩
    have hp := hok p (le_refl _) (by omega)
    have e1 : p + (j + 1) = p + 1 + j := by omega
    rw [e1] at hnet hbad ⊢
    simp only [runSeats, List.range'_succ, List.flatMap_cons]
    unfold seatOk at hp
    cases hn : (m.player p).isNetworkPlayer with
    | true =>
      rw [hn] at hp
      simp only [if_true, decide_eq_true_eq] at hp
      rw [sendStartMessage_ok _ _ _ _ _ hp]
      simp only [if_neg (show ¬ (0 : Int) < 0 by decide)]
      have hbi : botIndex m (p + 1) = botIndex m p := by
        rw [botIndex_succ, hn]; simp
      rw [← hbi, ih k (p + 1) job _ (by omega) (by omega)
        (fun q h1 h2 => hok q (by omega) (by omega)) hnet hbad]
      simp only [setPids, hn, if_true, specSeatEvents, List.append_assoc]
    | false =>
      rw [hn] at hp
      simp only [Bool.false_eq_true, if_false, decide_eq_true_eq] at hp
      have hsb : startBot (env.botFork p) serv (conf.botAt m (m.player p).entry)
          (job.ports.getD p 0) (botIndex m p)
          = some (env.botFork p,
              Event.exec (conf.botAt m (m.player p).entry).command
                [(conf.botAt m (m.player p).entry).command, serv.hostname,
                  decimal (job.ports.getD p 0), decimalInt (botIndex m p)]
                (env.botFork p)) := by
        unfold startBot
        rw [if_neg (by omega), if_neg (by omega), snprintf16_botIndex m p (by omega)]
      simp only [Bool.false_eq_true, if_false, hsb]
      have hbi : botIndex m (p + 1) = botIndex m p + 1 := by
        rw [botIndex_succ, hn]; simp
      rw [← hbi, ih k (p + 1) { job with botPID := job.botPID.set p (env.botFork p) } _
        (by omega) (by omega)
        (fun q h1 h2 => hok q (by omega) (by omega)) hnet hbad]
      simp only [setPids, hn, Bool.false_eq_true, if_false, specSeatEvents,
        List.append_assoc, List.singleton_append]
      congr 2

/-- The signals of the abort branch: one for every seat below `p` whose slot holds a process
id, from the highest seat down. -/
theorem killBots_eq (job : MatchJob) (p : Nat) :
    killBots job p
      = (((List.range p).reverse.filter (fun q => decide (job.botPID.getD q 0 ≠ 0))).map
          (fun q => Event.kill (job.botPID.getD q 0) SIGTERM)) := by
  induction p with
  | zero => rfl
  | succ p ih =>
    rw [List.range_succ, List.reverse_append]
    simp only [List.reverse_cons, List.reverse_nil, List.nil_append, List.singleton_append,
      List.filter_cons]
    rw [killBots, ih]
    by_cases h : job.botPID.getD p 0 = 0
    · simp only [h, ne_eq, not_true_eq_false, decide_False, if_false, List.nil_append,
        Bool.false_eq_true]
    · simp only [h, ne_eq, not_false_eq_true, decide_True, if_true, List.map_cons,
        List.singleton_append]



theorem startDealer_some (env : JobEnv) (conf : Config) (serv : ServerState) (m : Match)
    (job job1 : MatchJob) (seed : Nat) (evs1 : List Event)
    (h : startDealer env conf serv m job seed = some (job1, evs1)) :
    job1 = { job with dealerPID := env.dealerFork, ports := job1.ports } ∧
    0 < env.dealerFork ∧
    evs1 = [Event.exec BM_DEALER (dealerArgv env conf serv m job seed) env.dealerFork] := by
  unfold startDealer at h
  split_ifs at h with h1 h2 h3 h4 h5
  split at h
  · exact absurd h (by simp)
  · simp only [Option.some.injEq, Prod.mk.injEq] at h
    obtain ⟨rfl, rfl⟩ := h
    exact ⟨rfl, by omega, rfl⟩

/-- A call of `startMatchJob` that gets a job from `runMatchJob` returns 1 and installs
the job. -/
theorem startMatchJob_of_run (R : Rng) (env : SchedEnv) (w : World)
    (best : LLPoolEntry Match) (job : MatchJob) (evs : List Event)
    (hne : w.serv.matches_.numEntries ≠ 0)
    (hp : pick w.conf w.serv.matches_.head none = some best)
    (hcap : ¬ overBotCap w best.data)
    (hrun : runMatchJob env.job w.conf (jobServ R w best) best.addr (jobSeed R best.data)
      = some (job, evs)) :
    startMatchJob R env w = some (1, dispatched R env w best job, evs) := by
  have hsel : selectLoop w.conf w.serv.matches_.head w.serv.matches_ none =
      (gcPool w, pick w.conf w.serv.matches_.head none) := by
    rw [← selectLoop_snd]; rfl
  unfold startMatchJob
  rw [if_neg hne, hsel, hp]
  simp only
  unfold overBotCap at hcap
  rw [if_neg hcap]
  unfold jobServ seededPool jobSeed at hrun
  rw [hrun]
  rfl

/-- A call of `startMatchJob` whose chosen match does not fit under the bot cap returns
0 and leaves the world with the swept match list. -/
theorem startMatchJob_of_cap (R : Rng) (env : SchedEnv) (w : World)
    (best : LLPoolEntry Match)
    (hne : w.serv.matches_.numEntries ≠ 0)
    (hp : pick w.conf w.serv.matches_.head none = some best)
    (hcap : overBotCap w best.data) :
    startMatchJob R env w
      = some (0, { w with serv := { w.serv with matches_ := gcPool w } }, []) := by
  have hsel : selectLoop w.conf w.serv.matches_.head w.serv.matches_ none =
      (gcPool w, pick w.conf w.serv.matches_.head none) := by
    rw [← selectLoop_snd]; rfl
  unfold startMatchJob
  rw [if_neg hne, hsel, hp]
  simp only
  unfold overBotCap at hcap
  rw [if_pos hcap]

/-- The signals to the bots in the abort branch, after the seats below `f` went well. -/
theorem killBots_setPids (env : JobEnv) (m : Match) (job : MatchJob)
    (n f : Nat) (hf : f ≤ n) (hb : job.botPID = List.replicate n 0)
    (hok : ∀ q, q < f → (m.player q).isNetworkPlayer = false → 0 < env.botFork q) :
    killBots { job with botPID := setPids env m f 0 job.botPID } f
      = (((List.range f).reverse.filter (isBotSeat m)).map
          (fun q => Event.kill (env.botFork q) SIGTERM)) := by
  rw [killBots_eq]
  have hget : ∀ q, q < f →
      (setPids env m f 0 job.botPID).getD q 0
        = if isBotSeat m q = true then env.botFork q else 0 := by
    intro q hq
    rw [setPids_getD, hb]
    by_cases hbq : isBotSeat m q = true
    · rw [if_pos ⟨by omega, by omega, hbq, by rw [List.length_replicate]; omega⟩, if_pos hbq]
    · rw [if_neg (fun h => hbq h.2.2.1), if_neg hbq]
      simp
  have hfil : (List.range f).reverse.filter
        (fun q => decide ((setPids env m f 0 job.botPID).getD q 0 ≠ 0))
      = (List.range f).reverse.filter (isBotSeat m) := by
    apply List.filter_congr
    intro q hq
    rw [List.mem_reverse, List.mem_range] at hq
    rw [hget q hq]
    by_cases hbq : isBotSeat m q = true
    · rw [if_pos hbq, hbq]
      have := hok q hq (by unfold isBotSeat at hbq; simpa using hbq)
      simp only [decide_eq_true_eq]
      omega
    · rw [if_neg hbq]
      simp only [Bool.not_eq_true] at hbq
      rw [hbq]
      simp
  simp only
  rw [hfil]
  apply List.map_congr_left
  intro q hq
  rw [List.mem_filter, List.mem_reverse, List.mem_range] at hq
  rw [hget q hq.1, if_pos hq.2]

theorem seatOk_of (env : JobEnv) (serv : ServerState) (m : Match) (job : MatchJob) (q : Nat)
    (hw : (m.player q).isNetworkPlayer = true →
      ¬ (sendStartMessage (env.written q) serv job
          (LLPoolGetItemAt serv.conns (m.player q).entry) (job.ports.getD q 0)).1 < 0)
    (hf : (m.player q).isNetworkPlayer = false → 0 < env.botFork q) :
    seatOk env serv m job q = true := by
  unfold seatOk
  cases hn : (m.player q).isNetworkPlayer with
  | true => simpa using hw hn
  | false => simpa using hf hn

/-- **C21**: `startMatchJob` has chosen `best`, the dealer has been started, the seats
below `f` went well and a `write` of `sendStartMessage` for the network seat `f` is
short. Then `startMatchJob` returns 1. After the event of the dealer and the events of
the seats below `f` come the writes attempted for seat `f`, then SIGTERM to the dealer,
then SIGTERM to the bot of every bot seat below `f` (from the highest seat down), and
nothing else: no event belongs to a seat above `f`. The job has the pid of the dealer,
which is not 0; it is put in front of the jobs list, the counter of the game goes up
by 1 and the entry of the match is in the list with `isRunning` set and `numRuns` one
less. -/
theorem short_write_aborts_run (R : Rng) (env : SchedEnv) (w : World)
    (best : LLPoolEntry Match) (job1 : MatchJob) (evs1 : List Event) (f : Nat)
    (hwf : PoolWF w.serv.matches_)
    (hne : w.serv.matches_.numEntries ≠ 0)
    (hp : pick w.conf w.serv.matches_.head none = some best)
    (hcap : ¬ overBotCap w best.data)
    (hgame : best.data.gameConf < w.conf.games.length)
    (hn : w.conf.numPlayers (chosenMatch R w best) < 10 ^ 15)
    (hd : startDealer env.job w.conf (jobServ R w best) (chosenMatch R w best)
      (newJob env.job w.conf (jobServ R w best) best.addr) (jobSeed R best.data) = some (job1, evs1))
    (hf : f < w.conf.numPlayers (chosenMatch R w best))
    (hnet : ((chosenMatch R w best).player f).isNetworkPlayer = true)
    (hw : ∀ q, q < f → ((chosenMatch R w best).player q).isNetworkPlayer = true →
      ¬ (sendStartMessage (env.job.written q) (jobServ R w best) job1
          (LLPoolGetItemAt (jobServ R w best).conns ((chosenMatch R w best).player q).entry)
          (job1.ports.getD q 0)).1 < 0)
    (hb : ∀ q, q < f → ((chosenMatch R w best).player q).isNetworkPlayer = false →
      0 < env.job.botFork q)
    (hshort : (sendStartMessage (env.job.written f) (jobServ R w best) job1
        (LLPoolGetItemAt (jobServ R w best).conns ((chosenMatch R w best).player f).entry)
        (job1.ports.getD f 0)).1 < 0) :
    ∃ job evs,
      startMatchJob R env w = some (1, dispatched R env w best job, evs) ∧
      evs = evs1
        ++ (List.range f).flatMap
            (specSeatEvents env.job w.conf (jobServ R w best) (chosenMatch R w best) job1)
        ++ (sendStartMessage (env.job.written f) (jobServ R w best) job1
            (LLPoolGetItemAt (jobServ R w best).conns ((chosenMatch R w best).player f).entry)
            (job1.ports.getD f 0)).2
        ++ Event.kill env.job.dealerFork SIGTERM
          :: ((List.range f).reverse.filter (isBotSeat (chosenMatch R w best))).map
              (fun q => Event.kill (env.job.botFork q) SIGTERM) ∧
      job.dealerPID = env.job.dealerFork ∧ job.dealerPID ≠ 0 ∧
      (dispatched R env w best job).serv.jobs.head
        = ⟨(LLPoolAddItem w.serv.jobs job).1, job⟩ :: w.serv.jobs.head ∧
      ((dispatched R env w best job).conf.gameAt best.data.gameConf).curRunningJobs
        = (w.conf.gameAt best.data.gameConf).curRunningJobs + 1 ∧
      (⟨best.addr, startedMatch R env best.data⟩ : LLPoolEntry Match)
        ∈ (dispatched R env w best job).serv.matches_.head := by
  obtain ⟨hj, hpos, _⟩ := startDealer_some _ _ _ _ _ _ _ _ hd
  have hbp : job1.botPID = List.replicate (w.conf.numPlayers (chosenMatch R w best)) 0 := by
    rw [hj]; rfl
  have hdp : job1.dealerPID = env.job.dealerFork := by rw [hj]
  have hbad : seatOk env.job (jobServ R w best) (chosenMatch R w best) job1 (0 + f)
      = false := by
    unfold seatOk
    rw [Nat.zero_add, hnet]
    simpa using hshort
  have hrun : runMatchJob env.job w.conf (jobServ R w best) best.addr (jobSeed R best.data)
      = some ({ job1 with
                botPID := setPids env.job (chosenMatch R w best) f 0 job1.botPID },
          evs1 ++ (List.range f).flatMap
              (specSeatEvents env.job w.conf (jobServ R w best) (chosenMatch R w best) job1)
            ++ (sendStartMessage (env.job.written f) (jobServ R w best) job1
                (LLPoolGetItemAt (jobServ R w best).conns
                  ((chosenMatch R w best).player f).entry)
                (job1.ports.getD f 0)).2
            ++ Event.kill env.job.dealerFork SIGTERM
              :: ((List.range f).reverse.filter (isBotSeat (chosenMatch R w best))).map
                  (fun q => Event.kill (env.job.botFork q) SIGTERM)) := by
    rw [runMatchJob_eq]
    unfold chosenMatch at hd
    rw [hd]
    simp only
    have h0 : (0 : Int) = botIndex (LLPoolGetItem (jobServ R w best).matches_ best.addr) 0 :=
      rfl
    have hrs := runSeats_fail env.job w.conf (jobServ R w best) (chosenMatch R w best) f
      (w.conf.numPlayers (chosenMatch R w best)) 0 job1 evs1 hf (by omega)
      (fun q _ h2 => seatOk_of env.job _ _ job1 q (hw q (by omega)) (hb q (by omega)))
      (by rw [Nat.zero_add]; exact hnet) hbad
    rw [Nat.zero_add] at hrs
    rw [killBots_setPids env.job (chosenMatch R w best) job1 _ f (by omega) hbp hb,
      ← List.range_eq_range'] at hrs
    rw [h0]
    exact hrs.trans (by rw [hdp])
  obtain ⟨pre, post, hl, hE, _, _⟩ := pick_none_spec _ _ _ hp
  have hbest : best ∈ w.serv.matches_.head := by rw [hl]; simp
  refine ⟨_, _, startMatchJob_of_run R env w best _ _ hne hp hcap hrun, rfl, hdp,
    by rw [hdp]; omega, LLPoolAddItem_head _ _, ?_, ?_⟩
  · unfold dispatched
    simp only
    rw [Config.setWaitStart_gameAt, Config.addRunningJobs_cur _ _ _ _ hgame, if_pos rfl]
  · rw [dispatched_head R env w best _ hwf hbest, List.mem_map]
    refine ⟨best, ?_, by unfold startEntry; rw [if_pos rfl]⟩
    rw [List.mem_filter]
    refine ⟨hbest, ?_⟩
    simp only [keptByGc, Bool.or_eq_true, decide_eq_true_eq]
    exact Or.inr hE.2.1

theorem short_write_aborts_run_witness :
    ∃ job evs,
      startMatchJob sampleRng (sampleShortWrite 10) sampleBotFirst
        = some (1, dispatched sampleRng (sampleShortWrite 10) sampleBotFirst
            ⟨0, { sampleMatch 0 1 2 "bf" with players := [⟨false, some 0⟩, ⟨true, some 0⟩] }⟩
            job, evs) ∧
      evs = [Event.exec BM_DEALER
              (dealerArgv sampleJobEnv sampleBotFirst.conf sampleBotFirst.serv
                (LLPoolGetItem sampleBotFirst.serv.matches_ 0)
                (newJob sampleJobEnv sampleBotFirst.conf sampleBotFirst.serv 0) 42) 100]
        ++ [Event.exec "./example.sh".toList
              ["./example.sh".toList, "10.0.0.1".toList, "18001".toList, "0".toList] 200]
        ++ [Event.write 5 "# RUNNING alice.bf\n".toList]
        ++ [Event.kill 100 SIGTERM, Event.kill 200 SIGTERM] ∧
      job.dealerPID = 100 ∧ job.dealerPID ≠ 0 ∧
      (dispatched sampleRng (sampleShortWrite 10) sampleBotFirst
          ⟨0, { sampleMatch 0 1 2 "bf" with players := [⟨false, some 0⟩, ⟨true, some 0⟩] }⟩
          job).serv.jobs.head
        = [⟨0, job⟩] ∧
      ((dispatched sampleRng (sampleShortWrite 10) sampleBotFirst
          ⟨0, { sampleMatch 0 1 2 "bf" with players := [⟨false, some 0⟩, ⟨true, some 0⟩] }⟩
          job).conf.gameAt 0).curRunningJobs = 0 + 1 ∧
      (⟨0, startedMatch sampleRng (sampleShortWrite 10)
          { sampleMatch 0 1 2 "bf" with players := [⟨false, some 0⟩, ⟨true, some 0⟩] }⟩ :
          LLPoolEntry Match)
        ∈ (dispatched sampleRng (sampleShortWrite 10) sampleBotFirst
          ⟨0, { sampleMatch 0 1 2 "bf" with players := [⟨false, some 0⟩, ⟨true, some 0⟩] }⟩
          job).serv.matches_.head :=
  short_write_aborts_run sampleRng (sampleShortWrite 10) sampleBotFirst
    ⟨0, { sampleMatch 0 1 2 "bf" with players := [⟨false, some 0⟩, ⟨true, some 0⟩] }⟩
    { dealerPID := 100, botPID := [0, 0], matchEntry := 0,
      tag := "alice.bf".toList, ports := [18001, 18002] }
    [Event.exec BM_DEALER
      (dealerArgv sampleJobEnv sampleBotFirst.conf sampleBotFirst.serv
        (LLPoolGetItem sampleBotFirst.serv.matches_ 0)
        (newJob sampleJobEnv sampleBotFirst.conf sampleBotFirst.serv 0) 42) 100]
    1 (by unfold PoolWF; decide) (by decide) (by decide) (by decide) (by decide) (by decide)
    (by rfl) (by decide) (by decide) (by decide) (by decide) (by decide)

theorem Config.setWaitStart_length (conf : Config) (u : Option Nat) (now : timeval) :
    (conf.setWaitStart u now).users.length = conf.users.length := by
  unfold Config.setWaitStart
  cases u with
  | none => rfl
  | some i => simp

theorem startMatchJob_users (R : Rng) (env : SchedEnv) (w w1 : World) (r : Int)
    (evs : List Event) (h : startMatchJob R env w = some (r, w1, evs)) :
    w1.conf.users.length = w.conf.users.length := by
  rcases startMatchJob_cases R env w w1 r evs h with
    ⟨_, _, rfl, _⟩ | ⟨_, _, _, rfl, _⟩ | ⟨_, _, _, rfl, _⟩ | ⟨_, _, best, job, _, _, _, rfl⟩
  · rfl
  · rfl
  · rfl
  · simp only [dispatched, Config.setWaitStart_length, Config.addRunningJobs_users]

theorem UserInv.user_transfer {w w1 : World} (hu : UserInv w)
    (hlen : w1.conf.users.length = w.conf.users.length)
    (hg : ∀ g, (w1.conf.gameAt g).game = (w.conf.gameAt g).game)
    (hokay : ∀ c1 ∈ w1.serv.conns.head, c1.data.status = STATUS_OKAY →
      ∃ u, c1.data.user = some u ∧ u < w.conf.users.length)
    (hconn : ∀ c ∈ w.serv.conns.head, c.data.status = STATUS_OKAY →
      ∃ c1 ∈ w1.serv.conns.head, c1.addr = c.addr ∧ c1.data.status = STATUS_OKAY ∧
        c1.data.user = c.data.user)
    (hmatch : ∀ e1 ∈ w1.serv.matches_.head, ∃ e ∈ w.serv.matches_.head,
      e1.data.user = e.data.user ∧ e1.data.gameConf = e.data.gameConf ∧
      e1.data.players = e.data.players ∧ (0 < e1.data.numRuns → 0 < e.data.numRuns)) :
    UserInv w1 := by
  refine ⟨?_, ?_, ?_⟩
  · intro c1 hc1 hs
    rw [hlen]
    exact hokay c1 hc1 hs
  · intro e1 he1
    obtain ⟨e, he, h1, _, _, _⟩ := hmatch e1 he1
    rw [hlen, h1]
    exact hu.owner e he
  · intro e1 he1 hn1 p hp hnp
    obtain ⟨e, he, h1, h2, h3, h4⟩ := hmatch e1 he1
    have hp1 : p < w.conf.numPlayers e.data := by
      unfold Config.numPlayers at hp ⊢
      rw [h2, hg] at hp
      exact hp
    have hpl : e1.data.player p = e.data.player p := by
      unfold Match.player; rw [h3]
    rw [hpl] at hnp ⊢
    obtain ⟨c, hcm, hce, hcs, hcu⟩ := hu.seats e he (h4 hn1) p hp1 hnp
    obtain ⟨c1, hc1, hca, hcs1, hcu1⟩ := hconn c hcm hcs
    exact ⟨c1, hc1, by rw [hce, hca], hcs1, by rw [hcu1, hcu, h1]⟩

theorem UserInv.user_initial {w : World} (h : Initial w) : UserInv w := by
  obtain ⟨_, hcn, hm, _⟩ := h
  have hch : w.serv.conns.head = [] := by rw [hcn]; rfl
  have hmh : w.serv.matches_.head = [] := by rw [hm]; rfl
  refine ⟨?_, ?_, ?_⟩
  · intro c hc; rw [hch] at hc; exact absurd hc (List.not_mem_nil _)
  · intro e he; rw [hmh] at he; exact absurd he (List.not_mem_nil _)
  · intro e he; rw [hmh] at he; exact absurd he (List.not_mem_nil _)

theorem UserInv.close_user {conf : Config} {serv : ServerState}
    (hu : UserInv ⟨conf, serv⟩) (ce : Nat) : UserInv ⟨conf, closeConnection conf serv ce⟩ := by
  refine ⟨?_, ?_, ?_⟩
  · intro c hcm hs
    obtain ⟨c0, hc0, h | ⟨_, h⟩⟩ := mem_SetItem_cases hcm
    · rw [h] at hs ⊢; exact hu.okay c0 hc0 hs
    · rw [h] at hs
      simp [STATUS_CLOSED, STATUS_OKAY] at hs
  · intro e1 he1
    simp only [closeConnection, List.mem_map] at he1
    obtain ⟨e, he, rfl⟩ := he1
    split_ifs
    · exact hu.owner e he
    · exact hu.owner e he
  · intro e1 he1 hn1
    simp only [closeConnection, List.mem_map] at he1
    obtain ⟨e, he, rfl⟩ := he1
    cases hm : matchUsesConnection conf e.data ce with
    | true =>
      rw [if_pos hm] at hn1
      simp at hn1
    | false =>
      simp only [hm, Bool.false_eq_true, if_false] at hn1 ⊢
      intro p hp hnp
      obtain ⟨c, hcm, hce, hcs, hcu⟩ := hu.seats e he hn1 p hp hnp
      have hne : c.addr ≠ ce := by
        intro hca
        have : matchUsesConnection conf e.data ce = true := by
          unfold matchUsesConnection
          rw [List.any_eq_true]
          refine ⟨p, List.mem_range.2 hp, ?_⟩
          rw [hnp, hce, hca]
          simp
        rw [hm] at this
        exact absurd this (by decide)
      refine ⟨c, ?_, hce, hcs, hcu⟩
      simp only [closeConnection, LLPoolSetItem, List.mem_map]
      exact ⟨c, hcm, by rw [if_neg hne]⟩

theorem validateLogon_lt (conf : Config) (line : List Char) (u : Nat)
    (h : validateLogon conf line = some u) : u < conf.users.length := by
  unfold validateLogon at h
  split at h
  · exact absurd h (by simp)
  · split at h
    · exact absurd h (by simp)
    · split at h
      · exact absurd h (by simp)
      · rename_i u1 hf
        split_ifs at h
        simp only [Option.some.injEq] at h
        rw [← h]
        exact (findUser_some conf _ _ hf).1

theorem UserInv.logon_user {conf : Config} {serv : ServerState}
    (hc : ConnInv ⟨conf, serv⟩) (hu : UserInv ⟨conf, serv⟩) (ce : Nat) (u : Nat)
    (hlt : u < conf.users.length)
    (hst : (LLPoolGetItem serv.conns ce).status = STATUS_UNVALIDATED) :
    UserInv ⟨conf,
      { serv with conns := LLPoolSetItem serv.conns ce
                    (fun c => { c with user := some u, status := STATUS_OKAY }) }⟩ := by
  refine @UserInv.user_transfer ⟨conf, serv⟩ _ hu rfl (fun _ => rfl) ?_ ?_ ?_
  · intro c hcm hs
    obtain ⟨c0, hc0, h | ⟨_, h⟩⟩ := mem_SetItem_cases hcm
    · rw [h] at hs ⊢; exact hu.okay c0 hc0 hs
    · rw [h]; exact ⟨u, rfl, hlt⟩
  · intro c hcm hcs
    have ha : c.addr ≠ ce := by
      intro ha
      have := LLPoolGetItem_of_mem hc.connsWF hcm
      rw [ha] at this
      have h2 : c.data.status = STATUS_UNVALIDATED := by rw [← this]; exact hst
      rw [h2] at hcs
      exact absurd hcs (by decide)
    refine ⟨c, ?_, rfl, hcs, rfl⟩
    simp only [LLPoolSetItem, List.mem_map]
    exact ⟨c, hcm, by rw [if_neg ha]⟩
  · intro e1 he1
    exact ⟨e1, he1, rfl, rfl, rfl, fun h => h⟩

theorem UserInv.add_user_match {conf : Config} {serv : ServerState}
    (hu : UserInv ⟨conf, serv⟩) (rng : rng_state_t) (item : Match)
    (ho : ∃ u, item.user = some u ∧ u < conf.users.length)
    (hs : ∀ p, p < conf.numPlayers item → (item.player p).isNetworkPlayer = true →
      ∃ c ∈ serv.conns.head, (item.player p).entry = some c.addr ∧
        c.data.status = STATUS_OKAY ∧ c.data.user = item.user) :
    UserInv ⟨conf,
      { serv with rng := rng, matches_ := (LLPoolAddItem serv.matches_ item).2 }⟩ := by
  refine ⟨hu.okay, ?_, ?_⟩
  · intro e1 he1
    simp only [LLPoolAddItem_head, List.mem_cons] at he1
    rcases he1 with rfl | he1
    · exact ho
    · exact hu.owner e1 he1
  · intro e1 he1 hn1
    simp only [LLPoolAddItem_head, List.mem_cons] at he1
    rcases he1 with rfl | he1
    · exact hs
    · exact hu.seats e1 he1 hn1

theorem UserInv.handle_user (R : Rng) (env : ConnEnv) (conf : Config)
    (reads : List GetLine) (serv : ServerState) (out : List Event)
    (hc : ConnInv ⟨conf, serv⟩) (hu : UserInv ⟨conf, serv⟩)
    (c : LLPoolEntry Connection) (hcm : c ∈ serv.conns.head)
    (hst : c.data.status ≠ STATUS_CLOSED) :
    UserInv ⟨conf, (handleLoop R env conf c.addr reads serv out).1⟩ := by
  have hget := LLPoolGetItem_of_mem hc.connsWF hcm
  induction reads generalizing out with
  | nil => exact hu
  | cons g rest ih =>
    simp only [BmServer.handleLoop]
    split_ifs with h1 h2 h3 h4 h5 h6 h7 h8
    · exact hu
    · exact hu.close_user _
    · split
      · exact hu.close_user _
      · rename_i user hv
        exact UserInv.logon_user hc hu _ _ (validateLogon_lt conf _ _ hv) h3
    · exact ih _
    · exact ih _
    · exact ih _
    · rw [parseMatchSpec_fail_serv R conf serv _ c.addr env.stack h8]
      exact hu
    · obtain ⟨rng, hs⟩ := parseMatchSpec_serv R conf serv (g.line.drop 10) c.addr env.stack
      rw [hs]
      have hok : c.data.status = STATUS_OKAY := by
        rcases hc.status c hcm with h | h | h
        · exact absurd h hst
        · rw [hget] at h3; exact absurd h h3
        · exact h
      have hcu : (LLPoolGetItem ({ serv with rng := rng } : ServerState).conns c.addr).user
          = c.data.user := by
        show (LLPoolGetItem serv.conns c.addr).user = _
        rw [hget]
      refine hu.add_user_match rng _ ?_ ?_
      · simp only
        rw [hcu]
        exact hu.okay c hcm hok
      · intro p hp hn
        have hseat := parseMatchSpec_ok_seats R conf serv (g.line.drop 10) c.addr env.stack
          h8 p hp hn
        exact ⟨c, hcm, hseat, hok, hcu.symm⟩
    · exact hu

theorem UserInv.user_step {R : Rng} {w w1 : World} (hi : Inv w) (hc : ConnInv w)
    (hu : UserInv w) (h : Step R w w1) : UserInv w1 := by
  cases h with
  | reap waitpid e job allDone he hcf =>
    cases allDone with
    | false =>
      exact ⟨hu.okay, hu.owner, hu.seats⟩
    | true =>
      simp only [if_true]
      refine @UserInv.user_transfer w _ hu ?_ ?_ hu.okay
        (fun c hcm hcs => ⟨c, hcm, rfl, hcs, rfl⟩) ?_
      · simp only [finishedJob, Config.addRunningJobs_users]
      · intro g
        simp only [finishedJob, Config.addRunningJobs_game]
      · intro e1 he1
        simp only [finishedJob] at he1
        obtain ⟨e0, he0, h | ⟨_, h⟩⟩ := mem_SetItem_cases he1
        · rw [h]; exact ⟨e0, he0, rfl, rfl, rfl, fun h => h⟩
        · rw [h]
          exact ⟨e0, he0, rfl, rfl, rfl, fun h => h⟩
  | drop e he hst =>
    refine @UserInv.user_transfer w _ hu rfl (fun _ => rfl) ?_ ?_
      (fun e1 he1 => ⟨e1, he1, rfl, rfl, rfl, fun h => h⟩)
    · intro c hcm hs
      simp only [LLPoolRemoveEntry_of_mem hc.connsWF he] at hcm
      exact hu.okay c (List.mem_of_mem_filter hcm) hs
    · intro c hcm hcs
      refine ⟨c, ?_, rfl, hcs, rfl⟩
      simp only [LLPoolRemoveEntry_of_mem hc.connsWF he, List.mem_filter]
      refine ⟨hcm, ?_⟩
      simp only [bne_iff_ne, ne_eq]
      intro ha
      have := hc.connsWF.eq_of_addr hcm he ha
      rw [this, hst] at hcs
      exact absurd hcs (by decide)
  | start env r evs hs =>
    have hgame := startMatchJob_game R _ w w1 _ _ (by assumption)
    have hlen := startMatchJob_users R _ w w1 _ _ (by assumption)
    rcases startMatchJob_effect R _ w w1 _ _ hi.matchesWF (by assumption) with
      ⟨_, _, _, _, hcn, hh⟩ | ⟨_, best, _, _, _, hh, _, hcn⟩
    · refine @UserInv.user_transfer w _ hu hlen hgame (hcn ▸ hu.okay)
        (fun c hcm hcs => ⟨c, hcn ▸ hcm, rfl, hcs, rfl⟩) ?_
      intro e1 he1
      rw [hh] at he1
      exact ⟨e1, List.mem_of_mem_filter he1, rfl, rfl, rfl, fun h => h⟩
    · refine @UserInv.user_transfer w _ hu hlen hgame (hcn ▸ hu.okay)
        (fun c hcm hcs => ⟨c, hcn ▸ hcm, rfl, hcs, rfl⟩) ?_
      intro e1 he1
      rw [hh, List.mem_map] at he1
      obtain ⟨e0, he0, rfl⟩ := he1
      refine ⟨e0, List.mem_of_mem_filter he0, ?_, ?_, ?_, ?_⟩
      · unfold startEntry; split_ifs <;> rfl
      · unfold startEntry; split_ifs <;> rfl
      · unfold startEntry; split_ifs <;> rfl
      · intro hn1
        unfold startEntry at hn1
        split_ifs at hn1
        · simp only [startedMatch] at hn1; omega
        · exact hn1
  | accept sock =>
    refine @UserInv.user_transfer w _ hu rfl (fun _ => rfl) ?_ ?_
      (fun e1 he1 => ⟨e1, he1, rfl, rfl, rfl, fun h => h⟩)
    · intro c hcm hs
      simp only [addConnection, LLPoolAddItem_head, List.mem_cons] at hcm
      rcases hcm with rfl | hcm
      · simp [STATUS_UNVALIDATED, STATUS_OKAY] at hs
      · exact hu.okay c hcm hs
    · intro c hcm hcs
      refine ⟨c, ?_, rfl, hcs, rfl⟩
      simp only [addConnection, LLPoolAddItem_head, List.mem_cons]
      exact Or.inr hcm
  | handle env e he hst =>
    exact UserInv.handle_user R env w.conf env.reads w.serv [] hc hu e he hst

theorem UserInv.user_reachable {R : Rng} {w : World} (h : Reachable R w) : UserInv w := by
  induction h with
  | init w hw => exact UserInv.user_initial hw
  | step w w1 hr hs ih =>
    exact ih.user_step (Inv.reachable hr) (ConnInv.of_reachable hr) hs

theorem RunInv.run_initial {w : World} (h : Initial w) : RunInv w := by
  obtain ⟨_, _, hm, _⟩ := h
  have hmh : w.serv.matches_.head = [] := by rw [hm]; rfl
  intro e he
  rw [hmh] at he
  exact absurd he (List.not_mem_nil _)

theorem handleLoop_jobs (R : Rng) (env : ConnEnv) (conf : Config) (ce : Nat)
    (reads : List GetLine) (serv : ServerState) (out : List Event) :
    (handleLoop R env conf ce reads serv out).1.jobs = serv.jobs := by
  induction reads generalizing out with
  | nil => rfl
  | cons g rest ih =>
    simp only [handleLoop]
    split_ifs
    all_goals first
      | rfl
      | exact ih _
      | (split <;> rfl)
      | (rw [parseMatchSpec_fail_serv R conf serv _ ce env.stack (by assumption)])
      | (obtain ⟨rng, hs⟩ := parseMatchSpec_serv R conf serv (g.line.drop 10) ce env.stack
         rw [hs])

/-- A running match after `handleConnection` was in the list before, at its address,
running. -/
theorem handleLoop_running (R : Rng) (env : ConnEnv) (conf : Config) (ce : Nat)
    (reads : List GetLine) (serv : ServerState) (out : List Event) :
    ∀ e1 ∈ (handleLoop R env conf ce reads serv out).1.matches_.head,
      e1.data.isRunning = true →
      ∃ e ∈ serv.matches_.head, e.addr = e1.addr ∧ e.data.isRunning = true := by
  have hsame : ∀ e1 ∈ serv.matches_.head, e1.data.isRunning = true →
      ∃ e ∈ serv.matches_.head, e.addr = e1.addr ∧ e.data.isRunning = true :=
    fun e1 h1 hr => ⟨e1, h1, rfl, hr⟩
  have hclose : ∀ e1 ∈ (closeConnection conf serv ce).matches_.head,
      e1.data.isRunning = true →
      ∃ e ∈ serv.matches_.head, e.addr = e1.addr ∧ e.data.isRunning = true := by
    intro e1 h1 hr
    simp only [closeConnection, List.mem_map] at h1
    obtain ⟨x, hx, rfl⟩ := h1
    refine ⟨x, hx, ?_, ?_⟩
    · split_ifs <;> rfl
    · split_ifs at hr
      · exact hr
      · exact hr
  induction reads generalizing out with
  | nil => exact hsame
  | cons g rest ih =>
    simp only [handleLoop]
    split_ifs
    all_goals first
      | exact hsame
      | exact hclose
      | exact ih _
      | (split
         · exact hclose
         · exact hsame)
      | (rw [parseMatchSpec_fail_serv R conf serv _ ce env.stack (by assumption)]
         exact hsame)
      | (obtain ⟨rng, hs⟩ := parseMatchSpec_serv R conf serv (g.line.drop 10) ce env.stack
         rw [hs]
         intro e1 h1 hr
         simp only [LLPoolAddItem_head, List.mem_cons] at h1
         rcases h1 with rfl | h1
         · simp at hr
         · exact ⟨e1, h1, rfl, hr⟩)

theorem RunInv.run_step {R : Rng} {w w1 : World} (hi : Inv w) (hn : RunInv w)
    (h : Step R w w1) : RunInv w1 := by
  cases h with
  | reap waitpid e job allDone he hc =>
    have hjob := checkIfJobFinished_matchEntry _ _ _ _ _ _ hc
    have hstep : ∀ x ∈ w.serv.matches_.head, x.data.isRunning = true →
        ∃ j ∈ (LLPoolSetItem w.serv.jobs e.addr (fun _ => job)).head,
          j.data.matchEntry = x.addr ∧ (j.addr = e.addr → x.addr = e.data.matchEntry) := by
      intro x hx hr
      obtain ⟨j, hj, hja⟩ := hn x hx hr
      by_cases ha : j.addr = e.addr
      · have hje := hi.jobsWF.eq_of_addr hj he ha
        refine ⟨⟨j.addr, job⟩, ?_, ?_, ?_⟩
        · simp only [LLPoolSetItem, List.mem_map]
          exact ⟨j, hj, by rw [if_pos ha]⟩
        · show job.matchEntry = x.addr
          rw [hjob, ← hje, hja]
        · intro _
          rw [← hja, hje]
      · refine ⟨j, ?_, hja, fun h => absurd h ha⟩
        simp only [LLPoolSetItem, List.mem_map]
        exact ⟨j, hj, by rw [if_neg ha]⟩
    cases allDone with
    | false =>
      intro x hx hr
      obtain ⟨j, hj, hja, _⟩ := hstep x hx hr
      exact ⟨j, hj, hja⟩
    | true =>
      simp only [if_true]
      have hi1 := hi.updateJob e he job hjob
      have hmem : (⟨e.addr, job⟩ : LLPoolEntry MatchJob) ∈
          (LLPoolSetItem w.serv.jobs e.addr (fun _ => job)).head := by
        simp only [LLPoolSetItem, List.mem_map]
        exact ⟨e, he, by simp⟩
      have hget : LLPoolGetItem (LLPoolSetItem w.serv.jobs e.addr (fun _ => job)) e.addr
          = job := @LLPoolGetItem_of_mem _ _ _ hi1.jobsWF ⟨e.addr, job⟩ hmem
      intro x1 hx1 hr1
      simp only [finishedJob] at hx1
      rw [hget, hjob] at hx1
      obtain ⟨x, hx, h | ⟨hxa, h⟩⟩ := mem_SetItem_cases hx1
      · subst h
        have hxne : x1.addr ≠ e.data.matchEntry := by
          intro hxa
          simp only [LLPoolSetItem, List.mem_map] at hx1
          obtain ⟨y, hy, hyx⟩ := hx1
          have hya : y.addr = x1.addr := by
            rw [← hyx]; split_ifs <;> rfl
          rw [if_pos (by rw [hya, hxa])] at hyx
          rw [← hyx] at hr1
          simp at hr1
        obtain ⟨j, hj, hja, hje⟩ := hstep x1 hx hr1
        have hjne : j.addr ≠ e.addr := fun h => hxne (hje h)
        refine ⟨j, ?_, hja⟩
        simp only [finishedJob]
        have hrem := @LLPoolRemoveEntry_of_mem _ _ hi1.jobsWF ⟨e.addr, job⟩ hmem
        simp only at hrem
        rw [hrem]
        simp only [List.mem_filter, bne_iff_ne, ne_eq]
        exact ⟨hj, hjne⟩
      · rw [h] at hr1
        simp at hr1
  | drop e _ _ => exact hn
  | start env r evs hs =>
    rcases startMatchJob_cases R _ w w1 _ _ (by assumption) with
      ⟨_, _, rfl, _⟩ | ⟨_, _, _, rfl, _⟩ | ⟨_, _, _, rfl, _⟩ | ⟨_, _, best, job, hp, _, hrun, rfl⟩
    · exact hn
    · intro x hx hr
      simp only [gcPool_head w hi.matchesWF] at hx
      exact hn x (List.mem_of_mem_filter hx) hr
    · intro x hx hr
      simp only [gcPool_head w hi.matchesWF] at hx
      exact hn x (List.mem_of_mem_filter hx) hr
    · obtain ⟨pre, post, hl, hE, _, _⟩ := pick_none_spec _ _ _ hp
      have hbest : best ∈ w.serv.matches_.head := by rw [hl]; simp
      intro x1 hx1 hr1
      rw [dispatched_head R env w best job hi.matchesWF hbest, List.mem_map] at hx1
      obtain ⟨x, hx, rfl⟩ := hx1
      unfold dispatched
      simp only [LLPoolAddItem_head, List.mem_cons]
      by_cases ha : x.addr = best.addr
      · refine ⟨_, Or.inl rfl, ?_⟩
        simp only
        rw [runMatchJob_matchEntry _ _ _ _ _ _ _ hrun]
        unfold startEntry
        rw [if_pos ha, ha]
      · unfold startEntry at hr1 ⊢
        rw [if_neg ha] at hr1 ⊢
        obtain ⟨j, hj, hja⟩ := hn x (List.mem_of_mem_filter hx) hr1
        exact ⟨j, Or.inr hj, hja⟩
  | accept sock => exact hn
  | handle env e _ _ =>
    intro x1 hx1 hr1
    obtain ⟨x, hx, hxa, hxr⟩ := handleLoop_running R env w.conf e.addr env.reads w.serv []
      x1 hx1 hr1
    obtain ⟨j, hj, hja⟩ := hn x hx hxr
    refine ⟨j, ?_, by rw [hja, hxa]⟩
    show j ∈ (handleLoop R env w.conf e.addr env.reads w.serv []).1.jobs.head
    rw [handleLoop_jobs]
    exact hj

theorem RunInv.run_reachable {R : Rng} {w : World} (h : Reachable R w) : RunInv w := by
  induction h with
  | init w hw => exact RunInv.run_initial hw
  | step w w1 hr hs ih => exact ih.run_step (Inv.reachable hr) hs

theorem filter_length_le_one {α : Type} (l : List α) (f : α → Nat) (a : Nat)
    (h : (l.map f).Nodup) : (l.filter (fun j => f j == a)).length ≤ 1 := by
  induction l with
  | nil => simp
  | cons x t ih =>
    rw [List.map_cons, List.nodup_cons] at h
    rw [List.filter_cons]
    by_cases hx : f x = a
    · have hnone : t.filter (fun j => f j == a) = [] := by
        rw [List.filter_eq_nil_iff]
        intro y hy hya
        simp only [beq_iff_eq] at hya
        exact h.1 (List.mem_map.2 ⟨y, hy, by rw [hya, hx]⟩)
      simp [hx, hnone]
    · have hx2 : (f x == a) = false := by simpa using hx
      simp only [hx2, Bool.false_eq_true, if_false]
      exact ih h.2

theorem filter_length_pos {α : Type} (l : List α) (p : α → Bool) (x : α) (hx : x ∈ l)
    (hp : p x = true) : 0 < (l.filter p).length :=
  List.length_pos_of_mem (List.mem_filter.2 ⟨hx, hp⟩)


/-- **C24**: in every reachable world, (1) a match of the list is running if and only if
exactly one job of the jobs list points at its entry; (2) no entry is the match of two
jobs; (3) the match of every job is in the match list; (4) a call of `startMatchJob`
that returns leaves every running match in the list, unchanged; (5) the match a call of
`startMatchJob` dispatches was not running, and no running match has its address. -/
theorem running_iff_one_job (R : Rng) (w : World) (hr : Reachable R w) :
    (∀ e ∈ w.serv.matches_.head, e.data.isRunning = true ↔ jobsOf w e.addr = 1) ∧
    (∀ a, jobsOf w a ≤ 1) ∧
    (∀ j ∈ w.serv.jobs.head, ∃ e ∈ w.serv.matches_.head, e.addr = j.data.matchEntry) ∧
    (∀ env r w1 evs, startMatchJob R env w = some (r, w1, evs) →
      ∀ e ∈ w.serv.matches_.head, e.data.isRunning = true → e ∈ w1.serv.matches_.head) ∧
    (∀ env w1 evs, startMatchJob R env w = some (1, w1, evs) →
      ∃ best ∈ w.serv.matches_.head, lastDispatched w1 = some best.addr ∧
        best.data.isRunning = false ∧
        ∀ e ∈ w.serv.matches_.head, e.data.isRunning = true → e.addr ≠ best.addr) := by
  have hi := Inv.reachable hr
  have hn := RunInv.run_reachable hr
  have hle : ∀ a, jobsOf w a ≤ 1 := fun a =>
    filter_length_le_one w.serv.jobs.head (fun j => j.data.matchEntry) a hi.jobsDistinct
  refine ⟨?_, hle, ?_, ?_, ?_⟩
  · intro e he
    constructor
    · intro hrun
      obtain ⟨j, hj, hja⟩ := hn e he hrun
      have hpos : 0 < jobsOf w e.addr :=
        filter_length_pos _ _ j hj (by simp [hja])
      have := hle e.addr
      omega
    · intro hone
      have hpos : 0 < jobsOf w e.addr := by omega
      obtain ⟨j, hjm⟩ := List.exists_mem_of_length_pos hpos
      rw [List.mem_filter] at hjm
      obtain ⟨hj, hja⟩ := hjm
      simp only [beq_iff_eq] at hja
      obtain ⟨e1, he1, h1a, h1r⟩ := hi.jobMatch j hj
      have := hi.matchesWF.eq_of_addr he1 he (by rw [h1a, hja])
      rw [← this]
      exact h1r
  · intro j hj
    obtain ⟨e, he, hea, _⟩ := hi.jobMatch j hj
    exact ⟨e, he, hea⟩
  · intro env r w1 evs h e he hrun
    have hk : e ∈ w.serv.matches_.head.filter keptByGc := by
      rw [List.mem_filter]
      refine ⟨he, ?_⟩
      simp only [keptByGc, Bool.or_eq_true, decide_eq_true_eq]
      exact Or.inl hrun
    rcases startMatchJob_effect R env w w1 r evs hi.matchesWF h with
      ⟨_, _, _, _, _, hh⟩ | ⟨_, best, hbest, hE, _, hh, _, _⟩
    · rw [hh]; exact hk
    · rw [hh, List.mem_map]
      refine ⟨e, hk, ?_⟩
      unfold startEntry
      rw [if_neg]
      intro ha
      have := hi.matchesWF.eq_of_addr he hbest ha
      rw [this, hE.1] at hrun
      exact absurd hrun (by decide)
  · intro env w1 evs h
    rcases startMatchJob_effect R env w w1 1 evs hi.matchesWF h with
      ⟨h0, _⟩ | ⟨_, best, hbest, hE, hlast, _, _, _⟩
    · exact absurd h0 (by decide)
    · refine ⟨best, hbest, hlast, hE.1, ?_⟩
      intro e he hrun ha
      have := hi.matchesWF.eq_of_addr he hbest ha
      rw [this, hE.1] at hrun
      exact absurd hrun (by decide)

theorem running_iff_one_job_witness :
    (∀ e ∈ sampleStarted.serv.matches_.head,
      e.data.isRunning = true ↔ jobsOf sampleStarted e.addr = 1) ∧
    (∀ a, jobsOf sampleStarted a ≤ 1) ∧
    (∀ j ∈ sampleStarted.serv.jobs.head,
      ∃ e ∈ sampleStarted.serv.matches_.head, e.addr = j.data.matchEntry) ∧
    (∀ env r w1 evs, startMatchJob sampleRng env sampleStarted = some (r, w1, evs) →
      ∀ e ∈ sampleStarted.serv.matches_.head, e.data.isRunning = true →
        e ∈ w1.serv.matches_.head) ∧
    (∀ env w1 evs, startMatchJob sampleRng env sampleStarted = some (1, w1, evs) →
      ∃ best ∈ sampleStarted.serv.matches_.head, lastDispatched w1 = some best.addr ∧
        best.data.isRunning = false ∧
        ∀ e ∈ sampleStarted.serv.matches_.head, e.data.isRunning = true →
          e.addr ≠ best.addr) :=
  running_iff_one_job sampleRng sampleStarted sampleStarted_reachable

/-- **C25**: `best` is the match the selection of `startMatchJob` chooses, the bot cap
is in force and the bots of `best` do not fit under it. Then the call returns 0 and
starts nothing (no event, the jobs list is the same); the configuration, so the counter
of every game and `waitStart` of every user, is the same, the connections are the same,
and the match list is the list before the call without the entries that are not
running and have no runs left: the other entries are in it as they were. -/
theorem over_bot_cap_starts_nothing (R : Rng) (env : SchedEnv) (w : World)
    (best : LLPoolEntry Match) (hwf : PoolWF w.serv.matches_)
    (hp : pick w.conf w.serv.matches_.head none = some best)
    (hmax : w.conf.maxRunningBots > 0)
    (hover : runningBots w + botsInMatch w.conf best.data > (w.conf.maxRunningBots : Int)) :
    ∃ w1, startMatchJob R env w = some (0, w1, []) ∧
      w1.conf = w.conf ∧ w1.serv.jobs = w.serv.jobs ∧ w1.serv.conns = w.serv.conns ∧
      w1.serv.matches_.head =
        w.serv.matches_.head.filter
          (fun e => e.data.isRunning || decide (0 < e.data.numRuns)) := by
  obtain ⟨pre, post, hl, _, _, _⟩ := pick_none_spec _ _ _ hp
  have hne : w.serv.matches_.numEntries ≠ 0 := by
    rw [hwf.2.2, hl]
    simp only [List.length_append, List.length_cons]
    omega
  have hcap : overBotCap w best.data := ⟨by omega, by omega⟩
  refine ⟨_, startMatchJob_of_cap R env w best hne hp hcap, rfl, rfl, rfl, ?_⟩
  exact gcPool_head w hwf

theorem over_bot_cap_starts_nothing_witness :
    (Eligible sampleOverCap.conf (sampleMatch 0 1 3 "one") ∧
      ¬ overBotCap sampleOverCap (sampleMatch 0 1 3 "one")) ∧
    ∃ w1, startMatchJob sampleRng (sampleSchedEnv 10) sampleOverCap = some (0, w1, []) ∧
      w1.conf = sampleOverCap.conf ∧ w1.serv.jobs = sampleOverCap.serv.jobs ∧
      w1.serv.conns = sampleOverCap.serv.conns ∧
      w1.serv.matches_.head =
        sampleOverCap.serv.matches_.head.filter
          (fun e => e.data.isRunning || decide (0 < e.data.numRuns)) :=
  ⟨by decide,
   over_bot_cap_starts_nothing sampleRng (sampleSchedEnv 10) sampleOverCap
    ⟨0, { sampleMatch 0 1 2 "two" with players := [⟨false, some 0⟩, ⟨false, some 0⟩] }⟩
    (by unfold PoolWF; decide) (by decide) (by decide) (by decide)⟩

/-- **C26** (as the code has it): a `RUNMATCHES` line that `parseMatchSpec` accepts, on a
connection that is logged on, adds one entry to the match list. The new match has
`isRunning` = false, `queueTime` = the clock reading and the user of the connection; its
entry is linked at the head, so it comes before all matches queued earlier in iteration
order, and the entries that were in the list follow it unchanged in their order. Nothing
is written and the loop stops. -/
theorem runmatches_adds_in_front (R : Rng) (env : ConnEnv) (conf : Config)
    (serv : ServerState) (ce : Nat) (g : GetLine) (rest : List GetLine) (out : List Event)
    (hr : 0 < g.r)
    (hst : (LLPoolGetItem serv.conns ce).status = STATUS_OKAY)
    (hcmd : strncaseeq g.line "RUNMATCHES".toList = true)
    (hacc : ¬ (parseMatchSpec R conf serv (g.line.drop 10) ce env.stack).1 < 0) :
    ∃ a item,
      (handleLoop R env conf ce (g :: rest) serv out).1.matches_.head
        = ⟨a, item⟩ :: serv.matches_.head ∧
      item.isRunning = false ∧ item.queueTime = env.now ∧
      item.user = (LLPoolGetItem serv.conns ce).user ∧
      (handleLoop R env conf ce (g :: rest) serv out).2 = (out, rest) := by
  have h1 : ¬ g.r < 0 := by omega
  have h2 : ¬ g.r = 0 := by omega
  have h3 : ¬ (LLPoolGetItem serv.conns ce).status = STATUS_UNVALIDATED := by
    rw [hst]; decide
  have h4 : strncaseeq g.line "HELP".toList = false :=
    strncaseeq_runmatches_not g.line _ hcmd (by decide) (by decide)
  have h5 : strncaseeq g.line "GAMES".toList = false :=
    strncaseeq_runmatches_not g.line _ hcmd (by decide) (by decide)
  have h6 : strncaseeq g.line "QSTAT".toList = false :=
    strncaseeq_runmatches_not g.line _ hcmd (by decide) (by decide)
  obtain ⟨rng, hs⟩ := parseMatchSpec_serv R conf serv (g.line.drop 10) ce env.stack
  have heq : handleLoop R env conf ce (g :: rest) serv out =
      ({ (parseMatchSpec R conf serv (g.line.drop 10) ce env.stack).2.1 with
          matches_ := (LLPoolAddItem serv.matches_
            { (parseMatchSpec R conf serv (g.line.drop 10) ce env.stack).2.2 with
              user := (LLPoolGetItem serv.conns ce).user, isRunning := false,
              queueTime := env.now }).2 }, out, rest) := by
    simp only [handleLoop, h1, h2, h3, h4, h5, h6, hcmd, hacc, hs, if_true, if_false,
      Bool.false_eq_true]
  rw [heq]
  exact ⟨_, _, LLPoolAddItem_head _ _, rfl, rfl, rfl, rfl⟩

theorem runmatches_adds_in_front_witness :
    ∃ a item,
      (handleLoop sampleRng (sampleConnEnv "RUNMATCHES holdem 1 t1 42 LOCAL example\n" 4)
          sampleQueued.conf 0 [⟨40, "RUNMATCHES holdem 1 t1 42 LOCAL example\n".toList⟩]
          sampleQueued.serv []).1.matches_.head
        = ⟨a, item⟩ :: sampleQueued.serv.matches_.head ∧
      item.isRunning = false ∧
      item.queueTime = (sampleConnEnv "RUNMATCHES holdem 1 t1 42 LOCAL example\n" 4).now ∧
      item.user = (LLPoolGetItem sampleQueued.serv.conns 0).user ∧
      (handleLoop sampleRng (sampleConnEnv "RUNMATCHES holdem 1 t1 42 LOCAL example\n" 4)
          sampleQueued.conf 0 [⟨40, "RUNMATCHES holdem 1 t1 42 LOCAL example\n".toList⟩]
          sampleQueued.serv []).2 = ([], []) :=
  runmatches_adds_in_front sampleRng
    (sampleConnEnv "RUNMATCHES holdem 1 t1 42 LOCAL example\n" 4) sampleQueued.conf
    sampleQueued.serv 0 ⟨40, "RUNMATCHES holdem 1 t1 42 LOCAL example\n".toList⟩ [] []
    (by decide) (by decide) (by decide) (by decide)

/-- The match list of `sampleQueued` holds the match `t0`. A `RUNMATCHES` command for a
match `t1` is accepted; afterwards the walk from the head of the list meets `t1` first
and `t0`, queued before it, second. -/
theorem new_match_precedes_queued :
    sampleQueued.serv.matches_.head.map (fun e => e.data.tag) = ["t0".toList] ∧
    (parseMatchSpec sampleRng sampleQueued.conf sampleQueued.serv
      " holdem 1 t1 42 LOCAL example\n".toList 0 default).1 = 0 ∧
    (handleConnection sampleRng
        (sampleConnEnv "RUNMATCHES holdem 1 t1 42 LOCAL example\n" 4) sampleQueued.conf
        sampleQueued.serv 0).1.matches_.head.map (fun e => e.data.tag)
      = ["t1".toList, "t0".toList] := by
  decide

/-- On a connection that is logged on, `handleConnection` leaves the connection list as
it is unless a `getLine` returns 0. -/
theorem handleLoop_conns (R : Rng) (env : ConnEnv) (conf : Config) (ce : Nat)
    (reads : List GetLine) (serv : ServerState) (out : List Event)
    (hst : (LLPoolGetItem serv.conns ce).status = STATUS_OKAY)
    (hr : ∀ g ∈ reads, g.r ≠ 0) :
    (handleLoop R env conf ce reads serv out).1.conns = serv.conns := by
  have h3 : ¬ (LLPoolGetItem serv.conns ce).status = STATUS_UNVALIDATED := by
    rw [hst]; decide
  induction reads generalizing out with
  | nil => rfl
  | cons g rest ih =>
    have h2 : ¬ g.r = 0 := hr g (List.mem_cons_self _ _)
    have ih1 := fun out => ih out (fun x hx => hr x (List.mem_cons_of_mem _ hx))
    simp only [handleLoop, h2, h3, if_false]
    split_ifs
    all_goals first
      | rfl
      | exact ih1 _
      | (rw [parseMatchSpec_fail_serv R conf serv _ ce env.stack (by assumption)])
      | (obtain ⟨rng, hs⟩ := parseMatchSpec_serv R conf serv (g.line.drop 10) ce env.stack
         rw [hs])

/-- **C27** (as the code has it): no `write` closes a connection. (1) Whatever the calls
of `write` in `sendStartMessage` return, a call of `startMatchJob` that returns leaves
the connection list as it is, and every match of the list afterwards is a match of the
list before with the same `numRuns`, or, for the match that was dispatched, `numRuns`
one less. (2) On a connection that is logged on, `handleConnection` leaves the
connection list as it is unless `getLine` returns 0 (the peer has closed). -/
theorem short_write_closes_nothing (R : Rng) (w : World) (hwf : PoolWF w.serv.matches_) :
    (∀ env r w1 evs, startMatchJob R env w = some (r, w1, evs) →
      w1.serv.conns = w.serv.conns ∧
      ∀ e1 ∈ w1.serv.matches_.head, ∃ e ∈ w.serv.matches_.head, e1.addr = e.addr ∧
        (e1.data.numRuns = e.data.numRuns ∨
          (lastDispatched w1 = some e.addr ∧ e1.data.numRuns = e.data.numRuns - 1))) ∧
    (∀ cenv ce, (LLPoolGetItem w.serv.conns ce).status = STATUS_OKAY →
      (∀ g ∈ cenv.reads, g.r ≠ 0) →
      (handleConnection R cenv w.conf w.serv ce).1.conns = w.serv.conns) := by
  constructor
  · intro env r w1 evs h
    rcases startMatchJob_effect R env w w1 r evs hwf h with
      ⟨_, _, _, _, hcn, hh⟩ | ⟨_, best, hbest, _, hlast, hh, _, hcn⟩
    · refine ⟨hcn, ?_⟩
      intro e1 he1
      rw [hh] at he1
      exact ⟨e1, List.mem_of_mem_filter he1, rfl, Or.inl rfl⟩
    · refine ⟨hcn, ?_⟩
      intro e1 he1
      rw [hh, List.mem_map] at he1
      obtain ⟨e, he, rfl⟩ := he1
      refine ⟨e, List.mem_of_mem_filter he, ?_, ?_⟩
      · unfold startEntry; split_ifs <;> rfl
      · unfold startEntry
        split_ifs with ha
        · exact Or.inr ⟨by rw [hlast, ha], rfl⟩
        · exact Or.inl rfl
  · intro cenv ce hst hr
    exact handleLoop_conns R cenv w.conf ce cenv.reads w.serv [] hst hr

theorem short_write_closes_nothing_witness :
    ((startMatchJob sampleRng (sampleShortWrite 10) sampleQueued).getD
        (0, sampleQueued, [])).2.1.serv.conns = sampleQueued.serv.conns ∧
    ∀ e1 ∈ ((startMatchJob sampleRng (sampleShortWrite 10) sampleQueued).getD
        (0, sampleQueued, [])).2.1.serv.matches_.head,
      ∃ e ∈ sampleQueued.serv.matches_.head, e1.addr = e.addr ∧
        (e1.data.numRuns = e.data.numRuns ∨
          (lastDispatched ((startMatchJob sampleRng (sampleShortWrite 10) sampleQueued).getD
              (0, sampleQueued, [])).2.1 = some e.addr ∧
            e1.data.numRuns = e.data.numRuns - 1)) :=
  (short_write_closes_nothing sampleRng sampleQueued (by unfold PoolWF; decide)).1
    (sampleShortWrite 10) 1 _ _ (by rfl)

/-- In `sampleQueued` alice's connection holds seat 0 of her queued match of two runs.
`startMatchJob` is called and the first `write` of `sendStartMessage` returns 0 of the
19 bytes asked for. The call returns 1; the dealer is sent SIGTERM; afterwards the
status of the connection is still `STATUS_OKAY` and the match has one run left. -/
theorem short_write_leaves_connection_open :
    (sampleShortWrite 10).job.written 0 0 < ("# RUNNING alice.t0\n".toList.length : Int) ∧
    ((startMatchJob sampleRng (sampleShortWrite 10) sampleQueued).map
        (fun x => (x.1, x.2.2.drop 1)))
      = some (1, [Event.write 5 "# RUNNING alice.t0\n".toList, Event.kill 100 SIGTERM]) ∧
    ((startMatchJob sampleRng (sampleShortWrite 10) sampleQueued).getD
        (0, sampleQueued, [])).2.1.serv.conns.head.map (fun c => c.data.status)
      = [STATUS_OKAY] ∧
    ((startMatchJob sampleRng (sampleShortWrite 10) sampleQueued).getD
        (0, sampleQueued, [])).2.1.serv.matches_.head.map (fun e => e.data.numRuns)
      = [1] := by
  refine ⟨by decide, by rfl, by rfl, by rfl⟩

theorem Ptr.Linked.get {links : Nat → Ptr.Entry} {l : List Nat} (h : Ptr.Linked links l)
    {i a : Nat} (hi : l[i]? = some a) :
    (links a).next = l[i + 1]? ∧ (0 < i → (links a).prev = l[i - 1]?) := by
  obtain ⟨hlt, hv⟩ := List.getElem?_eq_some.1 hi
  have h1 := h i hlt
  have hg : l.getD i 0 = a := by
    rw [List.getD_eq_getElem _ _ hlt]; exact hv
  rw [hg] at h1
  exact h1

theorem Ptr.Linked.of_get {links : Nat → Ptr.Entry} {l : List Nat}
    (h : ∀ i a, l[i]? = some a →
      (links a).next = l[i + 1]? ∧ (0 < i → (links a).prev = l[i - 1]?)) :
    Ptr.Linked links l := by
  intro i hlt
  have hg : l.getD i 0 = l[i] := List.getD_eq_getElem _ _ hlt
  rw [hg]
  exact h i _ (List.getElem?_eq_getElem hlt)

theorem nodup_index {l : List Nat} (h : l.Nodup) {i j a : Nat} (hi : l[i]? = some a)
    (hj : l[j]? = some a) : i = j := by
  obtain ⟨hlt, _⟩ := List.getElem?_eq_some.1 hi
  exact List.getElem?_inj hlt h (by rw [hi, hj])

theorem Ptr.entryInList_free (links : Nat → Ptr.Entry) (fs : List Nat) (entry : Nat)
    (hl : ∀ i a, fs[i]? = some a → (links a).next = fs[i + 1]? ∧
      ∀ b, fs[i + 1]? = some b → (links b).prev = some a)
    (hn : entry ∉ fs) :
    ∀ (fuel : Nat) (start : Option Nat) (k : Nat), start = fs[k]? → fs.length < fuel + k →
      Ptr.entryInList links fuel start entry = some false := by
  intro fuel
  induction fuel with
  | zero =>
    intro start k hs hf
    cases start with
    | none => rfl
    | some a =>
      obtain ⟨hlt, _⟩ := List.getElem?_eq_some.1 hs.symm
      omega
  | succ fuel ih =>
    intro start k hs hf
    cases start with
    | none => rfl
    | some a =>
      have hmem : a ∈ fs := List.mem_iff_getElem?.2 ⟨k, hs.symm⟩
      have hne : ¬ entry = a := fun h => hn (h ▸ hmem)
      obtain ⟨h1, h2⟩ := hl k a hs.symm
      simp only [Ptr.entryInList, if_neg hne]
      cases hnx : (links a).next with
      | none => rfl
      | some n =>
        simp only
        rw [hnx] at h1
        rw [if_pos (h2 n h1.symm)]
        exact ih (some n) (k + 1) h1 (by omega)

/-- What `LLPoolRemoveEntry` computes when its assertions hold, field by field. -/
theorem Ptr.remove_eq (afuel : Nat) (P : Ptr.LLPool) (cur : Nat) (pv nx : Option Nat)
    (hpv : (P.links cur).prev = pv) (hnx : (P.links cur).next = nx) (hne : pv ≠ some cur)
    (ok1 : ∀ p, pv = some p → (P.links p).next = some cur)
    (ok1h : pv = none → P.head = some cur)
    (ok2 : ∀ n, nx = some n → (P.links n).prev = some cur)
    (ok3 : ∀ links2 : Nat → Ptr.Entry,
      (∀ x, (links2 x).next = if pv = some x then nx else (P.links x).next) →
      (∀ x, (links2 x).prev = if nx = some x then pv else (P.links x).prev) →
      Ptr.entryInList links2 afuel P.free cur = some false) :
    ∃ P1, Ptr.LLPoolRemoveEntry afuel P cur = some P1 ∧
      P1.head = (if pv = none then nx else P.head) ∧ P1.free = some cur ∧
      P1.numEntries = P.numEntries - 1 ∧
      (∀ x, (P1.links x).next =
        if x = cur then P.free else if pv = some x then nx else (P.links x).next) ∧
      (∀ x, (P1.links x).prev =
        if P.free = some x then some cur else if nx = some x then pv
        else (P.links x).prev) := by
  subst hpv hnx
  let links1 : Nat → Ptr.Entry :=
    match (P.links cur).prev with
    | some p => Ptr.setNext P.links p (P.links cur).next
    | none => P.links
  let links2 : Nat → Ptr.Entry :=
    match (links1 cur).next with
    | some n => Ptr.setPrev links1 n (links1 cur).prev
    | none => links1
  let links3 : Nat → Ptr.Entry :=
    match P.free with
    | some f => Ptr.setPrev links2 f (some cur)
    | none => links2
  have hl1n : ∀ x, (links1 x).next
      = if (P.links cur).prev = some x then (P.links cur).next else (P.links x).next := by
    intro x
    show ((match (P.links cur).prev with
      | some p => Ptr.setNext P.links p (P.links cur).next
      | none => P.links) x).next = _
    cases hp : (P.links cur).prev with
    | none => simp
    | some p =>
      simp only [Ptr.setNext, Option.some.injEq]
      by_cases hx : x = p
      · subst hx; simp
      · rw [if_neg hx, if_neg (fun h => hx h.symm)]
  have hl1p : ∀ x, (links1 x).prev = (P.links x).prev := by
    intro x
    show ((match (P.links cur).prev with
      | some p => Ptr.setNext P.links p (P.links cur).next
      | none => P.links) x).prev = _
    cases hp : (P.links cur).prev with
    | none => rfl
    | some p =>
      simp only [Ptr.setNext]
      by_cases hx : x = p
      · subst hx; simp
      · rw [if_neg hx]
  have hc1n : (links1 cur).next = (P.links cur).next := by
    rw [hl1n, if_neg hne]
  have hc1p : (links1 cur).prev = (P.links cur).prev := hl1p cur
  have hl2n : ∀ x, (links2 x).next = (links1 x).next := by
    intro x
    show ((match (links1 cur).next with
      | some n => Ptr.setPrev links1 n (links1 cur).prev
      | none => links1) x).next = _
    cases hn : (links1 cur).next with
    | none => rfl
    | some n =>
      simp only [Ptr.setPrev]
      by_cases hx : x = n
      · subst hx; simp
      · rw [if_neg hx]
  have hl2p : ∀ x, (links2 x).prev
      = if (P.links cur).next = some x then (P.links cur).prev else (P.links x).prev := by
    intro x
    show ((match (links1 cur).next with
      | some n => Ptr.setPrev links1 n (links1 cur).prev
      | none => links1) x).prev = _
    rw [hc1n, hc1p]
    cases hn : (P.links cur).next with
    | none => simp [hl1p]
    | some n =>
      simp only [Ptr.setPrev, Option.some.injEq]
      by_cases hx : x = n
      · subst hx; simp
      · rw [if_neg hx, if_neg (fun h => hx h.symm), hl1p]
  have hl3n : ∀ x, (links3 x).next = (links2 x).next := by
    intro x
    show ((match P.free with
      | some f => Ptr.setPrev links2 f (some cur)
      | none => links2) x).next = _
    cases hf : P.free with
    | none => rfl
    | some f =>
      simp only [Ptr.setPrev]
      by_cases hx : x = f
      · subst hx; simp
      · rw [if_neg hx]
  have hl3p : ∀ x, (links3 x).prev
      = if P.free = some x then some cur else (links2 x).prev := by
    intro x
    show ((match P.free with
      | some f => Ptr.setPrev links2 f (some cur)
      | none => links2) x).prev = _
    cases hf : P.free with
    | none => simp
    | some f =>
      simp only [Ptr.setPrev, Option.some.injEq]
      by_cases hx : x = f
      · subst hx; simp
      · rw [if_neg hx, if_neg (fun h => hx h.symm)]
  have hok1 : (match (P.links cur).prev with
      | some p => decide ((P.links p).next = some cur)
      | none => decide (P.head = some cur)) = true := by
    cases hp : (P.links cur).prev with
    | none => simpa using ok1h hp
    | some p => simpa using ok1 p hp
  have hok2 : (match (links1 cur).next with
      | some n => decide ((links1 n).prev = some cur)
      | none => true) = true := by
    rw [hc1n]
    cases hn : (P.links cur).next with
    | none => rfl
    | some n =>
      simp only [decide_eq_true_eq]
      rw [hl1p]
      exact ok2 n hn
  have hok3 : (Ptr.entryInList links2 afuel P.free cur == some false) = true := by
    rw [ok3 links2 (fun x => by rw [hl2n, hl1n]) hl2p]
    rfl
  have hdef : Ptr.LLPoolRemoveEntry afuel P cur =
      if ((match (P.links cur).prev with
            | some p => decide ((P.links p).next = some cur)
            | none => decide (P.head = some cur)) &&
          (match (links1 cur).next with
            | some n => decide ((links1 n).prev = some cur)
            | none => true) &&
          (Ptr.entryInList links2 afuel P.free cur == some false)) = true then
        some { links := Ptr.setNext links3 cur P.free,
               head := (match (P.links cur).prev with
                 | some _ => P.head
                 | none => (P.links cur).next),
               free := some cur, numEntries := P.numEntries - 1 }
      else none := rfl
  rw [hdef, hok1, hok2, hok3]
  refine ⟨_, rfl, ?_, rfl, rfl, ?_, ?_⟩
  · show (match (P.links cur).prev with
      | some _ => P.head
      | none => (P.links cur).next) = _
    cases hp : (P.links cur).prev <;> simp
  · intro x
    show (Ptr.setNext links3 cur P.free x).next = _
    simp only [Ptr.setNext]
    by_cases hx : x = cur
    · subst hx; simp
    · rw [if_neg hx, if_neg hx, hl3n, hl2n, hl1n]
  · intro x
    show (Ptr.setNext links3 cur P.free x).prev = _
    simp only [Ptr.setNext]
    by_cases hx : x = cur
    · subst hx
      simp only [if_true]
      rw [hl3p, hl2p]
    · rw [if_neg hx, hl3p, hl2p]



theorem Ptr.remove_rep (afuel : Nat) (P : Ptr.LLPool) (hs fs : List Nat) (k cur : Nat)
    (h : Ptr.Rep P hs fs) (hk : hs[k]? = some cur) (hf : fs.length < afuel) :
    ∃ P1, Ptr.LLPoolRemoveEntry afuel P cur = some P1 ∧
      Ptr.Rep P1 (hs.eraseIdx k) (cur :: fs) := by
  obtain ⟨hH, hF, hLh, hLf, hP0, hnd, hnum⟩ := h
  have hndh : hs.Nodup := (List.nodup_append.1 hnd).1
  have hndf : fs.Nodup := (List.nodup_append.1 hnd).2.1
  have hdisj : ∀ (i j a : Nat), hs[i]? = some a → fs[j]? = some a → False := by
    intro i j a h1 h2
    exact (List.nodup_append.1 hnd).2.2 (List.mem_iff_getElem?.2 ⟨i, h1⟩)
      (List.mem_iff_getElem?.2 ⟨j, h2⟩)
  obtain ⟨hklt, hkv⟩ := List.getElem?_eq_some.1 hk
  have hcurf : cur ∉ fs := by
    intro hm
    obtain ⟨j, hj⟩ := List.mem_iff_getElem?.1 hm
    exact hdisj k j cur hk hj
  obtain ⟨hnx, hpvk⟩ := hLh.get hk
  have hpv : (P.links cur).prev = if k = 0 then none else hs[k - 1]? := by
    by_cases h0 : k = 0
    · subst h0
      rw [if_pos rfl]
      have hg : hs.getD 0 0 = cur := by
        rw [List.getD_eq_getElem _ _ hklt]; exact hkv
      rw [← hg]
      exact hP0 hklt
    · rw [if_neg h0]
      exact hpvk (by omega)
  have hpvs : ∀ a, (if k = 0 then none else hs[k - 1]?) = some a ↔
      (0 < k ∧ hs[k - 1]? = some a) := by
    intro a
    by_cases h0 : k = 0
    · simp [h0]
    · simp only [if_neg h0]
      exact ⟨fun h => ⟨by omega, h⟩, fun h => h.2⟩
  have hpvn : (if k = 0 then none else hs[k - 1]?) = none ↔ k = 0 := by
    by_cases h0 : k = 0
    · simp [h0]
    · simp only [if_neg h0, h0, iff_false]
      rw [List.getElem?_eq_getElem (by omega)]
      simp
  have hne : (if k = 0 then none else hs[k - 1]?) ≠ some cur := by
    intro hc
    obtain ⟨hk0, hc⟩ := (hpvs cur).1 hc
    have := nodup_index hndh hc hk
    omega
  obtain ⟨P1, hrem, h1H, h1F, h1N, h1n, h1p⟩ := Ptr.remove_eq afuel P cur _ _ hpv hnx hne
    (by
      intro p hp
      obtain ⟨hk0, hp⟩ := (hpvs p).1 hp
      have := (hLh.get hp).1
      rw [this, show k - 1 + 1 = k by omega]
      exact hk)
    (by
      intro hp
      have h0 := hpvn.1 hp
      subst h0
      rw [hH]; exact hk)
    (by
      intro n hn
      have := (hLh.get hn).2 (Nat.succ_pos k)
      rw [this, show k + 1 - 1 = k by omega]
      exact hk)
    (by
      intro links2 h2n h2p
      refine Ptr.entryInList_free links2 fs cur ?_ hcurf afuel P.free 0 hF (by omega)
      intro i a hia
      obtain ⟨hn1, hp1⟩ := hLf.get hia
      constructor
      · rw [h2n, if_neg, hn1]
        intro hc
        obtain ⟨_, hc⟩ := (hpvs a).1 hc
        exact hdisj _ _ _ hc hia
      · intro b hb
        obtain ⟨_, hp2⟩ := hLf.get hb
        rw [h2p, if_neg, hp2 (by omega), show i + 1 - 1 = i by omega]
        · exact hia
        · intro hc
          exact hdisj _ _ _ hc hb)
  refine ⟨P1, hrem, ?_, ?_, ?_, ?_, ?_, ?_, ?_⟩
  · -- head
    rw [h1H, List.getElem?_eraseIdx]
    by_cases h0 : k = 0
    · subst h0
      simp
    · rw [if_neg (by rw [hpvn]; exact h0), if_pos (by omega)]
      exact hH
  · rw [h1F]; simp
  · -- the list
    apply Ptr.Linked.of_get
    intro i a hia
    rw [List.getElem?_eraseIdx] at hia
    have hnext_goal : (hs.eraseIdx k)[i + 1]? = if i + 1 < k then hs[i + 1]? else hs[i + 2]? :=
      List.getElem?_eraseIdx _ _ _
    by_cases hik : i < k
    · rw [if_pos hik] at hia
      have hac : ¬ a = cur := by
        intro hc
        rw [hc] at hia
        have := nodup_index hndh hia hk
        omega
      obtain ⟨hn0, hp0⟩ := hLh.get hia
      constructor
      · rw [h1n, if_neg hac, hnext_goal]
        by_cases hlast : i + 1 = k
        · rw [if_pos ((hpvs a).2 ⟨by omega, by rw [← hlast]; exact hia⟩), if_neg (by omega),
            ← hlast]
        · rw [if_neg, if_pos (by omega), hn0]
          intro hc
          obtain ⟨_, hc⟩ := (hpvs a).1 hc
          have := nodup_index hndh hc hia
          omega
      · intro hi0
        rw [h1p, if_neg, if_neg, hp0 hi0, List.getElem?_eraseIdx,
          if_pos (by omega : i - 1 < k)]
        · intro hc
          have := nodup_index hndh hc hia
          omega
        · intro hc
          rw [hF] at hc
          exact hdisj _ _ _ hia hc
    · rw [if_neg hik] at hia
      have hac : ¬ a = cur := by
        intro hc
        rw [hc] at hia
        have := nodup_index hndh hia hk
        omega
      obtain ⟨hn0, hp0⟩ := hLh.get hia
      constructor
      · rw [h1n, if_neg hac, hnext_goal, if_neg, if_neg (by omega), hn0]
        intro hc
        obtain ⟨_, hc⟩ := (hpvs a).1 hc
        have := nodup_index hndh hc hia
        omega
      · intro hi0
        rw [h1p, if_neg]
        · by_cases hfirst : i = k
          · subst hfirst
            rw [if_pos hia, if_neg (by omega : ¬ i = 0), List.getElem?_eraseIdx,
              if_pos (by omega : i - 1 < i)]
          · rw [if_neg, hp0 (by omega), List.getElem?_eraseIdx,
              if_neg (by omega : ¬ i - 1 < k)]
            · congr 1
              omega
            · intro hc
              have := nodup_index hndh hc hia
              omega
        · intro hc
          rw [hF] at hc
          exact hdisj _ _ _ hia hc
  · -- the free list
    apply Ptr.Linked.of_get
    intro i a hia
    cases i with
    | zero =>
      simp only [List.getElem?_cons_zero, Option.some.injEq] at hia
      subst hia
      constructor
      · rw [h1n, if_pos rfl, hF]
        simp
      · intro h0; omega
    | succ i =>
      simp only [List.getElem?_cons_succ] at hia
      have hac : ¬ a = cur := fun hc => hcurf (hc ▸ List.mem_iff_getElem?.2 ⟨i, hia⟩)
      obtain ⟨hn0, hp0⟩ := hLf.get hia
      constructor
      · rw [h1n, if_neg hac, if_neg, hn0]
        · simp
        · intro hc
          obtain ⟨_, hc⟩ := (hpvs a).1 hc
          exact hdisj _ _ _ hc hia
      · intro _
        rw [h1p]
        by_cases hi0 : i = 0
        · subst hi0
          rw [if_pos (by rw [hF]; exact hia)]
          simp
        · rw [if_neg, if_neg, hp0 (by omega)]
          · obtain ⟨i1, rfl⟩ : ∃ i1, i = i1 + 1 := ⟨i - 1, by omega⟩
            simp
          · intro hc
            exact hdisj _ _ _ hc hia
          · intro hc
            rw [hF] at hc
            have := nodup_index hndf hc hia
            omega
  · -- prev of the first entry
    intro hlen
    have hlt0 : 0 < (hs.eraseIdx k).length := hlen
    have hg : (hs.eraseIdx k).getD 0 0 = (hs.eraseIdx k)[0] := List.getD_eq_getElem _ _ hlt0
    have hia : (hs.eraseIdx k)[0]? = some ((hs.eraseIdx k)[0]) := List.getElem?_eq_getElem hlt0
    rw [hg]
    generalize (hs.eraseIdx k)[0] = a at hia
    rw [List.getElem?_eraseIdx] at hia
    rw [h1p, if_neg]
    · by_cases h0 : k = 0
      · subst h0
        simp only [Nat.lt_irrefl, if_false, Nat.zero_add] at hia
        rw [if_pos hia]
        rfl
      · rw [if_pos (by omega : 0 < k)] at hia
        rw [if_neg]
        · have hg0 : hs.getD 0 0 = a := by
            obtain ⟨hl, hv⟩ := List.getElem?_eq_some.1 hia
            rw [List.getD_eq_getElem _ _ hl]; exact hv
          rw [← hg0]
          exact hP0 (by omega)
        · intro hc
          have := nodup_index hndh hc hia
          omega
    · intro hc
      rw [hF] at hc
      by_cases hik : 0 < k
      · rw [if_pos hik] at hia
        exact hdisj _ _ _ hia hc
      · rw [if_neg hik] at hia
        exact hdisj _ _ _ hia hc
  · -- no entry twice
    have hsub : ∀ x, x ∈ hs.eraseIdx k → x ∈ hs := fun x hx =>
      (List.eraseIdx_sublist hs k).subset hx
    have hcn : cur ∉ hs.eraseIdx k := by
      intro hm
      obtain ⟨i, hik, hi⟩ := List.mem_eraseIdx_iff_getElem?.1 hm
      exact hik (nodup_index hndh hi hk)
    rw [List.nodup_append]
    refine ⟨hndh.eraseIdx k, List.nodup_cons.2 ⟨hcurf, hndf⟩, ?_⟩
    intro x hx hx2
    rcases List.mem_cons.1 hx2 with rfl | hx2
    · exact hcn hx
    · exact (List.nodup_append.1 hnd).2.2 (hsub x hx) hx2
  · rw [h1N, hnum, List.length_eraseIdx_of_lt hklt]
    omega



theorem Ptr.chain_of_linked (links : Nat → Ptr.Entry) (l : List Nat)
    (hl : Ptr.Linked links l) :
    ∀ (fuel k : Nat) (start : Option Nat), start = l[k]? → l.length ≤ fuel + k →
      Ptr.chain links fuel start = l.drop k := by
  intro fuel
  induction fuel with
  | zero =>
    intro k start _ hf
    rw [List.drop_of_length_le (by omega)]
    rfl
  | succ fuel ih =>
    intro k start hs hf
    cases start with
    | none =>
      have : l.length ≤ k := by
        by_contra hc
        rw [List.getElem?_eq_getElem (by omega)] at hs
        exact absurd hs (by simp)
      rw [List.drop_of_length_le this]
      rfl
    | some a =>
      obtain ⟨hlt, hv⟩ := List.getElem?_eq_some.1 hs.symm
      rw [List.drop_eq_getElem_cons hlt, hv]
      simp only [Ptr.chain]
      rw [ih (k + 1) _ (hl.get hs.symm).1 (by omega)]

/-- The walk over the part `rest` of the list that is still to visit, `pre` being the
entries visited and kept. -/
theorem Ptr.walk_spec (del : Nat → Bool) (afuel : Nat) (rest : List Nat) :
    ∀ (pre : List Nat) (P : Ptr.LLPool) (fs seen : List Nat) (fuel : Nat),
      Ptr.Rep P (pre ++ rest) fs → rest.length ≤ fuel → fs.length + rest.length < afuel →
      ∃ P1, Ptr.walk del afuel fuel rest[0]? P seen = some (P1, seen ++ rest) ∧
        Ptr.Rep P1 (pre ++ rest.filter (fun a => !del a))
          ((rest.filter del).reverse ++ fs) := by
  induction rest with
  | nil =>
    intro pre P fs seen fuel h _ _
    refine ⟨P, ?_, by simpa using h⟩
    cases fuel <;> simp [Ptr.walk]
  | cons cur t ih =>
    intro pre P fs seen fuel h hfuel hafuel
    obtain ⟨fuel, rfl⟩ : ∃ f, fuel = f + 1 := ⟨fuel - 1, by
      simp only [List.length_cons] at hfuel; omega⟩
    have hk : (pre ++ cur :: t)[pre.length]? = some cur := by
      rw [List.getElem?_append_right (le_refl _)]
      simp
    have hnext : Ptr.LLPoolNextEntry P (some cur) = t[0]? := by
      show (P.links cur).next = _
      rw [(h.2.2.1.get hk).1, List.getElem?_append_right (by omega)]
      simp
    simp only [List.length_cons] at hfuel hafuel
    simp only [List.getElem?_cons_zero, Ptr.walk, hnext]
    cases hd : del cur with
    | true =>
      obtain ⟨P1, hrem, hrep1⟩ := Ptr.remove_rep afuel P _ fs pre.length cur h hk (by omega)
      have he : (pre ++ cur :: t).eraseIdx pre.length = pre ++ t := by
        rw [List.eraseIdx_append_of_length_le (le_refl _)]
        simp
      rw [he] at hrep1
      obtain ⟨P2, hw, hrep2⟩ := ih pre P1 (cur :: fs) (seen ++ [cur]) fuel hrep1 (by omega)
        (by simp only [List.length_cons]; omega)
      refine ⟨P2, ?_, ?_⟩
      · simp only [if_true, hrem, hw, List.append_assoc, List.singleton_append]
      · simpa [List.filter_cons, hd] using hrep2
    | false =>
      have h1 : Ptr.Rep P ((pre ++ [cur]) ++ t) fs := by simpa using h
      obtain ⟨P2, hw, hrep2⟩ := ih (pre ++ [cur]) P fs (seen ++ [cur]) fuel h1 (by omega)
        (by omega)
      refine ⟨P2, ?_, ?_⟩
      · simp only [Bool.false_eq_true, if_false, hw, List.append_assoc,
          List.singleton_append]
      · simpa [List.filter_cons, hd] using hrep2

/-- **C28**: for every well-formed pool (its list is `hs`, its free list `fs`) and every
choice `del` of entries: the walk that starts at `LLPoolFirstEntry`, reads
`next = LLPoolNextEntry( cur )` before it handles `cur` and calls
`LLPoolRemoveEntry( pool, cur )` for the chosen entries ends, and no assertion fails;
the entries it visits are the entries of `hs`, each once, in the order of `hs`;
afterwards the pool is well formed, the entries reached from `head` by `next` are the
entries of `hs` that were not chosen, in their order in `hs`, and `numEntries` is their
number. -/
theorem walk_removing_is_safe (del : Nat → Bool) (P : Ptr.LLPool) (hs fs : List Nat)
    (fuel afuel : Nat) (h : Ptr.Rep P hs fs) (hfuel : hs.length ≤ fuel)
    (hafuel : fs.length + hs.length < afuel) :
    ∃ P1, Ptr.walk del afuel fuel (Ptr.LLPoolFirstEntry P) P [] = some (P1, hs) ∧
      hs.Nodup ∧
      Ptr.Rep P1 (hs.filter (fun a => !del a)) ((hs.filter del).reverse ++ fs) ∧
      Ptr.chain P1.links fuel P1.head = hs.filter (fun a => !del a) ∧
      P1.numEntries = (hs.filter (fun a => !del a)).length := by
  have hnd : hs.Nodup := (List.nodup_append.1 h.2.2.2.2.2.1).1
  obtain ⟨P1, hw, hrep⟩ := Ptr.walk_spec del afuel hs [] P fs [] fuel (by simpa using h)
    hfuel hafuel
  simp only [List.nil_append] at hw hrep
  refine ⟨P1, ?_, hnd, hrep, ?_, hrep.2.2.2.2.2.2⟩
  · unfold Ptr.LLPoolFirstEntry
    rw [h.1]
    exact hw
  · have := Ptr.chain_of_linked P1.links _ hrep.2.2.1 fuel 0 P1.head hrep.1
      (by
        have := List.length_filter_le (fun a => !del a) hs
        omega)
    simpa using this

theorem walk_removing_is_safe_witness :
    ∃ P1, Ptr.walk (fun a => a == 10 || a == 30) 8 3
        (Ptr.LLPoolFirstEntry Ptr.samplePool) Ptr.samplePool [] = some (P1, [10, 20, 30]) ∧
      [10, 20, 30].Nodup ∧
      Ptr.Rep P1 [20] [30, 10, 40, 50] ∧
      Ptr.chain P1.links 3 P1.head = [20] ∧
      P1.numEntries = 1 :=
  walk_removing_is_safe (fun a => a == 10 || a == 30) Ptr.samplePool [10, 20, 30] [40, 50]
    3 8 (by decide) (by decide) (by decide)

theorem filter_map_length_le {α : Type} (p : α → Bool) (f : α → α) (l : List α)
    (hmono : ∀ x, p (f x) = true → p x = true) :
    ((l.map f).filter p).length ≤ (l.filter p).length := by
  induction l with
  | nil => simp
  | cons a t ih =>
    simp only [List.map_cons, List.filter_cons]
    by_cases h : p (f a) = true
    · rw [if_pos h, if_pos (hmono a h)]
      simp only [List.length_cons]
      omega
    · rw [if_neg h]
      split_ifs
      · simp only [List.length_cons]; omega
      · exact ih

theorem filter_map_length_lt {α : Type} (p : α → Bool) (f : α → α) (l : List α)
    (hmono : ∀ x, p (f x) = true → p x = true) (b : α) (hb : b ∈ l) (hpb : p b = true)
    (hfb : p (f b) = false) :
    ((l.map f).filter p).length < (l.filter p).length := by
  induction l with
  | nil => exact absurd hb (List.not_mem_nil _)
  | cons a t ih =>
    simp only [List.map_cons, List.filter_cons]
    rcases List.mem_cons.1 hb with rfl | hb
    · rw [hfb, hpb]
      simp only [Bool.false_eq_true, if_false, if_true, List.length_cons]
      have := filter_map_length_le p f t hmono
      omega
    · have := ih hb
      by_cases h : p (f a) = true
      · rw [if_pos h, if_pos (hmono a h)]
        simp only [List.length_cons]
        omega
      · rw [if_neg h]
        split_ifs
        · simp only [List.length_cons]; omega
        · exact this

theorem filter_filter_length_le {α : Type} (p q : α → Bool) (l : List α) :
    ((l.filter q).filter p).length ≤ (l.filter p).length := by
  rw [List.filter_filter]
  apply List.Sublist.length_le
  apply List.monotone_filter_right
  intro x hx
  simp only [Bool.and_eq_true] at hx
  exact hx.1

/-- What one call of `startMatchJob` does to the number of matches that are not
running. -/
theorem startMatchJob_idle (R : Rng) (env : SchedEnv) (w w1 : World) (r : Int)
    (evs : List Event) (hwf : PoolWF w.serv.matches_)
    (h : startMatchJob R env w = some (r, w1, evs)) :
    (r = 0 ∧ idle w1 ≤ idle w) ∨ (r = 1 ∧ idle w1 < idle w) := by
  rcases startMatchJob_effect R env w w1 r evs hwf h with
    ⟨hr, _, _, _, _, hh⟩ | ⟨hr, best, hbest, hE, _, hh, _, _⟩
  · refine Or.inl ⟨hr, ?_⟩
    unfold idle
    rw [hh]
    exact filter_filter_length_le _ _ _
  · refine Or.inr ⟨hr, ?_⟩
    unfold idle
    rw [hh]
    have hk : best ∈ w.serv.matches_.head.filter keptByGc := by
      rw [List.mem_filter]
      refine ⟨hbest, ?_⟩
      simp only [keptByGc, Bool.or_eq_true, decide_eq_true_eq]
      exact Or.inr hE.2.1
    refine lt_of_lt_of_le (filter_map_length_lt _ _ _ ?_ best hk ?_ ?_)
      (filter_filter_length_le _ _ _)
    · intro x hx
      unfold startEntry at hx
      split_ifs at hx
      · simp [startedMatch] at hx
      · exact hx
    · simp [hE.1]
    · rw [startEntry_self]
      simp [startedMatch]

theorem schedulingPass_ends (R : Rng) (envs : Nat → SchedEnv) (fuel : Nat) :
    ∀ (n : Nat) (w : World), Reachable R w → idle w < fuel →
      schedulingPass R envs fuel n w = some none ∨
      ∃ w1 k, schedulingPass R envs fuel n w = some (some (w1, n + k)) ∧ k ≤ idle w := by
  induction fuel with
  | zero => intro n w _ hf; omega
  | succ fuel ih =>
    intro n w hr hf
    simp only [schedulingPass]
    cases hs : startMatchJob R (envs n) w with
    | none => exact Or.inl rfl
    | some res =>
      obtain ⟨r, w1, evs⟩ := res
      simp only
      rcases startMatchJob_idle R (envs n) w w1 r evs (Inv.reachable hr).matchesWF hs with
        ⟨h0, _⟩ | ⟨h1, hlt⟩
      · subst h0
        exact Or.inr ⟨w1, 0, by simp, Nat.zero_le _⟩
      · subst h1
        have hr1 : Reachable R w1 := Reachable.step _ _ hr (Step.start w (envs n) 1 w1 evs hs)
        rcases ih (n + 1) w1 hr1 (by omega) with he | ⟨w2, k, hp, hk⟩
        · exact Or.inl (by simp [he])
        · refine Or.inr ⟨w2, k + 1, ?_, by omega⟩
          simp only [ne_eq, one_ne_zero, not_false_eq_true, if_true, hp]
          congr 3
          omega

/-- **C29**: in a reachable world, (1) a call of `startMatchJob` that returns 1 leaves
fewer matches that are not running than there were, a call that returns 0 leaves no
more, and every match that was running is in the list afterwards, unchanged; (2) the
loop `while( startMatchJob( ... ) );` ends: with more fuel than there are matches that are
not running it does not use up the fuel, and, unless the server exits inside a call, it
ends with a call that returns 0 after at most as many calls that returned 1 as there
were matches that were not running. -/
theorem scheduling_pass_terminates (R : Rng) (envs : Nat → SchedEnv) (w : World)
    (fuel : Nat) (hr : Reachable R w) (hfuel : idle w < fuel) :
    (∀ env r w1 evs, startMatchJob R env w = some (r, w1, evs) →
      ((r = 0 ∧ idle w1 ≤ idle w) ∨ (r = 1 ∧ idle w1 < idle w)) ∧
      ∀ e ∈ w.serv.matches_.head, e.data.isRunning = true → e ∈ w1.serv.matches_.head) ∧
    (schedulingPass R envs fuel 0 w = some none ∨
      ∃ w1 k, schedulingPass R envs fuel 0 w = some (some (w1, k)) ∧ k ≤ idle w) := by
  have hi := Inv.reachable hr
  constructor
  · intro env r w1 evs h
    refine ⟨startMatchJob_idle R env w w1 r evs hi.matchesWF h, ?_⟩
    intro e he hrun
    have hk : e ∈ w.serv.matches_.head.filter keptByGc := by
      rw [List.mem_filter]
      refine ⟨he, ?_⟩
      simp only [keptByGc, Bool.or_eq_true, decide_eq_true_eq]
      exact Or.inl hrun
    rcases startMatchJob_effect R env w w1 r evs hi.matchesWF h with
      ⟨_, _, _, _, _, hh⟩ | ⟨_, best, hbest, hE, _, hh, _, _⟩
    · rw [hh]; exact hk
    · rw [hh, List.mem_map]
      refine ⟨e, hk, ?_⟩
      unfold startEntry
      rw [if_neg]
      intro ha
      have := hi.matchesWF.eq_of_addr he hbest ha
      rw [this, hE.1] at hrun
      exact absurd hrun (by decide)
  · rcases schedulingPass_ends R envs fuel 0 w hr hfuel with h | ⟨w1, k, h, hk⟩
    · exact Or.inl h
    · exact Or.inr ⟨w1, k, by rw [h, Nat.zero_add], hk⟩

theorem scheduling_pass_terminates_witness :
    (idle sampleQueued = 1 ∧
      (schedulingPass sampleRng (fun _ => sampleSchedEnv 10) 2 0 sampleQueued).map
        (Option.map (fun x => x.2)) = some (some 1)) ∧
    (∀ env r w1 evs, startMatchJob sampleRng env sampleQueued = some (r, w1, evs) →
      ((r = 0 ∧ idle w1 ≤ idle sampleQueued) ∨ (r = 1 ∧ idle w1 < idle sampleQueued)) ∧
      ∀ e ∈ sampleQueued.serv.matches_.head, e.data.isRunning = true →
        e ∈ w1.serv.matches_.head) ∧
    (schedulingPass sampleRng (fun _ => sampleSchedEnv 10) 2 0 sampleQueued = some none ∨
      ∃ w1 k, schedulingPass sampleRng (fun _ => sampleSchedEnv 10) 2 0 sampleQueued
        = some (some (w1, k)) ∧ k ≤ idle sampleQueued) :=
  ⟨⟨by decide, by rfl⟩,
   scheduling_pass_terminates sampleRng (fun _ => sampleSchedEnv 10) sampleQueued 2
    sampleQueued_reachable (by decide)⟩

/-- A line received on a connection that has not logged on is a logon attempt and
nothing else. -/
theorem handleLoop_unvalidated (R : Rng) (env : ConnEnv) (conf : Config) (ce : Nat)
    (g : GetLine) (rest : List GetLine) (serv : ServerState) (out : List Event)
    (hst : (LLPoolGetItem serv.conns ce).status = STATUS_UNVALIDATED) (hr : 0 < g.r) :
    handleLoop R env conf ce (g :: rest) serv out =
      match validateLogon conf g.line with
      | none =>
        (closeConnection conf serv ce,
          out ++ [Event.write (LLPoolGetItem serv.conns ce).connBuf "BAD LOGON\n".toList],
          rest)
      | some u =>
        ({ serv with
            conns := LLPoolSetItem serv.conns ce
              (fun c => { c with user := some u, status := STATUS_OKAY }) },
          out ++ [Event.write (LLPoolGetItem serv.conns ce).connBuf
            "LOGON OKAY - type help for commands\n".toList], rest) := by
  have h1 : ¬ g.r < 0 := by omega
  have h2 : ¬ g.r = 0 := by omega
  simp only [handleLoop, h1, h2, hst, if_true, if_false]

/-- On a connection that has logged on, `handleConnection` leaves the connection list
as it is or closes the connection. -/
theorem handleLoop_conns_cases (R : Rng) (env : ConnEnv) (conf : Config) (ce : Nat)
    (reads : List GetLine) (serv : ServerState) (out : List Event)
    (hst : ¬ (LLPoolGetItem serv.conns ce).status = STATUS_UNVALIDATED) :
    (handleLoop R env conf ce reads serv out).1.conns = serv.conns ∨
    (handleLoop R env conf ce reads serv out).1.conns
      = (closeConnection conf serv ce).conns := by
  induction reads generalizing out with
  | nil => exact Or.inl rfl
  | cons g rest ih =>
    simp only [handleLoop, hst, if_false]
    split_ifs
    all_goals first
      | exact Or.inl rfl
      | exact Or.inr rfl
      | exact ih _
      | (rw [parseMatchSpec_fail_serv R conf serv _ ce env.stack (by assumption)]
         exact Or.inl rfl)
      | (obtain ⟨rng, hs⟩ := parseMatchSpec_serv R conf serv (g.line.drop 10) ce env.stack
         rw [hs]
         exact Or.inl rfl)

/-- A match of the list after `handleConnection` was in the list before, at its address
and with its user, or it has been queued by this call, on a connection that had logged
on, with the user of that connection. -/
theorem handleLoop_owner (R : Rng) (env : ConnEnv) (conf : Config) (ce : Nat)
    (reads : List GetLine) (serv : ServerState) (out : List Event) :
    ∀ e1 ∈ (handleLoop R env conf ce reads serv out).1.matches_.head,
      (∃ e ∈ serv.matches_.head, e.addr = e1.addr ∧ e.data.user = e1.data.user) ∨
      (¬ (LLPoolGetItem serv.conns ce).status = STATUS_UNVALIDATED ∧
        e1.data.user = (LLPoolGetItem serv.conns ce).user) := by
  have hsame : ∀ e1 ∈ serv.matches_.head,
      (∃ e ∈ serv.matches_.head, e.addr = e1.addr ∧ e.data.user = e1.data.user) ∨
      (¬ (LLPoolGetItem serv.conns ce).status = STATUS_UNVALIDATED ∧
        e1.data.user = (LLPoolGetItem serv.conns ce).user) :=
    fun e1 h1 => Or.inl ⟨e1, h1, rfl, rfl⟩
  have hclose : ∀ e1 ∈ (closeConnection conf serv ce).matches_.head,
      (∃ e ∈ serv.matches_.head, e.addr = e1.addr ∧ e.data.user = e1.data.user) ∨
      (¬ (LLPoolGetItem serv.conns ce).status = STATUS_UNVALIDATED ∧
        e1.data.user = (LLPoolGetItem serv.conns ce).user) := by
    intro e1 h1
    simp only [closeConnection, List.mem_map] at h1
    obtain ⟨x, hx, rfl⟩ := h1
    refine Or.inl ⟨x, hx, ?_, ?_⟩
    · split_ifs <;> rfl
    · split_ifs <;> rfl
  induction reads generalizing out with
  | nil => exact hsame
  | cons g rest ih =>
    simp only [handleLoop]
    split_ifs with h1 h2 h3
    all_goals first
      | exact hsame
      | exact hclose
      | exact ih _
      | (split
         · exact hclose
         · exact hsame)
      | (rw [parseMatchSpec_fail_serv R conf serv _ ce env.stack (by assumption)]
         exact hsame)
      | (obtain ⟨rng, hs⟩ := parseMatchSpec_serv R conf serv (g.line.drop 10) ce env.stack
         rw [hs]
         intro e1 he1
         simp only [LLPoolAddItem_head, List.mem_cons] at he1
         rcases he1 with rfl | he1
         · exact Or.inr ⟨h3, rfl⟩
         · exact Or.inl ⟨e1, he1, rfl, rfl⟩)



/-- A match of the list after an action was in the list before, at its address and with
its user, or the action handled a connection that had logged on and the match has the
user of that connection. -/
theorem act_owner (R : Rng) (w w1 : World) (α : Action) (evs : List Event)
    (hi : Inv w) (hc : ConnInv w) (h : act R w α = some (w1, evs)) :
    ∀ e1 ∈ w1.serv.matches_.head,
      (∃ e ∈ w.serv.matches_.head, e.addr = e1.addr ∧ e.data.user = e1.data.user) ∨
      (∃ env c, α = Action.handle env c.addr ∧ c ∈ w.serv.conns.head ∧
        c.data.status = STATUS_OKAY ∧ e1.data.user = c.data.user) := by
  cases α with
  | reap waitpid a =>
    simp only [act] at h
    cases hf : w.serv.jobs.head.find? (fun e => e.addr == a) with
    | none => rw [hf] at h; simp at h
    | some e =>
      rw [hf] at h
      simp only at h
      cases hcf : checkIfJobFinished waitpid w.conf w.serv e.data with
      | none => rw [hcf] at h; simp at h
      | some p =>
        obtain ⟨job, allDone⟩ := p
        rw [hcf] at h
        simp only [Option.some.injEq, Prod.mk.injEq] at h
        rw [← h.1]
        intro e1 he1
        cases allDone with
        | false => exact Or.inl ⟨e1, he1, rfl, rfl⟩
        | true =>
          simp only [if_true, finishedJob] at he1
          obtain ⟨e0, he0, h0 | ⟨_, h0⟩⟩ := mem_SetItem_cases he1
          · exact Or.inl ⟨e0, he0, by rw [h0], by rw [h0]⟩
          · exact Or.inl ⟨e0, he0, by rw [h0], by rw [h0]⟩
  | drop a =>
    simp only [act] at h
    cases hf : w.serv.conns.head.find? (fun e => e.addr == a) with
    | none => rw [hf] at h; simp at h
    | some e =>
      rw [hf] at h
      simp only at h
      split_ifs at h with hst
      simp only [Option.some.injEq, Prod.mk.injEq] at h
      rw [← h.1]
      intro e1 he1
      exact Or.inl ⟨e1, he1, rfl, rfl⟩
  | start env =>
    simp only [act] at h
    cases hs : startMatchJob R env w with
    | none => rw [hs] at h; simp at h
    | some p =>
      obtain ⟨r, w2, evs2⟩ := p
      rw [hs] at h
      simp only [Option.some.injEq, Prod.mk.injEq] at h
      rw [← h.1]
      intro e1 he1
      rcases startMatchJob_effect R env w w2 r evs2 hi.matchesWF hs with
        ⟨_, _, _, _, _, hh⟩ | ⟨_, best, _, _, _, hh, _, _⟩
      · rw [hh] at he1
        exact Or.inl ⟨e1, List.mem_of_mem_filter he1, rfl, rfl⟩
      · rw [hh, List.mem_map] at he1
        obtain ⟨e0, he0, rfl⟩ := he1
        refine Or.inl ⟨e0, List.mem_of_mem_filter he0, ?_, ?_⟩
        · unfold startEntry; split_ifs <;> rfl
        · unfold startEntry; split_ifs <;> rfl
  | accept sock =>
    simp only [act, Option.some.injEq, Prod.mk.injEq] at h
    rw [← h.1]
    intro e1 he1
    exact Or.inl ⟨e1, he1, rfl, rfl⟩
  | handle env a =>
    simp only [act] at h
    cases hf : w.serv.conns.head.find? (fun e => e.addr == a) with
    | none => rw [hf] at h; simp at h
    | some c =>
      rw [hf] at h
      simp only at h
      split_ifs at h with hst
      simp only [Option.some.injEq, Prod.mk.injEq] at h
      rw [← h.1]
      have hcm : c ∈ w.serv.conns.head := List.mem_of_find?_eq_some hf
      have hca : c.addr = a := by
        have := List.find?_some hf
        simpa using this
      have hget := LLPoolGetItem_of_mem hc.connsWF hcm
      intro e1 he1
      rcases handleLoop_owner R env w.conf c.addr env.reads w.serv [] e1 he1 with
        hold | ⟨hnu, hus⟩
      · exact Or.inl hold
      · refine Or.inr ⟨env, c, by rw [hca], hcm, ?_, by rw [hus, hget]⟩
        rw [hget] at hnu
        rcases hc.status c hcm with h1 | h1 | h1
        · exact absurd h1 hst
        · exact absurd h1 hnu
        · exact h1

/-- A connection that is logged on after an action was logged on before, with the same
user, or the action handled this connection and the line received on it is a valid
logon of its user. -/
theorem act_okay (R : Rng) (w w1 : World) (α : Action) (evs : List Event)
    (hc : ConnInv w) (h : act R w α = some (w1, evs)) :
    ∀ c1 ∈ w1.serv.conns.head, c1.data.status = STATUS_OKAY →
      (∃ c ∈ w.serv.conns.head, c.addr = c1.addr ∧ c.data.status = STATUS_OKAY ∧
        c.data.user = c1.data.user) ∨
      (∃ env g rest u, α = Action.handle env c1.addr ∧ env.reads = g :: rest ∧ 0 < g.r ∧
        validateLogon w.conf g.line = some u ∧ c1.data.user = some u) := by
  have hold : ∀ c1 ∈ w.serv.conns.head, c1.data.status = STATUS_OKAY →
      (∃ c ∈ w.serv.conns.head, c.addr = c1.addr ∧ c.data.status = STATUS_OKAY ∧
        c.data.user = c1.data.user) ∨
      (∃ env g rest u, α = Action.handle env c1.addr ∧ env.reads = g :: rest ∧ 0 < g.r ∧
        validateLogon w.conf g.line = some u ∧ c1.data.user = some u) :=
    fun c1 h1 hs => Or.inl ⟨c1, h1, rfl, hs, rfl⟩
  cases α with
  | reap waitpid a =>
    simp only [act] at h
    cases hf : w.serv.jobs.head.find? (fun e => e.addr == a) with
    | none => rw [hf] at h; simp at h
    | some e =>
      rw [hf] at h
      simp only at h
      cases hcf : checkIfJobFinished waitpid w.conf w.serv e.data with
      | none => rw [hcf] at h; simp at h
      | some p =>
        obtain ⟨job, allDone⟩ := p
        rw [hcf] at h
        simp only [Option.some.injEq, Prod.mk.injEq] at h
        rw [← h.1]
        cases allDone with
        | false => exact hold
        | true => exact hold
  | drop a =>
    simp only [act] at h
    cases hf : w.serv.conns.head.find? (fun e => e.addr == a) with
    | none => rw [hf] at h; simp at h
    | some e =>
      rw [hf] at h
      simp only at h
      split_ifs at h with hst
      simp only [Option.some.injEq, Prod.mk.injEq] at h
      rw [← h.1]
      intro c1 hc1 hs
      simp only [LLPoolRemoveEntry_of_mem hc.connsWF (List.mem_of_find?_eq_some hf)] at hc1
      exact hold c1 (List.mem_of_mem_filter hc1) hs
  | start env =>
    simp only [act] at h
    cases hs : startMatchJob R env w with
    | none => rw [hs] at h; simp at h
    | some p =>
      obtain ⟨r, w2, evs2⟩ := p
      rw [hs] at h
      simp only [Option.some.injEq, Prod.mk.injEq] at h
      rw [← h.1]
      have hcn : w2.serv.conns = w.serv.conns := by
        rcases startMatchJob_cases R env w w2 r evs2 hs with
          ⟨_, _, rfl, _⟩ | ⟨_, _, _, rfl, _⟩ | ⟨_, _, _, rfl, _⟩ | ⟨_, _, _, _, _, _, _, rfl⟩
        all_goals rfl
      rw [hcn]
      exact hold
  | accept sock =>
    simp only [act, Option.some.injEq, Prod.mk.injEq] at h
    rw [← h.1]
    intro c1 hc1 hs
    simp only [addConnection, LLPoolAddItem_head, List.mem_cons] at hc1
    rcases hc1 with rfl | hc1
    · simp [STATUS_UNVALIDATED, STATUS_OKAY] at hs
    · exact hold c1 hc1 hs
  | handle env a =>
    simp only [act] at h
    cases hf : w.serv.conns.head.find? (fun e => e.addr == a) with
    | none => rw [hf] at h; simp at h
    | some c =>
      rw [hf] at h
      simp only at h
      split_ifs at h with hst
      simp only [Option.some.injEq, Prod.mk.injEq] at h
      rw [← h.1]
      have hcm : c ∈ w.serv.conns.head := List.mem_of_find?_eq_some hf
      have hca : c.addr = a := by
        have := List.find?_some hf
        simpa using this
      have hget := LLPoolGetItem_of_mem hc.connsWF hcm
      have hclosed : ∀ c1 ∈ (closeConnection w.conf w.serv c.addr).conns.head,
          c1.data.status = STATUS_OKAY → c1 ∈ w.serv.conns.head := by
        intro c1 hc1 hs
        obtain ⟨c0, hc0, h0 | ⟨_, h0⟩⟩ := mem_SetItem_cases hc1
        · rw [h0]; exact hc0
        · rw [h0] at hs
          simp [STATUS_CLOSED, STATUS_OKAY] at hs
      intro c1 hc1 hs
      by_cases hun : (LLPoolGetItem w.serv.conns c.addr).status = STATUS_UNVALIDATED
      · unfold handleConnection at hc1
        cases hreads : env.reads with
        | nil =>
          rw [hreads] at hc1
          exact hold c1 hc1 hs
        | cons g rest =>
          rw [hreads] at hc1
          by_cases hr : 0 < g.r
          · rw [handleLoop_unvalidated R env w.conf c.addr g rest w.serv [] hun hr] at hc1
            cases hv : validateLogon w.conf g.line with
            | none =>
              rw [hv] at hc1
              exact hold c1 (hclosed c1 hc1 hs) hs
            | some u =>
              rw [hv] at hc1
              obtain ⟨c0, hc0, h0 | ⟨h0a, h0⟩⟩ := mem_SetItem_cases hc1
              · rw [h0]; rw [h0] at hs; exact hold c0 hc0 hs
              · refine Or.inr ⟨env, g, rest, u, ?_, hreads, hr, hv, by rw [h0]⟩
                rw [h0, ← hca, h0a]
          · by_cases hr0 : g.r = 0
            · simp only [handleLoop, hr0, lt_self_iff_false, if_false, if_true] at hc1
              exact hold c1 (hclosed c1 hc1 hs) hs
            · have hneg : g.r < 0 := by omega
              simp only [handleLoop, hneg, if_true] at hc1
              exact hold c1 hc1 hs
      · rcases handleLoop_conns_cases R env w.conf c.addr env.reads w.serv [] hun with
          hsame | hcl
        · unfold handleConnection at hc1
          rw [hsame] at hc1
          exact hold c1 hc1 hs
        · unfold handleConnection at hc1
          rw [hcl] at hc1
          exact hold c1 (hclosed c1 hc1 hs) hs

/-- **C30**: in a reachable world, (1) every match of the match list points at a user of
the configuration, and so does every connection that is logged on; (2) on a connection
of the list whose status is `STATUS_UNVALIDATED`, `handleConnection` treats a line it
reads as a logon attempt and nothing else, whatever the line says: the connection is
closed with `BAD LOGON` or logged on with `LOGON OKAY`, and the call returns; (3) every
match of the list after an action of the main loop was in the list before, with the
same user, or the action handled a connection that was logged on and the match has the
user of that connection; (4) every connection that is logged on after an action was
logged on before, with the same user, or the action handled this connection and the
line read on it is a valid logon of its user. -/
theorem matches_come_from_logged_on_users (R : Rng) (w : World) (hr : Reachable R w) :
    ((∀ e ∈ w.serv.matches_.head, ∃ u, e.data.user = some u ∧ u < w.conf.users.length) ∧
      (∀ c ∈ w.serv.conns.head, c.data.status = STATUS_OKAY →
        ∃ u, c.data.user = some u ∧ u < w.conf.users.length)) ∧
    (∀ env c g rest, c ∈ w.serv.conns.head → c.data.status = STATUS_UNVALIDATED →
      env.reads = g :: rest → 0 < g.r →
      handleConnection R env w.conf w.serv c.addr =
        match validateLogon w.conf g.line with
        | none =>
          (closeConnection w.conf w.serv c.addr,
            [Event.write c.data.connBuf "BAD LOGON\n".toList], rest)
        | some u =>
          ({ w.serv with
              conns := LLPoolSetItem w.serv.conns c.addr
                (fun x => { x with user := some u, status := STATUS_OKAY }) },
            [Event.write c.data.connBuf "LOGON OKAY - type help for commands\n".toList],
            rest)) ∧
    (∀ α w1 evs, act R w α = some (w1, evs) → ∀ e1 ∈ w1.serv.matches_.head,
      (∃ e ∈ w.serv.matches_.head, e.addr = e1.addr ∧ e.data.user = e1.data.user) ∨
      (∃ env c, α = Action.handle env c.addr ∧ c ∈ w.serv.conns.head ∧
        c.data.status = STATUS_OKAY ∧ e1.data.user = c.data.user)) ∧
    (∀ α w1 evs, act R w α = some (w1, evs) →
      ∀ c1 ∈ w1.serv.conns.head, c1.data.status = STATUS_OKAY →
        (∃ c ∈ w.serv.conns.head, c.addr = c1.addr ∧ c.data.status = STATUS_OKAY ∧
          c.data.user = c1.data.user) ∨
        (∃ env g rest u, α = Action.handle env c1.addr ∧ env.reads = g :: rest ∧
          0 < g.r ∧ validateLogon w.conf g.line = some u ∧ c1.data.user = some u)) := by
  have hi := Inv.reachable hr
  have hc := ConnInv.of_reachable hr
  have hu := UserInv.user_reachable hr
  refine ⟨⟨hu.owner, hu.okay⟩, ?_, ?_, ?_⟩
  · intro env c g rest hcm hst hreads hr0
    have hget := LLPoolGetItem_of_mem hc.connsWF hcm
    unfold handleConnection
    rw [hreads, handleLoop_unvalidated R env w.conf c.addr g rest w.serv []
      (by rw [hget]; exact hst) hr0, hget]
    rfl
  · intro α w1 evs h
    exact act_owner R w w1 α evs hi hc h
  · intro α w1 evs h
    exact act_okay R w w1 α evs hc h

theorem matches_come_from_logged_on_users_witness :
    handleConnection sampleRng
        (sampleConnEnv "RUNMATCHES holdem 2 t0 42 LOCAL example\n" 3) sampleAccepted.conf
        sampleAccepted.serv 0
      = (closeConnection sampleAccepted.conf sampleAccepted.serv 0,
          [Event.write 5 "BAD LOGON\n".toList], []) :=
  (matches_come_from_logged_on_users sampleRng sampleAccepted
    (Reachable.step _ _ (Reachable.init _ ⟨by decide, rfl, rfl, rfl⟩)
      (Step.accept sampleInit 5))).2.1
    (sampleConnEnv "RUNMATCHES holdem 2 t0 42 LOCAL example\n" 3)
    ⟨0, ⟨STATUS_UNVALIDATED, none, 5⟩⟩
    ⟨40, "RUNMATCHES holdem 2 t0 42 LOCAL example\n".toList⟩ []
    (by decide) (by decide) (by rfl) (by decide)

/-! ## The start of a job: the seats and the arguments of the dealer -/

end BmServer
